import Mathlib

/-!
# Implicit-GEMM convolution: precomputed source iterator, epilogue, host reference

A shallow embedding of

* `include/cutlass/convolution/threadblock/conv2d_tile_iterator_nt_src_fprop_precomp.h`
  (`detail::compute_offset_fprop`, `detail::prepare_pack_pad`, `FpropPrecompParams` and
  `Conv2dTileSrcIteratorFpropPrecomp`, both the precomputed (`true`) and the directly
  computed (`false`) specialisation),
* `include/cutlass/epilogue/thread/bias_add_linear_combination_relu.h`
  (`BiasAddLinearCombinationRelu`),
* `tools/util/include/cutlass/util/reference/host/convolution.h`
  (`Conv2dFprop`, `Conv2dDgrad`, `Conv2dWgrad`, `compute_convolution`,
  `compute_batch_convolution`, `detail::need_round`, `detail::need_clamp`, the functors
  `Convolution` and `Deconvolution`),
* `include/cutlass/convolution/kernel/default_conv2d_fprop.h` and `default_conv2d_dgrad.h`
  (the choice of the threadblock mainloop `Mma` in every partial specialisation).

Conventions of the embedding.

* Extents (`N C H W K R S P Q`, tile shapes, table indices that the source only ever uses as
  non-negative numbers) are `Nat`; quantities that can be negative (padding, stride, dilation,
  input coordinates, byte deltas, the rewind step) are `Int`.
* The byte offsets of the precomputed table and of `strided_` are 32-bit `int` values: the
  arithmetic that produces them is reduced by `int32` (two's complement).  Signed overflow is
  undefined behaviour in the source; statements about these offsets carry the hypothesis that
  it does not occur.  Extents, step numbers and table indices are left unbounded.
* On non-negative operands C++ `/` and Lean `/` agree (both truncate); the one division with a
  possibly negative operand, in the pointer computation, is `Int.tdiv`.  Division by zero (an
  empty filter, a zero interleave), undefined in the source, yields 0 in Lean; statements that
  would depend on it assume non-empty extents.
* The 32-bit mask words and the packed padding word are bit patterns, kept as `Nat` reduced
  modulo `2 ^ 32`.
* Template parameters become ordinary arguments; the thread map, the layout and the tile map,
  whose headers are not among the embedded sources, are taken as parameters.
* A C++ `for (int i = 0; i < n; ++i)` loop over a state is `forLoop n body`.
-/

namespace Cutlass

/-! ## Loops -/

/-- The loop `for (i = 0; i < n; ++i) s = body i s`, started in state `s`. -/
def forLoop {σ : Type} (n : Nat) (body : Nat → σ → σ) (s : σ) : σ :=
  match n with
  | 0 => s
  | k + 1 => body k (forLoop k body s)

/-! ## Problem descriptor -/

/-- Modelled from the spec: `conv::Mode` of `cutlass/conv/convolution.h`, cross-correlation or
flipped-kernel convolution. -/
inductive Mode where
  | kCrossCorrelation
  | kConvolution
  deriving DecidableEq, Repr

/-- Modelled from the spec: `conv::Conv2dProblemSize` of `cutlass/conv/conv2d_problem_size.h`,
the record {N, C, H, W, K, R, S, P, Q, pad_h, pad_w, stride_h, stride_w, dilation_h, dilation_w,
mode} of section 3. -/
structure Conv2dProblemSize where
  N : Nat
  H : Nat
  W : Nat
  C : Nat
  K : Nat
  R : Nat
  S : Nat
  P : Nat
  Q : Nat
  pad_h : Int
  pad_w : Int
  stride_h : Int
  stride_w : Int
  dilation_h : Int
  dilation_w : Int
  mode : Mode
  deriving DecidableEq, Repr

/-! ## `detail::compute_offset_fprop` -/

/-- The value that a 32-bit `int` (`Index`) holds when the exact result of the arithmetic is
`x`: the two's complement reduction of `x` to the range `-2^31 ≤ v < 2^31`.  Inside that range
nothing changes; outside it the source overflows, which the language leaves undefined and for
which this reduction is the result of the machine instructions. -/
def int32 (x : Int) : Int :=
  (x + 2147483648) % 4294967296 - 2147483648

/-- The exact value of the expression `(c * image_pixels * kInterleaved + fh * wi_ *
kInterleaved + fw * kInterleaved) * kElementSizeBits` that `compute_offset_fprop` forms for a
reduction step `s` before it divides by 8, with `c = s / filter_pixels;
fhfw = s - filter_pixels * c; fh = fhfw / fw_; fw = fhfw - fw_ * fh`. -/
def offset_numerator (kInterleaved kElementSizeBits fh_ fw_ hi_ wi_ s : Nat) : Nat :=
  let filter_pixels := fh_ * fw_
  let image_pixels := hi_ * wi_
  let c := s / filter_pixels
  let fhfw := s - filter_pixels * c
  let fh := fhfw / fw_
  let fw := fhfw - fw_ * fh
  (c * image_pixels * kInterleaved + fh * wi_ * kInterleaved + fw * kInterleaved)
    * kElementSizeBits

/-- The byte offset that `compute_offset_fprop` computes for a reduction step `s`: the block
`c = s / filter_pixels; fhfw = s - filter_pixels * c; fh = fhfw / fw_; fw = fhfw - fw_ * fh;
(c * image_pixels * kInterleaved + fh * wi_ * kInterleaved + fw * kInterleaved)
 * kElementSizeBits / 8`, which the source repeats in each of its loops.  The sums and products
are 32-bit `int` operations, so the numerator is reduced by `int32` (reducing after every
operation gives the same value) before the truncating division. -/
def step_offset (kInterleaved kElementSizeBits fh_ fw_ hi_ wi_ s : Nat) : Int :=
  Int.tdiv (int32 ((offset_numerator kInterleaved kElementSizeBits fh_ fw_ hi_ wi_ s : Nat) : Int))
    8

/-- The filter row `fh` that `compute_offset_fprop` derives from a reduction step `s`. -/
def step_fh (fh_ fw_ s : Nat) : Nat :=
  let filter_pixels := fh_ * fw_
  let c := s / filter_pixels
  let fhfw := s - filter_pixels * c
  fhfw / fw_

/-- The filter column `fw` that `compute_offset_fprop` derives from a reduction step `s`. -/
def step_fw (fh_ fw_ s : Nat) : Nat :=
  let filter_pixels := fh_ * fw_
  let c := s / filter_pixels
  let fhfw := s - filter_pixels * c
  let fh := fhfw / fw_
  fhfw - fw_ * fh

/-- The byte stored by `static_cast<ShortIndex>(v)` for an `int8_t` slot: the low eight bits of
the two's complement representation of `v`. -/
def short_byte (v : Int) : Nat := (v % 256).toNat

/-- The 32-bit word formed by the four `ShortIndex` slots `fhfw_ptr[0..3] = fh, fw, -fh, -fw`
that share one `Index` word of the table (little-endian byte order). -/
def pack_fhfw (fh fw : Nat) : Int :=
  ((short_byte fh + 256 * short_byte fw + 65536 * short_byte (-(fh : Int))
    + 16777216 * short_byte (-(fw : Int)) : Nat) : Int)

/-- One `for (; s < bound; ++s)` loop of `compute_offset_fprop`, run for `n` iterations from
step `s`: each iteration stores `offset_ptr[0]` and the packed `fhfw_ptr[0..3]` word and then
advances `offset_ptr` by 2, so the result lists the words written, in address order. -/
def table_loop (offset_word packed_word : Nat → Int) : Nat → Nat → List Int
  | _, 0 => []
  | s, n + 1 => offset_word s :: packed_word s :: table_loop offset_word packed_word (s + 1) n

/-- The three loops of `detail::compute_offset_fprop`, with the byte-offset expression of a
reduction step given as `off` and the packed tap word as `taps`: the words written through
`offset_ptr`/`fhfw_ptr`, starting at `constant_offset_[0]`.  Entry `s` occupies words `2 * s`
(offset or delta) and `2 * s + 1` (packed taps); the subtraction `offset_ptr[0] -= ...` is a
32-bit `int` operation. -/
def offset_table (off taps : Nat → Int) (kStrided filter_pixels residue_offset_ : Nat) :
    List Int :=
  -- first absolute offset: `for (; s < Shape::kStrided; ++s)`
  table_loop (fun s => off s) (fun s => taps s) 0 kStrided
  -- step residue_offset_: `for (; s < 2 * Shape::kStrided; ++s)`
  ++ table_loop
      (fun s => int32 (off (s - kStrided + residue_offset_)
                - off (s - kStrided + residue_offset_ - residue_offset_)))
      (fun s => taps (s - kStrided + residue_offset_))
      kStrided (2 * kStrided - kStrided)
  -- `for (; s < (2 + filter_pixels) * Shape::kStrided; ++s)`
  ++ table_loop
      (fun s => int32 (off (s - kStrided + residue_offset_)
                - off (s - kStrided + residue_offset_ - kStrided)))
      (fun s => taps (s - kStrided + residue_offset_))
      (2 * kStrided) ((2 + filter_pixels) * kStrided - 2 * kStrided)

/-- The function `detail::compute_offset_fprop<Shape, Interleaved, Element>`: the words it writes
through `offset_ptr`/`fhfw_ptr`, starting at `constant_offset_[0]`: the three loops with the
byte offset `step_offset` and the packed taps of each step. -/
def compute_offset_fprop (kStrided kInterleaved kElementSizeBits : Nat)
    (fh_ fw_ hi_ wi_ residue_offset_ : Nat) : List Int :=
  offset_table (fun t => step_offset kInterleaved kElementSizeBits fh_ fw_ hi_ wi_ t)
    (fun t => pack_fhfw (step_fh fh_ fw_ t) (step_fw fh_ fw_ t))
    kStrided (fh_ * fw_) residue_offset_

/-! ## `detail::prepare_pack_pad` -/

/-- The element types the iterator is instantiated with; only `uint4b_t` is treated specially
by the source. -/
inductive Element where
  | int4b_t
  | uint4b_t
  | int8_t
  | uint8_t
  | int32_t
  | half_t
  | float
  deriving DecidableEq, Repr

/-- The `ExtraParam` argument: `platform::none_type`, or `ExtraParamZeroPoint` carrying the
`uint8_t src_zero_point`. -/
inductive ExtraParam where
  | none_type
  | ExtraParamZeroPoint (src_zero_point : Nat)
  deriving DecidableEq, Repr

/-- The function `detail::prepare_pack_pad<Element, ExtraParam>`: the generic template returns 0;
the specialisation for `uint4b_t` with `ExtraParamZeroPoint` ors `src_zero_point << (4 * i)` for
`i < 8` into a `uint32_t`. -/
def prepare_pack_pad (element : Element) (params : ExtraParam) : Nat :=
  match element, params with
  | Element.uint4b_t, ExtraParam.ExtraParamZeroPoint src_zero_point =>
      forLoop 8 (fun i ret => (ret ||| ((src_zero_point % 256) <<< (4 * i))) % 2 ^ 32) 0
  | _, _ => 0

/-! ## `FpropPrecompParams<Shape, Element, TensorNCxHWx<Interleaved>, ThreadMap, TileMap, true>` -/

/-- The compile-time parameters of one instantiation of the precomputed iterator: the
pitch-linear `Shape::kStrided`, the interleaving, the element type with its `sizeof_bits`, the
access width `AccessType::kElements`, and the constants of the thread map
(`kElementsPerAccess`, `Iterations`, `Delta`), whose header is not among the sources. -/
structure IteratorTraits where
  kStrided : Nat
  kInterleaved : Nat
  element : Element
  kElementSizeBits : Nat
  kAccessElements : Nat
  kElementsPerAccess : Nat
  Iterations_kStrided : Nat
  Iterations_kContiguous : Nat
  Delta_kStrided : Nat
  Delta_kContiguous : Nat

/-- The constant `kAccessesPerVector = ThreadMap::kElementsPerAccess / AccessType::kElements`. -/
def IteratorTraits.kAccessesPerVector (t : IteratorTraits) : Nat :=
  t.kElementsPerAccess / t.kAccessElements

/-- The constant `kContiguousCount = ThreadMap::Iterations::kContiguous * kAccessesPerVector`. -/
def IteratorTraits.kContiguousCount (t : IteratorTraits) : Nat :=
  t.Iterations_kContiguous * t.kAccessesPerVector

/-- The constant `kMaxFilterPixels = 7 * 7`, "Hardcoded maximum filter sizes". -/
def kMaxFilterPixels : Nat := 7 * 7

/-- The constant `kElementSize`: the number of `Index` words of one table entry, with
`sizeof_bits<Index> = 32` and `sizeof_bits<ShortIndex> = 8`. -/
def kElementSize : Nat := (32 + 4 * 8) / 32

/-- The constant `kPrecomputedOffsetBufferSize`, the number of `Index` words of the member
array `constant_offset_`. -/
def kPrecomputedOffsetBufferSize (kStrided : Nat) : Nat :=
  (2 + kMaxFilterPixels) * kElementSize * kStrided

/-- A logical (row, column) coordinate of the row-major logical layout. -/
structure LogicalCoord where
  row : Int
  column : Int
  deriving DecidableEq, Repr

/-- A tensor coordinate (n, h, w, c). -/
structure TensorCoord where
  n : Int
  h : Int
  w : Int
  c : Int
  deriving DecidableEq, Repr

/-- The data members of `FpropPrecompParams<..., true>`.  The member `constant_offset_` holds
the words written by `compute_offset_fprop`, from word 0 on; `layout_` and `tile_map_` are the
maps of the layout and tile-map objects. -/
structure FpropPrecompParams where
  layout_ : TensorCoord → Int
  tile_map_ : LogicalCoord → TensorCoord
  stride_h_ : Int
  stride_w_ : Int
  pad_h_ : Int
  pad_w_ : Int
  hi_ : Nat
  wi_ : Nat
  n_ : Nat
  fh_ : Nat
  fw_ : Nat
  residue_offset_ : Nat
  constant_offset_max_ : Int
  constant_offset_rewind_ : Int
  constant_offset_ : List Int
  extra_param_ : ExtraParam

/-- The constructor `FpropPrecompParams(layout, problem_size, extra_param)`.  `TileMap` is the
constructor of the tile map, applied by the source to `(P * Q, Q)`. -/
def FpropPrecompParams.construct (t : IteratorTraits)
    (TileMap : Nat → Nat → LogicalCoord → TensorCoord) (layout : TensorCoord → Int)
    (problem_size : Conv2dProblemSize) (extra_param : ExtraParam) : FpropPrecompParams :=
  let conv_iterations := problem_size.C * problem_size.R * problem_size.S
  let residue_offset_0 := (conv_iterations / t.kInterleaved) % t.kStrided
  let residue_offset_ := if residue_offset_0 = 0 then t.kStrided else residue_offset_0
  { layout_ := layout
    tile_map_ := TileMap (problem_size.P * problem_size.Q) problem_size.Q
    stride_h_ := problem_size.stride_h
    stride_w_ := problem_size.stride_w
    pad_h_ := problem_size.pad_h
    pad_w_ := problem_size.pad_w
    hi_ := problem_size.H
    wi_ := problem_size.W
    n_ := problem_size.N
    fh_ := problem_size.R
    fw_ := problem_size.S
    residue_offset_ := residue_offset_
    constant_offset_ :=
      compute_offset_fprop t.kStrided t.kInterleaved t.kElementSizeBits
        problem_size.R problem_size.S problem_size.H problem_size.W residue_offset_
    constant_offset_max_ := ((1 + problem_size.R * problem_size.S) * t.kStrided : Nat)
    constant_offset_rewind_ :=
      (t.kStrided : Int) * (1 - ((problem_size.R * problem_size.S : Nat) : Int))
    extra_param_ := extra_param }

/-- The call operator `FpropPrecompParams::operator()(coord)`: the tile map followed by
`h = h * stride_h_ - pad_h_`, `w = w * stride_w_ - pad_w_`. -/
def FpropPrecompParams.apply (p : FpropPrecompParams) (coord : LogicalCoord) : TensorCoord :=
  let tensor_coord := p.tile_map_ coord
  { tensor_coord with
    h := tensor_coord.h * p.stride_h_ - p.pad_h_
    w := tensor_coord.w * p.stride_w_ - p.pad_w_ }

/-! ## `Conv2dTileSrcIteratorFpropPrecomp<..., true>` -/

/-- The data members of the iterator (the reference `params_` is passed to each operation). -/
structure Conv2dTileSrcIteratorFpropPrecomp where
  pointer_ : List Int
  residue_extent_ : Int
  masks_ : List (Nat × Nat)
  constant_offset_ : Int
  strided_ : List Int
  is_residue_tile_ : Bool
  pack_pad_ : Nat
  deriving DecidableEq, Repr

/-- The word `params_.constant_offset_[i]`. -/
def FpropPrecompParams.word (p : FpropPrecompParams) (i : Int) : Int :=
  p.constant_offset_.getD i.toNat 0

/-- The coordinate `params_(LogicalCoord{0, col_offset / kInterleaved})` of access `access_idx`
in `initialize_predicate_and_pointers_`. -/
def access_coord (t : IteratorTraits) (p : FpropPrecompParams) (thread_offset : Nat)
    (access_idx : Nat) : TensorCoord :=
  let c := access_idx / t.kAccessesPerVector
  let v := access_idx % t.kAccessesPerVector
  let col_offset := c * t.Delta_kContiguous + v * t.kAccessElements + thread_offset
  p.apply { row := 0, column := ((col_offset / t.kInterleaved : Nat) : Int) }

/-- The word `masks_[access_idx][0]` built by the loop over `kh < params_.fh_`:
`masks_[access_idx][0] |= (pred << kh)`, from the cleared mask. -/
def init_mask_h (p : FpropPrecompParams) (coord : TensorCoord) : Nat :=
  forLoop p.fh_ (fun kh m =>
    let pred : Bool := decide (coord.n < (p.n_ : Int) ∧ coord.h ≥ -(kh : Int)
                                ∧ coord.h < (p.hi_ : Int) - (kh : Int))
    (m ||| (pred.toNat <<< kh)) % 2 ^ 32) 0

/-- The word `masks_[access_idx][1]` built by the loop over `kw < params_.fw_`. -/
def init_mask_w (p : FpropPrecompParams) (coord : TensorCoord) : Nat :=
  forLoop p.fw_ (fun kw m =>
    let pred : Bool := decide (coord.w ≥ -(kw : Int) ∧ coord.w < (p.wi_ : Int) - (kw : Int))
    (m ||| (pred.toNat <<< kw)) % 2 ^ 32) 0

/-- The member function `initialize_predicate_and_pointers_(pointer, thread_offset)`, applied to
an iterator whose `constant_offset_` is already set. -/
def initialize_predicate_and_pointers_ (t : IteratorTraits) (p : FpropPrecompParams)
    (it : Conv2dTileSrcIteratorFpropPrecomp) (pointer : Int) (thread_offset : Nat) :
    Conv2dTileSrcIteratorFpropPrecomp :=
  { it with
    pointer_ := (List.range t.kContiguousCount).map (fun access_idx =>
      let c := access_idx / t.kAccessesPerVector
      let v := access_idx % t.kAccessesPerVector
      let col_offset := c * t.Delta_kContiguous + v * t.kAccessElements + thread_offset
      let coord := access_coord t p thread_offset access_idx
      pointer + Int.tdiv ((p.layout_ coord + ((col_offset % t.kInterleaved : Nat) : Int))
                            * (t.kElementSizeBits : Int)) 8)
    masks_ := (List.range t.kContiguousCount).map (fun access_idx =>
      let coord := access_coord t p thread_offset access_idx
      (init_mask_h p coord, init_mask_w p coord))
    strided_ := (List.range t.Iterations_kStrided).map (fun s =>
      p.word (2 * (it.constant_offset_ + ((s * t.Delta_kStrided : Nat) : Int)))) }

/-- The constructor `Conv2dTileSrcIteratorFpropPrecomp(params, pointer, extent, thread_id,
threadblock_offset)`.  The result `ThreadMap::initial_offset(thread_id)` is given by its
components `initial_strided`, `initial_contiguous`. -/
def Conv2dTileSrcIteratorFpropPrecomp.construct (t : IteratorTraits) (p : FpropPrecompParams)
    (pointer : Int) (extent_row : Nat) (initial_strided initial_contiguous : Nat)
    (threadblock_offset_row threadblock_offset_column : Nat) :
    Conv2dTileSrcIteratorFpropPrecomp :=
  let residue_extent_0 : Int :=
    min ((threadblock_offset_row / t.kInterleaved + p.residue_offset_ : Nat) : Int)
        ((extent_row / t.kInterleaved : Nat) : Int)
  let thread_offset_row : Nat := threadblock_offset_row / t.kInterleaved + initial_strided
  let thread_offset_column : Nat :=
    threadblock_offset_column * t.kInterleaved + initial_contiguous
  let it0 : Conv2dTileSrcIteratorFpropPrecomp :=
    { pointer_ := [], residue_extent_ := residue_extent_0, masks_ := [],
      constant_offset_ := (thread_offset_row : Int), strided_ := [],
      is_residue_tile_ := true, pack_pad_ := 0 }
  let it1 := initialize_predicate_and_pointers_ t p it0 pointer thread_offset_column
  { it1 with
    residue_extent_ := residue_extent_0 - (thread_offset_row : Int)
    pack_pad_ := prepare_pack_pad t.element p.extra_param_ }

/-- The pre-increment `operator++()`. -/
def Conv2dTileSrcIteratorFpropPrecomp.advance (t : IteratorTraits) (p : FpropPrecompParams)
    (it : Conv2dTileSrcIteratorFpropPrecomp) : Conv2dTileSrcIteratorFpropPrecomp :=
  let constant_offset_ :=
    if it.constant_offset_ < p.constant_offset_max_ then
      it.constant_offset_ + (t.kStrided : Int)
    else
      it.constant_offset_ + p.constant_offset_rewind_
  { it with
    constant_offset_ := constant_offset_
    strided_ := (List.range t.Iterations_kStrided).map (fun s =>
      int32 (it.strided_.getD s 0
        + p.word (2 * (constant_offset_ + ((s * t.Delta_kStrided : Nat) : Int)))))
    is_residue_tile_ := false }

/-- Modelled from the spec: `cutlass::arch::global_load(D, ptr, pred_guard, val)` of
`cutlass/arch/memory.h`: "out-of-bounds or padded lanes are zero-filled, never read", that is,
the slot receives the fill word `val` and memory is read only under the guard. -/
def global_load {α : Type} (fill : Nat → α) (mem : Int → α) (ptr : Int) (pred_guard : Bool)
    (val : Nat) : α :=
  if pred_guard then mem ptr else fill val

/-- The mask test `(masks_[access_idx][0] & (Index(1) << h)) && (masks_[access_idx][1] &
(Index(1) << w))` of `load_with_byte_offset`, for the mask pair `m` of the access. -/
def mask_guard (m : Nat × Nat) (h w : Nat) : Bool :=
  (decide ((m.1 &&& ((1 <<< h) % 2 ^ 32)) ≠ 0)) && (decide ((m.2 &&& ((1 <<< w) % 2 ^ 32)) ≠ 0))

/-- The residue test `s * ThreadMap::Delta::kStrided < residue_extent_` of
`load_with_byte_offset`. -/
def residue_in_extent (t : IteratorTraits) (it : Conv2dTileSrcIteratorFpropPrecomp)
    (s : Nat) : Bool :=
  decide (((s * t.Delta_kStrided : Nat) : Int) < it.residue_extent_)

/-- The guard of access `(s, c, v)` in `load_with_byte_offset` (and `store_with_byte_offset`):
the taps `h`, `w` are bytes 0 and 1 of the packed word of the current table entry. -/
def access_guard (t : IteratorTraits) (p : FpropPrecompParams)
    (it : Conv2dTileSrcIteratorFpropPrecomp) (s c v : Nat) : Bool :=
  let spatial : Nat :=
    (p.word (2 * (it.constant_offset_ + ((s * t.Delta_kStrided : Nat) : Int)) + 1)).toNat
  let h := spatial &&& 0xff
  let w := (spatial >>> 8) &&& 0xff
  let access_idx := v + t.kAccessesPerVector * c
  let guard := mask_guard (it.masks_.getD access_idx (0, 0)) h w
  if it.is_residue_tile_ then guard && residue_in_extent t it s else guard

/-- The member function `load_with_byte_offset(frag, byte_offset)`: the fragment, slot `idx`
holding the result of the load of access `(s, c, v)` with
`idx = v + kAccessesPerVector * (c + s * Iterations::kContiguous)`. -/
def load_with_byte_offset {α : Type} (fill : Nat → α) (mem : Int → α) (t : IteratorTraits)
    (p : FpropPrecompParams) (it : Conv2dTileSrcIteratorFpropPrecomp) (byte_offset : Int) :
    List α :=
  (List.range (t.Iterations_kStrided * t.Iterations_kContiguous * t.kAccessesPerVector)).map
    (fun idx =>
      let v := idx % t.kAccessesPerVector
      let c := (idx / t.kAccessesPerVector) % t.Iterations_kContiguous
      let s := (idx / t.kAccessesPerVector) / t.Iterations_kContiguous
      let access_idx := v + t.kAccessesPerVector * c
      let byte_ptr := it.pointer_.getD access_idx 0 + it.strided_.getD s 0 + byte_offset
      global_load fill mem byte_ptr (access_guard t p it s c v) it.pack_pad_)

/-! ## Directly computed offsets (the specification side) -/

/-- The directly computed byte offset `F(t)` of reduction step `t`, in the words of the
specification: `((c*H*W + fh*W + fw) * kInterleaved * element_bits) / 8` with `c = t / (R*S)`,
`fh = (t mod R*S) / S`, `fw = (t mod R*S) mod S`. -/
def direct_offset (kInterleaved element_bits R S H W t : Nat) : Nat :=
  let c := t / (R * S)
  let fh := (t % (R * S)) / S
  let fw := (t % (R * S)) % S
  ((c * H * W + fh * W + fw) * kInterleaved * element_bits) / 8

/-- The reduction step that lane position `j` holds after `n` advances: `j` on the residue tile,
`j + (n - 1) * K + r` afterwards. -/
def lane_step (K r j n : Nat) : Nat :=
  if n = 0 then j else j + (n - 1) * K + r

/-! ## Concrete instances used to exercise the statements -/

/-- A small instantiation: `Shape::kStrided = 2`, four interleaved 8-bit channels, one strided
iteration per thread. -/
def sample_traits : IteratorTraits :=
  { kStrided := 2, kInterleaved := 4, element := Element.int8_t, kElementSizeBits := 8,
    kAccessElements := 4, kElementsPerAccess := 4, Iterations_kStrided := 1,
    Iterations_kContiguous := 1, Delta_kStrided := 1, Delta_kContiguous := 4 }

/-- A 3x3 filter over a 5x5 image with 12 channels, padding 1. -/
def sample_problem : Conv2dProblemSize :=
  { N := 1, H := 5, W := 5, C := 12, K := 2, R := 3, S := 3, P := 5, Q := 5,
    pad_h := 1, pad_w := 1, stride_h := 1, stride_w := 1, dilation_h := 1, dilation_w := 1,
    mode := Mode.kCrossCorrelation }

/-- A tile map sending column `col` to batch `col / PQ`, row `(col mod PQ) / Q`, column
`col mod Q`. -/
def sample_tile_map (PQ Q : Nat) (coord : LogicalCoord) : TensorCoord :=
  { n := coord.column / (PQ : Int), h := (coord.column % (PQ : Int)) / (Q : Int),
    w := coord.column % (Q : Int), c := coord.row }

/-- A packed layout for the sample problem. -/
def sample_layout (coord : TensorCoord) : Int :=
  ((coord.n * 3 + coord.c) * 5 + coord.h) * 5 * 4 + coord.w * 4

/-- The table entry (in units of `Shape::kStrided`) that the index `constant_offset_` selects
after `n` advances: it climbs `0, 1, ..., R*S + 1` and then cycles through the steady-state
segment `2, ..., R*S + 1`. -/
def ramp_index (RS n : Nat) : Nat :=
  if n < 2 then n else 2 + (n - 2) % RS

/-- A rank-4 tensor view: the value at each coordinate. -/
structure Tensor4 (α : Type) where
  val : Int → Int → Int → Int → α

/-- The assignment `tensor.at({a, b, c, d}) = v`. -/
def Tensor4.set {α : Type} (T : Tensor4 α) (a b c d : Int) (v : α) : Tensor4 α :=
  { val := fun a2 b2 c2 d2 =>
      if a2 = a ∧ b2 = b ∧ c2 = c ∧ d2 = d then v else T.val a2 b2 c2 d2 }

/-- The functor `multiply_add<T>`: `a * b + c`, the default `InnerProductOp`. -/
def multiply_add {α : Type} [Add α] [Mul α] (a b c : α) : α := a * b + c

/-- The blocked loop `for (i = 0; i < n; i += step) s = body i s`. -/
def forStep {σ : Type} (n step : Nat) (body : Nat → σ → σ) (s : σ) : σ :=
  forLoop ((n + step - 1) / step) (fun b => body (b * step)) s

/-- The function `Conv2dFprop(problem_size, tensor_x, tensor_w, tensor_y_in, tensor_y_out,
alpha, beta)`: the final contents of `tensor_y_out`. -/
def Conv2dFprop {α : Type} [Zero α] [Add α] [Mul α] [DecidableEq α] (convert_op : α → α)
    (problem_size : Conv2dProblemSize) (tensor_x tensor_w tensor_y_in tensor_y_out : Tensor4 α)
    (alpha beta : α) : Tensor4 α :=
  forLoop problem_size.N (fun n y =>
    forLoop problem_size.P (fun p y =>
      forLoop problem_size.Q (fun q y =>
        forLoop problem_size.K (fun k y =>
          let acc : α :=
            forLoop problem_size.R (fun r acc =>
              forLoop problem_size.S (fun s acc =>
                forLoop problem_size.C (fun c acc =>
                  let filter_r : Int :=
                    if problem_size.mode = Mode.kConvolution then
                      (problem_size.R : Int) - 1 - (r : Int) else (r : Int)
                  let filter_s : Int :=
                    if problem_size.mode = Mode.kConvolution then
                      (problem_size.S : Int) - 1 - (s : Int) else (s : Int)
                  let h : Int := (p : Int) * problem_size.stride_h - problem_size.pad_h
                                  + filter_r * problem_size.dilation_h
                  let w : Int := (q : Int) * problem_size.stride_w - problem_size.pad_w
                                  + filter_s * problem_size.dilation_w
                  if h ≥ 0 ∧ h < (problem_size.H : Int) ∧ w ≥ 0 ∧ w < (problem_size.W : Int) then
                    let a := tensor_x.val n h w c
                    let b := tensor_w.val k r s c
                    multiply_add a b acc
                  else acc) acc) acc) 0
          let c_ref : α := if beta ≠ 0 then tensor_y_in.val n p q k else 0
          y.set n p q k (convert_op (alpha * acc + beta * c_ref))) y) y) y) tensor_y_out

/-- The test `ih >= 0 && ih < IH && iw >= 0 && iw < IW` under which `compute_convolution` reads
`tensor_src` instead of substituting 0. -/
def src_in_bounds (IH IW : Nat) (ih iw : Int) : Bool :=
  decide (ih ≥ 0 ∧ ih < (IH : Int) ∧ iw ≥ 0 ∧ iw < (IW : Int))

/-- The blocking constant `Mblock = 16`. -/
def Mblock : Nat := 16

/-- The blocking constant `Nblock = 16`. -/
def Nblock : Nat := 16

/-- The element `accum[i][j]` of the array `ComputeType accum[Mblock][Nblock]`, kept as the list
of its `Mblock * Nblock` cells in row-major order. -/
def accum_get {α : Type} [Zero α] (accum : List α) (i j : Nat) : α :=
  accum.getD (i * Nblock + j) 0

/-- The assignment `accum[i][j] = v`. -/
def accum_set {α : Type} (accum : List α) (i j : Nat) (v : α) : List α :=
  accum.set (i * Nblock + j) v

/-- The accumulation phase of one `(n_block, oc_block, oh, ow)` iteration of
`compute_convolution`: the array `accum`, every cell initialised to `initial_accum`, after the
loops over `fh, fw, ic, j, i`. -/
def compute_convolution_accum {α : Type} [Zero α] [Add α] [Mul α]
    (conv_param : Conv2dProblemSize) (tensor_src tensor_filter : Tensor4 α) (initial_accum : α)
    (n_block oc_block oh ow : Nat) : List α :=
  let ih_base : Int := (oh : Int) * conv_param.stride_h - conv_param.pad_h
  let iw_base : Int := (ow : Int) * conv_param.stride_w - conv_param.pad_w
  forLoop conv_param.R (fun fh accum =>
    forLoop conv_param.S (fun fw accum =>
      forLoop conv_param.C (fun ic accum =>
        forLoop Nblock (fun j accum =>
          forLoop Mblock (fun i accum =>
            let n := n_block + j
            let oc := oc_block + i
            let ih : Int := ih_base + (fh : Int)
            let iw : Int := iw_base + (fw : Int)
            if n < conv_param.N ∧ oc < conv_param.K then
              let src : α :=
                if src_in_bounds conv_param.H conv_param.W ih iw then tensor_src.val n ih iw ic
                else 0
              let filter : α := tensor_filter.val oc fh fw ic
              accum_set accum i j (multiply_add filter src (accum_get accum i j))
            else accum) accum) accum) accum) accum)
    (List.replicate (Mblock * Nblock) initial_accum)

/-- The function `compute_convolution(conv_param, alpha, tensor_src, tensor_filter, beta,
tensor_bias, gamma, tensor_z, tensor_dst, initial_accum)`: the final contents of `tensor_dst`.
`need_round` is the compile-time constant `detail::need_round<ElementDst, ScalarType>::value`
and `round` stands for `std::round`. -/
def compute_convolution {α : Type} [Zero α] [Add α] [Mul α]
    (need_round : Bool) (round convert_op : α → α)
    (conv_param : Conv2dProblemSize) (alpha : α) (tensor_src tensor_filter : Tensor4 α)
    (beta : α) (tensor_bias : Tensor4 α) (gamma : α) (tensor_z tensor_dst : Tensor4 α)
    (initial_accum : α) : Tensor4 α :=
  forStep conv_param.N Nblock (fun n_block dst =>
    forStep conv_param.K Mblock (fun oc_block dst =>
      forLoop conv_param.P (fun oh dst =>
        forLoop conv_param.Q (fun ow dst =>
          let accum := compute_convolution_accum conv_param tensor_src tensor_filter
            initial_accum n_block oc_block oh ow
          forLoop Nblock (fun j dst =>
            forLoop Mblock (fun i dst =>
              let n := n_block + j
              let oc := oc_block + i
              if n < conv_param.N ∧ oc < conv_param.K then
                let intermediate : α :=
                  alpha * accum_get accum i j + beta * tensor_bias.val 0 0 0 oc
                    + gamma * tensor_z.val n oh ow oc
                let intermediate : α := if need_round then round intermediate else intermediate
                dst.set n oh ow oc (convert_op intermediate)
              else dst) dst) dst) dst) dst) dst) tensor_dst

/-! ## Epilogue: `epilogue::thread::BiasAddLinearCombinationRelu`

A fragment `Array<T, kCount>` is a map `Fin kCount → T`. -/

/-- The converters named by the `Policy` template argument (`NumericArrayConverterPolicy`, whose
header is not among the sources): each array converter is given by the conversion it applies to
every element. -/
structure ConverterPolicy (ElementOutput ElementAccumulator ElementBias ElementCompute : Type)
    where
  SourceConverter : ElementOutput → ElementCompute
  AccumulatorConverter : ElementAccumulator → ElementCompute
  BiasConverter : ElementBias → ElementCompute
  OutputConverter : ElementCompute → ElementOutput

/-- The structure `BiasAddLinearCombinationRelu::Params`; a null pointer is `none`, a pointer
to a scalar holding `x` is `some x`. -/
structure EpilogueParams (ElementCompute : Type) where
  alpha : ElementCompute
  beta : ElementCompute
  gamma : ElementCompute
  threshold : ElementCompute
  alpha_ptr : Option ElementCompute
  beta_ptr : Option ElementCompute
  gamma_ptr : Option ElementCompute
  threshold_ptr : Option ElementCompute

/-- The data members of the functor `BiasAddLinearCombinationRelu`. -/
structure BiasAddLinearCombinationRelu (ElementCompute : Type) where
  alpha_ : ElementCompute
  beta_ : ElementCompute
  gamma_ : ElementCompute
  threshold_ : ElementCompute

/-- The constructor `BiasAddLinearCombinationRelu(params)`:
`alpha_ = (params.alpha_ptr ? *params.alpha_ptr : params.alpha)` and likewise for the others. -/
def BiasAddLinearCombinationRelu.construct {ElementCompute : Type}
    (params : EpilogueParams ElementCompute) : BiasAddLinearCombinationRelu ElementCompute :=
  { alpha_ := match params.alpha_ptr with
      | some v => v
      | none => params.alpha
    beta_ := match params.beta_ptr with
      | some v => v
      | none => params.beta
    gamma_ := match params.gamma_ptr with
      | some v => v
      | none => params.gamma
    threshold_ := match params.threshold_ptr with
      | some v => v
      | none => params.threshold }

/-- The member function `is_source_needed()`: `gamma_ != ElementCompute(0)`. -/
def BiasAddLinearCombinationRelu.is_source_needed {ElementCompute : Type} [Zero ElementCompute]
    [DecidableEq ElementCompute] (op : BiasAddLinearCombinationRelu ElementCompute) : Bool :=
  decide (op.gamma_ ≠ 0)

/-- The functor `multiplies<Array<T, N>>` applied to a scalar and a fragment: the scalar times
each element. -/
def multiplies_fragment {α : Type} [Mul α] {kCount : Nat} (a : α) (b : Fin kCount → α) :
    Fin kCount → α :=
  fun i => a * b i

/-- The functor `multiply_add<Array<T, N>>` applied to a scalar and two fragments:
`a * b[i] + c[i]`. -/
def multiply_add_fragment {α : Type} [Add α] [Mul α] {kCount : Nat} (a : α)
    (b c : Fin kCount → α) : Fin kCount → α :=
  fun i => multiply_add a (b i) (c i)

/-- Modelled from the spec: the functor `ReLu<Array<T, N>>` of
`cutlass/epilogue/thread/activation.h`; the threshold is the "minimum value that is output"
and "bounds the result before narrowing": an element below the threshold is replaced by it. -/
def ReLu {α : Type} [LT α] [DecidableRel (fun a b : α => a < b)] {kCount : Nat} (threshold : α)
    (frag : Fin kCount → α) : Fin kCount → α :=
  fun i => if frag i < threshold then threshold else frag i

/-- The three-operand `operator()(accumulator, bias, source)`. -/
def BiasAddLinearCombinationRelu.apply_source
    {ElementOutput ElementAccumulator ElementBias ElementCompute : Type}
    [Add ElementCompute] [Mul ElementCompute] [LT ElementCompute]
    [DecidableRel (fun a b : ElementCompute => a < b)] {kCount : Nat}
    (op : BiasAddLinearCombinationRelu ElementCompute)
    (policy : ConverterPolicy ElementOutput ElementAccumulator ElementBias ElementCompute)
    (accumulator : Fin kCount → ElementAccumulator) (bias : Fin kCount → ElementBias)
    (source : Fin kCount → ElementOutput) : Fin kCount → ElementOutput :=
  let converted_source : Fin kCount → ElementCompute := fun i => policy.SourceConverter (source i)
  let converted_accumulator : Fin kCount → ElementCompute :=
    fun i => policy.AccumulatorConverter (accumulator i)
  let converted_bias : Fin kCount → ElementCompute := fun i => policy.BiasConverter (bias i)
  -- X = gamma * C
  let intermediate := multiplies_fragment op.gamma_ converted_source
  -- D = alpha * Accum + X
  let intermediate := multiply_add_fragment op.alpha_ converted_accumulator intermediate
  -- D = beta * bias + D
  let intermediate := multiply_add_fragment op.beta_ converted_bias intermediate
  let intermediate := ReLu op.threshold_ intermediate
  fun i => policy.OutputConverter (intermediate i)

/-- The two-operand `operator()(accumulator, bias)`, which never touches the source. -/
def BiasAddLinearCombinationRelu.apply
    {ElementOutput ElementAccumulator ElementBias ElementCompute : Type}
    [Add ElementCompute] [Mul ElementCompute] [LT ElementCompute]
    [DecidableRel (fun a b : ElementCompute => a < b)] {kCount : Nat}
    (op : BiasAddLinearCombinationRelu ElementCompute)
    (policy : ConverterPolicy ElementOutput ElementAccumulator ElementBias ElementCompute)
    (accumulator : Fin kCount → ElementAccumulator) (bias : Fin kCount → ElementBias) :
    Fin kCount → ElementOutput :=
  let converted_accumulator : Fin kCount → ElementCompute :=
    fun i => policy.AccumulatorConverter (accumulator i)
  let converted_bias : Fin kCount → ElementCompute := fun i => policy.BiasConverter (bias i)
  -- D = alpha * Accum
  let intermediate := multiplies_fragment op.alpha_ converted_accumulator
  -- D = beta * bias + D
  let intermediate := multiply_add_fragment op.beta_ converted_bias intermediate
  let intermediate := ReLu op.threshold_ intermediate
  fun i => policy.OutputConverter (intermediate i)

/-- The conversions of an instantiation in which all four element types are `Int`. -/
def identity_policy : ConverterPolicy Int Int Int Int :=
  { SourceConverter := id, AccumulatorConverter := id, BiasConverter := id,
    OutputConverter := id }

/-- Modelled from the spec: the compute type of a "floating pipeline" (`ElementCompute = float`),
reduced to what the epilogue's treatment of the source fragment needs.  A value is finite (an
integer here: sums and products of small integers are exact in binary floating point) or NaN;
an operation with a NaN operand gives NaN and every comparison with NaN is false, as IEEE 754
prescribes.  Rounding, infinities and signed zeros are not modelled. -/
inductive FloatValue where
  | finite (v : Int)
  | nan
  deriving DecidableEq, Repr

/-- The value `float(0)`. -/
instance : Zero FloatValue := ⟨FloatValue.finite 0⟩

/-- Floating-point addition: NaN if an operand is NaN. -/
def FloatValue.add : FloatValue → FloatValue → FloatValue
  | FloatValue.finite a, FloatValue.finite b => FloatValue.finite (a + b)
  | _, _ => FloatValue.nan

/-- Floating-point multiplication: NaN if an operand is NaN, so `0 * NaN` is NaN. -/
def FloatValue.mul : FloatValue → FloatValue → FloatValue
  | FloatValue.finite a, FloatValue.finite b => FloatValue.finite (a * b)
  | _, _ => FloatValue.nan

/-- The comparison `a < b`: false if an operand is NaN. -/
def FloatValue.lt : FloatValue → FloatValue → Bool
  | FloatValue.finite a, FloatValue.finite b => decide (a < b)
  | _, _ => false

instance : Add FloatValue := ⟨FloatValue.add⟩

instance : Mul FloatValue := ⟨FloatValue.mul⟩

instance : LT FloatValue := ⟨fun a b => FloatValue.lt a b = true⟩

instance : DecidableRel (fun a b : FloatValue => a < b) :=
  fun a b => inferInstanceAs (Decidable (FloatValue.lt a b = true))

/-- The conversions of an instantiation in which all four element types are `float`. -/
def float_policy : ConverterPolicy FloatValue FloatValue FloatValue FloatValue :=
  { SourceConverter := id, AccumulatorConverter := id, BiasConverter := id,
    OutputConverter := id }

/-- The parameters `alpha = 1`, `beta = 1`, `gamma = 0`, `threshold = 0` of the default
constructor `Params()`, for the floating compute type. -/
def float_default_params : EpilogueParams FloatValue :=
  { alpha := FloatValue.finite 1, beta := FloatValue.finite 1, gamma := FloatValue.finite 0,
    threshold := FloatValue.finite 0, alpha_ptr := none, beta_ptr := none, gamma_ptr := none,
    threshold_ptr := none }

/-! ## Specification-side notions for the host reference -/

/-- The tensor `src0`: the source tensor extended by 0 outside `0 ≤ ih < H`, `0 ≤ iw < W`. -/
def zero_extend {α : Type} [Zero α] (H W : Nat) (src : Tensor4 α) : Tensor4 α :=
  { val := fun n ih iw ic =>
      if 0 ≤ ih ∧ ih < (H : Int) ∧ 0 ≤ iw ∧ iw < (W : Int) then src.val n ih iw ic else 0 }

/-- The closed form of the accumulator of output `(n, oh, ow, oc)` in `compute_convolution`:
`initial_accum` plus the sum over `fh < R`, `fw < S`, `ic < C` of
`filter[oc,fh,fw,ic] * src0[n, oh*stride_h - pad_h + fh, ow*stride_w - pad_w + fw, ic]`. -/
def conv_accum_closed {α : Type} [CommSemiring α] (conv_param : Conv2dProblemSize)
    (tensor_src tensor_filter : Tensor4 α) (initial_accum : α) (n oh ow oc : Int) : α :=
  initial_accum
    + Finset.sum (Finset.range conv_param.R) (fun fh =>
        Finset.sum (Finset.range conv_param.S) (fun fw =>
          Finset.sum (Finset.range conv_param.C) (fun ic =>
            tensor_filter.val oc fh fw ic
              * (zero_extend conv_param.H conv_param.W tensor_src).val n
                  (oh * conv_param.stride_h - conv_param.pad_h + (fh : Int))
                  (ow * conv_param.stride_w - conv_param.pad_w + (fw : Int)) ic)))

/-- The closed form of the value stored by `compute_convolution` at `(n, oh, ow, oc)`:
`convert(round?(alpha*A + beta*bias[0,0,0,oc] + gamma*z[n,oh,ow,oc]))`. -/
def conv_output_closed {α : Type} [CommSemiring α] (need_round : Bool) (round convert_op : α → α)
    (conv_param : Conv2dProblemSize) (alpha : α) (tensor_src tensor_filter : Tensor4 α)
    (beta : α) (tensor_bias : Tensor4 α) (gamma : α) (tensor_z : Tensor4 α)
    (initial_accum : α) : Tensor4 α :=
  { val := fun n oh ow oc =>
      let A := conv_accum_closed conv_param tensor_src tensor_filter initial_accum n oh ow oc
      let v := alpha * A + beta * tensor_bias.val 0 0 0 oc + gamma * tensor_z.val n oh ow oc
      convert_op (if need_round then round v else v) }

/-- A state transformer on tensors that stores `V` at exactly the coordinates in `W` and leaves
every other coordinate as it was. -/
def Writes {α : Type} (f : Tensor4 α → Tensor4 α) (W : Int → Int → Int → Int → Prop)
    (V : Tensor4 α) : Prop :=
  ∀ (T : Tensor4 α) (a b c d : Int),
    (W a b c d → (f T).val a b c d = V.val a b c d)
      ∧ (¬ W a b c d → (f T).val a b c d = T.val a b c d)

/-- The explicitly zero-padded input `x'` of extent `(H + 2*pad_h, W + 2*pad_w)`:
`x'[n, h + pad_h, w + pad_w, c] = x[n, h, w, c]` inside the original extent, 0 elsewhere. -/
def zero_pad {α : Type} [Zero α] (pad_h pad_w : Int) (H W : Nat) (x : Tensor4 α) : Tensor4 α :=
  { val := fun n h w c =>
      if 0 ≤ h - pad_h ∧ h - pad_h < (H : Int) ∧ 0 ≤ w - pad_w ∧ w - pad_w < (W : Int) then
        x.val n (h - pad_h) (w - pad_w) c
      else 0 }

/-- The problem with padding 0 on the input of extent `(H + 2*pad_h, W + 2*pad_w)`; all other
fields, `P` and `Q` included, are unchanged. -/
def padded_problem (problem_size : Conv2dProblemSize) : Conv2dProblemSize :=
  { problem_size with
    H := problem_size.H + 2 * problem_size.pad_h.toNat
    W := problem_size.W + 2 * problem_size.pad_w.toNat
    pad_h := 0
    pad_w := 0 }

/-- A 2x2 filter over a 3x3 image with 2 channels, padding 1, one output channel. -/
def small_problem : Conv2dProblemSize :=
  { N := 1, H := 3, W := 3, C := 2, K := 1, R := 2, S := 2, P := 4, Q := 4,
    pad_h := 1, pad_w := 1, stride_h := 1, stride_w := 1, dilation_h := 1, dilation_w := 1,
    mode := Mode.kCrossCorrelation }

/-- An input tensor for `small_problem`. -/
def small_src : Tensor4 Int := { val := fun _ h w c => 3 * h + w + 1 + 10 * c }

/-- A filter tensor for `small_problem`. -/
def small_filter : Tensor4 Int := { val := fun _ r s c => 1 + r + 2 * s - c }

/-- A bias tensor, indexed by the output channel. -/
def small_bias : Tensor4 Int := { val := fun _ _ _ oc => 5 + oc }

/-- A residual tensor of the shape of the output. -/
def small_z : Tensor4 Int := { val := fun _ oh ow _ => oh - ow }

/-- An output tensor before the call. -/
def small_dst : Tensor4 Int := { val := fun _ _ _ _ => -1 }

/-- The sample instantiation with 4-bit unsigned elements. -/
def sample_traits_u4 : IteratorTraits :=
  { sample_traits with element := Element.uint4b_t, kElementSizeBits := 4 }

/-- The parameter object of the 4-bit sample with source zero point 8. -/
def sample_params_u4 : FpropPrecompParams :=
  FpropPrecompParams.construct sample_traits_u4 sample_tile_map sample_layout sample_problem
    (ExtraParam.ExtraParamZeroPoint 8)

/-- The iterator of thread 0 of the 4-bit sample, on its residue tile. -/
def sample_iterator_u4 : Conv2dTileSrcIteratorFpropPrecomp :=
  Conv2dTileSrcIteratorFpropPrecomp.construct sample_traits_u4 sample_params_u4 0 108 0 0 0 0

/-- The sample problem with an 8x8 filter, which has 64 taps. -/
def sample_problem_8x8 : Conv2dProblemSize :=
  { sample_problem with R := 8, S := 8 }

/-- The default constructor `Params()`: `alpha = 1`, `beta = 1`, `gamma = 0`, `threshold = 0`,
all four pointers null. -/
def EpilogueParams.default {ElementCompute : Type} [Zero ElementCompute] [One ElementCompute] :
    EpilogueParams ElementCompute :=
  { alpha := 1, beta := 1, gamma := 0, threshold := 0,
    alpha_ptr := none, beta_ptr := none, gamma_ptr := none, threshold_ptr := none }

/-- The four-scalar constructor `Params(alpha, beta, gamma, threshold)`: the scalars are stored
and all four pointers are null. -/
def EpilogueParams.ofScalars {ElementCompute : Type} (alpha beta gamma threshold : ElementCompute) :
    EpilogueParams ElementCompute :=
  { alpha := alpha, beta := beta, gamma := gamma, threshold := threshold,
    alpha_ptr := none, beta_ptr := none, gamma_ptr := none, threshold_ptr := none }

/-- The four-pointer constructor `Params(alpha_ptr, beta_ptr, gamma_ptr, threshold_ptr)`:
`alpha`, `beta`, `gamma` are set to 0 and the pointers stored; the member `threshold` is not
initialised by the source, its content is the argument `uninitialized_threshold`. -/
def EpilogueParams.ofPointers {ElementCompute : Type} [Zero ElementCompute]
    (alpha_ptr beta_ptr gamma_ptr threshold_ptr : Option ElementCompute)
    (uninitialized_threshold : ElementCompute) : EpilogueParams ElementCompute :=
  { alpha := 0, beta := 0, gamma := 0, threshold := uninitialized_threshold,
    alpha_ptr := alpha_ptr, beta_ptr := beta_ptr, gamma_ptr := gamma_ptr,
    threshold_ptr := threshold_ptr }

/-! ## Further members of `Conv2dTileSrcIteratorFpropPrecomp<..., true>`

Pointer arithmetic on `Element*` is taken with `sizeof(Element) = 1`, as for the 8-bit and
sub-byte element types these iterators are instantiated with; addresses are integers. -/

/-- The member function `add_pointer_offset(pointer_offset)`:
`pointer_[access_idx] += sizeof_bits<Element>::value * pointer_offset / 8`. -/
def Conv2dTileSrcIteratorFpropPrecomp.add_pointer_offset (t : IteratorTraits)
    (it : Conv2dTileSrcIteratorFpropPrecomp) (pointer_offset : Int) :
    Conv2dTileSrcIteratorFpropPrecomp :=
  { it with
    pointer_ := it.pointer_.map (fun ptr =>
      ptr + Int.tdiv ((t.kElementSizeBits : Int) * pointer_offset) 8) }

/-- The member function `clear_mask()`: both mask words of every access become 0. -/
def Conv2dTileSrcIteratorFpropPrecomp.clear_mask (it : Conv2dTileSrcIteratorFpropPrecomp) :
    Conv2dTileSrcIteratorFpropPrecomp :=
  { it with masks_ := it.masks_.map (fun _ => (0, 0)) }

/-- Modelled from the spec: `cutlass::arch::global_store(D, ptr, pred_guard)` of
`cutlass/arch/memory.h`, the "vector-width memory transfer, gated per access": memory receives
the fragment slot at `ptr` exactly when the guard holds. -/
def global_store {α : Type} (mem : Int → α) (value : α) (ptr : Int) (pred_guard : Bool) :
    Int → α :=
  if pred_guard then (fun a => if a = ptr then value else mem a) else mem

/-- The member function `store_with_byte_offset(frag, byte_offset)`: the memory after the
stores of all accesses `(s, c, v)`, in the order of the source's loops; the iterator itself is
not modified. -/
def store_with_byte_offset {α : Type} (default_slot : α) (mem : Int → α) (t : IteratorTraits)
    (p : FpropPrecompParams) (it : Conv2dTileSrcIteratorFpropPrecomp) (frag : List α)
    (byte_offset : Int) : Int → α :=
  forLoop t.Iterations_kStrided (fun s mem =>
    forLoop t.Iterations_kContiguous (fun c mem =>
      forLoop t.kAccessesPerVector (fun v mem =>
        let idx := v + t.kAccessesPerVector * (c + s * t.Iterations_kContiguous)
        let access_idx := v + t.kAccessesPerVector * c
        let byte_ptr := it.pointer_.getD access_idx 0 + it.strided_.getD s 0 + byte_offset
        global_store mem (frag.getD idx default_slot) byte_ptr (access_guard t p it s c v))
        mem) mem) mem

/-! ## `FpropPrecompParams<..., false>` and `Conv2dTileSrcIteratorFpropPrecomp<..., false>` -/

/-- The data members of `FpropPrecompParams<..., false>`; `layout_stride` is
`layout_.stride()[TileMap::kStrideAxis]`. -/
structure FpropPrecompParams_false where
  layout_ : TensorCoord → Int
  layout_stride : Int
  inc_strided_ : Int
  inc_next_ : Int
  inc_iterations_ : Int
  tile_map_ : LogicalCoord → TensorCoord
  stride_h_ : Int
  stride_w_ : Int
  pad_h_ : Int
  pad_w_ : Int
  hi_ : Nat
  wi_ : Nat
  n_ : Nat

/-- The constructor `FpropPrecompParams(layout, problem_size, extra_param)` of the `false`
specialisation. -/
def FpropPrecompParams_false.construct (t : IteratorTraits)
    (TileMap : Nat → Nat → LogicalCoord → TensorCoord) (layout : TensorCoord → Int)
    (layout_stride : Int) (problem_size : Conv2dProblemSize) : FpropPrecompParams_false :=
  let stride := layout_stride
  let inc_strided_ :=
    Int.tdiv ((stride * (t.Delta_kStrided : Int)) * (t.kElementSizeBits : Int)) 8
  let inc_iterations_ :=
    Int.tdiv ((((t.Iterations_kStrided : Int) - 1) * (t.Delta_kStrided : Int) * stride)
      * (t.kElementSizeBits : Int)) 8
  let inc_next_ :=
    Int.tdiv (((t.kStrided : Int) * stride) * (t.kElementSizeBits : Int)) 8 - inc_iterations_
  { layout_ := layout
    layout_stride := layout_stride
    inc_strided_ := inc_strided_
    inc_next_ := inc_next_
    inc_iterations_ := inc_iterations_
    tile_map_ := TileMap (problem_size.P * problem_size.Q) problem_size.Q
    stride_h_ := problem_size.stride_h
    stride_w_ := problem_size.stride_w
    pad_h_ := problem_size.pad_h
    pad_w_ := problem_size.pad_w
    hi_ := problem_size.H
    wi_ := problem_size.W
    n_ := problem_size.N }

/-- The call operator `operator()(coord)` of the `false` specialisation. -/
def FpropPrecompParams_false.apply (p : FpropPrecompParams_false) (coord : LogicalCoord) :
    TensorCoord :=
  let tensor_coord := p.tile_map_ coord
  { tensor_coord with
    h := tensor_coord.h * p.stride_h_ - p.pad_h_
    w := tensor_coord.w * p.stride_w_ - p.pad_w_ }

/-- The constant `kPredicatesPerByte = 4`. -/
def kPredicatesPerByte : Nat := 4

/-- The constant `kPredicatesPerWord = 4 * kPredicatesPerByte`. -/
def kPredicatesPerWord : Nat := 4 * kPredicatesPerByte

/-- The constant `kPredicateByteCount`. -/
def IteratorTraits.kPredicateByteCount (t : IteratorTraits) : Nat :=
  (t.kContiguousCount + kPredicatesPerByte - 1) / kPredicatesPerByte

/-- The constant `kPredicateWordCount`, the number of 32-bit words holding predicates. -/
def IteratorTraits.kPredicateWordCount (t : IteratorTraits) : Nat :=
  (t.kPredicateByteCount + 3) / 4

/-- The data members of the `false` specialisation of the iterator; `predicates_` lists the
`kPredicateWordCount` words of the array. -/
structure Conv2dTileSrcIteratorFpropPrecomp_false where
  pointer_ : List Int
  predicates_ : List Nat
  residue_offset_ : Int
  residue_extent_ : Int
  is_residue_tile_ : Bool
  deriving DecidableEq, Repr

/-- The bit position `byte_idx * 8 + bit_idx` of access `access_idx` inside its predicate
word. -/
def predicate_bit (access_idx : Nat) : Nat :=
  let residual := access_idx % kPredicatesPerWord
  let byte_idx := residual / kPredicatesPerByte
  let bit_idx := residual % kPredicatesPerByte
  byte_idx * 8 + bit_idx

/-- The member function `initialize_predicate_and_pointers_(pointer, thread_offset)` of the
`false` specialisation: the words of `predicates_` are cleared, then every access stores its
pointer and ors its guard bit into its predicate word. -/
def Conv2dTileSrcIteratorFpropPrecomp_false.initialize_predicate_and_pointers_
    (t : IteratorTraits) (p : FpropPrecompParams_false)
    (it : Conv2dTileSrcIteratorFpropPrecomp_false) (pointer : Int)
    (thread_offset_row thread_offset_column : Nat) : Conv2dTileSrcIteratorFpropPrecomp_false :=
  let coord_of : Nat → TensorCoord := fun access_idx =>
    let c := access_idx / t.kAccessesPerVector
    let v := access_idx % t.kAccessesPerVector
    let col_offset := c * t.Delta_kContiguous + v * t.kAccessElements + thread_offset_column
    p.apply { row := ((thread_offset_row * t.kInterleaved : Nat) : Int),
              column := ((col_offset / t.kInterleaved : Nat) : Int) }
  { it with
    pointer_ := (List.range t.kContiguousCount).map (fun access_idx =>
      let c := access_idx / t.kAccessesPerVector
      let v := access_idx % t.kAccessesPerVector
      let col_offset := c * t.Delta_kContiguous + v * t.kAccessElements + thread_offset_column
      pointer + p.layout_ (coord_of access_idx) + ((col_offset % t.kInterleaved : Nat) : Int))
    predicates_ :=
      forLoop t.kContiguousCount (fun access_idx predicates_ =>
        let coord := coord_of access_idx
        let guard : Bool := decide (coord.n < (p.n_ : Int) ∧ coord.h ≥ 0
          ∧ coord.h < (p.hi_ : Int) ∧ coord.w ≥ 0 ∧ coord.w < (p.wi_ : Int))
        let word_idx := access_idx / kPredicatesPerWord
        predicates_.set word_idx
          ((predicates_.getD word_idx 0 ||| (guard.toNat <<< predicate_bit access_idx))
            % 2 ^ 32))
        (List.replicate t.kPredicateWordCount 0) }

/-- The constructor of the `false` specialisation, `Conv2dTileSrcIteratorFpropPrecomp(params,
pointer, extent, thread_id, threadblock_offset)`. -/
def Conv2dTileSrcIteratorFpropPrecomp_false.construct (t : IteratorTraits)
    (p : FpropPrecompParams_false) (pointer : Int) (extent_row : Nat)
    (initial_strided initial_contiguous : Nat)
    (threadblock_offset_row threadblock_offset_column : Nat) :
    Conv2dTileSrcIteratorFpropPrecomp_false :=
  let residue_offset_0 : Int :=
    Int.tmod (((extent_row / t.kInterleaved : Nat) : Int)
      - ((threadblock_offset_row / t.kInterleaved : Nat) : Int)) (t.kStrided : Int)
  let residue_offset_ : Int := if residue_offset_0 = 0 then (t.kStrided : Int) else residue_offset_0
  let residue_extent_0 : Int :=
    min (((threadblock_offset_row / t.kInterleaved : Nat) : Int) + residue_offset_)
        ((extent_row / t.kInterleaved : Nat) : Int)
  let thread_offset_row : Nat := threadblock_offset_row / t.kInterleaved + initial_strided
  let thread_offset_column : Nat :=
    threadblock_offset_column * t.kInterleaved + initial_contiguous
  let it0 : Conv2dTileSrcIteratorFpropPrecomp_false :=
    { pointer_ := [], predicates_ := [], residue_offset_ := residue_offset_,
      residue_extent_ := residue_extent_0, is_residue_tile_ := true }
  let it1 := Conv2dTileSrcIteratorFpropPrecomp_false.initialize_predicate_and_pointers_ t p it0
    pointer thread_offset_row thread_offset_column
  { it1 with residue_extent_ := residue_extent_0 - (thread_offset_row : Int) }

/-- The member function `add_pointer_offset(pointer_offset)` of the `false` specialisation. -/
def Conv2dTileSrcIteratorFpropPrecomp_false.add_pointer_offset (t : IteratorTraits)
    (it : Conv2dTileSrcIteratorFpropPrecomp_false) (pointer_offset : Int) :
    Conv2dTileSrcIteratorFpropPrecomp_false :=
  { it with
    pointer_ := it.pointer_.map (fun ptr =>
      ptr + Int.tdiv ((t.kElementSizeBits : Int) * pointer_offset) 8) }

/-- The pre-increment `operator++()` of the `false` specialisation. -/
def Conv2dTileSrcIteratorFpropPrecomp_false.advance (t : IteratorTraits)
    (p : FpropPrecompParams_false) (it : Conv2dTileSrcIteratorFpropPrecomp_false) :
    Conv2dTileSrcIteratorFpropPrecomp_false :=
  let it1 : Conv2dTileSrcIteratorFpropPrecomp_false :=
    if it.is_residue_tile_ then
      let it2 := it.add_pointer_offset t (it.residue_offset_ * p.layout_stride)
      { it2 with pointer_ := it2.pointer_.map (fun ptr => ptr - p.inc_iterations_) }
    else
      { it with pointer_ := it.pointer_.map (fun ptr => ptr + p.inc_next_) }
  { it1 with is_residue_tile_ := false }

/-- The member function `clear_mask()`: every predicate word becomes 0. -/
def Conv2dTileSrcIteratorFpropPrecomp_false.clear_mask (t : IteratorTraits)
    (it : Conv2dTileSrcIteratorFpropPrecomp_false) : Conv2dTileSrcIteratorFpropPrecomp_false :=
  { it with predicates_ := forLoop t.kPredicateWordCount (fun i predicates_ =>
      predicates_.set i 0) it.predicates_ }

/-- The member function `enable_mask()`: every predicate word becomes `0xffffffff`. -/
def Conv2dTileSrcIteratorFpropPrecomp_false.enable_mask (t : IteratorTraits)
    (it : Conv2dTileSrcIteratorFpropPrecomp_false) : Conv2dTileSrcIteratorFpropPrecomp_false :=
  { it with predicates_ := forLoop t.kPredicateWordCount (fun i predicates_ =>
      predicates_.set i 0xffffffff) it.predicates_ }

/-- The member function `set_mask(mask)`: `predicates_[i] = mask[i]` for every word. -/
def Conv2dTileSrcIteratorFpropPrecomp_false.set_mask (t : IteratorTraits)
    (it : Conv2dTileSrcIteratorFpropPrecomp_false) (mask : List Nat) :
    Conv2dTileSrcIteratorFpropPrecomp_false :=
  { it with predicates_ := forLoop t.kPredicateWordCount (fun i predicates_ =>
      predicates_.set i (mask.getD i 0)) it.predicates_ }

/-- The member function `get_mask(mask)`: the argument `mask` after `mask[i] = predicates_[i]`
for every word. -/
def Conv2dTileSrcIteratorFpropPrecomp_false.get_mask (t : IteratorTraits)
    (it : Conv2dTileSrcIteratorFpropPrecomp_false) (mask : List Nat) : List Nat :=
  forLoop t.kPredicateWordCount (fun i mask => mask.set i (it.predicates_.getD i 0)) mask

/-- The guard of access `(s, c, v)` in `load_with_byte_offset` and `store_with_byte_offset` of
the `false` specialisation. -/
def Conv2dTileSrcIteratorFpropPrecomp_false.access_guard (t : IteratorTraits)
    (it : Conv2dTileSrcIteratorFpropPrecomp_false) (s c v : Nat) : Bool :=
  let access_idx := v + t.kAccessesPerVector * c
  let word_idx := access_idx / kPredicatesPerWord
  let guard : Bool :=
    decide ((it.predicates_.getD word_idx 0 &&& ((1 <<< predicate_bit access_idx) % 2 ^ 32)) ≠ 0)
  if it.is_residue_tile_ then
    guard && decide (((s * t.Delta_kStrided : Nat) : Int) < it.residue_extent_)
  else guard

/-- The pointer update that follows the accesses of strided iteration `s` in the load and store
loops: `pointer_[access_idx] += params_.inc_strided_` unless `s` is the last iteration. -/
def Conv2dTileSrcIteratorFpropPrecomp_false.next_strided (t : IteratorTraits)
    (p : FpropPrecompParams_false) (it : Conv2dTileSrcIteratorFpropPrecomp_false) (s : Nat) :
    Conv2dTileSrcIteratorFpropPrecomp_false :=
  if (s : Int) < (t.Iterations_kStrided : Int) - 1 then
    { it with pointer_ := it.pointer_.map (fun ptr => ptr + p.inc_strided_) }
  else it

/-- The member function `load_with_byte_offset(frag, byte_offset)` of the `false`
specialisation: the fragment (slots in the order of `idx`) and the iterator afterwards, whose
pointers the loop has moved. -/
def Conv2dTileSrcIteratorFpropPrecomp_false.load_with_byte_offset {α : Type} (fill : Nat → α)
    (mem : Int → α) (t : IteratorTraits) (p : FpropPrecompParams_false)
    (it : Conv2dTileSrcIteratorFpropPrecomp_false) (byte_offset : Int) :
    List α × Conv2dTileSrcIteratorFpropPrecomp_false :=
  forLoop t.Iterations_kStrided (fun s state =>
    let frag := state.1
    let it := state.2
    let loaded := (List.range (t.Iterations_kContiguous * t.kAccessesPerVector)).map (fun k =>
      let c := k / t.kAccessesPerVector
      let v := k % t.kAccessesPerVector
      let access_idx := v + t.kAccessesPerVector * c
      let byte_ptr := it.pointer_.getD access_idx 0 + byte_offset
      global_load fill mem byte_ptr (it.access_guard t s c v) 0)
    (frag ++ loaded, it.next_strided t p s)) ([], it)

/-- The member function `store_with_byte_offset(frag, byte_offset)` of the `false`
specialisation: the memory and the iterator afterwards. -/
def Conv2dTileSrcIteratorFpropPrecomp_false.store_with_byte_offset {α : Type}
    (default_slot : α) (mem : Int → α) (t : IteratorTraits) (p : FpropPrecompParams_false)
    (it : Conv2dTileSrcIteratorFpropPrecomp_false) (frag : List α) (byte_offset : Int) :
    (Int → α) × Conv2dTileSrcIteratorFpropPrecomp_false :=
  forLoop t.Iterations_kStrided (fun s state =>
    let it := state.2
    let mem :=
      forLoop t.Iterations_kContiguous (fun c mem =>
        forLoop t.kAccessesPerVector (fun v mem =>
          let idx := v + t.kAccessesPerVector * (c + s * t.Iterations_kContiguous)
          let access_idx := v + t.kAccessesPerVector * c
          let byte_ptr := it.pointer_.getD access_idx 0 + byte_offset
          global_store mem (frag.getD idx default_slot) byte_ptr (it.access_guard t s c v))
          mem) state.1
    (mem, it.next_strided t p s)) (mem, it)

/-! ## Operation sequences on the iterators -/

/-- The operations a caller can apply to a `true`-specialisation iterator: `operator++`,
`add_pointer_offset`, `clear_mask`, `load_with_byte_offset` and `store_with_byte_offset` (the
other load, store and increment members are wrappers around these). -/
inductive PrecompOp (α : Type) where
  | advance
  | add_pointer_offset (pointer_offset : Int)
  | clear_mask
  | load (byte_offset : Int)
  | store (frag : List α) (byte_offset : Int)

/-- One operation on the pair of the iterator and the memory it accesses.  A load hands its
fragment to the caller and leaves both unchanged. -/
def PrecompOp.run {α : Type} (default_slot : α) (t : IteratorTraits) (p : FpropPrecompParams)
    (op : PrecompOp α) (state : Conv2dTileSrcIteratorFpropPrecomp × (Int → α)) :
    Conv2dTileSrcIteratorFpropPrecomp × (Int → α) :=
  match op with
  | PrecompOp.advance => (state.1.advance t p, state.2)
  | PrecompOp.add_pointer_offset pointer_offset =>
      (state.1.add_pointer_offset t pointer_offset, state.2)
  | PrecompOp.clear_mask => (state.1.clear_mask, state.2)
  | PrecompOp.load _ => state
  | PrecompOp.store frag byte_offset =>
      (state.1, store_with_byte_offset default_slot state.2 t p state.1 frag byte_offset)

/-- The operations a caller can apply to a `false`-specialisation iterator. -/
inductive DirectOp (α : Type) where
  | advance
  | add_pointer_offset (pointer_offset : Int)
  | clear_mask
  | enable_mask
  | set_mask (mask : List Nat)
  | get_mask
  | load (byte_offset : Int)
  | store (frag : List α) (byte_offset : Int)

/-- One operation on the pair of the `false`-specialisation iterator and the memory.  A load
hands its fragment to the caller but moves the iterator's pointers; `get_mask` only fills the
caller's mask. -/
def DirectOp.run {α : Type} (fill : Nat → α) (default_slot : α) (t : IteratorTraits)
    (p : FpropPrecompParams_false) (op : DirectOp α)
    (state : Conv2dTileSrcIteratorFpropPrecomp_false × (Int → α)) :
    Conv2dTileSrcIteratorFpropPrecomp_false × (Int → α) :=
  match op with
  | DirectOp.advance => (state.1.advance t p, state.2)
  | DirectOp.add_pointer_offset pointer_offset =>
      (state.1.add_pointer_offset t pointer_offset, state.2)
  | DirectOp.clear_mask => (state.1.clear_mask t, state.2)
  | DirectOp.enable_mask => (state.1.enable_mask t, state.2)
  | DirectOp.set_mask mask => (state.1.set_mask t mask, state.2)
  | DirectOp.get_mask => state
  | DirectOp.load byte_offset =>
      ((state.1.load_with_byte_offset fill state.2 t p byte_offset).2, state.2)
  | DirectOp.store frag byte_offset =>
      ((state.1.store_with_byte_offset default_slot state.2 t p frag byte_offset).2,
       (state.1.store_with_byte_offset default_slot state.2 t p frag byte_offset).1)

/-- The sample parameter object of the `false` specialisation. -/
def sample_params_false : FpropPrecompParams_false :=
  FpropPrecompParams_false.construct sample_traits sample_tile_map sample_layout 20
    sample_problem

/-- The iterator of thread 0 of the sample `false` specialisation. -/
def sample_iterator_false : Conv2dTileSrcIteratorFpropPrecomp_false :=
  Conv2dTileSrcIteratorFpropPrecomp_false.construct sample_traits sample_params_false 0 108
    0 0 0 0

/-- The coordinates stored through `tensor_dst.at(coord) = ...` by `compute_convolution`, in
execution order: the loop nest of `compute_convolution` with every store recorded in a log. -/
def compute_convolution_stores (conv_param : Conv2dProblemSize) : List TensorCoord :=
  forStep conv_param.N Nblock (fun n_block log =>
    forStep conv_param.K Mblock (fun oc_block log =>
      forLoop conv_param.P (fun oh log =>
        forLoop conv_param.Q (fun ow log =>
          forLoop Nblock (fun j log =>
            forLoop Mblock (fun i log =>
              let n := n_block + j
              let oc := oc_block + i
              if n < conv_param.N ∧ oc < conv_param.K then
                log ++ [{ n := (n : Int), h := (oh : Int), w := (ow : Int), c := (oc : Int) }]
              else log) log) log) log) log) log) []

/-- A state transformer on logs that appends the entries `g`. -/
def Emits {κ : Type} (f : List κ → List κ) (g : List κ) : Prop :=
  ∀ log, f log = log ++ g

/-- A state transformer on tensors that performs the stores at the coordinates `g`, in order,
each with the value `V` prescribes there. -/
def Replays {α : Type} (f : Tensor4 α → Tensor4 α) (g : List TensorCoord) (V : Tensor4 α) :
    Prop :=
  ∀ T, f T = g.foldl (fun T c => T.set c.n c.h c.w c.c (V.val c.n c.h c.w c.c)) T

/-- The function `Conv2dDgrad(problem_size, tensor_dy, tensor_w, tensor_dx_in, tensor_dx_out,
alpha, beta)`: the final contents of `tensor_dx_out`.  The C++ `%` and `/` on `int` are
`Int.tmod` and `Int.tdiv`. -/
def Conv2dDgrad {α : Type} [Zero α] [Add α] [Mul α] [DecidableEq α] (convert_op : α → α)
    (problem_size : Conv2dProblemSize)
    (tensor_dy tensor_w tensor_dx_in tensor_dx_out : Tensor4 α) (alpha beta : α) : Tensor4 α :=
  forLoop problem_size.N (fun n dx =>
    forLoop problem_size.H (fun h dx =>
      forLoop problem_size.W (fun w dx =>
        forLoop problem_size.C (fun c dx =>
          let acc : α :=
            forLoop problem_size.R (fun r acc =>
              forLoop problem_size.S (fun s acc =>
                forLoop problem_size.K (fun k acc =>
                  let filter_r : Int :=
                    if problem_size.mode = Mode.kConvolution then
                      (problem_size.R : Int) - 1 - (r : Int) else (r : Int)
                  let filter_s : Int :=
                    if problem_size.mode = Mode.kConvolution then
                      (problem_size.S : Int) - 1 - (s : Int) else (s : Int)
                  let p : Int := (h : Int) + problem_size.pad_h
                                  - filter_r * problem_size.dilation_h
                  let q : Int := (w : Int) + problem_size.pad_w
                                  - filter_s * problem_size.dilation_w
                  if p ≥ 0 ∧ Int.tmod p problem_size.stride_h = 0 ∧ q ≥ 0
                      ∧ Int.tmod q problem_size.stride_w = 0 then
                    let p := Int.tdiv p problem_size.stride_h
                    let q := Int.tdiv q problem_size.stride_w
                    if p < (problem_size.P : Int) ∧ q < (problem_size.Q : Int) then
                      let a := tensor_dy.val n p q k
                      let b := tensor_w.val k r s c
                      multiply_add a b acc
                    else acc
                  else acc) acc) acc) 0
          let c_ref : α := if beta ≠ 0 then tensor_dx_in.val n h w c else 0
          dx.set n h w c (convert_op (alpha * acc + beta * c_ref))) dx) dx) dx) tensor_dx_out

/-- The function `Conv2dWgrad(problem_size, tensor_dy, tensor_x, tensor_dw_in, tensor_dw_out,
alpha, beta)`: the final contents of `tensor_dw_out`. -/
def Conv2dWgrad {α : Type} [Zero α] [Add α] [Mul α] [DecidableEq α] (convert_op : α → α)
    (problem_size : Conv2dProblemSize)
    (tensor_dy tensor_x tensor_dw_in tensor_dw_out : Tensor4 α) (alpha beta : α) : Tensor4 α :=
  forLoop problem_size.K (fun k dw =>
    forLoop problem_size.R (fun r dw =>
      forLoop problem_size.S (fun s dw =>
        forLoop problem_size.C (fun c dw =>
          let acc : α :=
            forLoop problem_size.N (fun n acc =>
              forLoop problem_size.P (fun p acc =>
                forLoop problem_size.Q (fun q acc =>
                  let filter_r : Int :=
                    if problem_size.mode = Mode.kConvolution then
                      (problem_size.R : Int) - 1 - (r : Int) else (r : Int)
                  let filter_s : Int :=
                    if problem_size.mode = Mode.kConvolution then
                      (problem_size.S : Int) - 1 - (s : Int) else (s : Int)
                  let b_coord_h : Int := (p : Int) * problem_size.stride_h - problem_size.pad_h
                                          + filter_r * problem_size.dilation_h
                  let b_coord_w : Int := (q : Int) * problem_size.stride_w - problem_size.pad_w
                                          + filter_s * problem_size.dilation_w
                  if b_coord_h < (problem_size.H : Int) ∧ b_coord_h ≥ 0
                      ∧ b_coord_w < (problem_size.W : Int) ∧ b_coord_w ≥ 0 then
                    let a := tensor_dy.val n p q k
                    let b := tensor_x.val n b_coord_h b_coord_w c
                    multiply_add a b acc
                  else acc) acc) acc) 0
          let c_ref : α := if beta ≠ 0 then tensor_dw_in.val k r s c else 0
          dw.set k r s c (convert_op (alpha * acc + beta * c_ref))) dw) dw) dw) tensor_dw_out

/-- The spatially flipped filter `w'[k, r, s, c] = w[k, R-1-r, S-1-s, c]`. -/
def flip_filter {α : Type} (R S : Nat) (w : Tensor4 α) : Tensor4 α :=
  { val := fun k r s c => w.val k ((R : Int) - 1 - r) ((S : Int) - 1 - s) c }

/-- The filter row offset `filter_r` (likewise `filter_s`) that the reference loops derive from
the tap index and the mode. -/
def filter_tap (mode : Mode) (R r : Nat) : Int :=
  if mode = Mode.kConvolution then (R : Int) - 1 - (r : Int) else (r : Int)

/-- The accumulator of `Conv2dFprop` for output `(n, p, q, k)`, as a sum over the taps. -/
def fprop_sum {α : Type} [CommSemiring α] (problem_size : Conv2dProblemSize)
    (tensor_x tensor_w : Tensor4 α) (n p q k : Nat) : α :=
  Finset.sum (Finset.range problem_size.R) (fun r =>
    Finset.sum (Finset.range problem_size.S) (fun s =>
      Finset.sum (Finset.range problem_size.C) (fun c =>
        let h : Int := (p : Int) * problem_size.stride_h - problem_size.pad_h
                        + filter_tap problem_size.mode problem_size.R r * problem_size.dilation_h
        let w : Int := (q : Int) * problem_size.stride_w - problem_size.pad_w
                        + filter_tap problem_size.mode problem_size.S s * problem_size.dilation_w
        if h ≥ 0 ∧ h < (problem_size.H : Int) ∧ w ≥ 0 ∧ w < (problem_size.W : Int) then
          tensor_x.val n h w c * tensor_w.val k r s c
        else 0)))

/-- The accumulator of `Conv2dDgrad` for output `(n, h, w, c)`, as a sum over the taps. -/
def dgrad_sum {α : Type} [CommSemiring α] (problem_size : Conv2dProblemSize)
    (tensor_dy tensor_w : Tensor4 α) (n h w c : Nat) : α :=
  Finset.sum (Finset.range problem_size.R) (fun r =>
    Finset.sum (Finset.range problem_size.S) (fun s =>
      Finset.sum (Finset.range problem_size.K) (fun k =>
        let p : Int := (h : Int) + problem_size.pad_h
                        - filter_tap problem_size.mode problem_size.R r * problem_size.dilation_h
        let q : Int := (w : Int) + problem_size.pad_w
                        - filter_tap problem_size.mode problem_size.S s * problem_size.dilation_w
        if p ≥ 0 ∧ Int.tmod p problem_size.stride_h = 0 ∧ q ≥ 0
            ∧ Int.tmod q problem_size.stride_w = 0 then
          if Int.tdiv p problem_size.stride_h < (problem_size.P : Int)
              ∧ Int.tdiv q problem_size.stride_w < (problem_size.Q : Int) then
            tensor_dy.val n (Int.tdiv p problem_size.stride_h) (Int.tdiv q problem_size.stride_w) k
              * tensor_w.val k r s c
          else 0
        else 0)))

/-- The accumulator of `Conv2dWgrad` for output `(k, r, s, c)`, as a sum over the outputs. -/
def wgrad_sum {α : Type} [CommSemiring α] (problem_size : Conv2dProblemSize)
    (tensor_dy tensor_x : Tensor4 α) (k r s c : Nat) : α :=
  Finset.sum (Finset.range problem_size.N) (fun n =>
    Finset.sum (Finset.range problem_size.P) (fun p =>
      Finset.sum (Finset.range problem_size.Q) (fun q =>
        let h : Int := (p : Int) * problem_size.stride_h - problem_size.pad_h
                        + filter_tap problem_size.mode problem_size.R r * problem_size.dilation_h
        let w : Int := (q : Int) * problem_size.stride_w - problem_size.pad_w
                        + filter_tap problem_size.mode problem_size.S s * problem_size.dilation_w
        if h < (problem_size.H : Int) ∧ h ≥ 0 ∧ w < (problem_size.W : Int) ∧ w ≥ 0 then
          tensor_dy.val n p q k * tensor_x.val n h w c
        else 0)))

/-- The problem `small_problem` with the flipped-kernel mode `kConvolution`. -/
def small_problem_flipped : Conv2dProblemSize :=
  { small_problem with mode := Mode.kConvolution }

/-- An output-gradient tensor of the shape of the output of `small_problem`. -/
def small_dy : Tensor4 Int := { val := fun _ p q k => 2 * p - q + 3 + k }

/-- The problem `small_problem` with strides 2 and 2x2 outputs. -/
def small_problem_strided : Conv2dProblemSize :=
  { small_problem with P := 2, Q := 2, stride_h := 2, stride_w := 2 }

/-- The channel group `c = s / filter_pixels` that `compute_offset_fprop` derives from a
reduction step `s`. -/
def step_c (fh_ fw_ s : Nat) : Nat :=
  let filter_pixels := fh_ * fw_
  s / filter_pixels

/-- The sample problem with a 33x1 filter over a 33x5 image: 33 taps, fewer than
`kMaxFilterPixels`. -/
def sample_problem_33x1 : Conv2dProblemSize :=
  { sample_problem with H := 33, R := 33, S := 1 }

/-- The parameter object of the 33x1 sample. -/
def sample_params_33x1 : FpropPrecompParams :=
  FpropPrecompParams.construct sample_traits sample_tile_map sample_layout sample_problem_33x1
    ExtraParam.none_type

/-- The unpadded problem `N=1, C=4, H=5, W=5, K=2, R=3, S=3`, stride 1, padding 0, dilation 1,
`P = Q = 3`. -/
def plain_problem : Conv2dProblemSize :=
  { N := 1, H := 5, W := 5, C := 4, K := 2, R := 3, S := 3, P := 3, Q := 3,
    pad_h := 0, pad_w := 0, stride_h := 1, stride_w := 1, dilation_h := 1, dilation_w := 1,
    mode := Mode.kCrossCorrelation }

/-- One round of the caller's sequence `load, ++` on the `false`-specialisation iterator: the
iterator after `load_with_byte_offset(frag, byte_offset)` followed by `operator++()`. -/
def Conv2dTileSrcIteratorFpropPrecomp_false.load_advance {α : Type} (fill : Nat → α)
    (mem : Int → α) (t : IteratorTraits) (p : FpropPrecompParams_false) (byte_offset : Int)
    (it : Conv2dTileSrcIteratorFpropPrecomp_false) : Conv2dTileSrcIteratorFpropPrecomp_false :=
  ((it.load_with_byte_offset fill mem t p byte_offset).2).advance t p

/-- An instantiation with 4-bit elements in which three tile rows are shared by two thread
rows: `Shape::kStrided = 3`, `Iterations::kStrided = 2`, `Delta::kStrided = 2`. -/
def stripmined_traits_s4 : IteratorTraits :=
  { kStrided := 3, kInterleaved := 64, element := Element.int4b_t, kElementSizeBits := 4,
    kAccessElements := 32, kElementsPerAccess := 32, Iterations_kStrided := 2,
    Iterations_kContiguous := 1, Delta_kStrided := 2, Delta_kContiguous := 32 }

/-- The parameter object of the 4-bit instantiation for a layout whose stride along
`TileMap::kStrideAxis` is 1. -/
def stripmined_params_false : FpropPrecompParams_false :=
  FpropPrecompParams_false.construct stripmined_traits_s4 sample_tile_map sample_layout 1
    sample_problem

/-- The iterator of thread 0 of the 4-bit instantiation, for an extent of six interleaved rows:
its `residue_offset_` is 3. -/
def stripmined_iterator_false : Conv2dTileSrcIteratorFpropPrecomp_false :=
  Conv2dTileSrcIteratorFpropPrecomp_false.construct stripmined_traits_s4
    stripmined_params_false 0 384 0 0 0 0

/-! ## The `Convolution` functor: rounding and clamping

A floating `ScalarType` is modelled by the rationals: the intermediate is the exact value, the
rounding error of the floating-point operations that produce it is not modelled.  Values of an
integer `ElementDst` are integers, embedded in the rationals when stored in a tensor. -/

/-- Modelled from the spec: `cutlass::platform::is_floating_point<T>` of
`cutlass/platform/platform.h`, the "floating intermediate" types: among the element types
here, `float`. -/
def is_floating_point (T : Element) : Bool :=
  match T with
  | Element.float => true
  | _ => false

/-- Modelled from the spec: `cutlass::platform::is_integral<T>` of
`cutlass/platform/platform.h`, the built-in "integer output" types: among the element types
here, `int8_t`, `uint8_t` and `int32_t`. -/
def is_integral (T : Element) : Bool :=
  match T with
  | Element.int8_t => true
  | Element.uint8_t => true
  | Element.int32_t => true
  | _ => false

/-- The trait `detail::need_round<T, S>::value`: `src_float && dst_integer`. -/
def need_round (T S : Element) : Bool :=
  let src_float := is_floating_point S
  let dst_integer := is_integral T || decide (T = Element.int8_t)
    || decide (T = Element.uint8_t) || decide (T = Element.int4b_t)
    || decide (T = Element.uint4b_t)
  src_float && dst_integer

/-- The trait `detail::need_clamp<T>::value`. -/
def need_clamp (T : Element) : Bool :=
  is_integral T || decide (T = Element.int8_t) || decide (T = Element.uint8_t)
    || decide (T = Element.int4b_t) || decide (T = Element.uint4b_t)

/-- Modelled from the spec: `std::round` of `<cmath>`, "rounds to nearest": the nearest
integer, a value "at exactly x.5" going away from zero. -/
def std_round (v : ℚ) : ℚ :=
  ((if 0 ≤ v then ⌊v + 1 / 2⌋ else ⌈v - 1 / 2⌉ : Int) : ℚ)

/-- Modelled from the spec: `platform::numeric_limits<T>::max()`, "the type's min/max", for
the integer element types (0 for the others). -/
def numeric_limits_max (T : Element) : Int :=
  match T with
  | Element.int4b_t => 7
  | Element.uint4b_t => 15
  | Element.int8_t => 127
  | Element.uint8_t => 255
  | Element.int32_t => 2147483647
  | _ => 0

/-- Modelled from the spec: `platform::numeric_limits<T>::lowest()`, "the type's min/max", for
the integer element types (0 for the others). -/
def numeric_limits_lowest (T : Element) : Int :=
  match T with
  | Element.int4b_t => -8
  | Element.int8_t => -128
  | Element.int32_t => -2147483648
  | _ => 0

/-- Modelled from the spec: `NumericConverterClamp<T, S>` of `cutlass/numeric_conversion.h`,
"clamping uses saturating (not wrapping) semantics at the type's min/max": a value below the
lowest representable value gives the lowest, a value above the maximum gives the maximum, and
any other value is converted by `NumericConverter<T, S>`, the argument `convert_op`. -/
def NumericConverterClamp (T : Element) (convert_op : ℚ → Int) (s : ℚ) : Int :=
  let kClamp_max := numeric_limits_max T
  let kClamp_min := numeric_limits_lowest T
  if s < (kClamp_min : ℚ) then kClamp_min
  else if s > (kClamp_max : ℚ) then kClamp_max
  else convert_op s

/-- The functor `Convolution<..., ElementDst, ..., ScalarType, ...>::operator()` with `gamma`
and `tensor_z`: `ConvertOp` is `NumericConverterClamp<ElementDst, ScalarType>` when
`detail::need_clamp<ElementDst>::value` and `NumericConverter<ElementDst, ScalarType>`
otherwise, and the call is forwarded to `compute_convolution`.  The argument
`NumericConverter` is the conversion `NumericConverter<ElementDst, ScalarType>`. -/
def Convolution (ElementDst ScalarType : Element) (NumericConverter : ℚ → Int)
    (conv_param : Conv2dProblemSize) (alpha : ℚ) (tensor_src tensor_filter : Tensor4 ℚ)
    (beta : ℚ) (tensor_bias : Tensor4 ℚ) (gamma : ℚ) (tensor_z tensor_dst : Tensor4 ℚ)
    (initial_accum : ℚ) : Tensor4 ℚ :=
  let ConvertOp : ℚ → ℚ :=
    if need_clamp ElementDst then
      fun s => ((NumericConverterClamp ElementDst NumericConverter s : Int) : ℚ)
    else fun s => ((NumericConverter s : Int) : ℚ)
  compute_convolution (need_round ElementDst ScalarType) std_round ConvertOp conv_param alpha
    tensor_src tensor_filter beta tensor_bias gamma tensor_z tensor_dst initial_accum

/-- The tensor of rationals with the entries of an integer tensor. -/
def Tensor4.toRat (T : Tensor4 Int) : Tensor4 ℚ :=
  { val := fun a b c d => ((T.val a b c d : Int) : ℚ) }

/-- The functor `Deconvolution<...>::operator()(problem_size, alpha, tensor_src, tensor_filter,
beta, tensor_bias, gamma, tensor_z, tensor_dst, initial_accum)`: the final contents of
`tensor_dst`.  `need_round` is `detail::need_round<ElementDst, ScalarType>::value`, `round`
stands for `std::round`, and the default-constructed `ElementBias()`, `ElementDst()`,
`ScalarType()` are 0. -/
def Deconvolution {α : Type} [Zero α] [Add α] [Mul α] [DecidableEq α]
    (need_round : Bool) (round convert_op : α → α)
    (problem_size : Conv2dProblemSize) (alpha : α) (tensor_src tensor_filter : Tensor4 α)
    (beta : α) (tensor_bias : Tensor4 α) (gamma : α) (tensor_z tensor_dst : Tensor4 α)
    (initial_accum : α) : Tensor4 α :=
  forLoop problem_size.N (fun n dst =>
    forLoop problem_size.H (fun h dst =>
      forLoop problem_size.W (fun w dst =>
        forLoop problem_size.C (fun c dst =>
          let acc : α :=
            forLoop problem_size.R (fun r acc =>
              forLoop problem_size.S (fun s acc =>
                forLoop problem_size.K (fun k acc =>
                  let filter_r : Int :=
                    if problem_size.mode = Mode.kConvolution then
                      (problem_size.R : Int) - 1 - (r : Int) else (r : Int)
                  let filter_s : Int :=
                    if problem_size.mode = Mode.kConvolution then
                      (problem_size.S : Int) - 1 - (s : Int) else (s : Int)
                  let p : Int := (h : Int) + problem_size.pad_h
                                  - filter_r * problem_size.dilation_h
                  let q : Int := (w : Int) + problem_size.pad_w
                                  - filter_s * problem_size.dilation_w
                  if p ≥ 0 ∧ Int.tmod p problem_size.stride_h = 0 ∧ q ≥ 0
                      ∧ Int.tmod q problem_size.stride_w = 0 then
                    let p := Int.tdiv p problem_size.stride_h
                    let q := Int.tdiv q problem_size.stride_w
                    if p < (problem_size.P : Int) ∧ q < (problem_size.Q : Int) then
                      let a := tensor_src.val n p q k
                      let b := tensor_filter.val k r s c
                      multiply_add a b acc
                    else acc
                  else acc) acc) acc) initial_accum
          let bias_ref : α := if beta ≠ 0 then tensor_bias.val 0 0 0 c else 0
          let c_ref : α := if gamma ≠ 0 then tensor_z.val n h w c else 0
          let intermediate : α := alpha * acc + beta * bias_ref + gamma * c_ref
          let intermediate : α := if need_round then round intermediate else intermediate
          dst.set n h w c (convert_op intermediate)) dst) dst) dst) tensor_dst

/-- A tensor of rank 5, given by its elements: `val n a b c d` is `tensor.at({n, a, b, c, d})`. -/
structure Tensor5 (α : Type) where
  val : Int → Int → Int → Int → Int → α

/-- The accumulation phase of one `(n_block, oc_block, oh, ow)` iteration of
`compute_batch_convolution`: as in `compute_convolution`, the filter being read at
`(n, oc, fh, fw, ic)`. -/
def compute_batch_convolution_accum {α : Type} [Zero α] [Add α] [Mul α]
    (conv_param : Conv2dProblemSize) (tensor_src : Tensor4 α) (tensor_filter : Tensor5 α)
    (initial_accum : α) (n_block oc_block oh ow : Nat) : List α :=
  let ih_base : Int := (oh : Int) * conv_param.stride_h - conv_param.pad_h
  let iw_base : Int := (ow : Int) * conv_param.stride_w - conv_param.pad_w
  forLoop conv_param.R (fun fh accum =>
    forLoop conv_param.S (fun fw accum =>
      forLoop conv_param.C (fun ic accum =>
        forLoop Nblock (fun j accum =>
          forLoop Mblock (fun i accum =>
            let n := n_block + j
            let oc := oc_block + i
            let ih : Int := ih_base + (fh : Int)
            let iw : Int := iw_base + (fw : Int)
            if n < conv_param.N ∧ oc < conv_param.K then
              let src : α :=
                if src_in_bounds conv_param.H conv_param.W ih iw then tensor_src.val n ih iw ic
                else 0
              let filter : α := tensor_filter.val n oc fh fw ic
              accum_set accum i j (multiply_add filter src (accum_get accum i j))
            else accum) accum) accum) accum) accum)
    (List.replicate (Mblock * Nblock) initial_accum)

/-- The function `compute_batch_convolution(conv_param, alpha, tensor_src, tensor_filter, beta,
tensor_bias, gamma, tensor_z, tensor_dst, initial_accum)`, whose filter has rank 5: the final
contents of `tensor_dst`. -/
def compute_batch_convolution {α : Type} [Zero α] [Add α] [Mul α]
    (need_round : Bool) (round convert_op : α → α)
    (conv_param : Conv2dProblemSize) (alpha : α) (tensor_src : Tensor4 α)
    (tensor_filter : Tensor5 α)
    (beta : α) (tensor_bias : Tensor4 α) (gamma : α) (tensor_z tensor_dst : Tensor4 α)
    (initial_accum : α) : Tensor4 α :=
  forStep conv_param.N Nblock (fun n_block dst =>
    forStep conv_param.K Mblock (fun oc_block dst =>
      forLoop conv_param.P (fun oh dst =>
        forLoop conv_param.Q (fun ow dst =>
          let accum := compute_batch_convolution_accum conv_param tensor_src tensor_filter
            initial_accum n_block oc_block oh ow
          forLoop Nblock (fun j dst =>
            forLoop Mblock (fun i dst =>
              let n := n_block + j
              let oc := oc_block + i
              if n < conv_param.N ∧ oc < conv_param.K then
                let intermediate : α :=
                  alpha * accum_get accum i j + beta * tensor_bias.val 0 0 0 oc
                    + gamma * tensor_z.val n oh ow oc
                let intermediate : α := if need_round then round intermediate else intermediate
                dst.set n oh ow oc (convert_op intermediate)
              else dst) dst) dst) dst) dst) dst) tensor_dst

/-- The rank-5 filter that repeats `small_filter` for every batch index. -/
def small_filter5 : Tensor5 Int :=
  { val := fun _ oc fh fw ic => small_filter.val oc fh fw ic }

/-- The parameter object of the precomputed sample iterator: 8-bit elements, no extra
parameter. -/
def sample_params_precomp : FpropPrecompParams :=
  FpropPrecompParams.construct sample_traits sample_tile_map sample_layout sample_problem
    ExtraParam.none_type

/-- The precomputed iterator of thread 0 of the sample, on its residue tile. -/
def sample_iterator_precomp : Conv2dTileSrcIteratorFpropPrecomp :=
  Conv2dTileSrcIteratorFpropPrecomp.construct sample_traits sample_params_precomp 0 108 0 0 0 0

/-- The coordinate `params_(LogicalCoord{thread_offset.row() * kInterleaved, col_offset /
kInterleaved})` of access `access_idx` in `initialize_predicate_and_pointers_` of the `false`
specialisation. -/
def access_coord_false (t : IteratorTraits) (p : FpropPrecompParams_false)
    (thread_offset_row thread_offset_column : Nat) (access_idx : Nat) : TensorCoord :=
  let c := access_idx / t.kAccessesPerVector
  let v := access_idx % t.kAccessesPerVector
  let col_offset := c * t.Delta_kContiguous + v * t.kAccessElements + thread_offset_column
  p.apply { row := ((thread_offset_row * t.kInterleaved : Nat) : Int),
            column := ((col_offset / t.kInterleaved : Nat) : Int) }

/-- The guard `coord.n() < params_.n_ && coord.h() >= 0 && coord.h() < params_.hi_ &&
coord.w() >= 0 && coord.w() < params_.wi_` of `initialize_predicate_and_pointers_` of the
`false` specialisation. -/
def coord_guard_false (p : FpropPrecompParams_false) (coord : TensorCoord) : Bool :=
  decide (coord.n < (p.n_ : Int) ∧ coord.h ≥ 0 ∧ coord.h < (p.hi_ : Int) ∧ coord.w ≥ 0
    ∧ coord.w < (p.wi_ : Int))

/-- The sample problem with a 1x1 filter and no padding. -/
def sample_problem_1x1 : Conv2dProblemSize :=
  { sample_problem with R := 1, S := 1, pad_h := 0, pad_w := 0 }

/-! ## `DefaultConvolution2dFprop` and `DefaultConvolution2dDgrad`: the threadblock mainloop -/

/-- The threadblock-scoped matrix-multiply templates of `cutlass::conv::threadblock` that the
default kernel configurations name. -/
inductive MmaTemplate where
  | MmaNtSingleStage
  | MmaNtPipelined
  | MmaNtPrecompSingleStage
  | MmaNtPrecompPipelined
  | MmaTnPrecompSingleStage
  | MmaTnPrecompPipelined
  deriving DecidableEq, Repr

/-- Modelled from the spec: `cutlass::platform::conditional<B, T, F>::type` of
`cutlass/platform/platform.h`, the counterpart of `std::conditional`: `T` when `B` holds and `F`
otherwise. -/
def platform_conditional {τ : Type} (B : Bool) (T F : τ) : τ :=
  if B then T else F

/-- The partial specialisations of `DefaultConvolution2dFprop` in `default_conv2d_fprop.h`, in
the order of the file: SIMT DP4A; NCHW4; CHWN4; NCHW32; NCHW32 with `GEMM_TN` and
`WithoutSharedLoad`; int4b_t NCHW64; int4b_t NCHW64 with `GEMM_TN` and `WithoutSharedLoad`;
NCHW32 with `TensorNCxHWx<4>` destination; int4b_t NHWC with `GEMM_TN`. -/
inductive DefaultConvolution2dFprop where
  | SimtDp4a
  | SimtNCHW4
  | TensorOpCHWN4
  | TensorOpNCHW32
  | TensorOpNCHW32_TN
  | TensorOpNCHW64
  | TensorOpNCHW64_TN
  | TensorOpNCHW32_DstNCHW4
  | TensorOpNHWC_TN
  deriving DecidableEq, Repr

/-- The member `MmaPipelineSingleStage` of a specialisation, if it defines one. -/
def DefaultConvolution2dFprop.MmaPipelineSingleStage :
    DefaultConvolution2dFprop → Option MmaTemplate
  | .SimtDp4a => some MmaTemplate.MmaNtSingleStage
  | .SimtNCHW4 => some MmaTemplate.MmaNtPrecompSingleStage
  | .TensorOpCHWN4 => none
  | .TensorOpNCHW32 => some MmaTemplate.MmaNtPrecompSingleStage
  | .TensorOpNCHW32_TN => some MmaTemplate.MmaTnPrecompSingleStage
  | .TensorOpNCHW64 => some MmaTemplate.MmaNtPrecompSingleStage
  | .TensorOpNCHW64_TN => some MmaTemplate.MmaTnPrecompSingleStage
  | .TensorOpNCHW32_DstNCHW4 => some MmaTemplate.MmaNtPrecompSingleStage
  | .TensorOpNHWC_TN => some MmaTemplate.MmaTnPrecompSingleStage

/-- The member `MmaPipelineTwoStages` of a specialisation, if it defines one. -/
def DefaultConvolution2dFprop.MmaPipelineTwoStages :
    DefaultConvolution2dFprop → Option MmaTemplate
  | .SimtDp4a => some MmaTemplate.MmaNtPipelined
  | .SimtNCHW4 => some MmaTemplate.MmaNtPrecompPipelined
  | .TensorOpCHWN4 => none
  | .TensorOpNCHW32 => some MmaTemplate.MmaNtPrecompPipelined
  | .TensorOpNCHW32_TN => some MmaTemplate.MmaTnPrecompPipelined
  | .TensorOpNCHW64 => some MmaTemplate.MmaNtPrecompPipelined
  | .TensorOpNCHW64_TN => some MmaTemplate.MmaTnPrecompPipelined
  | .TensorOpNCHW32_DstNCHW4 => some MmaTemplate.MmaNtPrecompPipelined
  | .TensorOpNHWC_TN => some MmaTemplate.MmaTnPrecompPipelined

/-- The member `Mma` of a specialisation instantiated with the template argument `Stages`:
`platform::conditional<(kStages == 1), MmaPipelineSingleStage, MmaPipelineTwoStages>::type`
with `kStages = Stages`, except in the CHWN4 specialisation, which matches `Stages = 2` only
and names `MmaNtPipelined` directly. -/
def DefaultConvolution2dFprop.Mma (spec : DefaultConvolution2dFprop) (Stages : Int) :
    Option MmaTemplate :=
  let kStages := Stages
  match spec with
  | .SimtDp4a =>
      some (platform_conditional (decide (kStages = 1)) MmaTemplate.MmaNtSingleStage
        MmaTemplate.MmaNtPipelined)
  | .SimtNCHW4 =>
      some (platform_conditional (decide (kStages = 1)) MmaTemplate.MmaNtPrecompSingleStage
        MmaTemplate.MmaNtPrecompPipelined)
  | .TensorOpCHWN4 => if Stages = 2 then some MmaTemplate.MmaNtPipelined else none
  | .TensorOpNCHW32 =>
      some (platform_conditional (decide (kStages = 1)) MmaTemplate.MmaNtPrecompSingleStage
        MmaTemplate.MmaNtPrecompPipelined)
  | .TensorOpNCHW32_TN =>
      some (platform_conditional (decide (kStages = 1)) MmaTemplate.MmaTnPrecompSingleStage
        MmaTemplate.MmaTnPrecompPipelined)
  | .TensorOpNCHW64 =>
      some (platform_conditional (decide (kStages = 1)) MmaTemplate.MmaNtPrecompSingleStage
        MmaTemplate.MmaNtPrecompPipelined)
  | .TensorOpNCHW64_TN =>
      some (platform_conditional (decide (kStages = 1)) MmaTemplate.MmaTnPrecompSingleStage
        MmaTemplate.MmaTnPrecompPipelined)
  | .TensorOpNCHW32_DstNCHW4 =>
      some (platform_conditional (decide (kStages = 1)) MmaTemplate.MmaNtPrecompSingleStage
        MmaTemplate.MmaNtPrecompPipelined)
  | .TensorOpNHWC_TN =>
      some (platform_conditional (decide (kStages = 1)) MmaTemplate.MmaTnPrecompSingleStage
        MmaTemplate.MmaTnPrecompPipelined)

/-- The partial specialisations of `DefaultConvolution2dDgrad` in `default_conv2d_dgrad.h`:
NCHW4; NCHW32; NCHW32 with `TensorNCxHWx<4>` destination. -/
inductive DefaultConvolution2dDgrad where
  | SimtNCHW4
  | TensorOpNCHW32
  | TensorOpNCHW32_DstNCHW4
  deriving DecidableEq, Repr

/-- The member `MmaPipelineSingleStage` of a Dgrad specialisation, if it defines one. -/
def DefaultConvolution2dDgrad.MmaPipelineSingleStage :
    DefaultConvolution2dDgrad → Option MmaTemplate
  | .SimtNCHW4 => some MmaTemplate.MmaNtPrecompSingleStage
  | .TensorOpNCHW32 => none
  | .TensorOpNCHW32_DstNCHW4 => none

/-- The member `MmaPipelineTwoStages` of a Dgrad specialisation, if it defines one. -/
def DefaultConvolution2dDgrad.MmaPipelineTwoStages :
    DefaultConvolution2dDgrad → Option MmaTemplate
  | .SimtNCHW4 => some MmaTemplate.MmaNtPrecompPipelined
  | .TensorOpNCHW32 => none
  | .TensorOpNCHW32_DstNCHW4 => none

/-- The member `Mma` of a Dgrad specialisation instantiated with `Stages`; the two NCHW32
specialisations match `Stages = 2` only and name `MmaNtPrecompPipelined` directly. -/
def DefaultConvolution2dDgrad.Mma (spec : DefaultConvolution2dDgrad) (Stages : Int) :
    Option MmaTemplate :=
  let kStages := Stages
  match spec with
  | .SimtNCHW4 =>
      some (platform_conditional (decide (kStages = 1)) MmaTemplate.MmaNtPrecompSingleStage
        MmaTemplate.MmaNtPrecompPipelined)
  | .TensorOpNCHW32 => if Stages = 2 then some MmaTemplate.MmaNtPrecompPipelined else none
  | .TensorOpNCHW32_DstNCHW4 =>
      if Stages = 2 then some MmaTemplate.MmaNtPrecompPipelined else none

/-- A problem whose images have `2^29` pixels: with 4-element interleaving and 8-bit elements
the byte offset of the second channel group is `2^31`. -/
def overflow_problem : Conv2dProblemSize :=
  { sample_problem with R := 1, S := 1, H := 32768, W := 16384, pad_h := 0, pad_w := 0 }

/-- A problem with 28 channels whose images have `2^27` pixels. -/
def overflow_problem_rewind : Conv2dProblemSize :=
  { overflow_problem with C := 28, H := 16384, W := 8192 }

/-! # Properties

Everything below is a statement about the definitions above. -/

/-! ## Lemmas on the table -/

theorem table_loop_length (f g : Nat → Int) (s n : Nat) :
    (table_loop f g s n).length = 2 * n := by
  induction n generalizing s with
  | zero => rfl
  | succ k ih => simp [table_loop, ih]; omega

theorem table_loop_getD_even (f g : Nat → Int) (s n i : Nat) (d : Int) (h : i < n) :
    (table_loop f g s n).getD (2 * i) d = f (s + i) := by
  induction n generalizing s i with
  | zero => omega
  | succ k ih =>
    cases i with
    | zero => simp [table_loop]
    | succ i =>
      have e : 2 * (i + 1) = (2 * i + 1) + 1 := by omega
      rw [table_loop, e, List.getD_cons_succ, List.getD_cons_succ, ih (s + 1) i (by omega)]
      congr 1; omega

theorem table_loop_getD_odd (f g : Nat → Int) (s n i : Nat) (d : Int) (h : i < n) :
    (table_loop f g s n).getD (2 * i + 1) d = g (s + i) := by
  induction n generalizing s i with
  | zero => omega
  | succ k ih =>
    cases i with
    | zero => simp [table_loop]
    | succ i =>
      have e : 2 * (i + 1) + 1 = ((2 * i + 1) + 1) + 1 := by omega
      rw [table_loop, e, List.getD_cons_succ, List.getD_cons_succ, ih (s + 1) i (by omega)]
      congr 1; omega

theorem getD_append_right_of_le {α : Type} (l l2 : List α) (d : α) (n : Nat)
    (h : l.length ≤ n) : (l ++ l2).getD n d = l2.getD (n - l.length) d := by
  simp [List.getD_eq_getElem?_getD, List.getElem?_append_right h]

theorem offset_table_length (off taps : Nat → Int) (K RS r : Nat) :
    (offset_table off taps K RS r).length = 2 * ((2 + RS) * K) := by
  simp only [offset_table, List.length_append, table_loop_length]
  have : 2 * K ≤ (2 + RS) * K := Nat.mul_le_mul_right K (by omega)
  omega

theorem compute_offset_fprop_length (K kI bits R S H W r : Nat) :
    (compute_offset_fprop K kI bits R S H W r).length = 2 * ((2 + R * S) * K) :=
  offset_table_length _ _ K (R * S) r

/-- Word `2 * idx` of the table: the absolute offset in the first segment, the residue delta in
the second, the steady-state delta afterwards. -/
theorem offset_table_offset_word (off taps : Nat → Int) (K RS r idx : Nat)
    (h : idx < (2 + RS) * K) :
    (offset_table off taps K RS r).getD (2 * idx) 0 =
      if idx < K then off idx
      else if idx < 2 * K then int32 (off (idx - K + r) - off (idx - K))
      else int32 (off (idx - K + r) - off (idx - K + r - K)) := by
  simp only [offset_table]
  by_cases h1 : idx < K
  · rw [if_pos h1, List.append_assoc, List.getD_append _ _ _ _ (by rw [table_loop_length]; omega),
      table_loop_getD_even _ _ _ _ _ _ h1]
    simp
  · rw [if_neg h1, List.append_assoc,
      getD_append_right_of_le _ _ _ _ (by rw [table_loop_length]; omega), table_loop_length]
    by_cases h2 : idx < 2 * K
    · rw [if_pos h2, List.getD_append _ _ _ _ (by rw [table_loop_length]; omega)]
      have e : 2 * idx - 2 * K = 2 * (idx - K) := by omega
      rw [e, table_loop_getD_even _ _ _ _ _ _ (by omega)]
      have e2 : K + (idx - K) = idx := by omega
      simp only [e2, Nat.add_sub_cancel]
    · rw [if_neg h2, getD_append_right_of_le _ _ _ _ (by rw [table_loop_length]; omega),
        table_loop_length]
      have e : 2 * idx - 2 * K - 2 * (2 * K - K) = 2 * (idx - 2 * K) := by omega
      rw [e, table_loop_getD_even _ _ _ _ _ _ (by omega)]
      have e2 : 2 * K + (idx - 2 * K) = idx := by omega
      simp only [e2]

/-- A value inside the 32-bit range is unchanged by the reduction. -/
theorem int32_of_range (x : Int) (h1 : -2147483648 ≤ x) (h2 : x < 2147483648) :
    int32 x = x := by
  unfold int32
  omega

/-- The reduction always lands in the 32-bit range. -/
theorem int32_range (x : Int) : -2147483648 ≤ int32 x ∧ int32 x < 2147483648 := by
  unfold int32
  omega

theorem offset_numerator_eq (kI bits R S H W t : Nat) :
    offset_numerator kI bits R S H W t
      = (t / (R * S) * H * W + t % (R * S) / S * W + t % (R * S) % S) * kI * bits := by
  simp only [offset_numerator]
  have e1 : t - R * S * (t / (R * S)) = t % (R * S) := by
    rw [Nat.mod_def]
  have e2 : t % (R * S) - S * (t % (R * S) / S) = t % (R * S) % S := by
    rw [Nat.mod_def (t % (R * S)) S]
  rw [e1, e2]
  ring

/-- Where the numerator does not overflow, the byte offset of the source is the directly
computed offset. -/
theorem step_offset_eq_direct_offset (kI bits R S H W t : Nat)
    (h : offset_numerator kI bits R S H W t < 2147483648) :
    step_offset kI bits R S H W t = ((direct_offset kI bits R S H W t : Nat) : Int) := by
  have hd : direct_offset kI bits R S H W t = offset_numerator kI bits R S H W t / 8 := by
    rw [offset_numerator_eq]
    rfl
  rw [step_offset, int32_of_range _ (by omega) (by omega), hd,
    Int.tdiv_eq_ediv (by omega) (by norm_num)]
  norm_cast

/-! ## Lemmas on the advancing iterator -/

theorem getD_map_range {α : Type} (f : Nat → α) (m s : Nat) (d : α) (h : s < m) :
    ((List.range m).map f).getD s d = f s := by
  simp [List.getD_eq_getElem?_getD, List.getElem?_map, List.getElem?_range h]

theorem word_two_mul (p : FpropPrecompParams) (a b : Nat) :
    p.word (2 * ((a : Int) + ((b : Nat) : Int))) = p.constant_offset_.getD (2 * (a + b)) 0 := by
  have e : (2 * ((a : Int) + ((b : Nat) : Int))) = (((2 * (a + b) : Nat)) : Int) := by
    push_cast; ring
  rw [FpropPrecompParams.word, e, Int.toNat_natCast]

theorem advance_constant_offset (t : IteratorTraits) (p : FpropPrecompParams)
    (it : Conv2dTileSrcIteratorFpropPrecomp) :
    (it.advance t p).constant_offset_ =
      if it.constant_offset_ < p.constant_offset_max_ then
        it.constant_offset_ + (t.kStrided : Int)
      else it.constant_offset_ + p.constant_offset_rewind_ := rfl

theorem advance_strided (t : IteratorTraits) (p : FpropPrecompParams)
    (it : Conv2dTileSrcIteratorFpropPrecomp) (s : Nat) (hs : s < t.Iterations_kStrided) :
    (it.advance t p).strided_.getD s 0 =
      int32 (it.strided_.getD s 0
        + p.word (2 * ((it.advance t p).constant_offset_
                        + ((s * t.Delta_kStrided : Nat) : Int)))) := by
  simp only [Conv2dTileSrcIteratorFpropPrecomp.advance]
  rw [getD_map_range _ _ _ _ hs]

/-- While the index has not reached `constant_offset_max_`, each advance adds `kStrided`. -/
theorem iterate_constant_offset_ramp (t : IteratorTraits) (p : FpropPrecompParams)
    (it0 : Conv2dTileSrcIteratorFpropPrecomp) (RS j0 n : Nat)
    (hM : p.constant_offset_max_ = (((1 + RS) * t.kStrided : Nat) : Int))
    (hc : it0.constant_offset_ = (j0 : Int)) (hj0 : j0 < t.kStrided) (hn : n ≤ RS + 1) :
    ((Conv2dTileSrcIteratorFpropPrecomp.advance t p)^[n] it0).constant_offset_
      = ((j0 + n * t.kStrided : Nat) : Int) := by
  induction n with
  | zero => simpa using hc
  | succ k ih =>
    rw [Function.iterate_succ_apply', advance_constant_offset, ih (by omega), hM]
    have hlt : j0 + k * t.kStrided < (1 + RS) * t.kStrided := by
      calc j0 + k * t.kStrided < t.kStrided + k * t.kStrided := by omega
        _ = (1 + k) * t.kStrided := by ring
        _ ≤ (1 + RS) * t.kStrided := Nat.mul_le_mul_right _ (by omega)
    rw [if_pos (by exact_mod_cast hlt)]
    push_cast; ring

theorem ramp_index_le (RS n : Nat) (hRS : 0 < RS) : ramp_index RS n ≤ RS + 1 := by
  unfold ramp_index
  split
  · omega
  · have := Nat.mod_lt (n - 2) hRS
    omega

theorem ramp_index_succ (RS n : Nat) (hRS : 0 < RS) :
    ramp_index RS (n + 1) = if ramp_index RS n ≤ RS then ramp_index RS n + 1 else 2 := by
  unfold ramp_index
  by_cases h0 : n < 1
  · have : n = 0 := by omega
    subst this
    simp
  · by_cases h1 : n < 2
    · have : n = 1 := by omega
      subst this
      simp
    · have hlt := Nat.mod_lt (n - 2) hRS
      have hdm := Nat.div_add_mod (n - 2) RS
      have e : n + 1 - 2 = (n - 2) + 1 := by omega
      rw [if_neg (by omega), if_neg h1, e]
      by_cases hc : (n - 2) % RS + 1 < RS
      · rw [if_pos (by omega)]
        have : ((n - 2) + 1) % RS = (n - 2) % RS + 1 := by
          rw [Nat.add_mod, Nat.mod_eq_of_lt (a := 1) (by omega), Nat.mod_eq_of_lt hc]
        omega
      · rw [if_neg (by omega)]
        have : ((n - 2) + 1) % RS = 0 := by
          have e2 : (n - 2) + 1 = RS * ((n - 2) / RS + 1) := by
            rw [Nat.mul_add, Nat.mul_one]; omega
          rw [e2, Nat.mul_mod_right]
        omega

/-- The index `constant_offset_` after any number of advances. -/
theorem iterate_constant_offset (t : IteratorTraits) (p : FpropPrecompParams)
    (it0 : Conv2dTileSrcIteratorFpropPrecomp) (RS j0 n : Nat)
    (hM : p.constant_offset_max_ = (((1 + RS) * t.kStrided : Nat) : Int))
    (hR : p.constant_offset_rewind_ = (t.kStrided : Int) * (1 - ((RS : Nat) : Int)))
    (hc : it0.constant_offset_ = (j0 : Int)) (hj0 : j0 < t.kStrided) (hRS : 0 < RS) :
    ((Conv2dTileSrcIteratorFpropPrecomp.advance t p)^[n] it0).constant_offset_
      = ((j0 + ramp_index RS n * t.kStrided : Nat) : Int) := by
  induction n with
  | zero => simpa [ramp_index] using hc
  | succ k ih =>
    rw [Function.iterate_succ_apply', advance_constant_offset, ih, hM, hR,
      ramp_index_succ RS k hRS]
    have hle := ramp_index_le RS k hRS
    by_cases hc2 : ramp_index RS k ≤ RS
    · have hlt : j0 + ramp_index RS k * t.kStrided < (1 + RS) * t.kStrided := by
        calc j0 + ramp_index RS k * t.kStrided
            < t.kStrided + ramp_index RS k * t.kStrided := by omega
          _ = (1 + ramp_index RS k) * t.kStrided := by ring
          _ ≤ (1 + RS) * t.kStrided := Nat.mul_le_mul_right _ (by omega)
      rw [if_pos (by exact_mod_cast hlt), if_pos hc2]
      push_cast; ring
    · have heq : ramp_index RS k = RS + 1 := by omega
      have hge : ¬ (j0 + ramp_index RS k * t.kStrided < (1 + RS) * t.kStrided) := by
        rw [heq]
        have : (RS + 1) * t.kStrided = (1 + RS) * t.kStrided := by ring
        omega
      rw [if_neg (by exact_mod_cast hge), if_neg hc2, heq]
      push_cast; ring

theorem one_le_ramp_index_succ (RS n : Nat) : 1 ≤ ramp_index RS (n + 1) := by
  unfold ramp_index
  split <;> omega

theorem lane_step_mono (K r j : Nat) {m n : Nat} (h : m ≤ n) :
    lane_step K r j m ≤ lane_step K r j n := by
  unfold lane_step
  have hmul : (m - 1) * K ≤ (n - 1) * K := Nat.mul_le_mul_right K (by omega)
  split_ifs <;> omega

/-- After `n ≤ N` advances the accumulated `strided_` entry is the offset `off` of the lane's
current reduction step, for a table built from any offset expression `off` whose values up to
step `tmax` lie in the non-negative 32-bit range and which moves by a fixed amount per channel
group on the steps reached after a rewind. -/
theorem iterate_strided (t : IteratorTraits) (p : FpropPrecompParams)
    (it0 : Conv2dTileSrcIteratorFpropPrecomp) (off taps : Nat → Int) (D : Int)
    (RS r j0 s N tmax : Nat)
    (hT : p.constant_offset_ = offset_table off taps t.kStrided RS r)
    (hM : p.constant_offset_max_ = (((1 + RS) * t.kStrided : Nat) : Int))
    (hR : p.constant_offset_rewind_ = (t.kStrided : Int) * (1 - ((RS : Nat) : Int)))
    (hc : it0.constant_offset_ = (j0 : Int))
    (hst : it0.strided_ = (List.range t.Iterations_kStrided).map (fun s =>
      p.word (2 * (it0.constant_offset_ + ((s * t.Delta_kStrided : Nat) : Int)))))
    (hs : s < t.Iterations_kStrided) (hj : j0 + s * t.Delta_kStrided < t.kStrided)
    (hRS : 0 < RS)
    (hrange : ∀ u, u ≤ tmax → 0 ≤ off u ∧ off u < 2147483648)
    (hper : ∀ u m : Nat, m + 2 ≤ N → u + (m / RS * t.kStrided) * RS ≤ tmax →
      off (u + (m / RS * t.kStrided) * RS)
        = off u + ((m / RS * t.kStrided : Nat) : Int) * D)
    (hmax : lane_step t.kStrided r (j0 + s * t.Delta_kStrided) N ≤ tmax)
    (n : Nat) (hn : n ≤ N) :
    ((Conv2dTileSrcIteratorFpropPrecomp.advance t p)^[n] it0).strided_.getD s 0
      = off (lane_step t.kStrided r (j0 + s * t.Delta_kStrided) n) := by
  have hj0 : j0 < t.kStrided := by omega
  induction n with
  | zero =>
    rw [Function.iterate_zero, id, hst, getD_map_range _ _ _ _ hs, hc, word_two_mul, hT,
      offset_table_offset_word _ _ _ _ _ _
        (by calc j0 + s * t.Delta_kStrided < t.kStrided := hj
              _ ≤ (2 + RS) * t.kStrided := Nat.le_mul_of_pos_left _ (by omega)),
      if_pos hj]
    simp [lane_step]
  | succ k ih =>
    rw [Function.iterate_succ_apply', advance_strided _ _ _ _ hs, ih (by omega),
      ← Function.iterate_succ_apply' (Conv2dTileSrcIteratorFpropPrecomp.advance t p),
      iterate_constant_offset t p it0 RS j0 (k + 1) hM hR hc hj0 hRS, word_two_mul, hT]
    have hle := ramp_index_le RS (k + 1) hRS
    have hge1 := one_le_ramp_index_succ RS k
    have hidx : j0 + ramp_index RS (k + 1) * t.kStrided + s * t.Delta_kStrided
        < (2 + RS) * t.kStrided := by
      calc j0 + ramp_index RS (k + 1) * t.kStrided + s * t.Delta_kStrided
          < t.kStrided + ramp_index RS (k + 1) * t.kStrided := by omega
        _ = (1 + ramp_index RS (k + 1)) * t.kStrided := by ring
        _ ≤ (2 + RS) * t.kStrided := Nat.mul_le_mul_right _ (by omega)
    rw [offset_table_offset_word _ _ _ _ _ _ hidx]
    have hge : ¬ (j0 + ramp_index RS (k + 1) * t.kStrided + s * t.Delta_kStrided
        < t.kStrided) := by
      have : t.kStrided ≤ ramp_index RS (k + 1) * t.kStrided :=
        Nat.le_mul_of_pos_left _ (by omega)
      omega
    rw [if_neg hge]
    have hk1 : lane_step t.kStrided r (j0 + s * t.Delta_kStrided) (k + 1) ≤ tmax :=
      le_trans (lane_step_mono _ _ _ hn) hmax
    have hk0 : lane_step t.kStrided r (j0 + s * t.Delta_kStrided) k ≤ tmax :=
      le_trans (lane_step_mono _ _ _ (by omega)) hmax
    have r1 := hrange _ hk1
    have r0 := hrange _ hk0
    cases k with
    | zero =>
      have e0 : ramp_index RS (0 + 1) = 1 := by simp [ramp_index]
      rw [e0]
      have h2 : j0 + 1 * t.kStrided + s * t.Delta_kStrided < 2 * t.kStrided := by omega
      rw [if_pos h2]
      have e1 : j0 + 1 * t.kStrided + s * t.Delta_kStrided - t.kStrided
          = j0 + s * t.Delta_kStrided := by omega
      rw [e1]
      have ea : lane_step t.kStrided r (j0 + s * t.Delta_kStrided) 0
          = j0 + s * t.Delta_kStrided := by simp [lane_step]
      have eb : lane_step t.kStrided r (j0 + s * t.Delta_kStrided) (0 + 1)
          = j0 + s * t.Delta_kStrided + r := by simp [lane_step]
      rw [ea] at r0 ⊢
      rw [eb] at r1 ⊢
      rw [int32_of_range (off (j0 + s * t.Delta_kStrided + r)
          - off (j0 + s * t.Delta_kStrided)) (by omega) (by omega),
        int32_of_range _ (by omega) (by omega)]
      ring
    | succ k =>
      have e0 : ramp_index RS (k + 1 + 1) = 2 + k % RS := by simp [ramp_index]
      rw [e0]
      have hk : 2 * t.kStrided ≤ (2 + k % RS) * t.kStrided :=
        Nat.mul_le_mul_right _ (by omega)
      have h2 : ¬ (j0 + (2 + k % RS) * t.kStrided + s * t.Delta_kStrided
          < 2 * t.kStrided) := by omega
      rw [if_neg h2]
      have em : (2 + k % RS) * t.kStrided
          = (k % RS) * t.kStrided + t.kStrided + t.kStrided := by ring
      have e1 : j0 + (2 + k % RS) * t.kStrided + s * t.Delta_kStrided - t.kStrided + r
          = j0 + s * t.Delta_kStrided + (k % RS) * t.kStrided + t.kStrided + r := by
        omega
      have e2 : j0 + s * t.Delta_kStrided + (k % RS) * t.kStrided + t.kStrided + r
            - t.kStrided
          = j0 + s * t.Delta_kStrided + (k % RS) * t.kStrided + r := by omega
      rw [e1, e2]
      have hdm := Nat.div_add_mod k RS
      have ea : lane_step t.kStrided r (j0 + s * t.Delta_kStrided) (k + 1)
          = (j0 + s * t.Delta_kStrided + (k % RS) * t.kStrided + r)
            + (k / RS * t.kStrided) * RS := by
        simp only [lane_step, Nat.succ_ne_zero, if_false, Nat.add_sub_cancel,
          Nat.add_eq_zero, one_ne_zero, and_false]
        nth_rewrite 1 [← hdm]
        ring
      have eb : lane_step t.kStrided r (j0 + s * t.Delta_kStrided) (k + 1 + 1)
          = (j0 + s * t.Delta_kStrided + (k % RS) * t.kStrided + t.kStrided + r)
            + (k / RS * t.kStrided) * RS := by
        simp only [lane_step, Nat.succ_ne_zero, if_false, Nat.add_sub_cancel,
          Nat.add_eq_zero, one_ne_zero, and_false]
        nth_rewrite 1 [← hdm]
        ring
      rw [ea] at r0 hk0 ⊢
      rw [eb] at r1 hk1 ⊢
      have pa := hper _ k (by omega) hk1
      have pb := hper _ k (by omega) hk0
      have ra := hrange (j0 + s * t.Delta_kStrided + (k % RS) * t.kStrided + t.kStrided + r)
        (by omega)
      have rb := hrange (j0 + s * t.Delta_kStrided + (k % RS) * t.kStrided + r) (by omega)
      rw [pa] at r1 ⊢
      rw [pb] at r0 ⊢
      rw [int32_of_range (off (j0 + s * t.Delta_kStrided + (k % RS) * t.kStrided + t.kStrided
            + r) - off (j0 + s * t.Delta_kStrided + (k % RS) * t.kStrided + r))
          (by omega) (by omega),
        int32_of_range _ (by omega) (by omega)]
      ring

/-- With whole bytes per interleaved group, moving `q` channel groups further adds a fixed
amount per group to the directly computed offset. -/
theorem direct_offset_shift (kI bits R S H W t q : Nat) (h8 : 8 ∣ kI * bits)
    (hRS : 0 < R * S) :
    direct_offset kI bits R S H W (t + q * (R * S))
      = direct_offset kI bits R S H W t + q * (H * W * (kI * bits / 8)) := by
  obtain ⟨m, hm⟩ := h8
  simp only [direct_offset]
  rw [Nat.add_mul_div_right _ _ hRS, Nat.add_mul_mod_self_right, hm,
    Nat.mul_div_cancel_left _ (by norm_num : 0 < 8)]
  have e1 : ((t / (R * S) + q) * H * W + t % (R * S) / S * W + t % (R * S) % S) * kI * bits
      = 8 * (((t / (R * S)) * H * W + t % (R * S) / S * W + t % (R * S) % S) * m
              + q * (H * W * m)) := by
    rw [mul_assoc _ kI bits, hm]; ring
  have e2 : ((t / (R * S)) * H * W + t % (R * S) / S * W + t % (R * S) % S) * kI * bits
      = 8 * (((t / (R * S)) * H * W + t % (R * S) / S * W + t % (R * S) % S) * m) := by
    rw [mul_assoc _ kI bits, hm]; ring
  rw [e1, e2, Nat.mul_div_cancel_left _ (by norm_num : 0 < 8),
    Nat.mul_div_cancel_left _ (by norm_num : 0 < 8)]

/-- Where the numerators up to step `tmax` do not overflow, the byte offsets of the source lie
in the non-negative 32-bit range. -/
theorem step_offset_range (kI bits R S H W tmax : Nat)
    (hrange : ∀ u, u ≤ tmax → offset_numerator kI bits R S H W u < 2147483648) :
    ∀ u, u ≤ tmax → 0 ≤ step_offset kI bits R S H W u
      ∧ step_offset kI bits R S H W u < 2147483648 := by
  intro u hu
  have h := hrange u hu
  have hd : direct_offset kI bits R S H W u = offset_numerator kI bits R S H W u / 8 := by
    rw [offset_numerator_eq]
    rfl
  rw [step_offset_eq_direct_offset _ _ _ _ _ _ _ h]
  have : direct_offset kI bits R S H W u < 2147483648 := by
    rw [hd]
    omega
  omega

/-- The entry of `strided_` of the constructed iterator after `n` advances is the byte offset
`step_offset` of the lane's current step, as long as no numerator up to that step overflows and
either no rewind has happened or an interleaved group fills whole bytes. -/
theorem constructed_strided (t : IteratorTraits)
    (TileMap : Nat → Nat → LogicalCoord → TensorCoord) (layout : TensorCoord → Int)
    (problem_size : Conv2dProblemSize) (extra_param : ExtraParam) (pointer : Int)
    (extent_row initial_strided initial_contiguous tb_row tb_column s n : Nat)
    (hs : s < t.Iterations_kStrided)
    (hj : tb_row / t.kInterleaved + initial_strided + s * t.Delta_kStrided < t.kStrided)
    (hR : 0 < problem_size.R) (hS : 0 < problem_size.S)
    (hcase : n ≤ problem_size.R * problem_size.S + 1
      ∨ 8 ∣ t.kInterleaved * t.kElementSizeBits)
    (hrange : ∀ u, u ≤ lane_step t.kStrided
        (FpropPrecompParams.construct t TileMap layout problem_size
          extra_param).residue_offset_
        (tb_row / t.kInterleaved + initial_strided + s * t.Delta_kStrided) n →
      offset_numerator t.kInterleaved t.kElementSizeBits problem_size.R problem_size.S
        problem_size.H problem_size.W u < 2147483648) :
    ((Conv2dTileSrcIteratorFpropPrecomp.advance t
        (FpropPrecompParams.construct t TileMap layout problem_size extra_param))^[n]
      (Conv2dTileSrcIteratorFpropPrecomp.construct t
        (FpropPrecompParams.construct t TileMap layout problem_size extra_param) pointer
        extent_row initial_strided initial_contiguous tb_row tb_column)).strided_.getD s 0
      = ((direct_offset t.kInterleaved t.kElementSizeBits problem_size.R problem_size.S
          problem_size.H problem_size.W
          (lane_step t.kStrided
            (FpropPrecompParams.construct t TileMap layout problem_size
              extra_param).residue_offset_
            (tb_row / t.kInterleaved + initial_strided + s * t.Delta_kStrided) n) : Nat)
          : Int) := by
  have hRS : 0 < problem_size.R * problem_size.S := Nat.mul_pos hR hS
  have hoff := step_offset_range _ _ _ _ _ _ _ hrange
  have h := iterate_strided t
    (FpropPrecompParams.construct t TileMap layout problem_size extra_param)
    (Conv2dTileSrcIteratorFpropPrecomp.construct t
      (FpropPrecompParams.construct t TileMap layout problem_size extra_param) pointer
      extent_row initial_strided initial_contiguous tb_row tb_column)
    (fun u => step_offset t.kInterleaved t.kElementSizeBits problem_size.R problem_size.S
      problem_size.H problem_size.W u)
    (fun u => pack_fhfw (step_fh problem_size.R problem_size.S u)
      (step_fw problem_size.R problem_size.S u))
    (((problem_size.H * problem_size.W * (t.kInterleaved * t.kElementSizeBits / 8) : Nat))
      : Int)
    (problem_size.R * problem_size.S)
    (FpropPrecompParams.construct t TileMap layout problem_size extra_param).residue_offset_
    (tb_row / t.kInterleaved + initial_strided) s n
    (lane_step t.kStrided
      (FpropPrecompParams.construct t TileMap layout problem_size extra_param).residue_offset_
      (tb_row / t.kInterleaved + initial_strided + s * t.Delta_kStrided) n)
    rfl rfl rfl rfl
    (by simp [Conv2dTileSrcIteratorFpropPrecomp.construct, initialize_predicate_and_pointers_])
    hs hj hRS hoff ?_ (le_refl _) n (le_refl _)
  · rw [h]
    exact step_offset_eq_direct_offset _ _ _ _ _ _ _ (hrange _ (le_refl _))
  · intro u m hm hu
    rcases hcase with hn | h8
    · have hm0 : m / (problem_size.R * problem_size.S) = 0 :=
        Nat.div_eq_of_lt (by omega)
      simp [hm0]
    · have hu0 : u ≤ lane_step t.kStrided
          (FpropPrecompParams.construct t TileMap layout problem_size
            extra_param).residue_offset_
          (tb_row / t.kInterleaved + initial_strided + s * t.Delta_kStrided) n :=
        le_trans (Nat.le_add_right _ _) hu
      show step_offset _ _ _ _ _ _ _ = step_offset _ _ _ _ _ _ _ + _
      rw [step_offset_eq_direct_offset _ _ _ _ _ _ _ (hrange _ hu),
        step_offset_eq_direct_offset _ _ _ _ _ _ _ (hrange _ hu0),
        direct_offset_shift _ _ _ _ _ _ _ _ h8 hRS]
      push_cast
      ring

/-! ## C1: offset round-trip -/

set_option maxRecDepth 100000 in
/-- C1 fails as stated: with images of `2^29` pixels, 4-element interleaving and 8-bit elements
the lane at position 0 holds, after one advance, reduction step 1 (`r = 1`, `n = 1 ≤ R*S + 1`),
whose directly computed byte offset is `F(1) = 2^31`; the entry of `strided_`, a 32-bit
`Index`, is smaller whatever the overflowing arithmetic produces, hence different. -/
theorem offset_round_trip_overflows :
    (0 < sample_traits.Iterations_kStrided
      ∧ 0 / sample_traits.kInterleaved + 0 + 0 * sample_traits.Delta_kStrided
          < sample_traits.kStrided
      ∧ 1 ≤ overflow_problem.R * overflow_problem.S + 1)
    ∧ (FpropPrecompParams.construct sample_traits sample_tile_map sample_layout
        overflow_problem ExtraParam.none_type).residue_offset_ = 1
    ∧ direct_offset sample_traits.kInterleaved sample_traits.kElementSizeBits
        overflow_problem.R overflow_problem.S overflow_problem.H overflow_problem.W
        (0 + (1 - 1) * sample_traits.kStrided + 1) = 2147483648
    ∧ ((Conv2dTileSrcIteratorFpropPrecomp.advance sample_traits
        (FpropPrecompParams.construct sample_traits sample_tile_map sample_layout
          overflow_problem ExtraParam.none_type))^[1]
      (Conv2dTileSrcIteratorFpropPrecomp.construct sample_traits
        (FpropPrecompParams.construct sample_traits sample_tile_map sample_layout
          overflow_problem ExtraParam.none_type) 0 12 0 0 0 0)).strided_.getD 0 0
        < 2147483648
    ∧ ((Conv2dTileSrcIteratorFpropPrecomp.advance sample_traits
        (FpropPrecompParams.construct sample_traits sample_tile_map sample_layout
          overflow_problem ExtraParam.none_type))^[1]
      (Conv2dTileSrcIteratorFpropPrecomp.construct sample_traits
        (FpropPrecompParams.construct sample_traits sample_tile_map sample_layout
          overflow_problem ExtraParam.none_type) 0 12 0 0 0 0)).strided_.getD 0 0
        ≠ ((direct_offset sample_traits.kInterleaved sample_traits.kElementSizeBits
            overflow_problem.R overflow_problem.S overflow_problem.H overflow_problem.W
            (0 + (1 - 1) * sample_traits.kStrided + 1) : Nat) : Int) := by
  decide

/-- C1, amended. Offset round-trip inside the table: for the parameter object built by the
constructor (residue offset `r`, which satisfies `1 ≤ r ≤ K`), a non-empty filter, every lane
position `j < K` and every `n ≤ R*S + 1`, provided that for every reduction step up to the one
reached the numerator `(c*H*W + fh*W + fw) * kInterleaved * element_bits` is below `2^31`, so
that the 32-bit arithmetic of `compute_offset_fprop` and `operator++` does not overflow, the
entry of `strided_` after construction followed by `n` calls of `operator++` equals the
directly computed offset `F(j)` when `n = 0` and `F(j + (n-1)*K + r)` when `n ≥ 1`. -/
theorem offset_round_trip (t : IteratorTraits)
    (TileMap : Nat → Nat → LogicalCoord → TensorCoord) (layout : TensorCoord → Int)
    (problem_size : Conv2dProblemSize) (extra_param : ExtraParam) (pointer : Int)
    (extent_row initial_strided initial_contiguous tb_row tb_column s n : Nat)
    (hs : s < t.Iterations_kStrided)
    (hj : tb_row / t.kInterleaved + initial_strided + s * t.Delta_kStrided < t.kStrided)
    (hn : n ≤ problem_size.R * problem_size.S + 1)
    (hR : 0 < problem_size.R) (hS : 0 < problem_size.S)
    (hrange : ∀ u, u ≤ lane_step t.kStrided
        (FpropPrecompParams.construct t TileMap layout problem_size
          extra_param).residue_offset_
        (tb_row / t.kInterleaved + initial_strided + s * t.Delta_kStrided) n →
      offset_numerator t.kInterleaved t.kElementSizeBits problem_size.R problem_size.S
        problem_size.H problem_size.W u < 2147483648) :
    let p := FpropPrecompParams.construct t TileMap layout problem_size extra_param
    let it := Conv2dTileSrcIteratorFpropPrecomp.construct t p pointer extent_row
      initial_strided initial_contiguous tb_row tb_column
    let j := tb_row / t.kInterleaved + initial_strided + s * t.Delta_kStrided
    (1 ≤ p.residue_offset_ ∧ p.residue_offset_ ≤ t.kStrided) ∧
    (∀ u, offset_numerator t.kInterleaved t.kElementSizeBits problem_size.R problem_size.S
        problem_size.H problem_size.W u
      = (u / (problem_size.R * problem_size.S) * problem_size.H * problem_size.W
          + u % (problem_size.R * problem_size.S) / problem_size.S * problem_size.W
          + u % (problem_size.R * problem_size.S) % problem_size.S)
        * t.kInterleaved * t.kElementSizeBits) ∧
    ((Conv2dTileSrcIteratorFpropPrecomp.advance t p)^[n] it).strided_.getD s 0 =
      ((direct_offset t.kInterleaved t.kElementSizeBits problem_size.R problem_size.S
          problem_size.H problem_size.W
          (if n = 0 then j else j + (n - 1) * t.kStrided + p.residue_offset_) : Nat) : Int) := by
  intro p it j
  have hK : 0 < t.kStrided := lt_of_le_of_lt (Nat.zero_le _) hj
  refine ⟨?_, fun u => offset_numerator_eq _ _ _ _ _ _ u, ?_⟩
  · show 1 ≤ (if _ = 0 then t.kStrided else _) ∧ (if _ = 0 then t.kStrided else _) ≤ t.kStrided
    split
    · omega
    · rename_i h
      have := Nat.mod_lt (problem_size.C * problem_size.R * problem_size.S / t.kInterleaved) hK
      omega
  · exact constructed_strided t TileMap layout problem_size extra_param pointer extent_row
      initial_strided initial_contiguous tb_row tb_column s n hs hj hR hS (Or.inl hn) hrange

set_option maxRecDepth 100000 in
/-- C1 at a concrete input: lane 1 of the sample instantiation after three advances. -/
theorem offset_round_trip_witness :
    (∀ u, u ≤ lane_step sample_traits.kStrided
        (FpropPrecompParams.construct sample_traits sample_tile_map sample_layout
          sample_problem ExtraParam.none_type).residue_offset_
        (0 / sample_traits.kInterleaved + 1 + 0 * sample_traits.Delta_kStrided) 3 →
      offset_numerator sample_traits.kInterleaved sample_traits.kElementSizeBits
        sample_problem.R sample_problem.S sample_problem.H sample_problem.W u < 2147483648)
    ∧ ((Conv2dTileSrcIteratorFpropPrecomp.advance sample_traits
        (FpropPrecompParams.construct sample_traits sample_tile_map sample_layout
          sample_problem ExtraParam.none_type))^[3]
      (Conv2dTileSrcIteratorFpropPrecomp.construct sample_traits
        (FpropPrecompParams.construct sample_traits sample_tile_map sample_layout
          sample_problem ExtraParam.none_type) 0 27 1 0 0 0)).strided_.getD 0 0
      = ((direct_offset 4 8 3 3 5 5 (1 + (3 - 1) * 2 + 1) : Nat) : Int) :=
  ⟨by decide,
    (offset_round_trip sample_traits sample_tile_map sample_layout sample_problem
      ExtraParam.none_type 0 27 1 0 0 0 0 3 (by decide) (by decide) (by decide) (by decide)
      (by decide) (by decide)).2.2⟩

/-! ## C2: wrap-around of the delta table -/

set_option maxRecDepth 100000 in
/-- C2 fails as stated: with images of `2^27` pixels, 4-element interleaving (32 bits per
group, a multiple of 8) and 8-bit elements the lane at position 1 holds, after three advances
(past the rewind, `3 > R*S + 1`), reduction step 6, whose directly computed byte offset is
`F(6) = 3 * 2^30`; the entry of `strided_`, a 32-bit `Index`, is smaller whatever the
overflowing arithmetic produces, hence different. -/
theorem wrap_around_overflows :
    (0 < sample_traits.Iterations_kStrided
      ∧ 0 / sample_traits.kInterleaved + 1 + 0 * sample_traits.Delta_kStrided
          < sample_traits.kStrided
      ∧ 8 ∣ sample_traits.kInterleaved * sample_traits.kElementSizeBits
      ∧ 0 < overflow_problem_rewind.R ∧ 0 < overflow_problem_rewind.S ∧ 1 ≤ 3
      ∧ overflow_problem_rewind.R * overflow_problem_rewind.S + 1 < 3)
    ∧ (FpropPrecompParams.construct sample_traits sample_tile_map sample_layout
        overflow_problem_rewind ExtraParam.none_type).residue_offset_ = 1
    ∧ direct_offset sample_traits.kInterleaved sample_traits.kElementSizeBits
        overflow_problem_rewind.R overflow_problem_rewind.S overflow_problem_rewind.H
        overflow_problem_rewind.W (1 + (3 - 1) * sample_traits.kStrided + 1) = 3221225472
    ∧ ((Conv2dTileSrcIteratorFpropPrecomp.advance sample_traits
        (FpropPrecompParams.construct sample_traits sample_tile_map sample_layout
          overflow_problem_rewind ExtraParam.none_type))^[3]
      (Conv2dTileSrcIteratorFpropPrecomp.construct sample_traits
        (FpropPrecompParams.construct sample_traits sample_tile_map sample_layout
          overflow_problem_rewind ExtraParam.none_type) 0 28 1 0 0 0)).strided_.getD 0 0
        < 2147483648
    ∧ ((Conv2dTileSrcIteratorFpropPrecomp.advance sample_traits
        (FpropPrecompParams.construct sample_traits sample_tile_map sample_layout
          overflow_problem_rewind ExtraParam.none_type))^[3]
      (Conv2dTileSrcIteratorFpropPrecomp.construct sample_traits
        (FpropPrecompParams.construct sample_traits sample_tile_map sample_layout
          overflow_problem_rewind ExtraParam.none_type) 0 28 1 0 0 0)).strided_.getD 0 0
        ≠ ((direct_offset sample_traits.kInterleaved sample_traits.kElementSizeBits
            overflow_problem_rewind.R overflow_problem_rewind.S overflow_problem_rewind.H
            overflow_problem_rewind.W (1 + (3 - 1) * sample_traits.kStrided + 1) : Nat)
            : Int) := by
  decide

/-- C2, amended. Wrap-around of the delta table: when `kInterleaved * element_bits` is a
multiple of 8 and the filter is non-empty, for every lane position `j < K` and every `n ≥ 1`,
with no upper bound on `n`, provided that for every reduction step up to the one reached the
numerator `(c*H*W + fh*W + fw) * kInterleaved * element_bits` is below `2^31`, so that the
32-bit arithmetic of `compute_offset_fprop` and `operator++` does not overflow, the entry of
`strided_` after `n` advances equals `F(j + (n-1)*K + r)`; the values
`constant_offset_max_ = (1 + R*S)*K` and `constant_offset_rewind_ = K*(1 - R*S)` used by
`operator++` are those set by the constructor. -/
theorem wrap_around_continues (t : IteratorTraits)
    (TileMap : Nat → Nat → LogicalCoord → TensorCoord) (layout : TensorCoord → Int)
    (problem_size : Conv2dProblemSize) (extra_param : ExtraParam) (pointer : Int)
    (extent_row initial_strided initial_contiguous tb_row tb_column s n : Nat)
    (hs : s < t.Iterations_kStrided)
    (hj : tb_row / t.kInterleaved + initial_strided + s * t.Delta_kStrided < t.kStrided)
    (h8 : 8 ∣ t.kInterleaved * t.kElementSizeBits)
    (hR : 0 < problem_size.R) (hS : 0 < problem_size.S) (hn : 1 ≤ n)
    (hrange : ∀ u, u ≤ lane_step t.kStrided
        (FpropPrecompParams.construct t TileMap layout problem_size
          extra_param).residue_offset_
        (tb_row / t.kInterleaved + initial_strided + s * t.Delta_kStrided) n →
      offset_numerator t.kInterleaved t.kElementSizeBits problem_size.R problem_size.S
        problem_size.H problem_size.W u < 2147483648) :
    let p := FpropPrecompParams.construct t TileMap layout problem_size extra_param
    let it := Conv2dTileSrcIteratorFpropPrecomp.construct t p pointer extent_row
      initial_strided initial_contiguous tb_row tb_column
    let j := tb_row / t.kInterleaved + initial_strided + s * t.Delta_kStrided
    (p.constant_offset_max_ = (((1 + problem_size.R * problem_size.S) * t.kStrided : Nat) : Int)
      ∧ p.constant_offset_rewind_
          = (t.kStrided : Int) * (1 - (problem_size.R : Int) * (problem_size.S : Int))) ∧
    (∀ u, offset_numerator t.kInterleaved t.kElementSizeBits problem_size.R problem_size.S
        problem_size.H problem_size.W u
      = (u / (problem_size.R * problem_size.S) * problem_size.H * problem_size.W
          + u % (problem_size.R * problem_size.S) / problem_size.S * problem_size.W
          + u % (problem_size.R * problem_size.S) % problem_size.S)
        * t.kInterleaved * t.kElementSizeBits) ∧
    ((Conv2dTileSrcIteratorFpropPrecomp.advance t p)^[n] it).strided_.getD s 0 =
      ((direct_offset t.kInterleaved t.kElementSizeBits problem_size.R problem_size.S
          problem_size.H problem_size.W (j + (n - 1) * t.kStrided + p.residue_offset_) : Nat)
        : Int) := by
  intro p it j
  refine ⟨⟨rfl, ?_⟩, fun u => offset_numerator_eq _ _ _ _ _ _ u, ?_⟩
  · show (t.kStrided : Int) * (1 - ((problem_size.R * problem_size.S : Nat) : Int)) = _
    push_cast; ring
  · have h := constructed_strided t TileMap layout problem_size extra_param pointer extent_row
      initial_strided initial_contiguous tb_row tb_column s n hs hj hR hS (Or.inr h8) hrange
    rw [h]
    have : lane_step t.kStrided p.residue_offset_
        (tb_row / t.kInterleaved + initial_strided + s * t.Delta_kStrided) n
        = j + (n - 1) * t.kStrided + p.residue_offset_ := by
      simp only [lane_step]
      rw [if_neg (by omega)]
    rw [this]

set_option maxRecDepth 100000 in
/-- C2 at a concrete input: lane 1 of the sample instantiation after 23 advances, well past the
first rewind (which happens at the eleventh advance). -/
theorem wrap_around_continues_witness :
    (∀ u, u ≤ lane_step sample_traits.kStrided
        (FpropPrecompParams.construct sample_traits sample_tile_map sample_layout
          sample_problem ExtraParam.none_type).residue_offset_
        (0 / sample_traits.kInterleaved + 1 + 0 * sample_traits.Delta_kStrided) 23 →
      offset_numerator sample_traits.kInterleaved sample_traits.kElementSizeBits
        sample_problem.R sample_problem.S sample_problem.H sample_problem.W u < 2147483648)
    ∧ ((Conv2dTileSrcIteratorFpropPrecomp.advance sample_traits
        (FpropPrecompParams.construct sample_traits sample_tile_map sample_layout
          sample_problem ExtraParam.none_type))^[23]
      (Conv2dTileSrcIteratorFpropPrecomp.construct sample_traits
        (FpropPrecompParams.construct sample_traits sample_tile_map sample_layout
          sample_problem ExtraParam.none_type) 0 27 1 0 0 0)).strided_.getD 0 0
      = ((direct_offset 4 8 3 3 5 5 (1 + (23 - 1) * 2 + 1) : Nat) : Int) :=
  ⟨by decide,
    (wrap_around_continues sample_traits sample_tile_map sample_layout sample_problem
      ExtraParam.none_type 0 27 1 0 0 0 0 23 (by decide) (by decide) (by decide) (by decide)
      (by decide) (by decide) (by decide)).2.2⟩

/-! ## C3: residue-first traversal -/

theorem iterate_advance_not_residue (t : IteratorTraits) (p : FpropPrecompParams)
    (it : Conv2dTileSrcIteratorFpropPrecomp) (n : Nat) (hn : 1 ≤ n) :
    ((Conv2dTileSrcIteratorFpropPrecomp.advance t p)^[n] it).is_residue_tile_ = false := by
  cases n with
  | zero => omega
  | succ k => rw [Function.iterate_succ_apply']; rfl

/-- Bit `b` of a mask word built by `mask |= (pred << k)` for `k < n ≤ 32`. -/
theorem mask_loop_testBit (pred : Nat → Bool) (n b : Nat) (hn : n ≤ 32) :
    (forLoop n (fun k m => (m ||| ((pred k).toNat <<< k)) % 2 ^ 32) 0).testBit b
      = (decide (b < n) && pred b) := by
  induction n with
  | zero => simp [forLoop]
  | succ k ih =>
    rw [forLoop, Nat.testBit_mod_two_pow, Nat.testBit_or, ih (by omega), Nat.testBit_shiftLeft]
    rcases Nat.lt_trichotomy b k with h | h | h
    · have h1 : ¬ (b ≥ k) := by omega
      have h2 : b < k + 1 := by omega
      have h3 : b < 32 := by omega
      simp [h, h1, h2, h3]
    · subst h
      have h3 : b < 32 := by omega
      cases hp : pred b <;> simp [h3]
    · have h1 : ¬ (b < k) := by omega
      have h2 : ¬ (b < k + 1) := by omega
      have h4 : b - k = (b - k - 1) + 1 := by omega
      have h5 : (pred k).toNat.testBit (b - k) = false := by
        rw [h4]
        cases pred k <;> simp [Nat.testBit_succ]
      simp [h1, h2, h5]

theorem and_one_shiftLeft_ne_zero (m h : Nat) (hh : h < 32) :
    decide ((m &&& ((1 <<< h) % 2 ^ 32)) ≠ 0) = m.testBit h := by
  have hp : (2 : Nat) ^ h % 2 ^ 32 = 2 ^ h :=
    Nat.mod_eq_of_lt (Nat.pow_lt_pow_right (by norm_num) hh)
  rw [Nat.one_shiftLeft, hp, Nat.and_two_pow]
  cases hb : m.testBit h
  · simp
  · simp

theorem mask_guard_eq_testBit (m : Nat × Nat) (h w : Nat) (hh : h < 32) (hw : w < 32) :
    mask_guard m h w = (m.1.testBit h && m.2.testBit w) := by
  rw [mask_guard, and_one_shiftLeft_ne_zero _ _ hh, and_one_shiftLeft_ne_zero _ _ hw]

theorem iterate_advance_frame (t : IteratorTraits) (p : FpropPrecompParams)
    (it : Conv2dTileSrcIteratorFpropPrecomp) (n : Nat) :
    ((Conv2dTileSrcIteratorFpropPrecomp.advance t p)^[n] it).masks_ = it.masks_
    ∧ ((Conv2dTileSrcIteratorFpropPrecomp.advance t p)^[n] it).pointer_ = it.pointer_
    ∧ ((Conv2dTileSrcIteratorFpropPrecomp.advance t p)^[n] it).residue_extent_
        = it.residue_extent_
    ∧ ((Conv2dTileSrcIteratorFpropPrecomp.advance t p)^[n] it).pack_pad_ = it.pack_pad_ := by
  induction n with
  | zero => simp
  | succ k ih =>
    rw [Function.iterate_succ_apply']
    exact ih

/-- C4. Masking equivalence at the predicate level.  For a filter with `R ≤ 32` and `S ≤ 32`,
an access whose mapped coordinate is batch `n` with input origin
`(h0, w0) = (p*stride_h - pad_h, q*stride_w - pad_w)`, and any tap `fh < R`, `fw < S`: the
steady-state load guard is the test of the two precomputed mask words at the taps of the current
table entry, and that test at `(fh, fw)` is true exactly when `n < N`, `0 ≤ h0 + fh < H` and
`0 ≤ w0 + fw < W`; for `n < N` this is the condition under which the reference
`compute_convolution` reads the source tensor instead of substituting 0. -/
theorem masking_equivalence (t : IteratorTraits) (p : FpropPrecompParams) (pointer : Int)
    (extent_row initial_strided initial_contiguous tb_row tb_column access_idx fh fw : Nat)
    (hR : p.fh_ ≤ 32) (hS : p.fw_ ≤ 32) (hacc : access_idx < t.kContiguousCount)
    (hfh : fh < p.fh_) (hfw : fw < p.fw_) :
    let it := Conv2dTileSrcIteratorFpropPrecomp.construct t p pointer extent_row
      initial_strided initial_contiguous tb_row tb_column
    let col_offset := (access_idx / t.kAccessesPerVector) * t.Delta_kContiguous
      + (access_idx % t.kAccessesPerVector) * t.kAccessElements
      + (tb_column * t.kInterleaved + initial_contiguous)
    let mapped := p.tile_map_ { row := 0, column := ((col_offset / t.kInterleaved : Nat) : Int) }
    let h0 := mapped.h * p.stride_h_ - p.pad_h_
    let w0 := mapped.w * p.stride_w_ - p.pad_w_
    let m := it.masks_.getD access_idx (0, 0)
    (∀ n s c v : Nat, 1 ≤ n → v + t.kAccessesPerVector * c = access_idx →
      let itn := (Conv2dTileSrcIteratorFpropPrecomp.advance t p)^[n] it
      let spatial : Nat :=
        (p.word (2 * (itn.constant_offset_ + ((s * t.Delta_kStrided : Nat) : Int)) + 1)).toNat
      access_guard t p itn s c v = mask_guard m (spatial &&& 0xff) ((spatial >>> 8) &&& 0xff))
    ∧ (mask_guard m fh fw = true ↔
        mapped.n < (p.n_ : Int) ∧ 0 ≤ h0 + (fh : Int) ∧ h0 + (fh : Int) < (p.hi_ : Int)
          ∧ 0 ≤ w0 + (fw : Int) ∧ w0 + (fw : Int) < (p.wi_ : Int))
    ∧ (mapped.n < (p.n_ : Int) →
        mask_guard m fh fw = src_in_bounds p.hi_ p.wi_ (h0 + (fh : Int)) (w0 + (fw : Int))) := by
  intro it col_offset mapped h0 w0 m
  have hm : m = (init_mask_h p (access_coord t p (tb_column * t.kInterleaved
      + initial_contiguous) access_idx), init_mask_w p (access_coord t p
      (tb_column * t.kInterleaved + initial_contiguous) access_idx)) := by
    simp only [m, it, Conv2dTileSrcIteratorFpropPrecomp.construct,
      initialize_predicate_and_pointers_]
    rw [getD_map_range _ _ _ _ hacc]
  have hcoord : access_coord t p (tb_column * t.kInterleaved + initial_contiguous) access_idx
      = { n := mapped.n, h := h0, w := w0, c := mapped.c } := rfl
  have hbits : mask_guard m fh fw =
      (decide (mapped.n < (p.n_ : Int) ∧ h0 ≥ -(fh : Int) ∧ h0 < (p.hi_ : Int) - (fh : Int))
        && decide (w0 ≥ -(fw : Int) ∧ w0 < (p.wi_ : Int) - (fw : Int))) := by
    rw [mask_guard_eq_testBit m fh fw (by omega) (by omega), hm, hcoord]
    simp only [init_mask_h, init_mask_w]
    rw [mask_loop_testBit (fun kh => decide (mapped.n < (p.n_ : Int) ∧ h0 ≥ -(kh : Int)
          ∧ h0 < (p.hi_ : Int) - (kh : Int))) p.fh_ fh hR,
      mask_loop_testBit (fun kw => decide (w0 ≥ -(kw : Int)
          ∧ w0 < (p.wi_ : Int) - (kw : Int))) p.fw_ fw hS]
    simp [hfh, hfw]
  refine ⟨?_, ?_, ?_⟩
  · intro n s c v hn hidx itn spatial
    have hres : itn.is_residue_tile_ = false := iterate_advance_not_residue t p it n hn
    have hmask : itn.masks_ = it.masks_ := (iterate_advance_frame t p it n).1
    simp only [access_guard, hres, hmask, hidx]
    rfl
  · rw [hbits]
    simp only [Bool.and_eq_true, decide_eq_true_eq]
    constructor
    · rintro ⟨⟨a, b, c⟩, d, e⟩
      exact ⟨a, by omega, by omega, by omega, by omega⟩
    · rintro ⟨a, b, c, d, e⟩
      exact ⟨⟨a, by omega, by omega⟩, by omega, by omega⟩
  · intro hn
    rw [hbits, src_in_bounds]
    rw [Bool.eq_iff_iff]
    simp only [Bool.and_eq_true, decide_eq_true_eq]
    constructor
    · rintro ⟨⟨a, b, c⟩, d, e⟩
      exact ⟨by omega, by omega, by omega, by omega⟩
    · rintro ⟨b, c, d, e⟩
      exact ⟨⟨hn, by omega, by omega⟩, by omega, by omega⟩

/-- C4 at a concrete input: the single access of thread 0 of the sample instantiation (output
pixel (0, 0) with padding 1, so input origin (-1, -1)) at tap (0, 1), which falls in the padded
row above the image. -/
theorem masking_equivalence_witness :
    (mask_guard
        ((Conv2dTileSrcIteratorFpropPrecomp.construct sample_traits
          (FpropPrecompParams.construct sample_traits sample_tile_map sample_layout
            sample_problem ExtraParam.none_type) 0 27 0 0 0 0).masks_.getD 0 (0, 0)) 0 1 = true
      ↔ (0 : Int) < 1 ∧ (0 : Int) ≤ (0 * 1 - 1) + 0 ∧ ((0 : Int) * 1 - 1) + 0 < 5
          ∧ (0 : Int) ≤ (0 * 1 - 1) + 1 ∧ ((0 : Int) * 1 - 1) + 1 < 5) :=
  (masking_equivalence sample_traits
    (FpropPrecompParams.construct sample_traits sample_tile_map sample_layout
      sample_problem ExtraParam.none_type) 0 27 0 0 0 0 0 0 1
    (by decide) (by decide) (by decide) (by decide) (by decide)).2.1

/-! ## C5, C6: the epilogue functor -/

/-- C5. Epilogue formula: for every element index `i < Count` and every alpha, beta, gamma,
threshold of an exact (linearly ordered commutative ring) compute type, the three-operand
`operator()` returns at position `i` the output conversion of
`max(threshold, alpha*accumulator[i] + beta*bias[i] + gamma*source[i])`, the inputs being
converted to the compute type; replacing every other element of the inputs by arbitrary values
does not change that position. -/
theorem epilogue_formula
    {ElementOutput ElementAccumulator ElementBias ElementCompute : Type}
    [LinearOrderedCommRing ElementCompute] {kCount : Nat}
    (params : EpilogueParams ElementCompute)
    (policy : ConverterPolicy ElementOutput ElementAccumulator ElementBias ElementCompute)
    (accumulator : Fin kCount → ElementAccumulator) (bias : Fin kCount → ElementBias)
    (source : Fin kCount → ElementOutput) (i : Fin kCount) :
    let op := BiasAddLinearCombinationRelu.construct params
    op.apply_source policy accumulator bias source i
      = policy.OutputConverter (max op.threshold_
          (op.alpha_ * policy.AccumulatorConverter (accumulator i)
            + op.beta_ * policy.BiasConverter (bias i)
            + op.gamma_ * policy.SourceConverter (source i)))
    ∧ ∀ (accumulator2 : Fin kCount → ElementAccumulator) (bias2 : Fin kCount → ElementBias)
        (source2 : Fin kCount → ElementOutput),
        op.apply_source policy
            (fun k => if k = i then accumulator i else accumulator2 k)
            (fun k => if k = i then bias i else bias2 k)
            (fun k => if k = i then source i else source2 k) i
          = op.apply_source policy accumulator bias source i := by
  intro op
  have key : ∀ (a : Fin kCount → ElementAccumulator) (b : Fin kCount → ElementBias)
      (c : Fin kCount → ElementOutput),
      op.apply_source policy a b c i
        = policy.OutputConverter (max op.threshold_
            (op.alpha_ * policy.AccumulatorConverter (a i)
              + op.beta_ * policy.BiasConverter (b i)
              + op.gamma_ * policy.SourceConverter (c i))) := by
    intro a b c
    simp only [BiasAddLinearCombinationRelu.apply_source, ReLu, multiply_add_fragment,
      multiplies_fragment, multiply_add]
    congr 1
    have e : op.beta_ * policy.BiasConverter (b i)
          + (op.alpha_ * policy.AccumulatorConverter (a i)
              + op.gamma_ * policy.SourceConverter (c i))
        = op.alpha_ * policy.AccumulatorConverter (a i)
            + op.beta_ * policy.BiasConverter (b i)
            + op.gamma_ * policy.SourceConverter (c i) := by ring
    rw [e]
    split
    · rename_i h
      exact (max_eq_left (le_of_lt h)).symm
    · rename_i h
      exact (max_eq_right (not_lt.mp h)).symm
  refine ⟨key _ _ _, ?_⟩
  intro a2 b2 c2
  rw [key, key]
  simp

/-- C6 fails as stated: with a floating-point compute type, `gamma = 0` and a source element
that is NaN, the three-operand `operator()` multiplies the source by `gamma_` all the same,
`0 * NaN` is NaN and the output element is NaN, whereas the two-operand `operator()` returns
`max(0, 1 * 1 + 1 * 0) = 1`. -/
theorem epilogue_skip_source_nan :
    (BiasAddLinearCombinationRelu.construct float_default_params).gamma_ = 0
    ∧ (BiasAddLinearCombinationRelu.construct float_default_params).is_source_needed = false
    ∧ (BiasAddLinearCombinationRelu.construct float_default_params).apply_source float_policy
        (fun _ : Fin 1 => FloatValue.finite 1) (fun _ => FloatValue.finite 0)
        (fun _ => FloatValue.nan) 0 = FloatValue.nan
    ∧ (BiasAddLinearCombinationRelu.construct float_default_params).apply float_policy
        (fun _ : Fin 1 => FloatValue.finite 1) (fun _ => FloatValue.finite 0) 0
        = FloatValue.finite 1 := by
  decide

/-- C6, amended. Epilogue skip optimization: when `gamma = 0`, so that `is_source_needed()` is
false, the three-operand `operator()(accumulator, bias, source)` returns exactly the output
fragment of the two-operand `operator()(accumulator, bias)` for every accumulator and bias
fragment and every source fragment whose elements leave the scaled accumulator unchanged,
`alpha * accumulator[i] + gamma * source[i] = alpha * accumulator[i]` in the compute type; in a
compute type with `x + 0 * y = x` throughout (exact arithmetic, the integer types) that is
every source fragment whatsoever.  No law of arithmetic is assumed of the compute type. -/
theorem epilogue_skip_source
    {ElementOutput ElementAccumulator ElementBias ElementCompute : Type}
    [Zero ElementCompute] [Add ElementCompute] [Mul ElementCompute]
    [DecidableEq ElementCompute] [LT ElementCompute]
    [DecidableRel (fun a b : ElementCompute => a < b)] {kCount : Nat}
    (params : EpilogueParams ElementCompute)
    (policy : ConverterPolicy ElementOutput ElementAccumulator ElementBias ElementCompute)
    (hgamma : (BiasAddLinearCombinationRelu.construct params).gamma_ = 0) :
    (BiasAddLinearCombinationRelu.construct params).is_source_needed = false
    ∧ (∀ (accumulator : Fin kCount → ElementAccumulator) (bias : Fin kCount → ElementBias)
        (source : Fin kCount → ElementOutput),
        (∀ i, (BiasAddLinearCombinationRelu.construct params).alpha_
              * policy.AccumulatorConverter (accumulator i)
            + (BiasAddLinearCombinationRelu.construct params).gamma_
              * policy.SourceConverter (source i)
          = (BiasAddLinearCombinationRelu.construct params).alpha_
              * policy.AccumulatorConverter (accumulator i)) →
        (BiasAddLinearCombinationRelu.construct params).apply_source policy accumulator bias
            source
          = (BiasAddLinearCombinationRelu.construct params).apply policy accumulator bias)
    ∧ ((∀ x y : ElementCompute, x + 0 * y = x) →
        ∀ (accumulator : Fin kCount → ElementAccumulator) (bias : Fin kCount → ElementBias)
          (source : Fin kCount → ElementOutput),
          (BiasAddLinearCombinationRelu.construct params).apply_source policy accumulator bias
              source
            = (BiasAddLinearCombinationRelu.construct params).apply policy accumulator
                bias) := by
  have key : ∀ (accumulator : Fin kCount → ElementAccumulator)
      (bias : Fin kCount → ElementBias) (source : Fin kCount → ElementOutput),
      (∀ i, (BiasAddLinearCombinationRelu.construct params).alpha_
            * policy.AccumulatorConverter (accumulator i)
          + (BiasAddLinearCombinationRelu.construct params).gamma_
            * policy.SourceConverter (source i)
        = (BiasAddLinearCombinationRelu.construct params).alpha_
            * policy.AccumulatorConverter (accumulator i)) →
      (BiasAddLinearCombinationRelu.construct params).apply_source policy accumulator bias
          source
        = (BiasAddLinearCombinationRelu.construct params).apply policy accumulator bias := by
    intro accumulator bias source h
    funext i
    simp only [BiasAddLinearCombinationRelu.apply_source, BiasAddLinearCombinationRelu.apply,
      ReLu, multiply_add_fragment, multiplies_fragment, multiply_add, h i]
  refine ⟨by simp [BiasAddLinearCombinationRelu.is_source_needed, hgamma], key, ?_⟩
  intro hlaw accumulator bias source
  apply key
  intro i
  rw [hgamma]
  exact hlaw _ _

/-- C6 at a concrete input: integer compute type, `alpha = 2`, `beta = 3`, `gamma = 0` given
through a non-null `gamma_ptr`, threshold 0, fragments of two elements. -/
theorem epilogue_skip_source_witness :
    (BiasAddLinearCombinationRelu.construct
        ({ alpha := 2, beta := 3, gamma := 5, threshold := 0, alpha_ptr := none,
           beta_ptr := none, gamma_ptr := some 0, threshold_ptr := none } :
          EpilogueParams Int)).gamma_ = 0
    ∧ (BiasAddLinearCombinationRelu.construct
        ({ alpha := 2, beta := 3, gamma := 5, threshold := 0, alpha_ptr := none,
           beta_ptr := none, gamma_ptr := some 0, threshold_ptr := none } :
          EpilogueParams Int)).apply_source identity_policy
        (fun i : Fin 2 => (i : Int) - 7) (fun _ => 4) (fun _ => 100)
      = (BiasAddLinearCombinationRelu.construct
        ({ alpha := 2, beta := 3, gamma := 5, threshold := 0, alpha_ptr := none,
           beta_ptr := none, gamma_ptr := some 0, threshold_ptr := none } :
          EpilogueParams Int)).apply identity_policy
        (fun i : Fin 2 => (i : Int) - 7) (fun _ => 4) :=
  ⟨rfl,
    (epilogue_skip_source
      ({ alpha := 2, beta := 3, gamma := 5, threshold := 0, alpha_ptr := none,
         beta_ptr := none, gamma_ptr := some 0, threshold_ptr := none } : EpilogueParams Int)
      identity_policy rfl).2.2 (fun x y => by simp) (fun i : Fin 2 => (i : Int) - 7)
      (fun _ => 4) (fun _ => 100)⟩

/-! ## Lemmas on loops over tensors and accumulator arrays -/

theorem forLoop_succ {σ : Type} (n : Nat) (body : Nat → σ → σ) (s : σ) :
    forLoop (n + 1) body s = body n (forLoop n body s) := rfl

theorem forLoop_zero {σ : Type} (body : Nat → σ → σ) (s : σ) : forLoop 0 body s = s := rfl

theorem forLoop_congr {σ : Type} (n : Nat) (body body2 : Nat → σ → σ) (s : σ)
    (h : ∀ i, i < n → ∀ x, body i x = body2 i x) : forLoop n body s = forLoop n body2 s := by
  induction n with
  | zero => rfl
  | succ k ih =>
    rw [forLoop_succ, forLoop_succ, ih (fun i hi x => h i (by omega) x), h k (by omega)]

/-- A loop whose iterations store `V` on the sets `W i` stores `V` on their union. -/
theorem forLoop_writes {α : Type} (n : Nat) (body : Nat → Tensor4 α → Tensor4 α)
    (W : Nat → Int → Int → Int → Int → Prop) (V : Tensor4 α)
    (h : ∀ i, i < n → Writes (body i) (W i) V) :
    Writes (forLoop n body) (fun a b c d => ∃ i, i < n ∧ W i a b c d) V := by
  induction n with
  | zero =>
    intro T a b c d
    refine ⟨?_, fun _ => rfl⟩
    rintro ⟨i, hi, _⟩
    omega
  | succ k ih =>
    intro T a b c d
    have hk := h k (by omega) (forLoop k body T) a b c d
    have ihk := ih (fun i hi => h i (by omega)) T a b c d
    rw [forLoop_succ]
    by_cases hW : W k a b c d
    · refine ⟨fun _ => hk.1 hW, fun hn => ?_⟩
      exact absurd ⟨k, by omega, hW⟩ hn
    · constructor
      · rintro ⟨i, hi, hWi⟩
        rw [hk.2 hW]
        have hik : i < k := by
          rcases Nat.lt_succ_iff_lt_or_eq.mp hi with h1 | h1
          · exact h1
          · subst h1; exact absurd hWi hW
        exact ihk.1 ⟨i, hik, hWi⟩
      · intro hn
        rw [hk.2 hW]
        apply ihk.2
        rintro ⟨i, hi, hWi⟩
        exact hn ⟨i, by omega, hWi⟩

theorem forStep_writes {α : Type} (n step : Nat) (body : Nat → Tensor4 α → Tensor4 α)
    (W : Nat → Int → Int → Int → Int → Prop) (V : Tensor4 α)
    (h : ∀ b, b < (n + step - 1) / step → Writes (body (b * step)) (W b) V) :
    Writes (forStep n step body)
      (fun a b c d => ∃ blk, blk < (n + step - 1) / step ∧ W blk a b c d) V :=
  forLoop_writes ((n + step - 1) / step) (fun b => body (b * step)) W V h

/-- A guarded store of the value `V` prescribes at its own coordinate. -/
theorem guarded_set_writes {α : Type} (cond : Prop) [Decidable cond] (a b c d : Int)
    (V : Tensor4 α) (v : α) (hv : cond → v = V.val a b c d) :
    Writes (fun T => if cond then T.set a b c d v else T)
      (fun a2 b2 c2 d2 => cond ∧ a2 = a ∧ b2 = b ∧ c2 = c ∧ d2 = d) V := by
  intro T a2 b2 c2 d2
  constructor
  · rintro ⟨hc, h1, h2, h3, h4⟩
    subst h1 h2 h3 h4
    simp only [if_pos hc, Tensor4.set, and_self, if_true]
    exact hv hc
  · intro hn
    by_cases hc : cond
    · simp only [if_pos hc, Tensor4.set]
      rw [if_neg (fun h => hn ⟨hc, h⟩)]
    · simp only [if_neg hc]

theorem accum_get_set {α : Type} [Zero α] (A : List α) (i j i2 j2 : Nat) (v : α)
    (hj : j < Nblock) (hj2 : j2 < Nblock) (hlen : i * Nblock + j < A.length) :
    accum_get (accum_set A i j v) i2 j2 = if i2 = i ∧ j2 = j then v else accum_get A i2 j2 := by
  simp only [accum_get, accum_set, List.getD_eq_getElem?_getD, List.getElem?_set]
  simp only [Nblock] at hj hj2 hlen ⊢
  by_cases h : i2 = i ∧ j2 = j
  · obtain ⟨h1, h2⟩ := h
    subst h1 h2
    simp [hlen]
  · have hne : ¬ (i * 16 + j = i2 * 16 + j2) := by
      intro he
      apply h
      constructor <;> omega
    rw [if_neg hne, if_neg h]

/-- One pass of the loop over the rows `i < n` of column `j0`, each guarded iteration storing a
function of the old cell, updates exactly the guarded cells. -/
theorem forLoop_column_pass {α : Type} [Zero α] (c : Nat → Prop) [DecidablePred c]
    (f : Nat → α → α) (j0 n : Nat) (A : List α) (hj0 : j0 < Nblock) (hn : n ≤ Mblock)
    (hA : A.length = Mblock * Nblock) :
    (forLoop n (fun i2 acc =>
        if c i2 then accum_set acc i2 j0 (f i2 (accum_get acc i2 j0)) else acc) A).length
      = Mblock * Nblock
    ∧ ∀ i j, j < Nblock →
      accum_get (forLoop n (fun i2 acc =>
        if c i2 then accum_set acc i2 j0 (f i2 (accum_get acc i2 j0)) else acc) A) i j
      = if j = j0 ∧ i < n ∧ c i then f i (accum_get A i j) else accum_get A i j := by
  induction n with
  | zero =>
    refine ⟨hA, fun i j _ => ?_⟩
    simp [forLoop]
  | succ k ih =>
    obtain ⟨ihlen, ihget⟩ := ih (by omega)
    rw [forLoop_succ]
    by_cases hc : c k
    · simp only [if_pos hc]
      refine ⟨by rw [accum_set, List.length_set, ihlen], fun i j hj => ?_⟩
      have hidx : k * Nblock + j0
          < (forLoop k (fun i2 acc =>
              if c i2 then accum_set acc i2 j0 (f i2 (accum_get acc i2 j0)) else acc)
              A).length := by
        rw [ihlen]
        simp only [Nblock, Mblock] at hj0 hn ⊢
        omega
      rw [accum_get_set _ _ _ _ _ _ hj0 hj hidx, ihget k j0 hj0, ihget i j hj]
      by_cases h : i = k ∧ j = j0
      · obtain ⟨h1, h2⟩ := h
        subst h1 h2
        rw [if_pos ⟨rfl, rfl⟩, if_neg (by omega), if_pos ⟨rfl, by omega, hc⟩]
      · rw [if_neg h]
        by_cases h2 : j = j0 ∧ i < k ∧ c i
        · rw [if_pos h2, if_pos ⟨h2.1, by omega, h2.2.2⟩]
        · rw [if_neg h2, if_neg]
          rintro ⟨h3, h4, h5⟩
          rcases Nat.lt_succ_iff_lt_or_eq.mp h4 with h6 | h6
          · exact h2 ⟨h3, h6, h5⟩
          · exact h ⟨h6, h3⟩
    · simp only [if_neg hc]
      refine ⟨ihlen, fun i j hj => ?_⟩
      rw [ihget i j hj]
      by_cases h2 : j = j0 ∧ i < k ∧ c i
      · rw [if_pos h2, if_pos ⟨h2.1, by omega, h2.2.2⟩]
      · rw [if_neg h2, if_neg]
        rintro ⟨h3, h4, h5⟩
        rcases Nat.lt_succ_iff_lt_or_eq.mp h4 with h6 | h6
        · exact h2 ⟨h3, h6, h5⟩
        · subst h6; exact hc h5

/-- One pass of the loops over `j < n`, `i < Mblock`, each guarded iteration storing a function
of the old cell. -/
theorem forLoop_array_pass {α : Type} [Zero α] (c : Nat → Nat → Prop)
    [∀ i j, Decidable (c i j)] (f : Nat → Nat → α → α) (n : Nat) (A : List α)
    (hn : n ≤ Nblock) (hA : A.length = Mblock * Nblock) :
    (forLoop n (fun j2 acc =>
        forLoop Mblock (fun i2 acc =>
          if c i2 j2 then accum_set acc i2 j2 (f i2 j2 (accum_get acc i2 j2)) else acc) acc)
        A).length = Mblock * Nblock
    ∧ ∀ i j, i < Mblock → j < Nblock →
      accum_get (forLoop n (fun j2 acc =>
        forLoop Mblock (fun i2 acc =>
          if c i2 j2 then accum_set acc i2 j2 (f i2 j2 (accum_get acc i2 j2)) else acc) acc)
        A) i j
      = if j < n ∧ c i j then f i j (accum_get A i j) else accum_get A i j := by
  induction n with
  | zero =>
    refine ⟨hA, fun i j _ _ => ?_⟩
    simp [forLoop]
  | succ k ih =>
    obtain ⟨ihlen, ihget⟩ := ih (by omega)
    rw [forLoop_succ]
    obtain ⟨plen, pget⟩ := forLoop_column_pass (fun i2 => c i2 k) (fun i2 => f i2 k) k Mblock
      (forLoop k (fun j2 acc =>
        forLoop Mblock (fun i2 acc =>
          if c i2 j2 then accum_set acc i2 j2 (f i2 j2 (accum_get acc i2 j2)) else acc) acc) A)
      (by omega) (le_refl _) ihlen
    refine ⟨plen, fun i j hi hj => ?_⟩
    rw [pget i j hj, ihget i j hi hj]
    by_cases h : j = k ∧ i < Mblock ∧ c i k
    · obtain ⟨h1, h2, h3⟩ := h
      subst h1
      rw [if_pos ⟨rfl, h2, h3⟩, if_neg (by omega), if_pos ⟨by omega, h3⟩]
    · rw [if_neg h]
      by_cases h2 : j < k ∧ c i j
      · rw [if_pos h2, if_pos ⟨by omega, h2.2⟩]
      · rw [if_neg h2, if_neg]
        rintro ⟨h3, h4⟩
        rcases Nat.lt_succ_iff_lt_or_eq.mp h3 with h5 | h5
        · exact h2 ⟨h5, h4⟩
        · subst h5; exact h ⟨rfl, hi, h4⟩

/-- A loop whose iterations act on cell `(i, j)` through functions of that cell alone acts on
the cell as the loop of those functions. -/
theorem forLoop_cellwise {α : Type} [Zero α] (n : Nat) (P : Nat → List α → List α)
    (g : Nat → α → α) (i j : Nat)
    (h : ∀ k, k < n → ∀ A : List α, A.length = Mblock * Nblock →
      (P k A).length = Mblock * Nblock ∧ accum_get (P k A) i j = g k (accum_get A i j))
    (A0 : List α) (h0 : A0.length = Mblock * Nblock) :
    (forLoop n P A0).length = Mblock * Nblock
    ∧ accum_get (forLoop n P A0) i j = forLoop n g (accum_get A0 i j) := by
  induction n with
  | zero => exact ⟨h0, rfl⟩
  | succ k ih =>
    obtain ⟨ihlen, ihget⟩ := ih (fun k2 hk A hA => h k2 (by omega) A hA)
    obtain ⟨hlen, hget⟩ := h k (by omega) _ ihlen
    rw [forLoop_succ, forLoop_succ]
    exact ⟨hlen, by rw [hget, ihget]⟩

/-- A loop that adds `F k` in iteration `k` adds the sum of the `F k`. -/
theorem forLoop_sum {α : Type} [AddCommMonoid α] (n : Nat) (body : Nat → α → α) (F : Nat → α)
    (h : ∀ k, k < n → ∀ a, body k a = a + F k) (a0 : α) :
    forLoop n body a0 = a0 + Finset.sum (Finset.range n) F := by
  induction n with
  | zero => simp [forLoop]
  | succ k ih =>
    rw [forLoop_succ, h k (by omega), ih (fun k2 hk a => h k2 (by omega) a),
      Finset.sum_range_succ, add_assoc]

theorem accum_get_replicate {α : Type} [Zero α] (a : α) (i j : Nat) (hi : i < Mblock)
    (hj : j < Nblock) : accum_get (List.replicate (Mblock * Nblock) a) i j = a := by
  simp only [accum_get, List.getD_eq_getElem?_getD, List.getElem?_replicate]
  simp only [Nblock, Mblock] at hi hj ⊢
  rw [if_pos (by omega)]
  rfl

/-- The accumulation phase of `compute_convolution` leaves in cell `(i, j)` of an in-range
output the closed-form accumulator of that output. -/
theorem compute_convolution_accum_eq {α : Type} [CommSemiring α]
    (conv_param : Conv2dProblemSize) (tensor_src tensor_filter : Tensor4 α) (initial_accum : α)
    (n_block oc_block oh ow i j : Nat) (hi : i < Mblock) (hj : j < Nblock)
    (hn : n_block + j < conv_param.N) (hoc : oc_block + i < conv_param.K) :
    accum_get (compute_convolution_accum conv_param tensor_src tensor_filter initial_accum
        n_block oc_block oh ow) i j
      = conv_accum_closed conv_param tensor_src tensor_filter initial_accum
          ((n_block + j : Nat) : Int) (oh : Int) (ow : Int) ((oc_block + i : Nat) : Int) := by
  unfold compute_convolution_accum conv_accum_closed
  have hrep : (List.replicate (Mblock * Nblock) initial_accum).length = Mblock * Nblock :=
    List.length_replicate _ _
  have key := forLoop_cellwise conv_param.R
    (fun fh accum =>
      forLoop conv_param.S (fun fw accum =>
        forLoop conv_param.C (fun ic accum =>
          forLoop Nblock (fun j accum =>
            forLoop Mblock (fun i accum =>
              if n_block + j < conv_param.N ∧ oc_block + i < conv_param.K then
                accum_set accum i j (multiply_add (tensor_filter.val ((oc_block + i : Nat) : Int)
                    fh fw ic)
                  (if src_in_bounds conv_param.H conv_param.W
                      ((oh : Int) * conv_param.stride_h - conv_param.pad_h + (fh : Int))
                      ((ow : Int) * conv_param.stride_w - conv_param.pad_w + (fw : Int)) = true
                    then tensor_src.val ((n_block + j : Nat) : Int)
                      ((oh : Int) * conv_param.stride_h - conv_param.pad_h + (fh : Int))
                      ((ow : Int) * conv_param.stride_w - conv_param.pad_w + (fw : Int)) ic
                    else 0) (accum_get accum i j))
              else accum) accum) accum) accum) accum)
    (fun fh a => a + Finset.sum (Finset.range conv_param.S) (fun fw =>
      Finset.sum (Finset.range conv_param.C) (fun ic =>
        tensor_filter.val ((oc_block + i : Nat) : Int) fh fw ic
          * (zero_extend conv_param.H conv_param.W tensor_src).val ((n_block + j : Nat) : Int)
              ((oh : Int) * conv_param.stride_h - conv_param.pad_h + (fh : Int))
              ((ow : Int) * conv_param.stride_w - conv_param.pad_w + (fw : Int)) ic))) i j
    ?_ (List.replicate (Mblock * Nblock) initial_accum) hrep
  · rw [key.2, accum_get_replicate _ _ _ hi hj]
    exact forLoop_sum _ _ _ (fun _ _ _ => rfl) _
  intro fh _ A hA
  have key2 := forLoop_cellwise conv_param.S
    (fun fw accum =>
        forLoop conv_param.C (fun ic accum =>
          forLoop Nblock (fun j accum =>
            forLoop Mblock (fun i accum =>
              if n_block + j < conv_param.N ∧ oc_block + i < conv_param.K then
                accum_set accum i j (multiply_add (tensor_filter.val ((oc_block + i : Nat) : Int)
                    fh fw ic)
                  (if src_in_bounds conv_param.H conv_param.W
                      ((oh : Int) * conv_param.stride_h - conv_param.pad_h + (fh : Int))
                      ((ow : Int) * conv_param.stride_w - conv_param.pad_w + (fw : Int)) = true
                    then tensor_src.val ((n_block + j : Nat) : Int)
                      ((oh : Int) * conv_param.stride_h - conv_param.pad_h + (fh : Int))
                      ((ow : Int) * conv_param.stride_w - conv_param.pad_w + (fw : Int)) ic
                    else 0) (accum_get accum i j))
              else accum) accum) accum) accum)
    (fun fw a => a + Finset.sum (Finset.range conv_param.C) (fun ic =>
        tensor_filter.val ((oc_block + i : Nat) : Int) fh fw ic
          * (zero_extend conv_param.H conv_param.W tensor_src).val ((n_block + j : Nat) : Int)
              ((oh : Int) * conv_param.stride_h - conv_param.pad_h + (fh : Int))
              ((ow : Int) * conv_param.stride_w - conv_param.pad_w + (fw : Int)) ic)) i j
    ?_ A hA
  · refine ⟨key2.1, ?_⟩
    rw [key2.2]
    exact forLoop_sum _ _ _ (fun _ _ _ => rfl) _
  intro fw _ A hA
  have key3 := forLoop_cellwise conv_param.C
    (fun ic accum =>
          forLoop Nblock (fun j accum =>
            forLoop Mblock (fun i accum =>
              if n_block + j < conv_param.N ∧ oc_block + i < conv_param.K then
                accum_set accum i j (multiply_add (tensor_filter.val ((oc_block + i : Nat) : Int)
                    fh fw ic)
                  (if src_in_bounds conv_param.H conv_param.W
                      ((oh : Int) * conv_param.stride_h - conv_param.pad_h + (fh : Int))
                      ((ow : Int) * conv_param.stride_w - conv_param.pad_w + (fw : Int)) = true
                    then tensor_src.val ((n_block + j : Nat) : Int)
                      ((oh : Int) * conv_param.stride_h - conv_param.pad_h + (fh : Int))
                      ((ow : Int) * conv_param.stride_w - conv_param.pad_w + (fw : Int)) ic
                    else 0) (accum_get accum i j))
              else accum) accum) accum)
    (fun ic a => a + tensor_filter.val ((oc_block + i : Nat) : Int) fh fw ic
          * (zero_extend conv_param.H conv_param.W tensor_src).val ((n_block + j : Nat) : Int)
              ((oh : Int) * conv_param.stride_h - conv_param.pad_h + (fh : Int))
              ((ow : Int) * conv_param.stride_w - conv_param.pad_w + (fw : Int)) ic) i j
    ?_ A hA
  · refine ⟨key3.1, ?_⟩
    rw [key3.2]
    exact forLoop_sum _ _ _ (fun _ _ _ => rfl) _
  intro ic _ A hA
  obtain ⟨plen, pget⟩ := forLoop_array_pass
    (fun i2 j2 => n_block + j2 < conv_param.N ∧ oc_block + i2 < conv_param.K)
    (fun i2 j2 a =>
      multiply_add (tensor_filter.val ((oc_block + i2 : Nat) : Int) fh fw ic)
        (if src_in_bounds conv_param.H conv_param.W
            ((oh : Int) * conv_param.stride_h - conv_param.pad_h + (fh : Int))
            ((ow : Int) * conv_param.stride_w - conv_param.pad_w + (fw : Int)) = true
          then tensor_src.val ((n_block + j2 : Nat) : Int)
            ((oh : Int) * conv_param.stride_h - conv_param.pad_h + (fh : Int))
            ((ow : Int) * conv_param.stride_w - conv_param.pad_w + (fw : Int)) ic
          else 0) a) Nblock A (le_refl _) hA
  refine ⟨plen, ?_⟩
  rw [pget i j hi hj, if_pos ⟨hj, hn, hoc⟩]
  simp only [multiply_add, zero_extend, src_in_bounds, decide_eq_true_eq, ge_iff_le]
  rw [add_comm]

theorem Writes.congr {α : Type} {f : Tensor4 α → Tensor4 α}
    {W W2 : Int → Int → Int → Int → Prop} {V : Tensor4 α} (h : Writes f W V)
    (hW : ∀ a b c d, W2 a b c d ↔ W a b c d) : Writes f W2 V := by
  intro T a b c d
  rw [hW]
  exact h T a b c d

/-- The stores of `compute_convolution`: the closed-form value at every in-range output
coordinate, nothing anywhere else. -/
theorem compute_convolution_writes {α : Type} [CommSemiring α]
    (need_round : Bool) (round convert_op : α → α)
    (conv_param : Conv2dProblemSize) (alpha : α) (tensor_src tensor_filter : Tensor4 α)
    (beta : α) (tensor_bias : Tensor4 α) (gamma : α) (tensor_z : Tensor4 α)
    (initial_accum : α) :
    Writes (fun tensor_dst => compute_convolution need_round round convert_op conv_param alpha
        tensor_src tensor_filter beta tensor_bias gamma tensor_z tensor_dst initial_accum)
      (fun a b c d => ∃ n oh ow oc : Nat, n < conv_param.N ∧ oh < conv_param.P
        ∧ ow < conv_param.Q ∧ oc < conv_param.K
        ∧ a = (n : Int) ∧ b = (oh : Int) ∧ c = (ow : Int) ∧ d = (oc : Int))
      (conv_output_closed need_round round convert_op conv_param alpha tensor_src tensor_filter
        beta tensor_bias gamma tensor_z initial_accum) := by
  refine Writes.congr (W := fun a b c d =>
    ∃ nb, nb < (conv_param.N + Nblock - 1) / Nblock ∧
    ∃ ob, ob < (conv_param.K + Mblock - 1) / Mblock ∧
    ∃ oh, oh < conv_param.P ∧ ∃ ow, ow < conv_param.Q ∧
    ∃ j, j < Nblock ∧ ∃ i, i < Mblock ∧
      ((nb * Nblock + j < conv_param.N ∧ ob * Mblock + i < conv_param.K)
        ∧ a = ((nb * Nblock + j : Nat) : Int) ∧ b = (oh : Int) ∧ c = (ow : Int)
        ∧ d = ((ob * Mblock + i : Nat) : Int))) ?main ?hW
  case main =>
    unfold compute_convolution
    apply forStep_writes
    intro nb _
    apply forStep_writes
    intro ob _
    apply forLoop_writes
    intro oh _
    apply forLoop_writes
    intro ow _
    apply forLoop_writes
    intro j hj
    apply forLoop_writes
    intro i hi
    refine guarded_set_writes
      (nb * Nblock + j < conv_param.N ∧ ob * Mblock + i < conv_param.K)
      ((nb * Nblock + j : Nat) : Int) (oh : Int) (ow : Int)
      ((ob * Mblock + i : Nat) : Int) _ _ ?_
    intro hc
    rw [compute_convolution_accum_eq conv_param tensor_src tensor_filter
      initial_accum (nb * Nblock) (ob * Mblock) oh ow i j hi hj hc.1 hc.2]
    rfl
  intro a b c d
  constructor
  · rintro ⟨n, oh, ow, oc, hn, hoh, how, hoc, rfl, rfl, rfl, rfl⟩
    refine ⟨n / 16, ?_, oc / 16, ?_, oh, hoh, ow, how, n % 16, ?_, oc % 16, ?_, ⟨?_, ?_⟩,
      ?_, rfl, rfl, ?_⟩
    · show n / 16 < (conv_param.N + 16 - 1) / 16
      omega
    · show oc / 16 < (conv_param.K + 16 - 1) / 16
      omega
    · show n % 16 < 16
      omega
    · show oc % 16 < 16
      omega
    · show n / 16 * 16 + n % 16 < conv_param.N
      omega
    · show oc / 16 * 16 + oc % 16 < conv_param.K
      omega
    · show (n : Int) = ((n / 16 * 16 + n % 16 : Nat) : Int)
      congr 1
      omega
    · show (oc : Int) = ((oc / 16 * 16 + oc % 16 : Nat) : Int)
      congr 1
      omega
  · rintro ⟨nb, _, ob, _, oh, hoh, ow, how, j, _, i, _, ⟨hn, hoc⟩, rfl, rfl, rfl, rfl⟩
    exact ⟨nb * Nblock + j, oh, ow, ob * Mblock + i, hn, hoh, how, hoc, rfl, rfl, rfl, rfl⟩

/-! ## C7: closed form of the bias-fused reference evaluator -/

/-- C7. Closed form of the bias-fused reference evaluator: for every problem size (`N` and `K`
need not be multiples of the 16x16 blocking) and every output coordinate with `n < N`,
`oh < P`, `ow < Q`, `oc < K`, `compute_convolution` stores
`convert(round?(alpha*A + beta*bias[0,0,0,oc] + gamma*z[n,oh,ow,oc]))`, where `A` is
`initial_accum` plus the sum over `fh < R`, `fw < S`, `ic < C` of
`filter[oc,fh,fw,ic] * src0[n, oh*stride_h - pad_h + fh, ow*stride_w - pad_w + fw, ic]` and
`src0` is the source extended by 0; the bias term depends only on `oc`. -/
theorem compute_convolution_closed_form {α : Type} [CommSemiring α]
    (need_round : Bool) (round convert_op : α → α)
    (conv_param : Conv2dProblemSize) (alpha : α) (tensor_src tensor_filter : Tensor4 α)
    (beta : α) (tensor_bias : Tensor4 α) (gamma : α) (tensor_z tensor_dst : Tensor4 α)
    (initial_accum : α) (n oh ow oc : Nat)
    (hn : n < conv_param.N) (hoh : oh < conv_param.P) (how : ow < conv_param.Q)
    (hoc : oc < conv_param.K) :
    (compute_convolution need_round round convert_op conv_param alpha tensor_src tensor_filter
        beta tensor_bias gamma tensor_z tensor_dst initial_accum).val n oh ow oc
      = convert_op
          (let A := initial_accum
              + Finset.sum (Finset.range conv_param.R) (fun fh =>
                  Finset.sum (Finset.range conv_param.S) (fun fw =>
                    Finset.sum (Finset.range conv_param.C) (fun ic =>
                      tensor_filter.val oc fh fw ic
                        * (zero_extend conv_param.H conv_param.W tensor_src).val n
                            ((oh : Int) * conv_param.stride_h - conv_param.pad_h + (fh : Int))
                            ((ow : Int) * conv_param.stride_w - conv_param.pad_w + (fw : Int))
                            ic)))
           let v := alpha * A + beta * tensor_bias.val 0 0 0 oc
                      + gamma * tensor_z.val n oh ow oc
           if need_round then round v else v) :=
  ((compute_convolution_writes need_round round convert_op conv_param alpha tensor_src
      tensor_filter beta tensor_bias gamma tensor_z initial_accum) tensor_dst n oh ow oc).1
    ⟨n, oh, ow, oc, hn, hoh, how, hoc, rfl, rfl, rfl, rfl⟩

set_option maxRecDepth 4000 in
/-- C7 at a concrete input: the corner output `(0, 0, 0, 0)` of `small_problem`, whose
receptive field reaches into the padding, with `alpha = 2`, `beta = 3`, `gamma = 1`. -/
theorem compute_convolution_closed_form_witness :
    (compute_convolution false id id small_problem 2 small_src small_filter 3 small_bias 1
        small_z small_dst 0).val (0 : Nat) (0 : Nat) (0 : Nat) (0 : Nat)
      = 2 * (4 * 1 + 3 * 11) + 3 * 5 + 1 * 0 :=
  (compute_convolution_closed_form false id id small_problem 2 small_src small_filter 3
    small_bias 1 small_z small_dst 0 0 0 0 0 (by decide) (by decide) (by decide)
    (by decide)).trans (by decide)

/-! ## C8: padding reads zero -/

/-- C8. Padding reads zero: for exact (commutative semiring, integer in particular) elements
and every problem size, stride, dilation, mode, alpha and beta, `Conv2dFprop` with padding
`(pad_h, pad_w) ≥ 0` on input `x` produces the same output tensor as `Conv2dFprop` with padding
0 on the explicitly zero-padded input `x'` of extent `(H + 2*pad_h, W + 2*pad_w)`. -/
theorem padding_reads_zero {α : Type} [CommSemiring α] [DecidableEq α] (convert_op : α → α)
    (problem_size : Conv2dProblemSize) (tensor_x tensor_w tensor_y_in tensor_y_out : Tensor4 α)
    (alpha beta : α) (hph : 0 ≤ problem_size.pad_h) (hpw : 0 ≤ problem_size.pad_w) :
    Conv2dFprop convert_op problem_size tensor_x tensor_w tensor_y_in tensor_y_out alpha beta
      = Conv2dFprop convert_op (padded_problem problem_size)
          (zero_pad problem_size.pad_h problem_size.pad_w problem_size.H problem_size.W
            tensor_x)
          tensor_w tensor_y_in tensor_y_out alpha beta := by
  unfold Conv2dFprop
  apply forLoop_congr
  intro n _ y
  apply forLoop_congr
  intro p _ y
  apply forLoop_congr
  intro q _ y
  apply forLoop_congr
  intro k _ y
  have hacc : ∀ a0 : α,
      forLoop problem_size.R (fun r acc =>
        forLoop problem_size.S (fun s acc =>
          forLoop problem_size.C (fun c acc =>
            let filter_r : Int :=
              if problem_size.mode = Mode.kConvolution then
                (problem_size.R : Int) - 1 - (r : Int) else (r : Int)
            let filter_s : Int :=
              if problem_size.mode = Mode.kConvolution then
                (problem_size.S : Int) - 1 - (s : Int) else (s : Int)
            let h : Int := (p : Int) * problem_size.stride_h - problem_size.pad_h
                            + filter_r * problem_size.dilation_h
            let w : Int := (q : Int) * problem_size.stride_w - problem_size.pad_w
                            + filter_s * problem_size.dilation_w
            if h ≥ 0 ∧ h < (problem_size.H : Int) ∧ w ≥ 0 ∧ w < (problem_size.W : Int) then
              let a := tensor_x.val n h w c
              let b := tensor_w.val k r s c
              multiply_add a b acc
            else acc) acc) acc) a0
      = forLoop (padded_problem problem_size).R (fun r acc =>
        forLoop (padded_problem problem_size).S (fun s acc =>
          forLoop (padded_problem problem_size).C (fun c acc =>
            let filter_r : Int :=
              if (padded_problem problem_size).mode = Mode.kConvolution then
                ((padded_problem problem_size).R : Int) - 1 - (r : Int) else (r : Int)
            let filter_s : Int :=
              if (padded_problem problem_size).mode = Mode.kConvolution then
                ((padded_problem problem_size).S : Int) - 1 - (s : Int) else (s : Int)
            let h : Int := (p : Int) * (padded_problem problem_size).stride_h
                            - (padded_problem problem_size).pad_h
                            + filter_r * (padded_problem problem_size).dilation_h
            let w : Int := (q : Int) * (padded_problem problem_size).stride_w
                            - (padded_problem problem_size).pad_w
                            + filter_s * (padded_problem problem_size).dilation_w
            if h ≥ 0 ∧ h < ((padded_problem problem_size).H : Int) ∧ w ≥ 0
                ∧ w < ((padded_problem problem_size).W : Int) then
              let a := (zero_pad problem_size.pad_h problem_size.pad_w problem_size.H
                problem_size.W tensor_x).val n h w c
              let b := tensor_w.val k r s c
              multiply_add a b acc
            else acc) acc) acc) a0 := by
    intro a0
    apply forLoop_congr
    intro r _ acc
    apply forLoop_congr
    intro s _ acc
    apply forLoop_congr
    intro c _ acc
    simp only [padded_problem]
    generalize (if problem_size.mode = Mode.kConvolution then
      (problem_size.R : Int) - 1 - (r : Int) else (r : Int)) = filter_r
    generalize (if problem_size.mode = Mode.kConvolution then
      (problem_size.S : Int) - 1 - (s : Int) else (s : Int)) = filter_s
    generalize hh : (p : Int) * problem_size.stride_h - problem_size.pad_h
      + filter_r * problem_size.dilation_h = h
    generalize hw : (q : Int) * problem_size.stride_w - problem_size.pad_w
      + filter_s * problem_size.dilation_w = w
    have eh : (p : Int) * problem_size.stride_h - 0 + filter_r * problem_size.dilation_h
        = h + problem_size.pad_h := by rw [← hh]; ring
    have ew : (q : Int) * problem_size.stride_w - 0 + filter_s * problem_size.dilation_w
        = w + problem_size.pad_w := by rw [← hw]; ring
    rw [eh, ew]
    have e1 : (((problem_size.H + 2 * problem_size.pad_h.toNat : Nat)) : Int)
        = (problem_size.H : Int) + 2 * problem_size.pad_h := by
      push_cast; rw [Int.toNat_of_nonneg hph]
    have e2 : (((problem_size.W + 2 * problem_size.pad_w.toNat : Nat)) : Int)
        = (problem_size.W : Int) + 2 * problem_size.pad_w := by
      push_cast; rw [Int.toNat_of_nonneg hpw]
    rw [e1, e2]
    simp only [zero_pad, multiply_add, add_sub_cancel_right]
    by_cases hin : h ≥ 0 ∧ h < (problem_size.H : Int) ∧ w ≥ 0 ∧ w < (problem_size.W : Int)
    · have hin2 : h + problem_size.pad_h ≥ 0
          ∧ h + problem_size.pad_h < (problem_size.H : Int) + 2 * problem_size.pad_h
          ∧ w + problem_size.pad_w ≥ 0
          ∧ w + problem_size.pad_w < (problem_size.W : Int) + 2 * problem_size.pad_w := by
        obtain ⟨a, b, c, d⟩ := hin
        exact ⟨by omega, by omega, by omega, by omega⟩
      have hin3 : 0 ≤ h ∧ h < (problem_size.H : Int) ∧ 0 ≤ w ∧ w < (problem_size.W : Int) := hin
      rw [if_pos hin, if_pos hin2, if_pos hin3]
    · have hin3 : ¬ (0 ≤ h ∧ h < (problem_size.H : Int) ∧ 0 ≤ w
          ∧ w < (problem_size.W : Int)) := hin
      rw [if_neg hin, if_neg hin3]
      split
      · simp
      · rfl
  rw [hacc]

/-- C8 at a concrete input: `small_problem`, whose padding is 1 in both directions, with
`alpha = 2` and `beta = 3`. -/
theorem padding_reads_zero_witness :
    Conv2dFprop id small_problem small_src small_filter small_z small_dst 2 3
      = Conv2dFprop id (padded_problem small_problem) (zero_pad 1 1 3 3 small_src)
          small_filter small_z small_dst 2 3 :=
  padding_reads_zero id small_problem small_src small_filter small_z small_dst 2 3
    (by decide) (by decide)

/-! ## C9: the fill value of guarded-off lanes -/

set_option maxRecDepth 100000 in
/-- The packed word of the `uint4b_t` specialisation vanishes only for zero point 0. -/
theorem pack_pad_zero_iff : ∀ z, z < 256 →
    (forLoop 8 (fun i ret => (ret ||| (z <<< (4 * i))) % 2 ^ 32) 0 = 0 ↔ z = 0) := by
  decide

theorem prepare_pack_pad_eq_zero_iff (element : Element) (params : ExtraParam) :
    prepare_pack_pad element params = 0 ↔
      ¬ (element = Element.uint4b_t
          ∧ ∃ z, params = ExtraParam.ExtraParamZeroPoint z ∧ z % 256 ≠ 0) := by
  cases element <;> cases params <;> simp [prepare_pack_pad]
  rename_i z
  exact pack_pad_zero_iff (z % 256) (Nat.mod_lt _ (by norm_num))

/-- C9 as stated fails: in the 4-bit sample with source zero point 8 the first access of
thread 0 (tap (0, 0) at input origin (-1, -1)) is guarded off, and the word handed to the load
for its slot is `0x88888888`, not zero. -/
theorem padded_lane_fill_nonzero :
    access_guard sample_traits_u4 sample_params_u4 sample_iterator_u4 0 0 0 = false
    ∧ sample_iterator_u4.pack_pad_ = 0x88888888
    ∧ (load_with_byte_offset id (fun _ => 0) sample_traits_u4 sample_params_u4
        sample_iterator_u4 0).getD 0 0 = 0x88888888 := by
  decide

/-- C9, amended.  Whenever the guard of an access of `load_with_byte_offset` is false, the
fragment slot receives the fill word `pack_pad_` for every content `mem` of the memory (no
memory is read);
`pack_pad_` is the word `prepare_pack_pad` made from the extra parameters at construction and is
untouched by advances; and that word is zero for every element type other than `uint4b_t`,
while for `uint4b_t` it is the source zero point replicated into the nibbles, zero exactly when
the zero point is 0. -/
theorem padded_lanes_filled {α : Type} (fill : Nat → α) (mem : Int → α) (t : IteratorTraits)
    (p : FpropPrecompParams) (it : Conv2dTileSrcIteratorFpropPrecomp) (byte_offset : Int)
    (idx : Nat) (d : α)
    (hidx : idx < t.Iterations_kStrided * t.Iterations_kContiguous * t.kAccessesPerVector)
    (hguard : access_guard t p it
        ((idx / t.kAccessesPerVector) / t.Iterations_kContiguous)
        ((idx / t.kAccessesPerVector) % t.Iterations_kContiguous)
        (idx % t.kAccessesPerVector) = false) :
    (load_with_byte_offset fill mem t p it byte_offset).getD idx d = fill it.pack_pad_
    ∧ (∀ (pointer : Int) (extent_row initial_strided initial_contiguous tb_row tb_column n : Nat),
        ((Conv2dTileSrcIteratorFpropPrecomp.advance t p)^[n]
          (Conv2dTileSrcIteratorFpropPrecomp.construct t p pointer extent_row initial_strided
            initial_contiguous tb_row tb_column)).pack_pad_
          = prepare_pack_pad t.element p.extra_param_)
    ∧ (prepare_pack_pad t.element p.extra_param_ = 0 ↔
        ¬ (t.element = Element.uint4b_t
            ∧ ∃ z, p.extra_param_ = ExtraParam.ExtraParamZeroPoint z ∧ z % 256 ≠ 0)) := by
  refine ⟨?_, fun pointer er is ic tr tc n => ?_, prepare_pack_pad_eq_zero_iff _ _⟩
  · simp only [load_with_byte_offset]
    rw [getD_map_range _ _ _ _ hidx]
    simp only [global_load, hguard]
    rfl
  · rw [(iterate_advance_frame t p _ n).2.2.2]
    rfl

/-- C9 (amended) at a concrete input: slot 0 of the fragment loaded by thread 0 of the 4-bit
sample, whose guard is false. -/
theorem padded_lanes_filled_witness :
    (load_with_byte_offset id (fun a => a.toNat + 1) sample_traits_u4 sample_params_u4
        sample_iterator_u4 0).getD 0 0 = id sample_iterator_u4.pack_pad_ :=
  (padded_lanes_filled id (fun a => a.toNat + 1) sample_traits_u4 sample_params_u4
    sample_iterator_u4 0 0 0 (by decide) (by decide)).1

/-! ## C10: filters beyond the table capacity -/

/-- C10 fails on the code: for the 8x8 filter (64 taps, more than `kMaxFilterPixels = 49`) the
constructor does not fail; it returns a parameter object, and `compute_offset_fprop` has written
264 words through `constant_offset_`, whose buffer holds 204. -/
theorem capacity_not_checked :
    (FpropPrecompParams.construct sample_traits sample_tile_map sample_layout
        sample_problem_8x8 ExtraParam.none_type).constant_offset_.length = 264
    ∧ kPrecomputedOffsetBufferSize sample_traits.kStrided = 204
    ∧ kMaxFilterPixels < sample_problem_8x8.R * sample_problem_8x8.S := by
  refine ⟨?_, by decide, by decide⟩
  show (compute_offset_fprop _ _ _ _ _ _ _ _).length = 264
  rw [compute_offset_fprop_length]
  rfl

/-! ## C16, C17: the scalars of the epilogue functor -/

/-- C16. `is_source_needed()` returns true if and only if the effective gamma is nonzero, the
effective gamma being `*gamma_ptr` when `gamma_ptr` is non-null and `params.gamma` otherwise;
replacing alpha, beta, threshold and their pointers by anything else does not change it. -/
theorem is_source_needed_iff {ElementCompute : Type} [Zero ElementCompute]
    [DecidableEq ElementCompute] (params : EpilogueParams ElementCompute) :
    ((BiasAddLinearCombinationRelu.construct params).is_source_needed = true
      ↔ (match params.gamma_ptr with
          | some v => v
          | none => params.gamma) ≠ 0)
    ∧ ∀ (alpha beta threshold : ElementCompute)
        (alpha_ptr beta_ptr threshold_ptr : Option ElementCompute),
        (BiasAddLinearCombinationRelu.construct
          { params with alpha := alpha, beta := beta, threshold := threshold,
                        alpha_ptr := alpha_ptr, beta_ptr := beta_ptr,
                        threshold_ptr := threshold_ptr }).is_source_needed
          = (BiasAddLinearCombinationRelu.construct params).is_source_needed := by
  refine ⟨?_, fun _ _ _ _ _ _ => rfl⟩
  simp [BiasAddLinearCombinationRelu.is_source_needed, BiasAddLinearCombinationRelu.construct]

/-- C17. Scalar overrides: for each of alpha, beta, gamma and threshold independently, the
functor constructed from `Params` uses the value behind the pointer when the pointer is
non-null, whatever the literal field holds, and the literal field when the pointer is null
(each member of the functor is determined by its own pointer and literal alone); a
`Params` built by the four-scalar constructor has all four pointers null and the functor uses
exactly the four scalars given. -/
theorem scalar_overrides {ElementCompute : Type} (params : EpilogueParams ElementCompute)
    (v a b g t : ElementCompute) :
    ((BiasAddLinearCombinationRelu.construct { params with alpha_ptr := some v }).alpha_ = v
      ∧ (BiasAddLinearCombinationRelu.construct { params with alpha_ptr := none }).alpha_
          = params.alpha)
    ∧ ((BiasAddLinearCombinationRelu.construct { params with beta_ptr := some v }).beta_ = v
      ∧ (BiasAddLinearCombinationRelu.construct { params with beta_ptr := none }).beta_
          = params.beta)
    ∧ ((BiasAddLinearCombinationRelu.construct { params with gamma_ptr := some v }).gamma_ = v
      ∧ (BiasAddLinearCombinationRelu.construct { params with gamma_ptr := none }).gamma_
          = params.gamma)
    ∧ ((BiasAddLinearCombinationRelu.construct
          { params with threshold_ptr := some v }).threshold_ = v
      ∧ (BiasAddLinearCombinationRelu.construct
          { params with threshold_ptr := none }).threshold_ = params.threshold)
    ∧ BiasAddLinearCombinationRelu.construct params
        = { alpha_ := params.alpha_ptr.getD params.alpha
            beta_ := params.beta_ptr.getD params.beta
            gamma_ := params.gamma_ptr.getD params.gamma
            threshold_ := params.threshold_ptr.getD params.threshold }
    ∧ ((EpilogueParams.ofScalars a b g t).alpha_ptr = none
      ∧ (EpilogueParams.ofScalars a b g t).beta_ptr = none
      ∧ (EpilogueParams.ofScalars a b g t).gamma_ptr = none
      ∧ (EpilogueParams.ofScalars a b g t).threshold_ptr = none)
    ∧ BiasAddLinearCombinationRelu.construct (EpilogueParams.ofScalars a b g t)
        = { alpha_ := a, beta_ := b, gamma_ := g, threshold_ := t } := by
  refine ⟨⟨rfl, rfl⟩, ⟨rfl, rfl⟩, ⟨rfl, rfl⟩, ⟨rfl, rfl⟩, ?_, ⟨rfl, rfl, rfl, rfl⟩, rfl⟩
  simp only [BiasAddLinearCombinationRelu.construct]
  cases params.alpha_ptr <;> cases params.beta_ptr <;> cases params.gamma_ptr
    <;> cases params.threshold_ptr <;> rfl

/-! ## C15: the stored taps are the current step's taps -/

/-- Word `2 * idx + 1` of the table: the packed taps of the step the entry belongs to. -/
theorem offset_table_packed_word (off taps : Nat → Int) (K RS r idx : Nat)
    (h : idx < (2 + RS) * K) :
    (offset_table off taps K RS r).getD (2 * idx + 1) 0 =
      taps (if idx < K then idx else idx - K + r) := by
  simp only [offset_table]
  by_cases h1 : idx < K
  · rw [if_pos h1, List.append_assoc, List.getD_append _ _ _ _ (by rw [table_loop_length]; omega),
      table_loop_getD_odd _ _ _ _ _ _ h1]
    simp
  · rw [if_neg h1, List.append_assoc,
      getD_append_right_of_le _ _ _ _ (by rw [table_loop_length]; omega), table_loop_length]
    by_cases h2 : idx < 2 * K
    · rw [List.getD_append _ _ _ _ (by rw [table_loop_length]; omega)]
      have e : 2 * idx + 1 - 2 * K = 2 * (idx - K) + 1 := by omega
      rw [e, table_loop_getD_odd _ _ _ _ _ _ (by omega)]
      have e2 : K + (idx - K) = idx := by omega
      simp only [e2]
    · rw [getD_append_right_of_le _ _ _ _ (by rw [table_loop_length]; omega),
        table_loop_length]
      have e : 2 * idx + 1 - 2 * K - 2 * (2 * K - K) = 2 * (idx - 2 * K) + 1 := by omega
      rw [e, table_loop_getD_odd _ _ _ _ _ _ (by omega)]
      have e2 : 2 * K + (idx - 2 * K) = idx := by omega
      simp only [e2]

theorem compute_offset_fprop_packed_word (K kI bits R S H W r idx : Nat)
    (h : idx < (2 + R * S) * K) :
    (compute_offset_fprop K kI bits R S H W r).getD (2 * idx + 1) 0 =
      pack_fhfw (step_fh R S (if idx < K then idx else idx - K + r))
        (step_fw R S (if idx < K then idx else idx - K + r)) :=
  offset_table_packed_word _ _ K (R * S) r idx h

/-- Bytes 0 and 1 of the packed word are the taps, as long as they fit in a byte. -/
theorem pack_fhfw_decode (fh fw : Nat) (hfh : fh < 256) (hfw : fw < 256) :
    (pack_fhfw fh fw).toNat &&& 0xff = fh
    ∧ ((pack_fhfw fh fw).toNat >>> 8) &&& 0xff = fw := by
  have e255 : (0xff : Nat) = 2 ^ 8 - 1 := by norm_num
  have b1 : short_byte (fh : Int) = fh := by
    simp only [short_byte]; omega
  have b2 : short_byte (fw : Int) = fw := by
    simp only [short_byte]; omega
  have b3 : short_byte (-(fh : Int)) < 256 := by
    simp only [short_byte]; omega
  simp only [pack_fhfw, Int.toNat_natCast, b1, b2]
  rw [e255, Nat.and_pow_two_sub_one_eq_mod, Nat.and_pow_two_sub_one_eq_mod,
    Nat.shiftRight_eq_div_pow]
  constructor <;> omega

theorem word_two_mul_add_one (p : FpropPrecompParams) (a b : Nat) :
    p.word (2 * ((a : Int) + ((b : Nat) : Int)) + 1)
      = p.constant_offset_.getD (2 * (a + b) + 1) 0 := by
  have e : (2 * ((a : Int) + ((b : Nat) : Int)) + 1) = (((2 * (a + b) + 1 : Nat)) : Int) := by
    push_cast; ring
  rw [FpropPrecompParams.word, e, Int.toNat_natCast]

/-- The step whose taps the table entry selected after `n` advances holds differs from the
lane's current step by a whole number of filter sweeps. -/
theorem ramp_step_mod (K r j RS n : Nat) (hK : j < K) :
    (if j + ramp_index RS n * K < K then j + ramp_index RS n * K
      else j + ramp_index RS n * K - K + r) % RS = lane_step K r j n % RS := by
  unfold ramp_index lane_step
  by_cases h0 : n = 0
  · subst h0
    simp [hK]
  · by_cases h1 : n < 2
    · have h1n : n = 1 := by omega
      subst h1n
      have hge : ¬ (j + 1 * K < K) := by omega
      simp only [Nat.one_lt_two, if_true, if_neg hge]
      have e : j + 1 * K - K + r = j + (1 - 1) * K + r := by simp
      rw [e]; simp
    · have hk : K ≤ (2 + (n - 2) % RS) * K := Nat.le_mul_of_pos_left _ (by omega)
      have hge : ¬ (j + (2 + (n - 2) % RS) * K < K) := by omega
      rw [if_neg h1, if_neg hge, if_neg h0]
      have hdm := Nat.div_add_mod (n - 2) RS
      have e1 : j + (2 + (n - 2) % RS) * K - K + r = j + (1 + (n - 2) % RS) * K + r := by
        have : (2 + (n - 2) % RS) * K = (1 + (n - 2) % RS) * K + K := by ring
        omega
      have e2 : j + (n - 1) * K + r
          = j + (1 + (n - 2) % RS) * K + r + ((n - 2) / RS * K) * RS := by
        have e3 : n - 1 = 1 + (RS * ((n - 2) / RS) + (n - 2) % RS) := by omega
        rw [e3]; ring
      rw [e1, e2, Nat.add_mul_mod_self_right]

theorem step_fh_eq (R S t : Nat) : step_fh R S t = t % (R * S) / S := by
  simp only [step_fh]
  rw [Nat.mod_def]

theorem step_fw_eq (R S t : Nat) : step_fw R S t = t % (R * S) % S := by
  simp only [step_fw]
  rw [Nat.mod_def t (R * S), Nat.mod_def (t - R * S * (t / (R * S))) S]

/-- C15. The stored taps are the current step's taps: in every state of the precomputed
iterator reached by `n ≥ 0` advances, for every lane position `j < K`, bytes 0 and 1 of the
packed word of the table entry at index `constant_offset_ + s*Delta`, which
`load_with_byte_offset` uses as filter row and column, equal `fh = (t mod R*S) / S` and
`fw = (t mod R*S) mod S` of the step `t` being loaded (`t = j` for `n = 0`,
`t = j + (n-1)*K + r` for `n ≥ 1`), rewinds included, for `1 ≤ R, S ≤ 127`. -/
theorem stored_taps_current (t : IteratorTraits)
    (TileMap : Nat → Nat → LogicalCoord → TensorCoord) (layout : TensorCoord → Int)
    (problem_size : Conv2dProblemSize) (extra_param : ExtraParam) (pointer : Int)
    (extent_row initial_strided initial_contiguous tb_row tb_column s n : Nat)
    (hj : tb_row / t.kInterleaved + initial_strided + s * t.Delta_kStrided < t.kStrided)
    (hR0 : 0 < problem_size.R) (hS0 : 0 < problem_size.S)
    (hR : problem_size.R ≤ 127) (hS : problem_size.S ≤ 127) :
    let p := FpropPrecompParams.construct t TileMap layout problem_size extra_param
    let it := Conv2dTileSrcIteratorFpropPrecomp.construct t p pointer extent_row
      initial_strided initial_contiguous tb_row tb_column
    let j := tb_row / t.kInterleaved + initial_strided + s * t.Delta_kStrided
    let itn := (Conv2dTileSrcIteratorFpropPrecomp.advance t p)^[n] it
    let spatial : Nat :=
      (p.word (2 * (itn.constant_offset_ + ((s * t.Delta_kStrided : Nat) : Int)) + 1)).toNat
    let step := if n = 0 then j else j + (n - 1) * t.kStrided + p.residue_offset_
    spatial &&& 0xff = step % (problem_size.R * problem_size.S) / problem_size.S
    ∧ (spatial >>> 8) &&& 0xff
        = step % (problem_size.R * problem_size.S) % problem_size.S := by
  intro p it j itn spatial step
  have hRS : 0 < problem_size.R * problem_size.S := Nat.mul_pos hR0 hS0
  have hj0 : tb_row / t.kInterleaved + initial_strided < t.kStrided :=
    lt_of_le_of_lt (Nat.le_add_right _ _) hj
  have hco : itn.constant_offset_
      = ((tb_row / t.kInterleaved + initial_strided
          + ramp_index (problem_size.R * problem_size.S) n * t.kStrided : Nat) : Int) :=
    iterate_constant_offset t p it (problem_size.R * problem_size.S)
      (tb_row / t.kInterleaved + initial_strided) n rfl rfl rfl hj0 hRS
  have hle := ramp_index_le (problem_size.R * problem_size.S) n hRS
  have hidx : j + ramp_index (problem_size.R * problem_size.S) n * t.kStrided
      < (2 + problem_size.R * problem_size.S) * t.kStrided := by
    calc j + ramp_index (problem_size.R * problem_size.S) n * t.kStrided
        < t.kStrided + ramp_index (problem_size.R * problem_size.S) n * t.kStrided := by
          have : j < t.kStrided := hj
          omega
      _ = (1 + ramp_index (problem_size.R * problem_size.S) n) * t.kStrided := by ring
      _ ≤ (2 + problem_size.R * problem_size.S) * t.kStrided :=
          Nat.mul_le_mul_right _ (by omega)
  have hsp : spatial = (pack_fhfw
      (step_fh problem_size.R problem_size.S
        (if j + ramp_index (problem_size.R * problem_size.S) n * t.kStrided < t.kStrided
          then j + ramp_index (problem_size.R * problem_size.S) n * t.kStrided
          else j + ramp_index (problem_size.R * problem_size.S) n * t.kStrided - t.kStrided
            + p.residue_offset_))
      (step_fw problem_size.R problem_size.S
        (if j + ramp_index (problem_size.R * problem_size.S) n * t.kStrided < t.kStrided
          then j + ramp_index (problem_size.R * problem_size.S) n * t.kStrided
          else j + ramp_index (problem_size.R * problem_size.S) n * t.kStrided - t.kStrided
            + p.residue_offset_))).toNat := by
    simp only [spatial]
    rw [hco, word_two_mul_add_one]
    have e : tb_row / t.kInterleaved + initial_strided
          + ramp_index (problem_size.R * problem_size.S) n * t.kStrided + s * t.Delta_kStrided
        = j + ramp_index (problem_size.R * problem_size.S) n * t.kStrided := by
      simp only [j]; omega
    rw [e]
    show ((compute_offset_fprop _ _ _ _ _ _ _ _).getD _ 0).toNat = _
    rw [compute_offset_fprop_packed_word _ _ _ _ _ _ _ _ _ hidx]
    rfl
  have hmod := ramp_step_mod t.kStrided p.residue_offset_ j
    (problem_size.R * problem_size.S) n hj
  have hstep : lane_step t.kStrided p.residue_offset_ j n = step := rfl
  rw [hstep] at hmod
  have hfh : step % (problem_size.R * problem_size.S) / problem_size.S < 256 := by
    have h1 : step % (problem_size.R * problem_size.S) < problem_size.S * problem_size.R := by
      rw [Nat.mul_comm problem_size.S problem_size.R]; exact Nat.mod_lt _ hRS
    have := Nat.div_lt_of_lt_mul h1
    omega
  have hfw : step % (problem_size.R * problem_size.S) % problem_size.S < 256 := by
    have := Nat.mod_lt (step % (problem_size.R * problem_size.S)) hS0
    omega
  rw [hsp, step_fh_eq, step_fw_eq, hmod]
  exact pack_fhfw_decode _ _ hfh hfw

set_option maxRecDepth 8000 in
/-- C15 at a concrete input: lane 1 of the sample instantiation after 23 advances (two rewinds);
the step is 46, whose taps in the 3x3 filter are row 0, column 1. -/
theorem stored_taps_current_witness :
    ((FpropPrecompParams.construct sample_traits sample_tile_map sample_layout
        sample_problem ExtraParam.none_type).word
      (2 * (((Conv2dTileSrcIteratorFpropPrecomp.advance sample_traits
          (FpropPrecompParams.construct sample_traits sample_tile_map sample_layout
            sample_problem ExtraParam.none_type))^[23]
        (Conv2dTileSrcIteratorFpropPrecomp.construct sample_traits
          (FpropPrecompParams.construct sample_traits sample_tile_map sample_layout
            sample_problem ExtraParam.none_type) 0 27 1 0 0 0)).constant_offset_
        + ((0 * 1 : Nat) : Int)) + 1)).toNat &&& 0xff = 46 % (3 * 3) / 3 :=
  (stored_taps_current sample_traits sample_tile_map sample_layout sample_problem
    ExtraParam.none_type 0 27 1 0 0 0 0 23 (by decide) (by decide) (by decide) (by decide)
    (by decide)).1

/-! ## C19: the residue/steady state machine -/

theorem next_strided_residue_flag (t : IteratorTraits) (p : FpropPrecompParams_false)
    (it : Conv2dTileSrcIteratorFpropPrecomp_false) (s : Nat) :
    (it.next_strided t p s).is_residue_tile_ = it.is_residue_tile_ := by
  unfold Conv2dTileSrcIteratorFpropPrecomp_false.next_strided
  split <;> rfl

theorem load_false_residue_flag {α : Type} (fill : Nat → α) (mem : Int → α)
    (t : IteratorTraits) (p : FpropPrecompParams_false)
    (it : Conv2dTileSrcIteratorFpropPrecomp_false) (byte_offset : Int) :
    (it.load_with_byte_offset fill mem t p byte_offset).2.is_residue_tile_
      = it.is_residue_tile_ := by
  unfold Conv2dTileSrcIteratorFpropPrecomp_false.load_with_byte_offset
  induction t.Iterations_kStrided with
  | zero => rfl
  | succ k ih =>
    rw [forLoop_succ]
    simp only [next_strided_residue_flag]
    exact ih

theorem store_false_residue_flag {α : Type} (default_slot : α) (mem : Int → α)
    (t : IteratorTraits) (p : FpropPrecompParams_false)
    (it : Conv2dTileSrcIteratorFpropPrecomp_false) (frag : List α) (byte_offset : Int) :
    (it.store_with_byte_offset default_slot mem t p frag byte_offset).2.is_residue_tile_
      = it.is_residue_tile_ := by
  unfold Conv2dTileSrcIteratorFpropPrecomp_false.store_with_byte_offset
  induction t.Iterations_kStrided with
  | zero => rfl
  | succ k ih =>
    rw [forLoop_succ]
    simp only [next_strided_residue_flag]
    exact ih

theorem precomp_run_steady {α : Type} (default_slot : α) (t : IteratorTraits)
    (p : FpropPrecompParams) (op : PrecompOp α)
    (state : Conv2dTileSrcIteratorFpropPrecomp × (Int → α))
    (h : state.1.is_residue_tile_ = false) :
    (op.run default_slot t p state).1.is_residue_tile_ = false := by
  cases op <;> first | rfl | exact h

theorem direct_run_steady {α : Type} (fill : Nat → α) (default_slot : α)
    (t : IteratorTraits) (p : FpropPrecompParams_false) (op : DirectOp α)
    (state : Conv2dTileSrcIteratorFpropPrecomp_false × (Int → α))
    (h : state.1.is_residue_tile_ = false) :
    (op.run fill default_slot t p state).1.is_residue_tile_ = false := by
  cases op with
  | advance => rfl
  | add_pointer_offset _ => exact h
  | clear_mask => exact h
  | enable_mask => exact h
  | set_mask _ => exact h
  | get_mask => exact h
  | load byte_offset =>
    show (state.1.load_with_byte_offset fill state.2 t p byte_offset).2.is_residue_tile_ = false
    rw [load_false_residue_flag]; exact h
  | store frag byte_offset =>
    show (state.1.store_with_byte_offset default_slot state.2 t p frag
      byte_offset).2.is_residue_tile_ = false
    rw [store_false_residue_flag]; exact h

theorem foldl_run_steady {σ ω : Type} (run : ω → σ → σ) (flag : σ → Bool)
    (hrun : ∀ op st, flag st = false → flag (run op st) = false) (ops : List ω) (st : σ)
    (h : flag st = false) : flag (ops.foldl (fun st op => run op st) st) = false := by
  induction ops generalizing st with
  | nil => exact h
  | cons op rest ih => exact ih (run op st) (hrun op st h)

/-- C19. Residue/steady state machine, for both iterator variants: `is_residue_tile_` is true
immediately after construction, false after the first call of `operator++`, and false after
every sequence of advance, load, store, mask and pointer-offset operations that follows it. -/
theorem residue_state_machine {α : Type} (fill : Nat → α) (default_slot : α)
    (t : IteratorTraits) (p : FpropPrecompParams) (q : FpropPrecompParams_false)
    (pointer : Int)
    (extent_row initial_strided initial_contiguous tb_row tb_column : Nat) :
    ((Conv2dTileSrcIteratorFpropPrecomp.construct t p pointer extent_row initial_strided
        initial_contiguous tb_row tb_column).is_residue_tile_ = true
      ∧ ∀ (state : Conv2dTileSrcIteratorFpropPrecomp × (Int → α)) (ops : List (PrecompOp α)),
          (ops.foldl (fun st op => op.run default_slot t p st)
            (PrecompOp.advance.run default_slot t p state)).1.is_residue_tile_ = false)
    ∧ ((Conv2dTileSrcIteratorFpropPrecomp_false.construct t q pointer extent_row
        initial_strided initial_contiguous tb_row tb_column).is_residue_tile_ = true
      ∧ ∀ (state : Conv2dTileSrcIteratorFpropPrecomp_false × (Int → α))
          (ops : List (DirectOp α)),
          (ops.foldl (fun st op => op.run fill default_slot t q st)
            (DirectOp.advance.run fill default_slot t q state)).1.is_residue_tile_ = false) := by
  refine ⟨⟨rfl, fun state ops => ?_⟩, ⟨rfl, fun state ops => ?_⟩⟩
  · exact foldl_run_steady (fun op st => PrecompOp.run default_slot t p op st)
      (fun st => st.1.is_residue_tile_)
      (fun op st h => precomp_run_steady default_slot t p op st h) ops _ rfl
  · exact foldl_run_steady (fun op st => DirectOp.run fill default_slot t q op st)
      (fun st => st.1.is_residue_tile_)
      (fun op st h => direct_run_steady fill default_slot t q op st h) ops _ rfl

/-! ## C20: mask save/restore round trip -/

/-- A loop storing `f i` into slot `i` for every `i < n` of an array of `n` slots produces the
array of the `f i`. -/
theorem forLoop_set_all (f : Nat → Nat) (n k : Nat) (l : List Nat) (hl : l.length = n)
    (hk : k ≤ n) :
    (forLoop k (fun i acc => acc.set i (f i)) l).length = n
    ∧ ∀ i, (forLoop k (fun i acc => acc.set i (f i)) l)[i]?
        = if i < k then some (f i) else l[i]? := by
  induction k with
  | zero => exact ⟨hl, fun i => by simp [forLoop]⟩
  | succ m ih =>
    obtain ⟨ihlen, ihget⟩ := ih (by omega)
    rw [forLoop_succ]
    refine ⟨by rw [List.length_set, ihlen], fun i => ?_⟩
    rw [List.getElem?_set, ihlen, ihget]
    by_cases h : m = i
    · subst h
      rw [if_pos rfl, if_pos (by omega), if_pos (by omega)]
    · rw [if_neg h]
      by_cases h2 : i < m
      · rw [if_pos h2, if_pos (by omega)]
      · rw [if_neg h2, if_neg (by omega)]

theorem forLoop_set_all_eq (f : Nat → Nat) (l target : List Nat)
    (hl : l.length = target.length) (hf : ∀ i, i < target.length → f i = target.getD i 0) :
    forLoop target.length (fun i acc => acc.set i (f i)) l = target := by
  obtain ⟨hlen, hget⟩ := forLoop_set_all f target.length target.length l hl (le_refl _)
  apply List.ext_getElem?
  intro i
  rw [hget]
  by_cases h : i < target.length
  · rw [if_pos h, hf i h, List.getD_eq_getElem?_getD, List.getElem?_eq_getElem h]
    rfl
  · rw [if_neg h, List.getElem?_eq_none (by omega), List.getElem?_eq_none (by omega)]

/-- C20. Mask save/restore round trip (non-precomputed iterator), for every iterator state (its
`predicates_` array having `kPredicateWordCount` words) and every mask `m` of that size:
`get_mask` after `set_mask(m)` returns `m`; saving with `get_mask`, then calling `clear_mask` or
`enable_mask`, then `set_mask` with the saved value gives back the very same iterator state;
and none of the mask operations changes the pointers, residue offset, residue extent or
residue flag. -/
theorem mask_round_trip (t : IteratorTraits) (it : Conv2dTileSrcIteratorFpropPrecomp_false)
    (m m0 : List Nat) (hit : it.predicates_.length = t.kPredicateWordCount)
    (hm : m.length = t.kPredicateWordCount) (hm0 : m0.length = t.kPredicateWordCount) :
    (it.set_mask t m).get_mask t m0 = m
    ∧ (it.clear_mask t).set_mask t (it.get_mask t m0) = it
    ∧ (it.enable_mask t).set_mask t (it.get_mask t m0) = it
    ∧ ((it.clear_mask t).pointer_ = it.pointer_
        ∧ (it.clear_mask t).residue_offset_ = it.residue_offset_
        ∧ (it.clear_mask t).residue_extent_ = it.residue_extent_
        ∧ (it.clear_mask t).is_residue_tile_ = it.is_residue_tile_)
    ∧ ((it.enable_mask t).pointer_ = it.pointer_
        ∧ (it.enable_mask t).residue_offset_ = it.residue_offset_
        ∧ (it.enable_mask t).residue_extent_ = it.residue_extent_
        ∧ (it.enable_mask t).is_residue_tile_ = it.is_residue_tile_)
    ∧ ((it.set_mask t m).pointer_ = it.pointer_
        ∧ (it.set_mask t m).residue_offset_ = it.residue_offset_
        ∧ (it.set_mask t m).residue_extent_ = it.residue_extent_
        ∧ (it.set_mask t m).is_residue_tile_ = it.is_residue_tile_) := by
  have hset : ∀ (l target : List Nat), l.length = t.kPredicateWordCount →
      target.length = t.kPredicateWordCount →
      forLoop t.kPredicateWordCount (fun i acc => acc.set i (target.getD i 0)) l = target := by
    intro l target hl ht
    rw [← ht]
    exact forLoop_set_all_eq _ l target (by omega) (fun _ _ => rfl)
  have hsetp : (it.set_mask t m).predicates_ = m := hset _ _ hit hm
  have hget : it.get_mask t m0 = it.predicates_ := hset _ _ hm0 hit
  have hclr : (it.clear_mask t).predicates_.length = t.kPredicateWordCount :=
    (forLoop_set_all (fun _ => 0) _ _ _ hit (le_refl _)).1
  have hen : (it.enable_mask t).predicates_.length = t.kPredicateWordCount :=
    (forLoop_set_all (fun _ => 0xffffffff) _ _ _ hit (le_refl _)).1
  refine ⟨?_, ?_, ?_, ⟨rfl, rfl, rfl, rfl⟩, ⟨rfl, rfl, rfl, rfl⟩, ⟨rfl, rfl, rfl, rfl⟩⟩
  · show forLoop t.kPredicateWordCount
      (fun i mask => mask.set i ((it.set_mask t m).predicates_.getD i 0)) m0 = m
    rw [hsetp]
    exact hset _ _ hm0 hm
  · rw [hget]
    have : ((it.clear_mask t).set_mask t it.predicates_).predicates_ = it.predicates_ :=
      hset _ _ hclr hit
    cases it
    simp only [Conv2dTileSrcIteratorFpropPrecomp_false.set_mask,
      Conv2dTileSrcIteratorFpropPrecomp_false.clear_mask] at this ⊢
    rw [this]
  · rw [hget]
    have : ((it.enable_mask t).set_mask t it.predicates_).predicates_ = it.predicates_ :=
      hset _ _ hen hit
    cases it
    simp only [Conv2dTileSrcIteratorFpropPrecomp_false.set_mask,
      Conv2dTileSrcIteratorFpropPrecomp_false.enable_mask] at this ⊢
    rw [this]

/-- C20 at a concrete input: the sample iterator, whose predicate array has one word. -/
theorem mask_round_trip_witness :
    (sample_iterator_false.set_mask sample_traits [5]).get_mask sample_traits [0] = [5] :=
  (mask_round_trip sample_traits sample_iterator_false [5] [0] (by decide) (by decide)
    (by decide)).1

/-! ## C18: the stores of `compute_convolution` -/

theorem forLoop_emits {κ : Type} (n : Nat) (body : Nat → List κ → List κ)
    (g : Nat → List κ) (h : ∀ i, i < n → Emits (body i) (g i)) :
    Emits (forLoop n body) ((List.range n).flatMap g) := by
  induction n with
  | zero => intro log; simp [forLoop]
  | succ k ih =>
    intro log
    rw [forLoop_succ, h k (by omega), ih (fun i hi => h i (by omega)), List.range_succ,
      List.flatMap_append, List.flatMap_singleton, List.append_assoc]

theorem forStep_emits {κ : Type} (n step : Nat) (body : Nat → List κ → List κ)
    (g : Nat → List κ) (h : ∀ b, b < (n + step - 1) / step → Emits (body (b * step)) (g b)) :
    Emits (forStep n step body) ((List.range ((n + step - 1) / step)).flatMap g) :=
  forLoop_emits ((n + step - 1) / step) (fun b => body (b * step)) g h

theorem forLoop_replays {α : Type} (n : Nat) (body : Nat → Tensor4 α → Tensor4 α)
    (g : Nat → List TensorCoord) (V : Tensor4 α) (h : ∀ i, i < n → Replays (body i) (g i) V) :
    Replays (forLoop n body) ((List.range n).flatMap g) V := by
  induction n with
  | zero => intro T; simp [forLoop]
  | succ k ih =>
    intro T
    rw [forLoop_succ, h k (by omega), ih (fun i hi => h i (by omega)), List.range_succ,
      List.flatMap_append, List.flatMap_singleton, List.foldl_append]

theorem forStep_replays {α : Type} (n step : Nat) (body : Nat → Tensor4 α → Tensor4 α)
    (g : Nat → List TensorCoord) (V : Tensor4 α)
    (h : ∀ b, b < (n + step - 1) / step → Replays (body (b * step)) (g b) V) :
    Replays (forStep n step body) ((List.range ((n + step - 1) / step)).flatMap g) V :=
  forLoop_replays ((n + step - 1) / step) (fun b => body (b * step)) g V h

/-- The store log of `compute_convolution`, as nested lists over the loop ranges. -/
theorem compute_convolution_stores_eq (conv_param : Conv2dProblemSize) :
    compute_convolution_stores conv_param
      = (List.range ((conv_param.N + Nblock - 1) / Nblock)).flatMap (fun nb =>
          (List.range ((conv_param.K + Mblock - 1) / Mblock)).flatMap (fun ob =>
            (List.range conv_param.P).flatMap (fun oh =>
              (List.range conv_param.Q).flatMap (fun ow =>
                (List.range Nblock).flatMap (fun j =>
                  (List.range Mblock).flatMap (fun i =>
                    if nb * Nblock + j < conv_param.N ∧ ob * Mblock + i < conv_param.K then
                      [({ n := ((nb * Nblock + j : Nat) : Int), h := (oh : Int),
                          w := (ow : Int), c := ((ob * Mblock + i : Nat) : Int) }
                        : TensorCoord)]
                    else [])))))) := by
  have main : Emits (fun log => forStep conv_param.N Nblock (fun n_block log =>
      forStep conv_param.K Mblock (fun oc_block log =>
        forLoop conv_param.P (fun oh log =>
          forLoop conv_param.Q (fun ow log =>
            forLoop Nblock (fun j log =>
              forLoop Mblock (fun i log =>
                if n_block + j < conv_param.N ∧ oc_block + i < conv_param.K then
                  log ++ [({ n := ((n_block + j : Nat) : Int), h := (oh : Int),
                             w := (ow : Int), c := ((oc_block + i : Nat) : Int) }
                            : TensorCoord)]
                else log) log) log) log) log) log) log)
      ((List.range ((conv_param.N + Nblock - 1) / Nblock)).flatMap (fun nb =>
          (List.range ((conv_param.K + Mblock - 1) / Mblock)).flatMap (fun ob =>
            (List.range conv_param.P).flatMap (fun oh =>
              (List.range conv_param.Q).flatMap (fun ow =>
                (List.range Nblock).flatMap (fun j =>
                  (List.range Mblock).flatMap (fun i =>
                    if nb * Nblock + j < conv_param.N ∧ ob * Mblock + i < conv_param.K then
                      [({ n := ((nb * Nblock + j : Nat) : Int), h := (oh : Int),
                          w := (ow : Int), c := ((ob * Mblock + i : Nat) : Int) }
                        : TensorCoord)]
                    else []))))))) := by
    apply forStep_emits
    intro nb _
    apply forStep_emits
    intro ob _
    apply forLoop_emits
    intro oh _
    apply forLoop_emits
    intro ow _
    apply forLoop_emits
    intro j _
    apply forLoop_emits
    intro i _ log
    split
    · rfl
    · simp
  have := main []
  simpa [compute_convolution_stores] using this

theorem mem_guarded_singleton {κ : Type} (cond : Prop) [Decidable cond] (a x : κ) :
    x ∈ (if cond then [a] else []) ↔ cond ∧ x = a := by
  split
  · rename_i h; simp [h]
  · rename_i h; simp [h]

theorem nodup_guarded_singleton {κ : Type} (cond : Prop) [Decidable cond] (a : κ) :
    (if cond then [a] else []).Nodup := by
  split <;> simp

/-- Blocks indexed by `i < n` whose entries all carry the key `i` form a list without
repetition as soon as each block has none. -/
theorem nodup_flatMap_range {κ : Type} (n : Nat) (g : Nat → List κ) (key : κ → Nat)
    (h1 : ∀ i, i < n → (g i).Nodup) (h2 : ∀ i, i < n → ∀ x ∈ g i, key x = i) :
    ((List.range n).flatMap g).Nodup := by
  rw [List.nodup_flatMap]
  refine ⟨fun i hi => h1 i (List.mem_range.mp hi), ?_⟩
  refine (List.pairwise_lt_range n).imp_of_mem ?_
  intro a b ha hb hab x hxa hxb
  have e1 := h2 a (List.mem_range.mp ha) x hxa
  have e2 := h2 b (List.mem_range.mp hb) x hxb
  omega

/-- Membership in the store log. -/
theorem mem_compute_convolution_stores (conv_param : Conv2dProblemSize) (x : TensorCoord) :
    x ∈ compute_convolution_stores conv_param ↔
      ∃ n oh ow oc : Nat, n < conv_param.N ∧ oh < conv_param.P ∧ ow < conv_param.Q
        ∧ oc < conv_param.K
        ∧ x = { n := (n : Int), h := (oh : Int), w := (ow : Int), c := (oc : Int) } := by
  rw [compute_convolution_stores_eq]
  simp only [List.mem_flatMap, List.mem_range, mem_guarded_singleton]
  constructor
  · rintro ⟨nb, _, ob, _, oh, hoh, ow, how, j, _, i, _, ⟨hn, hoc⟩, rfl⟩
    exact ⟨nb * Nblock + j, oh, ow, ob * Mblock + i, hn, hoh, how, hoc, rfl⟩
  · rintro ⟨n, oh, ow, oc, hn, hoh, how, hoc, rfl⟩
    refine ⟨n / 16, ?_, oc / 16, ?_, oh, hoh, ow, how, n % 16, ?_, oc % 16, ?_, ⟨?_, ?_⟩, ?_⟩
    · show n / 16 < (conv_param.N + 16 - 1) / 16
      omega
    · show oc / 16 < (conv_param.K + 16 - 1) / 16
      omega
    · show n % 16 < 16
      omega
    · show oc % 16 < 16
      omega
    · show n / 16 * 16 + n % 16 < conv_param.N
      omega
    · show oc / 16 * 16 + oc % 16 < conv_param.K
      omega
    · have e1 : n / 16 * Nblock + n % 16 = n := by
        show n / 16 * 16 + n % 16 = n
        omega
      have e2 : oc / 16 * Mblock + oc % 16 = oc := by
        show oc / 16 * 16 + oc % 16 = oc
        omega
      rw [e1, e2]

/-- No coordinate occurs twice in the store log. -/
theorem nodup_compute_convolution_stores (conv_param : Conv2dProblemSize) :
    (compute_convolution_stores conv_param).Nodup := by
  rw [compute_convolution_stores_eq]
  refine nodup_flatMap_range _ _ (fun x => x.n.toNat / 16) (fun nb _ => ?_) ?_
  · refine nodup_flatMap_range _ _ (fun x => x.c.toNat / 16) (fun ob _ => ?_) ?_
    · refine nodup_flatMap_range _ _ (fun x => x.h.toNat) (fun oh _ => ?_) ?_
      · refine nodup_flatMap_range _ _ (fun x => x.w.toNat) (fun ow _ => ?_) ?_
        · refine nodup_flatMap_range _ _ (fun x => x.n.toNat % 16) (fun j _ => ?_) ?_
          · refine nodup_flatMap_range _ _ (fun x => x.c.toNat % 16)
              (fun i _ => nodup_guarded_singleton _ _) ?_
            intro i hi x hx
            rw [mem_guarded_singleton] at hx
            obtain ⟨_, rfl⟩ := hx
            simp only [Int.toNat_natCast, Mblock] at hi ⊢
            omega
          · intro j hj x hx
            simp only [List.mem_flatMap, List.mem_range, mem_guarded_singleton] at hx
            obtain ⟨i, _, _, rfl⟩ := hx
            simp only [Int.toNat_natCast, Nblock] at hj ⊢
            omega
        · intro ow _ x hx
          simp only [List.mem_flatMap, List.mem_range, mem_guarded_singleton] at hx
          obtain ⟨j, _, i, _, _, rfl⟩ := hx
          simp only [Int.toNat_natCast]
      · intro oh _ x hx
        simp only [List.mem_flatMap, List.mem_range, mem_guarded_singleton] at hx
        obtain ⟨ow, _, j, _, i, _, _, rfl⟩ := hx
        simp only [Int.toNat_natCast]
    · intro ob _ x hx
      simp only [List.mem_flatMap, List.mem_range, mem_guarded_singleton] at hx
      obtain ⟨oh, _, ow, _, j, _, i, hi, _, rfl⟩ := hx
      simp only [Int.toNat_natCast, Mblock] at hi ⊢
      omega
  · intro nb _ x hx
    simp only [List.mem_flatMap, List.mem_range, mem_guarded_singleton] at hx
    obtain ⟨ob, _, oh, _, ow, _, j, hj, i, _, _, rfl⟩ := hx
    simp only [Int.toNat_natCast, Nblock] at hj ⊢
    omega

/-- The stores of `compute_convolution` are those of the log, each with the closed-form value
of its coordinate. -/
theorem compute_convolution_replays {α : Type} [CommSemiring α]
    (need_round : Bool) (round convert_op : α → α)
    (conv_param : Conv2dProblemSize) (alpha : α) (tensor_src tensor_filter : Tensor4 α)
    (beta : α) (tensor_bias : Tensor4 α) (gamma : α) (tensor_z : Tensor4 α)
    (initial_accum : α) :
    Replays (fun tensor_dst => compute_convolution need_round round convert_op conv_param alpha
        tensor_src tensor_filter beta tensor_bias gamma tensor_z tensor_dst initial_accum)
      (compute_convolution_stores conv_param)
      (conv_output_closed need_round round convert_op conv_param alpha tensor_src tensor_filter
        beta tensor_bias gamma tensor_z initial_accum) := by
  rw [compute_convolution_stores_eq]
  unfold compute_convolution
  apply forStep_replays
  intro nb _
  apply forStep_replays
  intro ob _
  apply forLoop_replays
  intro oh _
  apply forLoop_replays
  intro ow _
  apply forLoop_replays
  intro j hj
  apply forLoop_replays
  intro i hi T
  by_cases hc : nb * Nblock + j < conv_param.N ∧ ob * Mblock + i < conv_param.K
  · simp only [if_pos hc, List.foldl_cons, List.foldl_nil]
    rw [compute_convolution_accum_eq conv_param tensor_src tensor_filter
      initial_accum (nb * Nblock) (ob * Mblock) oh ow i j hi hj hc.1 hc.2]
    rfl
  · simp only [if_neg hc, List.foldl_nil]

/-- C18. Output fully populated, nothing else touched.  The stores of `compute_convolution` are
exactly those of its store log; for every problem size (`N`, `K` multiples of 16 or not) every
coordinate `(n, oh, ow, oc)` with `n < N`, `oh < P`, `ow < Q`, `oc < K` occurs in the log exactly
once; every logged coordinate is such a coordinate, so none has `n ≥ N` or `oc ≥ K`; and the
tensor keeps its earlier content at every other coordinate. -/
theorem output_fully_populated {α : Type} [CommSemiring α]
    (need_round : Bool) (round convert_op : α → α)
    (conv_param : Conv2dProblemSize) (alpha : α) (tensor_src tensor_filter : Tensor4 α)
    (beta : α) (tensor_bias : Tensor4 α) (gamma : α) (tensor_z tensor_dst : Tensor4 α)
    (initial_accum : α) :
    compute_convolution need_round round convert_op conv_param alpha tensor_src tensor_filter
        beta tensor_bias gamma tensor_z tensor_dst initial_accum
      = (compute_convolution_stores conv_param).foldl (fun T c =>
          T.set c.n c.h c.w c.c
            ((conv_output_closed need_round round convert_op conv_param alpha tensor_src
              tensor_filter beta tensor_bias gamma tensor_z initial_accum).val c.n c.h c.w c.c))
          tensor_dst
    ∧ (∀ n oh ow oc : Nat, n < conv_param.N → oh < conv_param.P → ow < conv_param.Q →
        oc < conv_param.K →
        (compute_convolution_stores conv_param).count
          { n := (n : Int), h := (oh : Int), w := (ow : Int), c := (oc : Int) } = 1)
    ∧ (∀ x ∈ compute_convolution_stores conv_param,
        (0 ≤ x.n ∧ x.n < (conv_param.N : Int)) ∧ (0 ≤ x.h ∧ x.h < (conv_param.P : Int))
        ∧ (0 ≤ x.w ∧ x.w < (conv_param.Q : Int)) ∧ (0 ≤ x.c ∧ x.c < (conv_param.K : Int)))
    ∧ (∀ a b c d : Int,
        ¬ ((0 ≤ a ∧ a < (conv_param.N : Int)) ∧ (0 ≤ b ∧ b < (conv_param.P : Int))
            ∧ (0 ≤ c ∧ c < (conv_param.Q : Int)) ∧ (0 ≤ d ∧ d < (conv_param.K : Int))) →
        (compute_convolution need_round round convert_op conv_param alpha tensor_src
          tensor_filter beta tensor_bias gamma tensor_z tensor_dst initial_accum).val a b c d
          = tensor_dst.val a b c d) := by
  refine ⟨compute_convolution_replays need_round round convert_op conv_param alpha tensor_src
    tensor_filter beta tensor_bias gamma tensor_z initial_accum tensor_dst, ?_, ?_, ?_⟩
  · intro n oh ow oc hn hoh how hoc
    exact List.count_eq_one_of_mem (nodup_compute_convolution_stores conv_param)
      ((mem_compute_convolution_stores conv_param _).mpr ⟨n, oh, ow, oc, hn, hoh, how, hoc, rfl⟩)
  · intro x hx
    obtain ⟨n, oh, ow, oc, hn, hoh, how, hoc, rfl⟩ :=
      (mem_compute_convolution_stores conv_param x).mp hx
    simp only
    omega
  · intro a b c d hout
    apply ((compute_convolution_writes need_round round convert_op conv_param alpha tensor_src
      tensor_filter beta tensor_bias gamma tensor_z initial_accum) tensor_dst a b c d).2
    rintro ⟨n, oh, ow, oc, hn, hoh, how, hoc, rfl, rfl, rfl, rfl⟩
    apply hout
    omega

/-! ## C11: closed forms of `Conv2dFprop`, `Conv2dDgrad`, `Conv2dWgrad`; the flipped filter -/

/-- An unconditional store of the value `V` prescribes at its own coordinate. -/
theorem set_writes {α : Type} (a b c d : Int) (V : Tensor4 α) (v : α)
    (hv : v = V.val a b c d) :
    Writes (fun T => T.set a b c d v)
      (fun a2 b2 c2 d2 => a2 = a ∧ b2 = b ∧ c2 = c ∧ d2 = d) V := by
  intro T a2 b2 c2 d2
  constructor
  · rintro ⟨h1, h2, h3, h4⟩
    subst h1 h2 h3 h4
    simp only [Tensor4.set, and_self, if_true]
    exact hv
  · intro hn
    simp only [Tensor4.set, if_neg hn]

/-- A four-deep loop nest that stores `v i1 i2 i3 i4` at `(i1, i2, i3, i4)`: every coordinate
inside the extents holds its value. -/
theorem loop4_set_val {α : Type} (N1 N2 N3 N4 : Nat) (v : Nat → Nat → Nat → Nat → α)
    (T : Tensor4 α) (a b c d : Nat) (ha : a < N1) (hb : b < N2) (hc : c < N3) (hd : d < N4) :
    (forLoop N1 (fun i1 y => forLoop N2 (fun i2 y => forLoop N3 (fun i3 y =>
      forLoop N4 (fun i4 y => y.set i1 i2 i3 i4 (v i1 i2 i3 i4)) y) y) y) T).val a b c d
      = v a b c d := by
  have hw := forLoop_writes N1 (fun i1 y => forLoop N2 (fun i2 y => forLoop N3 (fun i3 y =>
      forLoop N4 (fun i4 y => y.set i1 i2 i3 i4 (v i1 i2 i3 i4)) y) y) y)
    (fun i1 a2 b2 c2 d2 => ∃ i2, i2 < N2 ∧ ∃ i3, i3 < N3 ∧ ∃ i4, i4 < N4 ∧
      (a2 = (i1 : Int) ∧ b2 = (i2 : Int) ∧ c2 = (i3 : Int) ∧ d2 = (i4 : Int)))
    { val := fun a2 b2 c2 d2 => v a2.toNat b2.toNat c2.toNat d2.toNat }
    (fun i1 _ => forLoop_writes N2 _ _ _ (fun i2 _ => forLoop_writes N3 _ _ _ (fun i3 _ =>
      forLoop_writes N4 _ _ _ (fun i4 _ => set_writes _ _ _ _ _ _ (by simp)))))
  have h := (hw T a b c d).1 ⟨a, ha, b, hb, c, hc, d, hd, rfl, rfl, rfl, rfl⟩
  simpa using h

/-- The tap loops of `Conv2dFprop` add up the in-bounds products. -/
theorem Conv2dFprop_val {α : Type} [CommSemiring α] [DecidableEq α] (convert_op : α → α)
    (problem_size : Conv2dProblemSize) (tensor_x tensor_w tensor_y_in tensor_y_out : Tensor4 α)
    (alpha beta : α) (n p q k : Nat) (hn : n < problem_size.N) (hp : p < problem_size.P)
    (hq : q < problem_size.Q) (hk : k < problem_size.K) :
    (Conv2dFprop convert_op problem_size tensor_x tensor_w tensor_y_in tensor_y_out
        alpha beta).val n p q k
      = convert_op (alpha * fprop_sum problem_size tensor_x tensor_w n p q k
          + beta * (if beta ≠ 0 then tensor_y_in.val n p q k else 0)) := by
  unfold Conv2dFprop
  rw [loop4_set_val problem_size.N problem_size.P problem_size.Q problem_size.K _ _ n p q k
    hn hp hq hk]
  congr 3
  unfold fprop_sum filter_tap
  rw [forLoop_sum _ _ (fun r => Finset.sum (Finset.range problem_size.S) (fun s =>
      Finset.sum (Finset.range problem_size.C) (fun c => _))) _ 0, zero_add]
  intro r _ acc
  rw [forLoop_sum _ _ (fun s => Finset.sum (Finset.range problem_size.C) (fun c => _)) _ acc]
  intro s _ acc
  rw [forLoop_sum _ _ _ _ acc]
  intro c _ acc
  simp only [multiply_add]
  split_ifs <;> simp [add_comm]

/-- The tap loops of `Conv2dDgrad` add up the products at the output positions a tap reaches. -/
theorem Conv2dDgrad_val {α : Type} [CommSemiring α] [DecidableEq α] (convert_op : α → α)
    (problem_size : Conv2dProblemSize)
    (tensor_dy tensor_w tensor_dx_in tensor_dx_out : Tensor4 α)
    (alpha beta : α) (n h w c : Nat) (hn : n < problem_size.N) (hh : h < problem_size.H)
    (hw : w < problem_size.W) (hc : c < problem_size.C) :
    (Conv2dDgrad convert_op problem_size tensor_dy tensor_w tensor_dx_in tensor_dx_out
        alpha beta).val n h w c
      = convert_op (alpha * dgrad_sum problem_size tensor_dy tensor_w n h w c
          + beta * (if beta ≠ 0 then tensor_dx_in.val n h w c else 0)) := by
  unfold Conv2dDgrad
  rw [loop4_set_val problem_size.N problem_size.H problem_size.W problem_size.C _ _ n h w c
    hn hh hw hc]
  congr 3
  unfold dgrad_sum filter_tap
  rw [forLoop_sum _ _ (fun r => Finset.sum (Finset.range problem_size.S) (fun s =>
      Finset.sum (Finset.range problem_size.K) (fun k => _))) _ 0, zero_add]
  intro r _ acc
  rw [forLoop_sum _ _ (fun s => Finset.sum (Finset.range problem_size.K) (fun k => _)) _ acc]
  intro s _ acc
  rw [forLoop_sum _ _ _ _ acc]
  intro k _ acc
  simp only [multiply_add]
  split_ifs <;> simp [add_comm]

/-- The output loops of `Conv2dWgrad` add up the in-bounds products. -/
theorem Conv2dWgrad_val {α : Type} [CommSemiring α] [DecidableEq α] (convert_op : α → α)
    (problem_size : Conv2dProblemSize)
    (tensor_dy tensor_x tensor_dw_in tensor_dw_out : Tensor4 α)
    (alpha beta : α) (k r s c : Nat) (hk : k < problem_size.K) (hr : r < problem_size.R)
    (hs : s < problem_size.S) (hc : c < problem_size.C) :
    (Conv2dWgrad convert_op problem_size tensor_dy tensor_x tensor_dw_in tensor_dw_out
        alpha beta).val k r s c
      = convert_op (alpha * wgrad_sum problem_size tensor_dy tensor_x k r s c
          + beta * (if beta ≠ 0 then tensor_dw_in.val k r s c else 0)) := by
  unfold Conv2dWgrad
  rw [loop4_set_val problem_size.K problem_size.R problem_size.S problem_size.C _ _ k r s c
    hk hr hs hc]
  congr 3
  unfold wgrad_sum filter_tap
  rw [forLoop_sum _ _ (fun n => Finset.sum (Finset.range problem_size.P) (fun p =>
      Finset.sum (Finset.range problem_size.Q) (fun q => _))) _ 0, zero_add]
  intro n _ acc
  rw [forLoop_sum _ _ (fun p => Finset.sum (Finset.range problem_size.Q) (fun q => _)) _ acc]
  intro p _ acc
  rw [forLoop_sum _ _ _ _ acc]
  intro q _ acc
  simp only [multiply_add]
  split_ifs <;> simp [add_comm]

/-- The function `Conv2dFprop` as a loop nest that stores the closed-form values. -/
theorem Conv2dFprop_eq_loops {α : Type} [CommSemiring α] [DecidableEq α] (convert_op : α → α)
    (problem_size : Conv2dProblemSize) (tensor_x tensor_w tensor_y_in tensor_y_out : Tensor4 α)
    (alpha beta : α) :
    Conv2dFprop convert_op problem_size tensor_x tensor_w tensor_y_in tensor_y_out alpha beta
      = forLoop problem_size.N (fun n y => forLoop problem_size.P (fun p y =>
          forLoop problem_size.Q (fun q y => forLoop problem_size.K (fun k y =>
            y.set n p q k (convert_op (alpha * fprop_sum problem_size tensor_x tensor_w n p q k
              + beta * (if beta ≠ 0 then tensor_y_in.val n p q k else 0)))) y) y) y)
          tensor_y_out := by
  unfold Conv2dFprop
  refine forLoop_congr _ _ _ _ (fun n _ y => ?_)
  refine forLoop_congr _ _ _ _ (fun p _ y => ?_)
  refine forLoop_congr _ _ _ _ (fun q _ y => ?_)
  refine forLoop_congr _ _ _ _ (fun k _ y => ?_)
  show y.set n p q k _ = y.set n p q k _
  congr 4
  unfold fprop_sum filter_tap
  rw [forLoop_sum _ _ (fun r => Finset.sum (Finset.range problem_size.S) (fun s =>
      Finset.sum (Finset.range problem_size.C) (fun c => _))) _ 0, zero_add]
  intro r _ acc
  rw [forLoop_sum _ _ (fun s => Finset.sum (Finset.range problem_size.C) (fun c => _)) _ acc]
  intro s _ acc
  rw [forLoop_sum _ _ _ _ acc]
  intro c _ acc
  simp only [multiply_add]
  split_ifs <;> simp [add_comm]

/-- Reading the taps backwards over `w` adds up the same products as reading them forwards
over the flipped filter. -/
theorem fprop_sum_flip {α : Type} [CommSemiring α] (problem_size : Conv2dProblemSize)
    (tensor_x tensor_w : Tensor4 α) (n p q k : Nat) :
    fprop_sum { problem_size with mode := Mode.kConvolution } tensor_x tensor_w n p q k
      = fprop_sum { problem_size with mode := Mode.kCrossCorrelation } tensor_x
          (flip_filter problem_size.R problem_size.S tensor_w) n p q k := by
  unfold fprop_sum filter_tap flip_filter
  simp only [if_true, reduceCtorEq, if_false]
  rw [← Finset.sum_range_reflect _ problem_size.R]
  refine Finset.sum_congr rfl (fun r hr => ?_)
  rw [← Finset.sum_range_reflect _ problem_size.S]
  refine Finset.sum_congr rfl (fun s hs => ?_)
  refine Finset.sum_congr rfl (fun c _ => ?_)
  have hr2 : ((problem_size.R - 1 - r : Nat) : Int) = (problem_size.R : Int) - 1 - (r : Int) := by
    have := Finset.mem_range.mp hr
    omega
  have hs2 : ((problem_size.S - 1 - s : Nat) : Int) = (problem_size.S : Int) - 1 - (s : Int) := by
    have := Finset.mem_range.mp hs
    omega
  simp only [hr2, hs2, sub_sub_cancel]

/-- C11: for every problem size, padding, stride, dilation, alpha, beta, conversion and tensors,
`Conv2dFprop` in mode `kConvolution` with filter `w` produces the same output tensor as
`Conv2dFprop` in mode `kCrossCorrelation` with the spatially flipped filter
`w'[k, r, s, c] = w[k, R-1-r, S-1-s, c]`. -/
theorem convolution_mode_flips_filter {α : Type} [CommSemiring α] [DecidableEq α]
    (convert_op : α → α) (problem_size : Conv2dProblemSize)
    (tensor_x tensor_w tensor_y_in tensor_y_out : Tensor4 α) (alpha beta : α) :
    Conv2dFprop convert_op { problem_size with mode := Mode.kConvolution } tensor_x tensor_w
        tensor_y_in tensor_y_out alpha beta
      = Conv2dFprop convert_op { problem_size with mode := Mode.kCrossCorrelation } tensor_x
          (flip_filter problem_size.R problem_size.S tensor_w) tensor_y_in tensor_y_out
          alpha beta := by
  rw [Conv2dFprop_eq_loops, Conv2dFprop_eq_loops]
  refine forLoop_congr _ _ _ _ (fun n _ y => ?_)
  refine forLoop_congr _ _ _ _ (fun p _ y => ?_)
  refine forLoop_congr _ _ _ _ (fun q _ y => ?_)
  refine forLoop_congr _ _ _ _ (fun k _ y => ?_)
  show y.set n p q k _ = y.set n p q k _
  rw [fprop_sum_flip]

/-! ## C12: the mode in `compute_convolution` -/

/-- The function `compute_convolution` never reads `conv_param.mode`: the output is the same
for every mode. -/
theorem compute_convolution_mode_irrelevant {α : Type} [Zero α] [Add α] [Mul α]
    (need_round : Bool) (round convert_op : α → α)
    (conv_param : Conv2dProblemSize) (mode : Mode) (alpha : α)
    (tensor_src tensor_filter : Tensor4 α)
    (beta : α) (tensor_bias : Tensor4 α) (gamma : α) (tensor_z tensor_dst : Tensor4 α)
    (initial_accum : α) :
    compute_convolution need_round round convert_op { conv_param with mode := mode } alpha
        tensor_src tensor_filter beta tensor_bias gamma tensor_z tensor_dst initial_accum
      = compute_convolution need_round round convert_op conv_param alpha
          tensor_src tensor_filter beta tensor_bias gamma tensor_z tensor_dst initial_accum :=
  rfl

set_option maxRecDepth 8000 in
/-- C12, the code at a failing input: for `small_problem` in mode `kConvolution` with
`alpha = 1`, `beta = 0`, `gamma = 0`, `compute_convolution` stores 118 at output `(0, 1, 1, 0)`,
the forward-tap sum, where its output for mode `kCrossCorrelation` on the flipped filter is 98;
`Conv2dFprop` in mode `kConvolution` does store 98 there. -/
theorem compute_convolution_mode_dropped :
    (compute_convolution false id id small_problem_flipped 1 small_src small_filter 0
        small_bias 0 small_z small_dst 0).val 0 1 1 0 = 118
      ∧ (compute_convolution false id id small_problem 1 small_src
          (flip_filter small_problem.R small_problem.S small_filter) 0
          small_bias 0 small_z small_dst 0).val 0 1 1 0 = 98
      ∧ (Conv2dFprop id small_problem_flipped small_src small_filter small_dst small_dst
          1 0).val 0 1 1 0 = 98 := by
  decide

/-! ## C14: Wgrad as the adjoint of Fprop in the filter -/

/-- Moving the innermost of four nested sums outermost. -/
theorem sum_comm_3_1 {α : Type} [AddCommMonoid α] (s1 s2 s3 s4 : Finset Nat)
    (f : Nat → Nat → Nat → Nat → α) :
    Finset.sum s1 (fun a => Finset.sum s2 (fun b => Finset.sum s3 (fun c =>
        Finset.sum s4 (fun d => f a b c d))))
      = Finset.sum s4 (fun d => Finset.sum s1 (fun a => Finset.sum s2 (fun b =>
          Finset.sum s3 (fun c => f a b c d)))) :=
  (Finset.sum_congr rfl (fun _ _ => Finset.sum_congr rfl (fun _ _ => Finset.sum_comm))).trans
    ((Finset.sum_congr rfl (fun _ _ => Finset.sum_comm)).trans Finset.sum_comm)

/-- Moving the three outer sums of seven nested sums innermost. -/
theorem sum_comm_3_4 {α : Type} [AddCommMonoid α] (s1 s2 s3 s4 s5 s6 s7 : Finset Nat)
    (f : Nat → Nat → Nat → Nat → Nat → Nat → Nat → α) :
    Finset.sum s1 (fun a => Finset.sum s2 (fun b => Finset.sum s3 (fun c =>
        Finset.sum s4 (fun d => Finset.sum s5 (fun e => Finset.sum s6 (fun g =>
          Finset.sum s7 (fun h => f a b c d e g h)))))))
      = Finset.sum s4 (fun d => Finset.sum s5 (fun e => Finset.sum s6 (fun g =>
          Finset.sum s7 (fun h => Finset.sum s1 (fun a => Finset.sum s2 (fun b =>
            Finset.sum s3 (fun c => f a b c d e g h))))))) := by
  rw [sum_comm_3_1]
  refine Finset.sum_congr rfl (fun d _ => ?_)
  rw [sum_comm_3_1]
  refine Finset.sum_congr rfl (fun e _ => ?_)
  rw [sum_comm_3_1]
  refine Finset.sum_congr rfl (fun g _ => ?_)
  rw [sum_comm_3_1]

/-- C14. Wgrad is the adjoint of Fprop in the filter: for exact (commutative semiring, integer
in particular) tensors, `alpha = 1`, `beta = 0`, identity conversion and every problem size,
padding, stride, dilation and mode, the sum over `(n, p, q, k)` of
`dy[n,p,q,k] * Conv2dFprop(x, w)[n,p,q,k]` equals the sum over `(k, r, s, c)` of
`w[k,r,s,c] * Conv2dWgrad(dy, x)[k,r,s,c]`. -/
theorem wgrad_adjoint {α : Type} [CommSemiring α] [DecidableEq α]
    (problem_size : Conv2dProblemSize)
    (tensor_x tensor_w tensor_dy tensor_y_in tensor_y_out tensor_dw_in tensor_dw_out : Tensor4 α) :
    Finset.sum (Finset.range problem_size.N) (fun n =>
      Finset.sum (Finset.range problem_size.P) (fun p =>
        Finset.sum (Finset.range problem_size.Q) (fun q =>
          Finset.sum (Finset.range problem_size.K) (fun k =>
            tensor_dy.val n p q k
              * (Conv2dFprop id problem_size tensor_x tensor_w tensor_y_in tensor_y_out
                  1 0).val n p q k))))
      = Finset.sum (Finset.range problem_size.K) (fun k =>
          Finset.sum (Finset.range problem_size.R) (fun r =>
            Finset.sum (Finset.range problem_size.S) (fun s =>
              Finset.sum (Finset.range problem_size.C) (fun c =>
                tensor_w.val k r s c
                  * (Conv2dWgrad id problem_size tensor_dy tensor_x tensor_dw_in tensor_dw_out
                      1 0).val k r s c)))) := by
  have hL : ∀ n p q k, n < problem_size.N → p < problem_size.P → q < problem_size.Q →
      k < problem_size.K →
      tensor_dy.val n p q k
        * (Conv2dFprop id problem_size tensor_x tensor_w tensor_y_in tensor_y_out
            1 0).val n p q k
      = Finset.sum (Finset.range problem_size.R) (fun r =>
          Finset.sum (Finset.range problem_size.S) (fun s =>
            Finset.sum (Finset.range problem_size.C) (fun c =>
              tensor_w.val k r s c
                * (let h : Int := (p : Int) * problem_size.stride_h - problem_size.pad_h
                      + filter_tap problem_size.mode problem_size.R r * problem_size.dilation_h
                   let w : Int := (q : Int) * problem_size.stride_w - problem_size.pad_w
                      + filter_tap problem_size.mode problem_size.S s * problem_size.dilation_w
                   if h < (problem_size.H : Int) ∧ h ≥ 0 ∧ w < (problem_size.W : Int) ∧ w ≥ 0
                   then tensor_dy.val n p q k * tensor_x.val n h w c else 0)))) := by
    intro n p q k hn hp hq hk
    rw [Conv2dFprop_val _ _ _ _ _ _ _ _ n p q k hn hp hq hk]
    simp only [id, one_mul, zero_mul, add_zero]
    unfold fprop_sum
    rw [Finset.mul_sum]
    refine Finset.sum_congr rfl (fun r _ => ?_)
    rw [Finset.mul_sum]
    refine Finset.sum_congr rfl (fun s _ => ?_)
    rw [Finset.mul_sum]
    refine Finset.sum_congr rfl (fun c _ => ?_)
    simp only []
    split_ifs with h1 h2 h2
    · ring
    · exact absurd ⟨h1.2.1, h1.1, h1.2.2.2, h1.2.2.1⟩ h2
    · exact absurd ⟨h2.2.1, h2.1, h2.2.2.2, h2.2.2.1⟩ h1
    · simp
  have hR : ∀ k r s c, k < problem_size.K → r < problem_size.R → s < problem_size.S →
      c < problem_size.C →
      tensor_w.val k r s c
        * (Conv2dWgrad id problem_size tensor_dy tensor_x tensor_dw_in tensor_dw_out
            1 0).val k r s c
      = Finset.sum (Finset.range problem_size.N) (fun n =>
          Finset.sum (Finset.range problem_size.P) (fun p =>
            Finset.sum (Finset.range problem_size.Q) (fun q =>
              tensor_w.val k r s c
                * (let h : Int := (p : Int) * problem_size.stride_h - problem_size.pad_h
                      + filter_tap problem_size.mode problem_size.R r * problem_size.dilation_h
                   let w : Int := (q : Int) * problem_size.stride_w - problem_size.pad_w
                      + filter_tap problem_size.mode problem_size.S s * problem_size.dilation_w
                   if h < (problem_size.H : Int) ∧ h ≥ 0 ∧ w < (problem_size.W : Int) ∧ w ≥ 0
                   then tensor_dy.val n p q k * tensor_x.val n h w c else 0)))) := by
    intro k r s c hk hr hs hc
    rw [Conv2dWgrad_val _ _ _ _ _ _ _ _ k r s c hk hr hs hc]
    simp only [id, one_mul, zero_mul, add_zero]
    unfold wgrad_sum
    rw [Finset.mul_sum]
    refine Finset.sum_congr rfl (fun n _ => ?_)
    rw [Finset.mul_sum]
    refine Finset.sum_congr rfl (fun p _ => ?_)
    rw [Finset.mul_sum]
  rw [Finset.sum_congr rfl (fun n hn => Finset.sum_congr rfl (fun p hp =>
      Finset.sum_congr rfl (fun q hq => Finset.sum_congr rfl (fun k hk =>
        hL n p q k (Finset.mem_range.mp hn) (Finset.mem_range.mp hp) (Finset.mem_range.mp hq)
          (Finset.mem_range.mp hk))))),
    Finset.sum_congr rfl (fun k hk => Finset.sum_congr rfl (fun r hr =>
      Finset.sum_congr rfl (fun s hs => Finset.sum_congr rfl (fun c hc =>
        hR k r s c (Finset.mem_range.mp hk) (Finset.mem_range.mp hr) (Finset.mem_range.mp hs)
          (Finset.mem_range.mp hc)))))]
  exact sum_comm_3_4 _ _ _ _ _ _ _ _

/-! ## C13: Dgrad as the adjoint of Fprop in the input -/

/-- Summing over the rows `h < H` the terms selected by `h = A` leaves the term at `A`, when
`A` is a row. -/
theorem sum_range_ite_eq_int {α : Type} [AddCommMonoid α] (H : Nat) (A : Int) (g : Int → α) :
    Finset.sum (Finset.range H) (fun h => if (h : Int) = A then g h else 0)
      = if A ≥ 0 ∧ A < (H : Int) then g A else 0 := by
  split_ifs with hA
  · obtain ⟨h0, h1⟩ := hA
    lift A to Nat using h0
    rw [Finset.sum_eq_single A]
    · simp
    · intro b _ hb
      rw [if_neg]
      exact_mod_cast hb
    · intro hnot
      exact absurd (Finset.mem_range.mpr (by exact_mod_cast h1)) hnot
  · apply Finset.sum_eq_zero
    intro h hh
    rw [if_neg]
    intro heq
    apply hA
    subst heq
    have := Finset.mem_range.mp hh
    constructor
    · omega
    · exact_mod_cast this

/-- Summing over the outputs `p < P` the terms selected by `a = p * stride` leaves the term at
`a / stride`, when `a` is a non-negative multiple of the stride whose quotient is an output. -/
theorem sum_range_ite_stride {α : Type} [AddCommMonoid α] (P : Nat) (stride a : Int)
    (hs : 1 ≤ stride) (g : Int → α) :
    Finset.sum (Finset.range P) (fun p => if a = (p : Int) * stride then g p else 0)
      = if a ≥ 0 ∧ Int.tmod a stride = 0 ∧ Int.tdiv a stride < (P : Int)
        then g (Int.tdiv a stride) else 0 := by
  have hs0 : stride ≠ 0 := by omega
  split_ifs with hA
  · obtain ⟨h0, hm, hd⟩ := hA
    rw [Int.tmod_eq_emod h0 (by omega)] at hm
    rw [Int.tdiv_eq_ediv h0 (by omega)] at hd ⊢
    have hmul : a / stride * stride = a := Int.ediv_mul_cancel (Int.dvd_of_emod_eq_zero hm)
    have hd0 : 0 ≤ a / stride := Int.ediv_nonneg h0 (by omega)
    generalize a / stride = d at hmul hd hd0
    lift d to Nat using hd0
    rw [Finset.sum_eq_single d]
    · rw [if_pos hmul.symm]
    · intro b _ hb
      rw [if_neg]
      intro heq
      rw [← hmul] at heq
      have := mul_right_cancel₀ hs0 heq
      exact hb (by exact_mod_cast this.symm)
    · intro hnot
      exact absurd (Finset.mem_range.mpr (by exact_mod_cast hd)) hnot
  · apply Finset.sum_eq_zero
    intro p hp
    rw [if_neg]
    intro heq
    apply hA
    have hp2 := Finset.mem_range.mp hp
    have h0 : a ≥ 0 := by
      rw [heq]
      positivity
    refine ⟨h0, ?_, ?_⟩
    · rw [Int.tmod_eq_emod h0 (by omega), heq, Int.mul_emod_left]
    · rw [Int.tdiv_eq_ediv h0 (by omega), heq, Int.mul_ediv_cancel _ hs0]
      exact_mod_cast hp2
/-- Moving the innermost of three nested sums outermost. -/
theorem sum_comm_2_1 {α : Type} [AddCommMonoid α] (s1 s2 s3 : Finset Nat)
    (f : Nat → Nat → Nat → α) :
    Finset.sum s1 (fun a => Finset.sum s2 (fun b => Finset.sum s3 (fun c => f a b c)))
      = Finset.sum s3 (fun c => Finset.sum s1 (fun a => Finset.sum s2 (fun b => f a b c))) :=
  (Finset.sum_congr rfl (fun _ _ => Finset.sum_comm)).trans Finset.sum_comm

/-- Exchanging two pairs of nested sums. -/
theorem sum_comm_2_2 {α : Type} [AddCommMonoid α] (s1 s2 s3 s4 : Finset Nat)
    (f : Nat → Nat → Nat → Nat → α) :
    Finset.sum s1 (fun a => Finset.sum s2 (fun b => Finset.sum s3 (fun c =>
        Finset.sum s4 (fun d => f a b c d))))
      = Finset.sum s3 (fun c => Finset.sum s4 (fun d => Finset.sum s1 (fun a =>
          Finset.sum s2 (fun b => f a b c d)))) := by
  rw [sum_comm_2_1]
  refine Finset.sum_congr rfl (fun c _ => ?_)
  rw [sum_comm_2_1]

/-- Moving the two outer sums of six nested sums innermost. -/
theorem sum_comm_2_4 {α : Type} [AddCommMonoid α] (s1 s2 s3 s4 s5 s6 : Finset Nat)
    (f : Nat → Nat → Nat → Nat → Nat → Nat → α) :
    Finset.sum s1 (fun a => Finset.sum s2 (fun b => Finset.sum s3 (fun c =>
        Finset.sum s4 (fun d => Finset.sum s5 (fun e => Finset.sum s6 (fun g =>
          f a b c d e g))))))
      = Finset.sum s3 (fun c => Finset.sum s4 (fun d => Finset.sum s5 (fun e =>
          Finset.sum s6 (fun g => Finset.sum s1 (fun a => Finset.sum s2 (fun b =>
            f a b c d e g)))))) := by
  rw [sum_comm_2_1]
  refine Finset.sum_congr rfl (fun c _ => ?_)
  rw [sum_comm_2_1]
  refine Finset.sum_congr rfl (fun d _ => ?_)
  rw [sum_comm_2_1]
  refine Finset.sum_congr rfl (fun e _ => ?_)
  rw [sum_comm_2_1]

/-- Exchanging the outermost and the innermost of four nested sums. -/
theorem sum_comm_ends {α : Type} [AddCommMonoid α] (s1 s2 s3 s4 : Finset Nat)
    (f : Nat → Nat → Nat → Nat → α) :
    Finset.sum s1 (fun a => Finset.sum s2 (fun b => Finset.sum s3 (fun c =>
        Finset.sum s4 (fun d => f a b c d))))
      = Finset.sum s4 (fun d => Finset.sum s2 (fun b => Finset.sum s3 (fun c =>
          Finset.sum s1 (fun a => f a b c d)))) := by
  rw [sum_comm_3_1]
  refine Finset.sum_congr rfl (fun d _ => ?_)
  exact (sum_comm_2_1 s2 s3 s1 (fun b c a => f a b c d)).symm

/-- A double sum selected by a conjunction of a row test and a column test. -/
theorem sum_ite_and {α : Type} [AddCommMonoid α] (s t : Finset Nat) (c1 c2 : Nat → Prop)
    [DecidablePred c1] [DecidablePred c2] (f : Nat → Nat → α) :
    Finset.sum s (fun a => Finset.sum t (fun b => if c1 a ∧ c2 b then f a b else 0))
      = Finset.sum s (fun a => if c1 a then
          Finset.sum t (fun b => if c2 b then f a b else 0) else 0) := by
  refine Finset.sum_congr rfl (fun a _ => ?_)
  by_cases h : c1 a
  · simp [h]
  · simp [h]

/-- The pairs (output position, input position) that a tap relates are the same whether they
are enumerated from the output, as `Conv2dFprop` does, or from the input, as `Conv2dDgrad`
does. -/
theorem spatial_adjoint {α : Type} [AddCommMonoid α] (P Q H W : Nat)
    (stride_h stride_w pad_h pad_w th tw : Int) (hsh : 1 ≤ stride_h) (hsw : 1 ≤ stride_w)
    (G : Int → Int → Int → Int → α) :
    Finset.sum (Finset.range P) (fun p => Finset.sum (Finset.range Q) (fun q =>
        if (p : Int) * stride_h - pad_h + th ≥ 0 ∧ (p : Int) * stride_h - pad_h + th < (H : Int)
            ∧ (q : Int) * stride_w - pad_w + tw ≥ 0
            ∧ (q : Int) * stride_w - pad_w + tw < (W : Int) then
          G p q ((p : Int) * stride_h - pad_h + th) ((q : Int) * stride_w - pad_w + tw)
        else 0))
      = Finset.sum (Finset.range H) (fun h => Finset.sum (Finset.range W) (fun w =>
          if (h : Int) + pad_h - th ≥ 0 ∧ Int.tmod ((h : Int) + pad_h - th) stride_h = 0
              ∧ (w : Int) + pad_w - tw ≥ 0 ∧ Int.tmod ((w : Int) + pad_w - tw) stride_w = 0 then
            if Int.tdiv ((h : Int) + pad_h - th) stride_h < (P : Int)
                ∧ Int.tdiv ((w : Int) + pad_w - tw) stride_w < (Q : Int) then
              G (Int.tdiv ((h : Int) + pad_h - th) stride_h)
                (Int.tdiv ((w : Int) + pad_w - tw) stride_w) h w
            else 0
          else 0)) := by
  have hl : ∀ p q : Nat,
      (if (p : Int) * stride_h - pad_h + th ≥ 0 ∧ (p : Int) * stride_h - pad_h + th < (H : Int)
            ∧ (q : Int) * stride_w - pad_w + tw ≥ 0
            ∧ (q : Int) * stride_w - pad_w + tw < (W : Int) then
          G p q ((p : Int) * stride_h - pad_h + th) ((q : Int) * stride_w - pad_w + tw)
        else 0)
      = Finset.sum (Finset.range H) (fun h => Finset.sum (Finset.range W) (fun w =>
          if (h : Int) = (p : Int) * stride_h - pad_h + th
              ∧ (w : Int) = (q : Int) * stride_w - pad_w + tw then G p q h w else 0)) := by
    intro p q
    rw [sum_ite_and (Finset.range H) (Finset.range W)
      (fun h => (h : Int) = (p : Int) * stride_h - pad_h + th)
      (fun w => (w : Int) = (q : Int) * stride_w - pad_w + tw) (fun h w => G p q h w)]
    rw [Finset.sum_congr rfl (fun h _ => by
      rw [sum_range_ite_eq_int W ((q : Int) * stride_w - pad_w + tw) (fun w => G p q h w)])]
    rw [sum_range_ite_eq_int H ((p : Int) * stride_h - pad_h + th)
      (fun h => if (q : Int) * stride_w - pad_w + tw ≥ 0
          ∧ (q : Int) * stride_w - pad_w + tw < (W : Int)
        then G p q h ((q : Int) * stride_w - pad_w + tw) else 0)]
    split_ifs <;> first | rfl | (exfalso; tauto)
  have hr : ∀ h w : Nat,
      (if (h : Int) + pad_h - th ≥ 0 ∧ Int.tmod ((h : Int) + pad_h - th) stride_h = 0
              ∧ (w : Int) + pad_w - tw ≥ 0 ∧ Int.tmod ((w : Int) + pad_w - tw) stride_w = 0 then
            if Int.tdiv ((h : Int) + pad_h - th) stride_h < (P : Int)
                ∧ Int.tdiv ((w : Int) + pad_w - tw) stride_w < (Q : Int) then
              G (Int.tdiv ((h : Int) + pad_h - th) stride_h)
                (Int.tdiv ((w : Int) + pad_w - tw) stride_w) h w
            else 0
          else 0)
      = Finset.sum (Finset.range P) (fun p => Finset.sum (Finset.range Q) (fun q =>
          if (h : Int) = (p : Int) * stride_h - pad_h + th
              ∧ (w : Int) = (q : Int) * stride_w - pad_w + tw then G p q h w else 0)) := by
    intro h w
    have e1 : ∀ p : Nat, ((h : Int) = (p : Int) * stride_h - pad_h + th)
        ↔ ((h : Int) + pad_h - th = (p : Int) * stride_h) :=
      fun p => ⟨fun e => by linarith, fun e => by linarith⟩
    have e2 : ∀ q : Nat, ((w : Int) = (q : Int) * stride_w - pad_w + tw)
        ↔ ((w : Int) + pad_w - tw = (q : Int) * stride_w) :=
      fun q => ⟨fun e => by linarith, fun e => by linarith⟩
    simp only [e1, e2]
    rw [sum_ite_and (Finset.range P) (Finset.range Q)
      (fun p => (h : Int) + pad_h - th = (p : Int) * stride_h)
      (fun q => (w : Int) + pad_w - tw = (q : Int) * stride_w) (fun p q => G p q h w)]
    rw [Finset.sum_congr rfl (fun p _ => by
      rw [sum_range_ite_stride Q stride_w ((w : Int) + pad_w - tw) hsw (fun q => G p q h w)])]
    rw [sum_range_ite_stride P stride_h ((h : Int) + pad_h - th) hsh
      (fun p => if (w : Int) + pad_w - tw ≥ 0 ∧ Int.tmod ((w : Int) + pad_w - tw) stride_w = 0
          ∧ Int.tdiv ((w : Int) + pad_w - tw) stride_w < (Q : Int)
        then G p (Int.tdiv ((w : Int) + pad_w - tw) stride_w) h w else 0)]
    split_ifs <;> first | rfl | (exfalso; tauto)
  rw [Finset.sum_congr rfl (fun p _ => Finset.sum_congr rfl (fun q _ => hl p q)),
    Finset.sum_congr rfl (fun h _ => Finset.sum_congr rfl (fun w _ => hr h w))]
  exact sum_comm_2_2 _ _ _ _ _

/-- C13. Dgrad is the adjoint of Fprop in the input: for exact (commutative semiring, integer
in particular) tensors, `alpha = 1`, `beta = 0`, identity conversion, strides `>= 1` and
every problem size, padding, dilation and mode, the sum over `(n, p, q, k)` of
`dy[n,p,q,k] * Conv2dFprop(x, w)[n,p,q,k]` equals the sum over `(n, h, w, c)` of
`x[n,h,w,c] * Conv2dDgrad(dy, w)[n,h,w,c]`. -/
theorem dgrad_adjoint {α : Type} [CommSemiring α] [DecidableEq α]
    (problem_size : Conv2dProblemSize)
    (tensor_x tensor_w tensor_dy tensor_y_in tensor_y_out tensor_dx_in tensor_dx_out : Tensor4 α)
    (hsh : 1 ≤ problem_size.stride_h) (hsw : 1 ≤ problem_size.stride_w) :
    Finset.sum (Finset.range problem_size.N) (fun n =>
      Finset.sum (Finset.range problem_size.P) (fun p =>
        Finset.sum (Finset.range problem_size.Q) (fun q =>
          Finset.sum (Finset.range problem_size.K) (fun k =>
            tensor_dy.val n p q k
              * (Conv2dFprop id problem_size tensor_x tensor_w tensor_y_in tensor_y_out
                  1 0).val n p q k))))
      = Finset.sum (Finset.range problem_size.N) (fun n =>
          Finset.sum (Finset.range problem_size.H) (fun h =>
            Finset.sum (Finset.range problem_size.W) (fun w =>
              Finset.sum (Finset.range problem_size.C) (fun c =>
                tensor_x.val n h w c
                  * (Conv2dDgrad id problem_size tensor_dy tensor_w tensor_dx_in tensor_dx_out
                      1 0).val n h w c)))) := by
  have hL : ∀ n p q k, n < problem_size.N → p < problem_size.P → q < problem_size.Q →
      k < problem_size.K →
      tensor_dy.val n p q k
        * (Conv2dFprop id problem_size tensor_x tensor_w tensor_y_in tensor_y_out
            1 0).val n p q k
      = Finset.sum (Finset.range problem_size.R) (fun r =>
          Finset.sum (Finset.range problem_size.S) (fun s =>
            Finset.sum (Finset.range problem_size.C) (fun c =>
              if (p : Int) * problem_size.stride_h - problem_size.pad_h
                    + filter_tap problem_size.mode problem_size.R r * problem_size.dilation_h ≥ 0
                  ∧ (p : Int) * problem_size.stride_h - problem_size.pad_h
                    + filter_tap problem_size.mode problem_size.R r * problem_size.dilation_h
                      < (problem_size.H : Int)
                  ∧ (q : Int) * problem_size.stride_w - problem_size.pad_w
                    + filter_tap problem_size.mode problem_size.S s * problem_size.dilation_w ≥ 0
                  ∧ (q : Int) * problem_size.stride_w - problem_size.pad_w
                    + filter_tap problem_size.mode problem_size.S s * problem_size.dilation_w
                      < (problem_size.W : Int) then
                tensor_dy.val n p q k
                  * (tensor_x.val n
                      ((p : Int) * problem_size.stride_h - problem_size.pad_h
                        + filter_tap problem_size.mode problem_size.R r
                          * problem_size.dilation_h)
                      ((q : Int) * problem_size.stride_w - problem_size.pad_w
                        + filter_tap problem_size.mode problem_size.S s
                          * problem_size.dilation_w) c
                    * tensor_w.val k r s c)
              else 0))) := by
    intro n p q k hn hp hq hk
    rw [Conv2dFprop_val _ _ _ _ _ _ _ _ n p q k hn hp hq hk]
    simp only [id, one_mul, zero_mul, add_zero]
    unfold fprop_sum
    rw [Finset.mul_sum]
    refine Finset.sum_congr rfl (fun r _ => ?_)
    rw [Finset.mul_sum]
    refine Finset.sum_congr rfl (fun s _ => ?_)
    rw [Finset.mul_sum]
    refine Finset.sum_congr rfl (fun c _ => ?_)
    simp only [mul_ite, mul_zero]
  have hR : ∀ n h w c, n < problem_size.N → h < problem_size.H → w < problem_size.W →
      c < problem_size.C →
      tensor_x.val n h w c
        * (Conv2dDgrad id problem_size tensor_dy tensor_w tensor_dx_in tensor_dx_out
            1 0).val n h w c
      = Finset.sum (Finset.range problem_size.R) (fun r =>
          Finset.sum (Finset.range problem_size.S) (fun s =>
            Finset.sum (Finset.range problem_size.K) (fun k =>
              if (h : Int) + problem_size.pad_h
                    - filter_tap problem_size.mode problem_size.R r * problem_size.dilation_h ≥ 0
                  ∧ Int.tmod ((h : Int) + problem_size.pad_h
                    - filter_tap problem_size.mode problem_size.R r * problem_size.dilation_h)
                      problem_size.stride_h = 0
                  ∧ (w : Int) + problem_size.pad_w
                    - filter_tap problem_size.mode problem_size.S s * problem_size.dilation_w ≥ 0
                  ∧ Int.tmod ((w : Int) + problem_size.pad_w
                    - filter_tap problem_size.mode problem_size.S s * problem_size.dilation_w)
                      problem_size.stride_w = 0 then
                if Int.tdiv ((h : Int) + problem_size.pad_h
                      - filter_tap problem_size.mode problem_size.R r * problem_size.dilation_h)
                        problem_size.stride_h < (problem_size.P : Int)
                    ∧ Int.tdiv ((w : Int) + problem_size.pad_w
                      - filter_tap problem_size.mode problem_size.S s * problem_size.dilation_w)
                        problem_size.stride_w < (problem_size.Q : Int) then
                  tensor_dy.val n
                      (Int.tdiv ((h : Int) + problem_size.pad_h
                        - filter_tap problem_size.mode problem_size.R r
                          * problem_size.dilation_h) problem_size.stride_h)
                      (Int.tdiv ((w : Int) + problem_size.pad_w
                        - filter_tap problem_size.mode problem_size.S s
                          * problem_size.dilation_w) problem_size.stride_w) k
                    * (tensor_x.val n h w c * tensor_w.val k r s c)
                else 0
              else 0))) := by
    intro n h w c hn hh hw hc
    rw [Conv2dDgrad_val _ _ _ _ _ _ _ _ n h w c hn hh hw hc]
    simp only [id, one_mul, zero_mul, add_zero]
    unfold dgrad_sum
    rw [Finset.mul_sum]
    refine Finset.sum_congr rfl (fun r _ => ?_)
    rw [Finset.mul_sum]
    refine Finset.sum_congr rfl (fun s _ => ?_)
    rw [Finset.mul_sum]
    refine Finset.sum_congr rfl (fun k _ => ?_)
    simp only [mul_ite, mul_zero]
    split_ifs <;> first | rfl | ring
  rw [Finset.sum_congr rfl (fun n hn => Finset.sum_congr rfl (fun p hp =>
      Finset.sum_congr rfl (fun q hq => Finset.sum_congr rfl (fun k hk =>
        hL n p q k (Finset.mem_range.mp hn) (Finset.mem_range.mp hp) (Finset.mem_range.mp hq)
          (Finset.mem_range.mp hk))))),
    Finset.sum_congr rfl (fun n hn => Finset.sum_congr rfl (fun h hh =>
      Finset.sum_congr rfl (fun w hw => Finset.sum_congr rfl (fun c hc =>
        hR n h w c (Finset.mem_range.mp hn) (Finset.mem_range.mp hh) (Finset.mem_range.mp hw)
          (Finset.mem_range.mp hc)))))]
  refine Finset.sum_congr rfl (fun n _ => ?_)
  rw [sum_comm_2_4, sum_comm_2_4 (Finset.range problem_size.H), sum_comm_ends]
  refine Finset.sum_congr rfl (fun c _ => ?_)
  refine Finset.sum_congr rfl (fun r _ => ?_)
  refine Finset.sum_congr rfl (fun s _ => ?_)
  refine Finset.sum_congr rfl (fun k _ => ?_)
  exact spatial_adjoint problem_size.P problem_size.Q problem_size.H problem_size.W
    problem_size.stride_h problem_size.stride_w problem_size.pad_h problem_size.pad_w
    (filter_tap problem_size.mode problem_size.R r * problem_size.dilation_h)
    (filter_tap problem_size.mode problem_size.S s * problem_size.dilation_w) hsh hsw
    (fun p q h w => tensor_dy.val n p q k * (tensor_x.val n h w c * tensor_w.val k r s c))

/-- C13 at a concrete input: `small_problem_strided`, with strides 2 and padding 1. -/
theorem dgrad_adjoint_witness :
    (1 : Int) ≤ small_problem_strided.stride_h ∧ (1 : Int) ≤ small_problem_strided.stride_w ∧
    Finset.sum (Finset.range small_problem_strided.N) (fun n =>
      Finset.sum (Finset.range small_problem_strided.P) (fun p =>
        Finset.sum (Finset.range small_problem_strided.Q) (fun q =>
          Finset.sum (Finset.range small_problem_strided.K) (fun k =>
            small_dy.val n p q k
              * (Conv2dFprop id small_problem_strided small_src small_filter small_z small_dst
                  1 0).val n p q k))))
      = Finset.sum (Finset.range small_problem_strided.N) (fun n =>
          Finset.sum (Finset.range small_problem_strided.H) (fun h =>
            Finset.sum (Finset.range small_problem_strided.W) (fun w =>
              Finset.sum (Finset.range small_problem_strided.C) (fun c =>
                small_src.val n h w c
                  * (Conv2dDgrad id small_problem_strided small_dy small_filter small_z
                      small_dst 1 0).val n h w c)))) :=
  ⟨by decide, by decide,
    dgrad_adjoint small_problem_strided small_src small_filter small_dy small_z small_dst
      small_z small_dst (by decide) (by decide)⟩

/-! ## C27, C28: the decomposition of a reduction step -/

/-- The remainder of a step modulo the filter size splits into the row and the column. -/
theorem step_split (R S t : Nat) (hR : 1 ≤ R) (hS : 1 ≤ S) :
    t = step_c R S t * (R * S) + (step_fh R S t * S + step_fw R S t)
    ∧ step_fh R S t < R ∧ step_fw R S t < S := by
  have hRS : 0 < R * S := Nat.mul_pos hR hS
  rw [step_fh_eq, step_fw_eq]
  simp only [step_c]
  have h1 := Nat.div_add_mod t (R * S)
  have h2 := Nat.div_add_mod (t % (R * S)) S
  have h3 := Nat.mod_lt t hRS
  refine ⟨?_, ?_, Nat.mod_lt _ hS⟩
  · rw [Nat.mul_comm (t / (R * S)) (R * S), Nat.mul_comm (t % (R * S) / S) S, h2, h1]
  · rw [Nat.div_lt_iff_lt_mul hS]
    exact h3

/-- A triple with in-range row and column is determined by the step it adds up to. -/
theorem step_triple_unique (R S c fh fw c2 fh2 fw2 : Nat) (hfh : fh < R) (hfw : fw < S)
    (hfh2 : fh2 < R) (hfw2 : fw2 < S)
    (h : c * (R * S) + (fh * S + fw) = c2 * (R * S) + (fh2 * S + fw2)) :
    c = c2 ∧ fh = fh2 ∧ fw = fw2 := by
  have hS : 0 < S := by omega
  have b1 : fh * S + fw < R * S := by
    calc fh * S + fw < fh * S + S := by omega
      _ = (fh + 1) * S := by ring
      _ ≤ R * S := Nat.mul_le_mul_right S hfh
  have b2 : fh2 * S + fw2 < R * S := by
    calc fh2 * S + fw2 < fh2 * S + S := by omega
      _ = (fh2 + 1) * S := by ring
      _ ≤ R * S := Nat.mul_le_mul_right S hfh2
  have hRS : 0 < R * S := by omega
  have hc : c = c2 := by
    have e1 : (c * (R * S) + (fh * S + fw)) / (R * S) = c := by
      rw [Nat.add_comm, Nat.add_mul_div_right _ _ hRS, Nat.div_eq_of_lt b1, Nat.zero_add]
    have e2 : (c2 * (R * S) + (fh2 * S + fw2)) / (R * S) = c2 := by
      rw [Nat.add_comm, Nat.add_mul_div_right _ _ hRS, Nat.div_eq_of_lt b2, Nat.zero_add]
    rw [← e1, ← e2, h]
  subst hc
  have hm : fh * S + fw = fh2 * S + fw2 := by omega
  have hf : fh = fh2 := by
    have e1 : (fh * S + fw) / S = fh := by
      rw [Nat.add_comm, Nat.add_mul_div_right _ _ hS, Nat.div_eq_of_lt hfw, Nat.zero_add]
    have e2 : (fh2 * S + fw2) / S = fh2 := by
      rw [Nat.add_comm, Nat.add_mul_div_right _ _ hS, Nat.div_eq_of_lt hfw2, Nat.zero_add]
    rw [← e1, ← e2, hm]
  subst hf
  exact ⟨rfl, rfl, by omega⟩

/-- C27. Step decomposition is exact: for every reduction step `t` and filter extents `R ≥ 1`,
`S ≥ 1`, the triple `(c, fh, fw)` computed by `compute_offset_fprop` (`c = t / (R*S)`,
`fhfw = t - R*S*c`, `fh = fhfw / S`, `fw = fhfw - S*fh`, the triple its byte offset is built
from) satisfies `t = c*R*S + fh*S + fw` with `fh < R` and `fw < S`, and it is the only such
triple. -/
theorem step_decomposition_exact (R S t : Nat) (hR : 1 ≤ R) (hS : 1 ≤ S) :
    t = step_c R S t * R * S + step_fh R S t * S + step_fw R S t
    ∧ step_fh R S t < R ∧ step_fw R S t < S
    ∧ (∀ c fh fw : Nat, fh < R → fw < S → t = c * R * S + fh * S + fw →
        c = step_c R S t ∧ fh = step_fh R S t ∧ fw = step_fw R S t)
    ∧ (∀ kInterleaved kElementSizeBits hi_ wi_ : Nat,
        step_offset kInterleaved kElementSizeBits R S hi_ wi_ t
          = Int.tdiv (int32 (((step_c R S t * (hi_ * wi_) * kInterleaved
              + step_fh R S t * wi_ * kInterleaved
              + step_fw R S t * kInterleaved) * kElementSizeBits : Nat) : Int)) 8
        ∧ ((step_c R S t * (hi_ * wi_) * kInterleaved + step_fh R S t * wi_ * kInterleaved
              + step_fw R S t * kInterleaved) * kElementSizeBits < 2147483648 →
            step_offset kInterleaved kElementSizeBits R S hi_ wi_ t
              = (((step_c R S t * (hi_ * wi_) * kInterleaved
                  + step_fh R S t * wi_ * kInterleaved
                  + step_fw R S t * kInterleaved) * kElementSizeBits / 8 : Nat) : Int))) := by
  obtain ⟨h1, h2, h3⟩ := step_split R S t hR hS
  have e : ∀ kI bits hi wi : Nat, step_offset kI bits R S hi wi t
      = Int.tdiv (int32 (((step_c R S t * (hi * wi) * kI + step_fh R S t * wi * kI
          + step_fw R S t * kI) * bits : Nat) : Int)) 8 := by
    intro kI bits hi wi
    simp only [step_offset, offset_numerator, step_c, step_fh, step_fw]
  refine ⟨?_, h2, h3, ?_, fun kI bits hi wi => ⟨e kI bits hi wi, fun hlt => ?_⟩⟩
  rotate_left 2
  · rw [e, int32_of_range _ (by omega) (by omega), Int.tdiv_eq_ediv (by omega) (by norm_num)]
    norm_cast
  · rw [Nat.mul_assoc, Nat.add_assoc]
    exact h1
  · intro c fh fw hfh hfw ht
    apply step_triple_unique R S c fh fw _ _ _ hfh hfw h2 h3
    rw [← h1, ht, Nat.mul_assoc, Nat.add_assoc]

/-- C27 at a concrete input: step 25 of a 3x3 filter is channel group 2, row 2, column 1. -/
theorem step_decomposition_exact_witness :
    25 = step_c 3 3 25 * 3 * 3 + step_fh 3 3 25 * 3 + step_fw 3 3 25
    ∧ step_fh 3 3 25 < 3 ∧ step_fw 3 3 25 < 3
    ∧ (2 = step_c 3 3 25 ∧ 2 = step_fh 3 3 25 ∧ 1 = step_fw 3 3 25) :=
  have h := step_decomposition_exact 3 3 25 (by decide) (by decide)
  ⟨h.1, h.2.1, h.2.2.1, h.2.2.2.1 2 2 1 (by decide) (by decide) (by decide)⟩

/-- C28. Reduction order is (channel, filter-row, filter-col) ascending: for all reduction steps
`t < t2` (filter extents `R ≥ 1`, `S ≥ 1`) the triple `(c, fh, fw)` that `compute_offset_fprop`
assigns to `t` is strictly smaller than the triple assigned to `t2` in the lexicographic order
with the channel group most significant, then the filter row, then the filter column. -/
theorem reduction_order_ascending (R S t t2 : Nat) (hR : 1 ≤ R) (hS : 1 ≤ S) (h : t < t2) :
    step_c R S t < step_c R S t2
    ∨ (step_c R S t = step_c R S t2
        ∧ (step_fh R S t < step_fh R S t2
          ∨ (step_fh R S t = step_fh R S t2 ∧ step_fw R S t < step_fw R S t2))) := by
  obtain ⟨h1, h2, h3⟩ := step_split R S t hR hS
  obtain ⟨k1, k2, k3⟩ := step_split R S t2 hR hS
  have hc : step_c R S t ≤ step_c R S t2 := Nat.div_le_div_right (Nat.le_of_lt h)
  rcases Nat.lt_or_ge (step_c R S t) (step_c R S t2) with hlt | hge
  · exact Or.inl hlt
  · have hceq : step_c R S t = step_c R S t2 := Nat.le_antisymm hc hge
    refine Or.inr ⟨hceq, ?_⟩
    rw [hceq] at h1
    have hm : step_fh R S t * S + step_fw R S t < step_fh R S t2 * S + step_fw R S t2 := by
      omega
    rcases Nat.lt_trichotomy (step_fh R S t) (step_fh R S t2) with hl | he | hg
    · exact Or.inl hl
    · refine Or.inr ⟨he, ?_⟩
      rw [he] at hm
      omega
    · exfalso
      have : (step_fh R S t2 + 1) * S ≤ step_fh R S t * S := Nat.mul_le_mul_right S hg
      have e : (step_fh R S t2 + 1) * S = step_fh R S t2 * S + S := by ring
      omega

/-- C28 at a concrete input: steps 8 and 9 of a 3x3 filter, the last tap of channel group 0 and
the first tap of channel group 1. -/
theorem reduction_order_ascending_witness :
    step_c 3 3 8 < step_c 3 3 9
    ∨ (step_c 3 3 8 = step_c 3 3 9
        ∧ (step_fh 3 3 8 < step_fh 3 3 9
          ∨ (step_fh 3 3 8 = step_fh 3 3 9 ∧ step_fw 3 3 8 < step_fw 3 3 9))) :=
  reduction_order_ascending 3 3 8 9 (by decide) (by decide) (by decide)

/-! ## C29: advance does not touch the predicates -/

/-- C29. Advance does not touch the predicates: `operator++` of the precomputed iterator changes
only `constant_offset_`, `strided_` and `is_residue_tile_`; the boundary masks `masks_`, the
per-access base pointers `pointer_`, `residue_extent_` and `pack_pad_` are, after any number of
advances, identical to their values right after construction. -/
theorem advance_keeps_predicates (t : IteratorTraits) (p : FpropPrecompParams)
    (it : Conv2dTileSrcIteratorFpropPrecomp) (pointer : Int)
    (extent_row initial_strided initial_contiguous tb_row tb_column n : Nat) :
    it.advance t p
      = { it with constant_offset_ := (it.advance t p).constant_offset_
                  strided_ := (it.advance t p).strided_
                  is_residue_tile_ := false }
    ∧ (let it0 := Conv2dTileSrcIteratorFpropPrecomp.construct t p pointer extent_row
          initial_strided initial_contiguous tb_row tb_column
       let itn := (Conv2dTileSrcIteratorFpropPrecomp.advance t p)^[n] it0
       itn.masks_ = it0.masks_ ∧ itn.pointer_ = it0.pointer_
        ∧ itn.residue_extent_ = it0.residue_extent_ ∧ itn.pack_pad_ = it0.pack_pad_) :=
  ⟨rfl, iterate_advance_frame t p _ n⟩

/-! ## C25: the index invariant of the precomputed iterator -/

/-- C25. Index invariant of the precomputed iterator (filter extents `R*S ≥ 1`): if the initial
`constant_offset_` is `j0` with `j0 + (Iterations::kStrided - 1)*Delta::kStrided < K`, then
after any number `n` of advances `constant_offset_` is congruent to `j0` modulo `K`, equals
`j0 + n*K` for `n ≤ R*S + 1` and `j0 + (2 + ((n - 2) mod (R*S)))*K` for `n ≥ 2`; every table
index `constant_offset_ + s*Delta::kStrided` read by `operator++` and by the load is below
`(2 + R*S)*K`, and both of its words lie in the table that `compute_offset_fprop` wrote. -/
theorem index_invariant (t : IteratorTraits)
    (TileMap : Nat → Nat → LogicalCoord → TensorCoord) (layout : TensorCoord → Int)
    (problem_size : Conv2dProblemSize) (extra_param : ExtraParam)
    (it0 : Conv2dTileSrcIteratorFpropPrecomp) (j0 n : Nat)
    (hc : it0.constant_offset_ = (j0 : Int))
    (hj : j0 + (t.Iterations_kStrided - 1) * t.Delta_kStrided < t.kStrided)
    (hRS : 1 ≤ problem_size.R * problem_size.S) :
    let p := FpropPrecompParams.construct t TileMap layout problem_size extra_param
    let itn := (Conv2dTileSrcIteratorFpropPrecomp.advance t p)^[n] it0
    itn.constant_offset_ % (t.kStrided : Int) = (j0 : Int)
    ∧ (n ≤ problem_size.R * problem_size.S + 1 →
        itn.constant_offset_ = ((j0 + n * t.kStrided : Nat) : Int))
    ∧ (2 ≤ n →
        itn.constant_offset_
          = ((j0 + (2 + (n - 2) % (problem_size.R * problem_size.S)) * t.kStrided : Nat) : Int))
    ∧ (∀ s, s < t.Iterations_kStrided →
        0 ≤ itn.constant_offset_ + ((s * t.Delta_kStrided : Nat) : Int)
        ∧ itn.constant_offset_ + ((s * t.Delta_kStrided : Nat) : Int)
            < (((2 + problem_size.R * problem_size.S) * t.kStrided : Nat) : Int)
        ∧ (2 * (itn.constant_offset_ + ((s * t.Delta_kStrided : Nat) : Int)) + 1).toNat
            < p.constant_offset_.length) := by
  intro p itn
  have hj0 : j0 < t.kStrided := lt_of_le_of_lt (Nat.le_add_right _ _) hj
  have hco : itn.constant_offset_
      = ((j0 + ramp_index (problem_size.R * problem_size.S) n * t.kStrided : Nat) : Int) :=
    iterate_constant_offset t p it0 (problem_size.R * problem_size.S) j0 n rfl rfl hc hj0 hRS
  have hle := ramp_index_le (problem_size.R * problem_size.S) n hRS
  refine ⟨?_, ?_, ?_, ?_⟩
  · rw [hco]
    have e : ((j0 + ramp_index (problem_size.R * problem_size.S) n * t.kStrided : Nat) : Int)
        % (t.kStrided : Int)
        = (((j0 + ramp_index (problem_size.R * problem_size.S) n * t.kStrided)
            % t.kStrided : Nat) : Int) := by
      push_cast
      rfl
    rw [e, Nat.add_mul_mod_self_right, Nat.mod_eq_of_lt hj0]
  · intro hn
    rw [hco]
    have e : ramp_index (problem_size.R * problem_size.S) n = n := by
      unfold ramp_index
      split
      · rfl
      · rw [Nat.mod_eq_of_lt (by omega)]
        omega
    rw [e]
  · intro hn
    rw [hco]
    have e : ramp_index (problem_size.R * problem_size.S) n
        = 2 + (n - 2) % (problem_size.R * problem_size.S) := by
      unfold ramp_index
      rw [if_neg (by omega)]
    rw [e]
  · intro s hs
    have hsd : s * t.Delta_kStrided ≤ (t.Iterations_kStrided - 1) * t.Delta_kStrided :=
      Nat.mul_le_mul_right _ (by omega)
    have hidx : j0 + ramp_index (problem_size.R * problem_size.S) n * t.kStrided
        + s * t.Delta_kStrided < (2 + problem_size.R * problem_size.S) * t.kStrided := by
      calc j0 + ramp_index (problem_size.R * problem_size.S) n * t.kStrided
            + s * t.Delta_kStrided
          < t.kStrided + ramp_index (problem_size.R * problem_size.S) n * t.kStrided := by
            omega
        _ = (1 + ramp_index (problem_size.R * problem_size.S) n) * t.kStrided := by ring
        _ ≤ (2 + problem_size.R * problem_size.S) * t.kStrided :=
            Nat.mul_le_mul_right _ (by omega)
    rw [hco]
    refine ⟨by positivity, by exact_mod_cast hidx, ?_⟩
    have e : (2 * (((j0 + ramp_index (problem_size.R * problem_size.S) n * t.kStrided : Nat)
          : Int) + ((s * t.Delta_kStrided : Nat) : Int)) + 1)
        = (((2 * (j0 + ramp_index (problem_size.R * problem_size.S) n * t.kStrided
            + s * t.Delta_kStrided) + 1 : Nat)) : Int) := by
      push_cast
      ring
    rw [e, Int.toNat_natCast]
    show _ < (compute_offset_fprop _ _ _ _ _ _ _ _).length
    rw [compute_offset_fprop_length]
    omega

/-- C25 at a concrete input: lane 1 of the sample instantiation (`K = 2`, 3x3 filter) after 12
advances, which include a rewind. -/
theorem index_invariant_witness :
    ((Conv2dTileSrcIteratorFpropPrecomp.advance sample_traits
        (FpropPrecompParams.construct sample_traits sample_tile_map sample_layout
          sample_problem ExtraParam.none_type))^[12]
      (Conv2dTileSrcIteratorFpropPrecomp.construct sample_traits
        (FpropPrecompParams.construct sample_traits sample_tile_map sample_layout
          sample_problem ExtraParam.none_type) 0 27 1 0 0 0)).constant_offset_
      = ((1 + (2 + (12 - 2) % (3 * 3)) * 2 : Nat) : Int) :=
  (index_invariant sample_traits sample_tile_map sample_layout sample_problem
    ExtraParam.none_type
    (Conv2dTileSrcIteratorFpropPrecomp.construct sample_traits
      (FpropPrecompParams.construct sample_traits sample_tile_map sample_layout
        sample_problem ExtraParam.none_type) 0 27 1 0 0 0)
    1 12 rfl (by decide) (by decide)).2.2.1 (by decide)

/-! ## C24: the table stays inside its buffer -/

/-- C24. Table writes stay inside the buffer: for every `K = Shape::kStrided` and every filter
with `R*S ≤ kMaxFilterPixels = 49`, the words `compute_offset_fprop` writes are those of the
`(2 + R*S)*K` table entries `0 .. (2 + R*S)*K - 1`, two `Index` words each, from word 0 on,
so every word it writes has an index below `kPrecomputedOffsetBufferSize = (2 + 49) * 2 * K`;
the same holds for the table of a parameter object built by the constructor. -/
theorem table_writes_in_buffer (t : IteratorTraits)
    (TileMap : Nat → Nat → LogicalCoord → TensorCoord) (layout : TensorCoord → Int)
    (problem_size : Conv2dProblemSize) (extra_param : ExtraParam)
    (kInterleaved kElementSizeBits hi_ wi_ residue_offset_ K : Nat)
    (hcap : problem_size.R * problem_size.S ≤ kMaxFilterPixels) :
    (compute_offset_fprop K kInterleaved kElementSizeBits problem_size.R problem_size.S
        hi_ wi_ residue_offset_).length
      = kElementSize * ((2 + problem_size.R * problem_size.S) * K)
    ∧ (∀ i, i < (compute_offset_fprop K kInterleaved kElementSizeBits problem_size.R
          problem_size.S hi_ wi_ residue_offset_).length →
        i < kPrecomputedOffsetBufferSize K)
    ∧ kPrecomputedOffsetBufferSize K = (2 + 49) * 2 * K
    ∧ (FpropPrecompParams.construct t TileMap layout problem_size
        extra_param).constant_offset_.length ≤ kPrecomputedOffsetBufferSize t.kStrided := by
  have hb : ∀ K2 : Nat, 2 * ((2 + problem_size.R * problem_size.S) * K2)
      ≤ kPrecomputedOffsetBufferSize K2 := by
    intro K2
    have h1 : (2 + problem_size.R * problem_size.S) * K2 ≤ (2 + kMaxFilterPixels) * K2 :=
      Nat.mul_le_mul_right _ (by omega)
    have e : kPrecomputedOffsetBufferSize K2 = 2 * ((2 + kMaxFilterPixels) * K2) := by
      simp only [kPrecomputedOffsetBufferSize, kElementSize]
      ring
    omega
  refine ⟨?_, ?_, ?_, ?_⟩
  · rw [compute_offset_fprop_length]
    rfl
  · intro i hi
    rw [compute_offset_fprop_length] at hi
    exact lt_of_lt_of_le hi (hb K)
  · simp only [kPrecomputedOffsetBufferSize, kElementSize, kMaxFilterPixels]
  · show (compute_offset_fprop _ _ _ _ _ _ _ _).length ≤ _
    rw [compute_offset_fprop_length]
    exact hb t.kStrided

/-- C24 at a concrete input: the 3x3 filter of the sample problem with `K = 2` writes 44 words
into a buffer of 204. -/
theorem table_writes_in_buffer_witness :
    (compute_offset_fprop 2 4 8 sample_problem.R sample_problem.S 5 5 1).length
      = kElementSize * ((2 + sample_problem.R * sample_problem.S) * 2)
    ∧ (FpropPrecompParams.construct sample_traits sample_tile_map sample_layout sample_problem
        ExtraParam.none_type).constant_offset_.length
        ≤ kPrecomputedOffsetBufferSize sample_traits.kStrided :=
  have h := table_writes_in_buffer sample_traits sample_tile_map sample_layout sample_problem
    ExtraParam.none_type 4 8 5 5 1 2 (by decide)
  ⟨h.1, h.2.2.2⟩

/-! ## C23: the default epilogue parameters -/

/-- C23. Default epilogue parameters give a plain ReLU of accumulator plus bias: a functor built
from the default-constructed `Params` has `alpha = 1`, `beta = 1`, `gamma = 0`,
`threshold = 0`; `is_source_needed()` is false and, for every accumulator and bias fragment of
an exact (linearly ordered commutative ring) compute type, each output element of the
two-operand `operator()` is the conversion of `max(0, accumulator[i] + bias[i])`, a value never
below the threshold. -/
theorem default_params_plain_relu
    {ElementOutput ElementAccumulator ElementBias ElementCompute : Type}
    [LinearOrderedCommRing ElementCompute] {kCount : Nat}
    (policy : ConverterPolicy ElementOutput ElementAccumulator ElementBias ElementCompute)
    (accumulator : Fin kCount → ElementAccumulator) (bias : Fin kCount → ElementBias)
    (i : Fin kCount) :
    let op : BiasAddLinearCombinationRelu ElementCompute :=
      BiasAddLinearCombinationRelu.construct EpilogueParams.default
    (op.alpha_ = 1 ∧ op.beta_ = 1 ∧ op.gamma_ = 0 ∧ op.threshold_ = 0)
    ∧ op.is_source_needed = false
    ∧ op.apply policy accumulator bias i
        = policy.OutputConverter
            (max 0 (policy.AccumulatorConverter (accumulator i)
                      + policy.BiasConverter (bias i)))
    ∧ op.threshold_ ≤ max 0 (policy.AccumulatorConverter (accumulator i)
                              + policy.BiasConverter (bias i)) := by
  intro op
  refine ⟨⟨rfl, rfl, rfl, rfl⟩, ?_, ?_, le_max_left _ _⟩
  · simp [op, BiasAddLinearCombinationRelu.is_source_needed,
      BiasAddLinearCombinationRelu.construct, EpilogueParams.default]
  · show policy.OutputConverter _ = policy.OutputConverter _
    congr 1
    simp only [ReLu, multiply_add_fragment, multiplies_fragment, multiply_add, op,
      BiasAddLinearCombinationRelu.construct, EpilogueParams.default, one_mul]
    rw [add_comm (policy.BiasConverter (bias i))]
    split_ifs with h
    · exact (max_eq_left (le_of_lt h)).symm
    · exact (max_eq_right (not_lt.mp h)).symm

/-! ## C26: the bits of the mask words -/

set_option maxRecDepth 100000 in
/-- C26 fails as stated: the 33x1 filter is admitted by the table capacity (`33 * 1 ≤ 49`), yet
its filter row `kh = 32` would need bit position 32, which is not below the 32 bits of the
mask word: at the coordinate `(0, 0, 0, 0)`, where row 32 is inside the image, the mask word
built by `initialize_predicate_and_pointers_` has no bit for it, and the tap stored for step 32
is row 32, so the load guard tests that position. -/
theorem mask_bit_out_of_word :
    (1 ≤ sample_problem_33x1.R ∧ 1 ≤ sample_problem_33x1.S
      ∧ sample_problem_33x1.R * sample_problem_33x1.S ≤ kMaxFilterPixels)
    ∧ (32 < sample_params_33x1.fh_ ∧ ¬ (32 < 32))
    ∧ ((0 : Int) < (sample_params_33x1.n_ : Int) ∧ (0 : Int) ≥ -((32 : Nat) : Int)
        ∧ (0 : Int) < (sample_params_33x1.hi_ : Int) - ((32 : Nat) : Int))
    ∧ (init_mask_h sample_params_33x1 { n := 0, h := 0, w := 0, c := 0 }).testBit 32 = false
    ∧ step_fh sample_problem_33x1.R sample_problem_33x1.S 32 = 32
    ∧ mask_guard (init_mask_h sample_params_33x1 { n := 0, h := 0, w := 0, c := 0 },
                  init_mask_w sample_params_33x1 { n := 0, h := 0, w := 0, c := 0 }) 32 0
        = false := by
  decide

/-- C26, amended. One mask bit per filter row and per filter column, for filters with `R ≤ 32`
and `S ≤ 32` (every filter up to 7x7 among them): every bit position used to build the masks
(`kh < R` in `masks_[.][0]`, `kw < S` in `masks_[.][1]`) is smaller than 32 and holds exactly
the predicate of its own row or column, no bit at or above `R` (`S`) is set, and the taps stored
in the table for any step (`fh`, `fw`, with `R, S ≥ 1`), which the load guard tests, are below
`R` and `S`, hence below 32. -/
theorem mask_bits_distinct (p : FpropPrecompParams) (coord : TensorCoord)
    (hR : p.fh_ ≤ 32) (hS : p.fw_ ≤ 32) :
    (∀ kh, kh < p.fh_ → kh < 32
      ∧ (init_mask_h p coord).testBit kh
          = decide (coord.n < (p.n_ : Int) ∧ coord.h ≥ -(kh : Int)
                      ∧ coord.h < (p.hi_ : Int) - (kh : Int)))
    ∧ (∀ kw, kw < p.fw_ → kw < 32
      ∧ (init_mask_w p coord).testBit kw
          = decide (coord.w ≥ -(kw : Int) ∧ coord.w < (p.wi_ : Int) - (kw : Int)))
    ∧ (∀ b, p.fh_ ≤ b → (init_mask_h p coord).testBit b = false)
    ∧ (∀ b, p.fw_ ≤ b → (init_mask_w p coord).testBit b = false)
    ∧ (∀ t, 1 ≤ p.fh_ → 1 ≤ p.fw_ →
        step_fh p.fh_ p.fw_ t < p.fh_ ∧ step_fh p.fh_ p.fw_ t < 32
        ∧ step_fw p.fh_ p.fw_ t < p.fw_ ∧ step_fw p.fh_ p.fw_ t < 32) := by
  have mh := fun b => mask_loop_testBit
    (fun kh => decide (coord.n < (p.n_ : Int) ∧ coord.h ≥ -(kh : Int)
                        ∧ coord.h < (p.hi_ : Int) - (kh : Int))) p.fh_ b hR
  have mw := fun b => mask_loop_testBit
    (fun kw => decide (coord.w ≥ -(kw : Int) ∧ coord.w < (p.wi_ : Int) - (kw : Int)))
    p.fw_ b hS
  refine ⟨?_, ?_, ?_, ?_, ?_⟩
  · intro kh hkh
    refine ⟨by omega, ?_⟩
    have := mh kh
    simp only [hkh, decide_True, Bool.true_and] at this
    exact this
  · intro kw hkw
    refine ⟨by omega, ?_⟩
    have := mw kw
    simp only [hkw, decide_True, Bool.true_and] at this
    exact this
  · intro b hb
    have := mh b
    simp only [Nat.not_lt.mpr hb, decide_False, Bool.false_and] at this
    exact this
  · intro b hb
    have := mw b
    simp only [Nat.not_lt.mpr hb, decide_False, Bool.false_and] at this
    exact this
  · intro t h1 h2
    obtain ⟨_, h3, h4⟩ := step_split p.fh_ p.fw_ t h1 h2
    exact ⟨h3, by omega, h4, by omega⟩

/-- C26 (amended) at a concrete input: the 3x3 filter of the sample problem at the coordinate
`(0, -1, -1, 0)` of the padded corner; row 0 is outside the image, row 1 inside. -/
theorem mask_bits_distinct_witness :
    (init_mask_h sample_params_u4 { n := 0, h := -1, w := -1, c := 0 }).testBit 1
      = decide ((0 : Int) < (sample_params_u4.n_ : Int) ∧ (-1 : Int) ≥ -((1 : Nat) : Int)
                  ∧ (-1 : Int) < (sample_params_u4.hi_ : Int) - ((1 : Nat) : Int)) :=
  ((mask_bits_distinct sample_params_u4 { n := 0, h := -1, w := -1, c := 0 }
    (by decide) (by decide)).1 1 (by decide)).2

/-! ## C22: no tap is skipped without padding -/

theorem filter_tap_range (mode : Mode) (R r : Nat) (hr : r < R) :
    0 ≤ filter_tap mode R r ∧ filter_tap mode R r ≤ (R : Int) - 1 := by
  unfold filter_tap
  split <;> omega

/-- The input position of a tap lies within the padded extent when the output extent is the one
the descriptor prescribes. -/
theorem tap_position_range (H R P : Nat) (pad stride dilation ft : Int) (p : Nat)
    (hs : 1 ≤ stride) (hd : 0 ≤ dilation)
    (hP : (P : Int) = ((H : Int) + 2 * pad - dilation * ((R : Int) - 1) - 1) / stride + 1)
    (hp : p < P) (hft0 : 0 ≤ ft) (hft : ft ≤ (R : Int) - 1) :
    -pad ≤ (p : Int) * stride - pad + ft * dilation
    ∧ (p : Int) * stride - pad + ft * dilation ≤ (H : Int) - 1 + pad := by
  have h1 : 0 ≤ (p : Int) * stride := mul_nonneg (by positivity) (by omega)
  have h2 : 0 ≤ ft * dilation := mul_nonneg hft0 hd
  have h3 : ft * dilation ≤ ((R : Int) - 1) * dilation := mul_le_mul_of_nonneg_right hft hd
  have h4 : (p : Int) ≤ ((H : Int) + 2 * pad - dilation * ((R : Int) - 1) - 1) / stride := by
    have : (p : Int) < (P : Int) := by exact_mod_cast hp
    omega
  have h5 : (p : Int) * stride
      ≤ ((H : Int) + 2 * pad - dilation * ((R : Int) - 1) - 1) / stride * stride :=
    mul_le_mul_of_nonneg_right h4 (by omega)
  have h6 := Int.ediv_mul_le ((H : Int) + 2 * pad - dilation * ((R : Int) - 1) - 1)
    (show stride ≠ 0 by omega)
  have e : ((R : Int) - 1) * dilation = dilation * ((R : Int) - 1) := mul_comm _ _
  constructor
  · linarith
  · linarith

/-- C22. No tap is skipped without padding.  For strides `≥ 1`, dilations `≥ 0` and output
extents `P = (H + 2*pad_h - dilation_h*(R-1) - 1) / stride_h + 1` (rounded down), `Q`
likewise: for every `p < P`, `q < Q`, `r < R`, `s < S` and either mode the input position used
by `Conv2dFprop` satisfies `-pad_h ≤ h ≤ H - 1 + pad_h` and `-pad_w ≤ w ≤ W - 1 + pad_w`; hence
with `pad_h = pad_w = 0` the bounds check never fails and the stored value is the conversion of
`alpha` times the full sum over all `R*S*C` taps plus `beta` times the source. -/
theorem no_tap_skipped {α : Type} [CommSemiring α] [DecidableEq α] (convert_op : α → α)
    (problem_size : Conv2dProblemSize) (tensor_x tensor_w tensor_y_in tensor_y_out : Tensor4 α)
    (alpha beta : α)
    (hsh : 1 ≤ problem_size.stride_h) (hsw : 1 ≤ problem_size.stride_w)
    (hdh : 0 ≤ problem_size.dilation_h) (hdw : 0 ≤ problem_size.dilation_w)
    (hP : (problem_size.P : Int)
      = ((problem_size.H : Int) + 2 * problem_size.pad_h
          - problem_size.dilation_h * ((problem_size.R : Int) - 1) - 1) / problem_size.stride_h
        + 1)
    (hQ : (problem_size.Q : Int)
      = ((problem_size.W : Int) + 2 * problem_size.pad_w
          - problem_size.dilation_w * ((problem_size.S : Int) - 1) - 1) / problem_size.stride_w
        + 1) :
    (∀ p q r s : Nat, p < problem_size.P → q < problem_size.Q → r < problem_size.R →
      s < problem_size.S →
      let h : Int := (p : Int) * problem_size.stride_h - problem_size.pad_h
        + filter_tap problem_size.mode problem_size.R r * problem_size.dilation_h
      let w : Int := (q : Int) * problem_size.stride_w - problem_size.pad_w
        + filter_tap problem_size.mode problem_size.S s * problem_size.dilation_w
      (-problem_size.pad_h ≤ h ∧ h ≤ (problem_size.H : Int) - 1 + problem_size.pad_h)
      ∧ (-problem_size.pad_w ≤ w ∧ w ≤ (problem_size.W : Int) - 1 + problem_size.pad_w))
    ∧ (problem_size.pad_h = 0 → problem_size.pad_w = 0 →
        ∀ n p q k : Nat, n < problem_size.N → p < problem_size.P → q < problem_size.Q →
          k < problem_size.K →
          (Conv2dFprop convert_op problem_size tensor_x tensor_w tensor_y_in tensor_y_out
              alpha beta).val n p q k
            = convert_op (alpha
                * Finset.sum (Finset.range problem_size.R) (fun r =>
                    Finset.sum (Finset.range problem_size.S) (fun s =>
                      Finset.sum (Finset.range problem_size.C) (fun c =>
                        tensor_x.val n
                          ((p : Int) * problem_size.stride_h - problem_size.pad_h
                            + filter_tap problem_size.mode problem_size.R r
                              * problem_size.dilation_h)
                          ((q : Int) * problem_size.stride_w - problem_size.pad_w
                            + filter_tap problem_size.mode problem_size.S s
                              * problem_size.dilation_w) c
                        * tensor_w.val k r s c)))
                + beta * (if beta ≠ 0 then tensor_y_in.val n p q k else 0))) := by
  have hA : ∀ p q r s : Nat, p < problem_size.P → q < problem_size.Q → r < problem_size.R →
      s < problem_size.S →
      (-problem_size.pad_h ≤ (p : Int) * problem_size.stride_h - problem_size.pad_h
          + filter_tap problem_size.mode problem_size.R r * problem_size.dilation_h
        ∧ (p : Int) * problem_size.stride_h - problem_size.pad_h
          + filter_tap problem_size.mode problem_size.R r * problem_size.dilation_h
            ≤ (problem_size.H : Int) - 1 + problem_size.pad_h)
      ∧ (-problem_size.pad_w ≤ (q : Int) * problem_size.stride_w - problem_size.pad_w
          + filter_tap problem_size.mode problem_size.S s * problem_size.dilation_w
        ∧ (q : Int) * problem_size.stride_w - problem_size.pad_w
          + filter_tap problem_size.mode problem_size.S s * problem_size.dilation_w
            ≤ (problem_size.W : Int) - 1 + problem_size.pad_w) := by
    intro p q r s hp hq hr hs
    obtain ⟨a1, a2⟩ := filter_tap_range problem_size.mode problem_size.R r hr
    obtain ⟨b1, b2⟩ := filter_tap_range problem_size.mode problem_size.S s hs
    exact ⟨tap_position_range problem_size.H problem_size.R problem_size.P problem_size.pad_h
        problem_size.stride_h problem_size.dilation_h _ p hsh hdh hP hp a1 a2,
      tap_position_range problem_size.W problem_size.S problem_size.Q problem_size.pad_w
        problem_size.stride_w problem_size.dilation_w _ q hsw hdw hQ hq b1 b2⟩
  refine ⟨hA, ?_⟩
  intro hph hpw n p q k hn hp hq hk
  rw [Conv2dFprop_val _ _ _ _ _ _ _ _ n p q k hn hp hq hk]
  congr 3
  unfold fprop_sum
  refine Finset.sum_congr rfl (fun r hr => ?_)
  refine Finset.sum_congr rfl (fun s hs => ?_)
  refine Finset.sum_congr rfl (fun c _ => ?_)
  have hb := hA p q r s hp hq (Finset.mem_range.mp hr) (Finset.mem_range.mp hs)
  rw [hph, hpw] at hb
  simp only []
  rw [if_pos]
  rw [hph, hpw]
  omega

/-- C22 at the stated input: `N=1, C=4, H=5, W=5, K=2, R=3, S=3`, stride 1, padding 0,
`P = Q = 3`, integer elements, `alpha = 1`, `beta = 0`, at the output `(0, 2, 2, 1)`. -/
theorem no_tap_skipped_witness :
    (Conv2dFprop id plain_problem small_src small_filter small_z small_dst 1 0).val
        (0 : Nat) (2 : Nat) (2 : Nat) (1 : Nat)
      = id ((1 : Int)
          * Finset.sum (Finset.range plain_problem.R) (fun r =>
              Finset.sum (Finset.range plain_problem.S) (fun s =>
                Finset.sum (Finset.range plain_problem.C) (fun c =>
                  small_src.val (0 : Nat)
                    (((2 : Nat) : Int) * plain_problem.stride_h - plain_problem.pad_h
                      + filter_tap plain_problem.mode plain_problem.R r
                        * plain_problem.dilation_h)
                    (((2 : Nat) : Int) * plain_problem.stride_w - plain_problem.pad_w
                      + filter_tap plain_problem.mode plain_problem.S s
                        * plain_problem.dilation_w) c
                  * small_filter.val (1 : Nat) r s c)))
          + 0 * (if (0 : Int) ≠ 0 then small_z.val (0 : Nat) (2 : Nat) (2 : Nat) (1 : Nat)
                  else 0)) :=
  (no_tap_skipped id plain_problem small_src small_filter small_z small_dst 1 0
    (by decide) (by decide) (by decide) (by decide) (by decide) (by decide)).2 rfl rfl
    0 2 2 1 (by decide) (by decide) (by decide) (by decide)

/-! ## C30: pointer stepping of the non-precomputed iterator -/

/-- The iterator that `load_with_byte_offset` leaves behind is the result of its pointer
updates alone. -/
theorem load_false_iterator {α : Type} (fill : Nat → α) (mem : Int → α)
    (t : IteratorTraits) (p : FpropPrecompParams_false)
    (it : Conv2dTileSrcIteratorFpropPrecomp_false) (byte_offset : Int) :
    (it.load_with_byte_offset fill mem t p byte_offset).2
      = forLoop t.Iterations_kStrided (fun s it2 => it2.next_strided t p s) it := by
  unfold Conv2dTileSrcIteratorFpropPrecomp_false.load_with_byte_offset
  induction t.Iterations_kStrided with
  | zero => rfl
  | succ k ih =>
    rw [forLoop_succ, forLoop_succ]
    simp only []
    rw [ih]

/-- The pointer updates of the first `n` strided iterations. -/
theorem forLoop_next_strided (t : IteratorTraits) (p : FpropPrecompParams_false)
    (it : Conv2dTileSrcIteratorFpropPrecomp_false) (n : Nat) (hn : n ≤ t.Iterations_kStrided) :
    forLoop n (fun s it2 => it2.next_strided t p s) it
      = { it with pointer_ := it.pointer_.map (fun ptr =>
            ptr + ((min n (t.Iterations_kStrided - 1) : Nat) : Int) * p.inc_strided_) } := by
  induction n with
  | zero =>
    cases it
    simp [forLoop]
  | succ k ih =>
    rw [forLoop_succ, ih (by omega)]
    unfold Conv2dTileSrcIteratorFpropPrecomp_false.next_strided
    by_cases hk : k < t.Iterations_kStrided - 1
    · have hk2 : (k : Int) < (t.Iterations_kStrided : Int) - 1 := by omega
      rw [if_pos hk2]
      have e1 : min k (t.Iterations_kStrided - 1) = k := by omega
      have e2 : min (k + 1) (t.Iterations_kStrided - 1) = k + 1 := by omega
      simp only [e1, e2, List.map_map]
      congr 1
      apply List.map_congr_left
      intro a _
      simp only [Function.comp]
      push_cast
      ring
    · have hk2 : ¬ ((k : Int) < (t.Iterations_kStrided : Int) - 1) := by omega
      rw [if_neg hk2]
      have e1 : min k (t.Iterations_kStrided - 1) = t.Iterations_kStrided - 1 := by omega
      have e2 : min (k + 1) (t.Iterations_kStrided - 1) = t.Iterations_kStrided - 1 := by omega
      simp only [e1, e2]

/-- A load moves every pointer by `(Iterations::kStrided - 1) * inc_strided_`. -/
theorem load_false_pointer {α : Type} (fill : Nat → α) (mem : Int → α)
    (t : IteratorTraits) (p : FpropPrecompParams_false)
    (it : Conv2dTileSrcIteratorFpropPrecomp_false) (byte_offset : Int)
    (hI : 1 ≤ t.Iterations_kStrided) :
    (it.load_with_byte_offset fill mem t p byte_offset).2
      = { it with pointer_ := it.pointer_.map (fun ptr =>
            ptr + ((t.Iterations_kStrided : Int) - 1) * p.inc_strided_) } := by
  rw [load_false_iterator, forLoop_next_strided t p it _ (le_refl _)]
  have e : ((min t.Iterations_kStrided (t.Iterations_kStrided - 1) : Nat) : Int)
      = (t.Iterations_kStrided : Int) - 1 := by omega
  rw [e]

/-- The increments of the parameter object when a strided step is a whole number of bytes. -/
theorem inc_iterations_eq (t : IteratorTraits)
    (TileMap : Nat → Nat → LogicalCoord → TensorCoord) (layout : TensorCoord → Int)
    (layout_stride : Int) (problem_size : Conv2dProblemSize)
    (h8 : (8 : Int) ∣ layout_stride * (t.Delta_kStrided : Int) * (t.kElementSizeBits : Int)) :
    (FpropPrecompParams_false.construct t TileMap layout layout_stride
        problem_size).inc_iterations_
      = ((t.Iterations_kStrided : Int) - 1)
        * (FpropPrecompParams_false.construct t TileMap layout layout_stride
            problem_size).inc_strided_ := by
  simp only [FpropPrecompParams_false.construct]
  have e : ((t.Iterations_kStrided : Int) - 1) * (t.Delta_kStrided : Int) * layout_stride
        * (t.kElementSizeBits : Int)
      = ((t.Iterations_kStrided : Int) - 1)
        * (layout_stride * (t.Delta_kStrided : Int) * (t.kElementSizeBits : Int)) := by ring
  rw [e, Int.mul_tdiv_assoc _ h8]

/-- One round `load, ++` from the residue state. -/
theorem load_advance_residue {α : Type} (fill : Nat → α) (mem : Int → α)
    (t : IteratorTraits) (p : FpropPrecompParams_false) (byte_offset : Int)
    (it : Conv2dTileSrcIteratorFpropPrecomp_false) (hI : 1 ≤ t.Iterations_kStrided)
    (hinc : p.inc_iterations_ = ((t.Iterations_kStrided : Int) - 1) * p.inc_strided_)
    (hres : it.is_residue_tile_ = true) :
    it.load_advance fill mem t p byte_offset
      = { it with
          pointer_ := it.pointer_.map (fun ptr =>
            ptr + Int.tdiv ((t.kElementSizeBits : Int)
              * (it.residue_offset_ * p.layout_stride)) 8)
          is_residue_tile_ := false } := by
  unfold Conv2dTileSrcIteratorFpropPrecomp_false.load_advance
  rw [load_false_pointer fill mem t p it byte_offset hI]
  cases it with
  | mk pointer_ predicates_ residue_offset_ residue_extent_ is_residue_tile_ =>
    simp only at hres
    subst hres
    simp only [Conv2dTileSrcIteratorFpropPrecomp_false.advance,
      Conv2dTileSrcIteratorFpropPrecomp_false.add_pointer_offset, if_true, List.map_map,
      Conv2dTileSrcIteratorFpropPrecomp_false.mk.injEq, and_true, true_and]
    apply List.map_congr_left
    intro a _
    simp only [Function.comp, hinc]
    ring

/-- One round `load, ++` from a steady state. -/
theorem load_advance_steady {α : Type} (fill : Nat → α) (mem : Int → α)
    (t : IteratorTraits) (p : FpropPrecompParams_false) (byte_offset : Int)
    (it : Conv2dTileSrcIteratorFpropPrecomp_false) (hI : 1 ≤ t.Iterations_kStrided)
    (hinc : p.inc_iterations_ = ((t.Iterations_kStrided : Int) - 1) * p.inc_strided_)
    (hres : it.is_residue_tile_ = false) :
    it.load_advance fill mem t p byte_offset
      = { it with
          pointer_ := it.pointer_.map (fun ptr => ptr + (p.inc_next_ + p.inc_iterations_)) } := by
  unfold Conv2dTileSrcIteratorFpropPrecomp_false.load_advance
  rw [load_false_pointer fill mem t p it byte_offset hI]
  cases it with
  | mk pointer_ predicates_ residue_offset_ residue_extent_ is_residue_tile_ =>
    simp only at hres
    subst hres
    simp only [Conv2dTileSrcIteratorFpropPrecomp_false.advance, List.map_map,
      Conv2dTileSrcIteratorFpropPrecomp_false.mk.injEq, and_true, true_and]
    simp only [Bool.false_eq_true, if_false, List.map_map,
      Conv2dTileSrcIteratorFpropPrecomp_false.mk.injEq, and_true, true_and]
    apply List.map_congr_left
    intro a _
    simp only [Function.comp, hinc]
    ring
set_option maxRecDepth 100000 in
/-- C30 fails as stated: for 4-bit elements, layout stride 1, `Shape::kStrided = 3`,
`Iterations::kStrided = 2`, `Delta::kStrided = 2` (so `stride * Delta::kStrided * B = 8`) and
`residue_offset_ = 3`, the increments are `inc_strided_ = 1`, `inc_iterations_ = 1`,
`inc_next_ = 0`, and at the start of load 2 the pointer is its constructed value plus 2,
whereas `(residue_offset_ + (2-1)*Shape::kStrided) * stride * B / 8 = 3`. -/
theorem pointer_stepping_truncates :
    (8 : Int) ∣ stripmined_params_false.layout_stride
        * (stripmined_traits_s4.Delta_kStrided : Int)
        * (stripmined_traits_s4.kElementSizeBits : Int)
    ∧ (stripmined_params_false.inc_strided_ = 1 ∧ stripmined_params_false.inc_iterations_ = 1
        ∧ stripmined_params_false.inc_next_ = 0)
    ∧ stripmined_iterator_false.residue_offset_ = 3
    ∧ ((Conv2dTileSrcIteratorFpropPrecomp_false.load_advance (fun _ => (0 : Int)) (fun _ => 0)
          stripmined_traits_s4 stripmined_params_false 0)^[2]
        stripmined_iterator_false).pointer_
        = stripmined_iterator_false.pointer_.map (fun ptr => ptr + 2)
    ∧ Int.tdiv ((stripmined_iterator_false.residue_offset_
          + (2 - 1) * (stripmined_traits_s4.kStrided : Int))
        * stripmined_params_false.layout_stride
        * (stripmined_traits_s4.kElementSizeBits : Int)) 8 = 3 := by
  decide

/-- C30, amended. Pointer stepping of the non-precomputed iterator.  Let `stride` be the layout
stride along `TileMap::kStrideAxis`, `B` the element bit width, assume that
`stride * Delta::kStrided * B` is a multiple of 8 and `Iterations::kStrided ≥ 1`.  Then
`inc_iterations_ = (Iterations::kStrided - 1) * inc_strided_`,
`inc_next_ + inc_iterations_ = Shape::kStrided * stride * B / 8`, and in the sequence
load, ++, load, ++, ... started in the residue state, at the start of load `m + 1` every
per-access pointer equals its initial value plus
`residue_offset_ * stride * B / 8 + m * (Shape::kStrided * stride * B / 8)`, each quotient
truncated on its own (nothing else but the residue flag has changed); when moreover
`Shape::kStrided * stride * B` is a multiple of 8 and `stride`, `residue_offset_` are not
negative, this is `(residue_offset_ + m * Shape::kStrided) * stride * B / 8`. -/
theorem pointer_stepping {α : Type} (fill : Nat → α) (mem : Int → α) (t : IteratorTraits)
    (TileMap : Nat → Nat → LogicalCoord → TensorCoord) (layout : TensorCoord → Int)
    (layout_stride : Int) (problem_size : Conv2dProblemSize) (byte_offset : Int)
    (it : Conv2dTileSrcIteratorFpropPrecomp_false) (m : Nat)
    (h8 : (8 : Int) ∣ layout_stride * (t.Delta_kStrided : Int) * (t.kElementSizeBits : Int))
    (hI : 1 ≤ t.Iterations_kStrided) (hres : it.is_residue_tile_ = true) :
    let p := FpropPrecompParams_false.construct t TileMap layout layout_stride problem_size
    p.inc_iterations_ = ((t.Iterations_kStrided : Int) - 1) * p.inc_strided_
    ∧ p.inc_next_ + p.inc_iterations_
        = Int.tdiv ((t.kStrided : Int) * layout_stride * (t.kElementSizeBits : Int)) 8
    ∧ (Conv2dTileSrcIteratorFpropPrecomp_false.load_advance fill mem t p byte_offset)^[m + 1] it
        = { it with
            pointer_ := it.pointer_.map (fun ptr => ptr
              + (Int.tdiv ((t.kElementSizeBits : Int) * (it.residue_offset_ * layout_stride)) 8
                + (m : Int)
                  * Int.tdiv ((t.kStrided : Int) * layout_stride
                      * (t.kElementSizeBits : Int)) 8))
            is_residue_tile_ := false }
    ∧ ((8 : Int) ∣ (t.kStrided : Int) * layout_stride * (t.kElementSizeBits : Int) →
        0 ≤ layout_stride → 0 ≤ it.residue_offset_ →
        Int.tdiv ((t.kElementSizeBits : Int) * (it.residue_offset_ * layout_stride)) 8
          + (m : Int) * Int.tdiv ((t.kStrided : Int) * layout_stride
              * (t.kElementSizeBits : Int)) 8
        = Int.tdiv ((it.residue_offset_ + (m : Int) * (t.kStrided : Int)) * layout_stride
            * (t.kElementSizeBits : Int)) 8) := by
  intro p
  have hinc : p.inc_iterations_ = ((t.Iterations_kStrided : Int) - 1) * p.inc_strided_ :=
    inc_iterations_eq t TileMap layout layout_stride problem_size h8
  have hnext : p.inc_next_ + p.inc_iterations_
      = Int.tdiv ((t.kStrided : Int) * layout_stride * (t.kElementSizeBits : Int)) 8 := by
    show Int.tdiv _ 8 - p.inc_iterations_ + p.inc_iterations_ = _
    ring
  refine ⟨hinc, hnext, ?_, ?_⟩
  · induction m with
    | zero =>
      rw [Function.iterate_one, load_advance_residue fill mem t p byte_offset it hI hinc hres]
      simp
      intro _ _
      rfl
    | succ k ih =>
      rw [Function.iterate_succ_apply', ih,
        load_advance_steady fill mem t p byte_offset _ hI hinc rfl, hnext]
      simp only [List.map_map, Conv2dTileSrcIteratorFpropPrecomp_false.mk.injEq, and_true,
        true_and]
      apply List.map_congr_left
      intro a _
      simp only [Function.comp]
      push_cast
      ring
  · intro hK hs hr
    obtain ⟨k, hk⟩ := hK
    have hB : (0 : Int) ≤ (t.kElementSizeBits : Int) := by positivity
    have hKn : (0 : Int) ≤ (t.kStrided : Int) := by positivity
    have hk0 : 0 ≤ k := by
      have : 0 ≤ (t.kStrided : Int) * layout_stride * (t.kElementSizeBits : Int) :=
        mul_nonneg (mul_nonneg hKn hs) hB
      omega
    have ha : 0 ≤ (t.kElementSizeBits : Int) * (it.residue_offset_ * layout_stride) :=
      mul_nonneg hB (mul_nonneg hr hs)
    have e : (it.residue_offset_ + (m : Int) * (t.kStrided : Int)) * layout_stride
          * (t.kElementSizeBits : Int)
        = (t.kElementSizeBits : Int) * (it.residue_offset_ * layout_stride)
          + 8 * ((m : Int) * k) := by
      have : (m : Int) * ((t.kStrided : Int) * layout_stride * (t.kElementSizeBits : Int))
          = (m : Int) * (8 * k) := by rw [hk]
      linarith
    have hm0 : (0 : Int) ≤ (m : Int) * k := mul_nonneg (by positivity) hk0
    rw [e, hk, Int.mul_tdiv_cancel_left _ (by norm_num : (8 : Int) ≠ 0),
      Int.tdiv_eq_ediv ha (by norm_num), Int.tdiv_eq_ediv (by omega) (by norm_num),
      Int.add_mul_ediv_left _ _ (by norm_num : (8 : Int) ≠ 0)]

/-- C30 (amended) at a concrete input: the sample `false`-specialisation iterator (8-bit
elements, stride 20) at the start of load 3. -/
theorem pointer_stepping_witness :
    (Conv2dTileSrcIteratorFpropPrecomp_false.load_advance (fun _ => (0 : Int)) (fun _ => 0)
        sample_traits sample_params_false 0)^[2 + 1] sample_iterator_false
      = { sample_iterator_false with
          pointer_ := sample_iterator_false.pointer_.map (fun ptr => ptr
            + (Int.tdiv ((sample_traits.kElementSizeBits : Int)
                  * (sample_iterator_false.residue_offset_ * 20)) 8
              + ((2 : Nat) : Int)
                * Int.tdiv ((sample_traits.kStrided : Int) * 20
                    * (sample_traits.kElementSizeBits : Int)) 8))
          is_residue_tile_ := false } :=
  (pointer_stepping (fun _ => (0 : Int)) (fun _ => 0) sample_traits sample_tile_map
    sample_layout 20 sample_problem 0 sample_iterator_false 2 (by decide) (by decide)
    rfl).2.2.1

/-! ## C21: round to nearest, then saturate -/

/-- Clamping the rounded value to the range of `int8_t`. -/
theorem clamp_std_round (NumericConverter : ℚ → Int)
    (hconv : ∀ k : Int, -128 ≤ k → k ≤ 127 → NumericConverter (k : ℚ) = k) (v : ℚ) :
    NumericConverterClamp Element.int8_t NumericConverter (std_round v)
      = max (-128) (min 127 (if 0 ≤ v then ⌊v + 1 / 2⌋ else ⌈v - 1 / 2⌉)) := by
  simp only [NumericConverterClamp, std_round, numeric_limits_max, numeric_limits_lowest]
  generalize (if 0 ≤ v then ⌊v + 1 / 2⌋ else ⌈v - 1 / 2⌉) = r
  by_cases h1 : ((r : Int) : ℚ) < ((-128 : Int) : ℚ)
  · rw [if_pos h1]
    have : r < -128 := by exact_mod_cast h1
    omega
  · rw [if_neg h1]
    have h1b : -128 ≤ r := by
      have := not_lt.mp h1
      exact_mod_cast this
    by_cases h2 : ((r : Int) : ℚ) > ((127 : Int) : ℚ)
    · rw [if_pos h2]
      have : 127 < r := by exact_mod_cast h2
      omega
    · rw [if_neg h2]
      have h2b : r ≤ 127 := by
        have := not_lt.mp h2
        exact_mod_cast this
      rw [hconv r h1b h2b]
      omega

/-- The value of `std::round` is within one half of its argument. -/
theorem std_round_near (v : ℚ) : |std_round v - v| ≤ 1 / 2 := by
  unfold std_round
  rw [abs_le]
  split
  · have h1 := Int.floor_le (v + 1 / 2)
    have h2 := Int.lt_floor_add_one (v + 1 / 2)
    constructor <;> linarith
  · have h1 := Int.le_ceil (v - 1 / 2)
    have h2 := Int.ceil_lt_add_one (v - 1 / 2)
    constructor <;> linarith

/-- C21. Round to nearest, then saturate.  In the reference `Convolution` functor with
`ScalarType = float` and `ElementDst = int8_t` (whose in-range conversion `NumericConverter`
returns an integer in `[-128, 127]` unchanged), the value stored at an output coordinate for
the intermediate `v = alpha*A + beta*bias + gamma*z` is `clamp(round(v))`: `round` gives the
nearest integer, ties away from zero, and the clamp saturates at -128 and 127.  In particular
`v = 127` and `v > 127` store 127, `v = -128` and `v < -128` store -128, `v = k + 1/2` with
`k ≥ 0` stores `min(127, k + 1)` and `v = -(k + 1/2)` stores `max(-128, -(k + 1))`. -/
theorem round_then_saturate (NumericConverter : ℚ → Int)
    (conv_param : Conv2dProblemSize) (alpha : ℚ) (tensor_src tensor_filter : Tensor4 ℚ)
    (beta : ℚ) (tensor_bias : Tensor4 ℚ) (gamma : ℚ) (tensor_z tensor_dst : Tensor4 ℚ)
    (initial_accum : ℚ) (n oh ow oc : Nat)
    (hn : n < conv_param.N) (hoh : oh < conv_param.P) (how : ow < conv_param.Q)
    (hoc : oc < conv_param.K)
    (hconv : ∀ k : Int, -128 ≤ k → k ≤ 127 → NumericConverter (k : ℚ) = k) :
    let v : ℚ := (conv_output_closed false id id conv_param alpha tensor_src tensor_filter beta
      tensor_bias gamma tensor_z initial_accum).val n oh ow oc
    let stored : ℚ := (Convolution Element.int8_t Element.float NumericConverter conv_param
      alpha tensor_src tensor_filter beta tensor_bias gamma tensor_z tensor_dst
      initial_accum).val n oh ow oc
    (need_round Element.int8_t Element.float = true ∧ need_clamp Element.int8_t = true)
    ∧ stored = ((NumericConverterClamp Element.int8_t NumericConverter (std_round v) : Int) : ℚ)
    ∧ stored = ((max (-128) (min 127 (if 0 ≤ v then ⌊v + 1 / 2⌋ else ⌈v - 1 / 2⌉)) : Int) : ℚ)
    ∧ |std_round v - v| ≤ 1 / 2
    ∧ (v = 127 → stored = 127) ∧ (127 < v → stored = 127)
    ∧ (v = -128 → stored = -128) ∧ (v < -128 → stored = -128)
    ∧ (∀ k : Int, 0 ≤ k → v = (k : ℚ) + 1 / 2 → stored = ((min 127 (k + 1) : Int) : ℚ))
    ∧ (∀ k : Int, 0 ≤ k → v = -((k : ℚ) + 1 / 2) →
        stored = ((max (-128) (-(k + 1)) : Int) : ℚ)) := by
  intro v stored
  have h1 : stored
      = ((NumericConverterClamp Element.int8_t NumericConverter (std_round v) : Int) : ℚ) :=
    ((compute_convolution_writes (need_round Element.int8_t Element.float) std_round
      (fun s => ((NumericConverterClamp Element.int8_t NumericConverter s : Int) : ℚ))
      conv_param alpha tensor_src tensor_filter beta tensor_bias gamma tensor_z initial_accum)
      tensor_dst n oh ow oc).1 ⟨n, oh, ow, oc, hn, hoh, how, hoc, rfl, rfl, rfl, rfl⟩
  have h2 : stored
      = ((max (-128) (min 127 (if 0 ≤ v then ⌊v + 1 / 2⌋ else ⌈v - 1 / 2⌉)) : Int) : ℚ) := by
    rw [h1, clamp_std_round NumericConverter hconv v]
  refine ⟨⟨rfl, rfl⟩, h1, h2, std_round_near v, ?_, ?_, ?_, ?_, ?_, ?_⟩
  · intro hv
    rw [h2, hv, if_pos (by norm_num)]
    have e : ⌊(127 : ℚ) + 1 / 2⌋ = 127 := by
      rw [Int.floor_eq_iff]
      constructor <;> norm_num
    rw [e]
    norm_num
  · intro hv
    rw [h2, if_pos (by linarith)]
    have e : 127 ≤ ⌊v + 1 / 2⌋ := by
      rw [Int.le_floor]
      push_cast
      linarith
    rw [min_eq_left e]
    norm_num
  · intro hv
    rw [h2, hv, if_neg (by norm_num)]
    have e : ⌈(-128 : ℚ) - 1 / 2⌉ = -128 := by
      rw [Int.ceil_eq_iff]
      constructor <;> norm_num
    rw [e]
    norm_num
  · intro hv
    rw [h2, if_neg (by linarith)]
    have e : ⌈v - 1 / 2⌉ ≤ -128 := by
      rw [Int.ceil_le]
      push_cast
      linarith
    rw [min_eq_right (by omega), max_eq_left e]
    norm_num
  · intro k hk hv
    rw [h2, hv]
    have hk2 : (0 : ℚ) ≤ (k : ℚ) := by exact_mod_cast hk
    rw [if_pos (by linarith)]
    have e : ⌊(k : ℚ) + 1 / 2 + 1 / 2⌋ = k + 1 := by
      rw [Int.floor_eq_iff]
      push_cast
      constructor <;> linarith
    rw [e, max_eq_right (by omega)]
  · intro k hk hv
    rw [h2, hv]
    have hk2 : (0 : ℚ) ≤ (k : ℚ) := by exact_mod_cast hk
    rw [if_neg (by linarith)]
    have e : ⌈-((k : ℚ) + 1 / 2) - 1 / 2⌉ = -(k + 1) := by
      rw [Int.ceil_eq_iff]
      push_cast
      constructor <;> linarith
    rw [e, min_eq_right (by omega)]

/-- C21 at a concrete input: `small_problem` with `alpha = 1/2`, `beta = 3`, `gamma = 1`, whose
intermediate at the output `(0, 0, 0, 0)` is 33.5; the value stored is 34. -/
theorem round_then_saturate_witness :
    (Convolution Element.int8_t Element.float (fun s => ⌊s⌋) small_problem (1 / 2)
        small_src.toRat small_filter.toRat 3 small_bias.toRat 1 small_z.toRat small_dst.toRat
        0).val (0 : Nat) (0 : Nat) (0 : Nat) (0 : Nat)
      = ((min 127 (33 + 1) : Int) : ℚ) :=
  (round_then_saturate (fun s => ⌊s⌋) small_problem (1 / 2) small_src.toRat small_filter.toRat
    3 small_bias.toRat 1 small_z.toRat small_dst.toRat 0 0 0 0 0 (by decide) (by decide)
    (by decide) (by decide) (fun k _ _ => Int.floor_intCast k)).2.2.2.2.2.2.2.2.1 33
    (by decide) (by
      simp [conv_output_closed, conv_accum_closed, zero_extend, small_problem, small_src,
        small_filter, small_bias, small_z, Tensor4.toRat, Finset.sum_range_succ]
      norm_num)

/-! ## C38: with `beta = 0` the input accumulator tensor is irrelevant -/

/-- C38. With `beta = 0` the input accumulator tensor is irrelevant: for each of `Conv2dFprop`,
`Conv2dDgrad` and `Conv2dWgrad` called with `beta = 0`, the output tensor is the same for any
two choices of the input tensor `tensor_*_in`, all other arguments being equal. -/
theorem beta_zero_ignores_input {α : Type} [Zero α] [Add α] [Mul α] [DecidableEq α]
    (convert_op : α → α) (problem_size : Conv2dProblemSize)
    (tensor_a tensor_b tensor_in tensor_in2 tensor_out : Tensor4 α) (alpha : α) :
    Conv2dFprop convert_op problem_size tensor_a tensor_b tensor_in tensor_out alpha 0
      = Conv2dFprop convert_op problem_size tensor_a tensor_b tensor_in2 tensor_out alpha 0
    ∧ Conv2dDgrad convert_op problem_size tensor_a tensor_b tensor_in tensor_out alpha 0
      = Conv2dDgrad convert_op problem_size tensor_a tensor_b tensor_in2 tensor_out alpha 0
    ∧ Conv2dWgrad convert_op problem_size tensor_a tensor_b tensor_in tensor_out alpha 0
      = Conv2dWgrad convert_op problem_size tensor_a tensor_b tensor_in2 tensor_out alpha 0 := by
  refine ⟨?_, ?_, ?_⟩
  · simp only [Conv2dFprop, ne_eq, not_true_eq_false, if_false]
  · simp only [Conv2dDgrad, ne_eq, not_true_eq_false, if_false]
  · simp only [Conv2dWgrad, ne_eq, not_true_eq_false, if_false]

/-! ## C37: `Deconvolution` and `Conv2dDgrad` -/

/-- C37. Deconvolution is Dgrad plus the fused epilogue: without the rounding step (as for
every `ScalarType` that is not floating), with the same conversion operator and
`initial_accum = 0`, `Deconvolution` called with bias scale `beta = 0`, residual scale
`gamma = g` and residual tensor `z` produces the same tensor as `Conv2dDgrad` called with
`beta = g` and `tensor_dx_in = z`, for every problem size, padding, stride, dilation, mode,
`alpha` and `g`. -/
theorem deconvolution_is_dgrad {α : Type} [CommSemiring α] [DecidableEq α]
    (round convert_op : α → α) (problem_size : Conv2dProblemSize) (alpha g : α)
    (tensor_src tensor_filter tensor_bias tensor_z tensor_dst : Tensor4 α) :
    (∀ ElementDst ScalarType : Element, is_floating_point ScalarType = false →
      need_round ElementDst ScalarType = false)
    ∧ Deconvolution false round convert_op problem_size alpha tensor_src tensor_filter 0
        tensor_bias g tensor_z tensor_dst 0
      = Conv2dDgrad convert_op problem_size tensor_src tensor_filter tensor_z tensor_dst
          alpha g := by
  refine ⟨?_, ?_⟩
  · intro T S h
    simp [need_round, h]
  · unfold Deconvolution Conv2dDgrad
    refine forLoop_congr _ _ _ _ (fun n _ y => ?_)
    refine forLoop_congr _ _ _ _ (fun h _ y => ?_)
    refine forLoop_congr _ _ _ _ (fun w _ y => ?_)
    refine forLoop_congr _ _ _ _ (fun c _ y => ?_)
    simp only [ne_eq, not_true_eq_false, if_false, mul_zero, add_zero, Bool.false_eq_true]

/-! ## C36: batch convolution with a batch-constant filter -/

/-- With a batch-constant filter the accumulator arrays of the two evaluators coincide. -/
theorem compute_batch_convolution_accum_eq {α : Type} [Zero α] [Add α] [Mul α]
    (conv_param : Conv2dProblemSize) (tensor_src : Tensor4 α) (filter5 : Tensor5 α)
    (filter4 : Tensor4 α) (initial_accum : α)
    (hf : ∀ n oc fh fw ic : Nat, n < conv_param.N → oc < conv_param.K → fh < conv_param.R →
      fw < conv_param.S → ic < conv_param.C →
      filter5.val n oc fh fw ic = filter4.val oc fh fw ic)
    (n_block oc_block oh ow : Nat) :
    compute_batch_convolution_accum conv_param tensor_src filter5 initial_accum
        n_block oc_block oh ow
      = compute_convolution_accum conv_param tensor_src filter4 initial_accum
          n_block oc_block oh ow := by
  unfold compute_batch_convolution_accum compute_convolution_accum
  refine forLoop_congr _ _ _ _ (fun fh hfh acc => ?_)
  refine forLoop_congr _ _ _ _ (fun fw hfw acc => ?_)
  refine forLoop_congr _ _ _ _ (fun ic hic acc => ?_)
  refine forLoop_congr _ _ _ _ (fun j _ acc => ?_)
  refine forLoop_congr _ _ _ _ (fun i _ acc => ?_)
  simp only []
  split_ifs with h1 h2
  · rw [hf _ _ _ _ _ h1.1 h1.2 hfh hfw hic]
  · rw [hf _ _ _ _ _ h1.1 h1.2 hfh hfw hic]
  · rfl

/-- C36. Batch convolution with a batch-constant filter is ordinary convolution: if the rank-5
filter satisfies `filter5[n, oc, fh, fw, ic] = filter4[oc, fh, fw, ic]` for every `n < N`
(and `oc < K`, `fh < R`, `fw < S`, `ic < C`), then `compute_batch_convolution` with `filter5`
produces the same tensor as `compute_convolution` with `filter4`, all other arguments being
equal. -/
theorem batch_constant_filter {α : Type} [Zero α] [Add α] [Mul α]
    (need_round : Bool) (round convert_op : α → α)
    (conv_param : Conv2dProblemSize) (alpha : α) (tensor_src : Tensor4 α)
    (filter5 : Tensor5 α) (filter4 : Tensor4 α)
    (beta : α) (tensor_bias : Tensor4 α) (gamma : α) (tensor_z tensor_dst : Tensor4 α)
    (initial_accum : α)
    (hf : ∀ n oc fh fw ic : Nat, n < conv_param.N → oc < conv_param.K → fh < conv_param.R →
      fw < conv_param.S → ic < conv_param.C →
      filter5.val n oc fh fw ic = filter4.val oc fh fw ic) :
    compute_batch_convolution need_round round convert_op conv_param alpha tensor_src filter5
        beta tensor_bias gamma tensor_z tensor_dst initial_accum
      = compute_convolution need_round round convert_op conv_param alpha tensor_src filter4
          beta tensor_bias gamma tensor_z tensor_dst initial_accum := by
  unfold compute_batch_convolution compute_convolution
  simp only [compute_batch_convolution_accum_eq conv_param tensor_src filter5 filter4
    initial_accum hf]

/-- C36 at a concrete input: `small_problem` with the filter `small_filter` repeated over the
batch, `alpha = 2`, `beta = 3`, `gamma = 1`. -/
theorem batch_constant_filter_witness :
    compute_batch_convolution false id id small_problem 2 small_src small_filter5 3 small_bias 1
        small_z small_dst 0
      = compute_convolution false id id small_problem 2 small_src small_filter 3 small_bias 1
          small_z small_dst 0 :=
  batch_constant_filter false id id small_problem 2 small_src small_filter5 small_filter 3
    small_bias 1 small_z small_dst 0 (fun _ _ _ _ _ _ _ _ _ _ => rfl)

/-! ## C35: the two forward reference evaluators -/

/-- A four-deep loop nest that stores at `(i1, i2, i3, i4)` leaves every coordinate outside the
extents as it was. -/
theorem loop4_set_frame {α : Type} (N1 N2 N3 N4 : Nat) (v : Nat → Nat → Nat → Nat → α)
    (T : Tensor4 α) (a b c d : Int)
    (h : ¬ ∃ i1 i2 i3 i4 : Nat, i1 < N1 ∧ i2 < N2 ∧ i3 < N3 ∧ i4 < N4
      ∧ a = (i1 : Int) ∧ b = (i2 : Int) ∧ c = (i3 : Int) ∧ d = (i4 : Int)) :
    (forLoop N1 (fun i1 y => forLoop N2 (fun i2 y => forLoop N3 (fun i3 y =>
      forLoop N4 (fun i4 y => y.set i1 i2 i3 i4 (v i1 i2 i3 i4)) y) y) y) T).val a b c d
      = T.val a b c d := by
  have hw := forLoop_writes N1 (fun i1 y => forLoop N2 (fun i2 y => forLoop N3 (fun i3 y =>
      forLoop N4 (fun i4 y => y.set i1 i2 i3 i4 (v i1 i2 i3 i4)) y) y) y)
    (fun i1 a2 b2 c2 d2 => ∃ i2, i2 < N2 ∧ ∃ i3, i3 < N3 ∧ ∃ i4, i4 < N4 ∧
      (a2 = (i1 : Int) ∧ b2 = (i2 : Int) ∧ c2 = (i3 : Int) ∧ d2 = (i4 : Int)))
    { val := fun a2 b2 c2 d2 => v a2.toNat b2.toNat c2.toNat d2.toNat }
    (fun i1 _ => forLoop_writes N2 _ _ _ (fun i2 _ => forLoop_writes N3 _ _ _ (fun i3 _ =>
      forLoop_writes N4 _ _ _ (fun i4 _ => set_writes _ _ _ _ _ _ (by simp)))))
  apply (hw T a b c d).2
  rintro ⟨i1, h1, i2, h2, i3, h3, i4, h4, e⟩
  exact h ⟨i1, i2, i3, i4, h1, h2, h3, h4, e⟩

/-- The function `Conv2dFprop` leaves every coordinate outside the output extents as it was. -/
theorem Conv2dFprop_frame {α : Type} [CommSemiring α] [DecidableEq α] (convert_op : α → α)
    (problem_size : Conv2dProblemSize) (tensor_x tensor_w tensor_y_in tensor_y_out : Tensor4 α)
    (alpha beta : α) (a b c d : Int)
    (h : ¬ ∃ n p q k : Nat, n < problem_size.N ∧ p < problem_size.P ∧ q < problem_size.Q
      ∧ k < problem_size.K ∧ a = (n : Int) ∧ b = (p : Int) ∧ c = (q : Int) ∧ d = (k : Int)) :
    (Conv2dFprop convert_op problem_size tensor_x tensor_w tensor_y_in tensor_y_out
        alpha beta).val a b c d = tensor_y_out.val a b c d := by
  rw [Conv2dFprop_eq_loops]
  exact loop4_set_frame problem_size.N problem_size.P problem_size.Q problem_size.K
    (fun n p q k => convert_op (alpha * fprop_sum problem_size tensor_x tensor_w n p q k
      + beta * (if beta ≠ 0 then tensor_y_in.val n p q k else 0))) tensor_y_out a b c d h

/-- For dilation 1 and mode `kCrossCorrelation` the accumulator of `Conv2dFprop` is the closed
form of the accumulator of `compute_convolution` started at 0. -/
theorem fprop_sum_eq_conv_accum_closed {α : Type} [CommSemiring α]
    (problem_size : Conv2dProblemSize) (tensor_src tensor_filter : Tensor4 α)
    (hdh : problem_size.dilation_h = 1) (hdw : problem_size.dilation_w = 1)
    (hmode : problem_size.mode = Mode.kCrossCorrelation) (n p q k : Nat) :
    conv_accum_closed problem_size tensor_src tensor_filter 0 n p q k
      = fprop_sum problem_size tensor_src tensor_filter n p q k := by
  unfold conv_accum_closed fprop_sum filter_tap zero_extend
  rw [zero_add]
  refine Finset.sum_congr rfl (fun r _ => ?_)
  refine Finset.sum_congr rfl (fun s _ => ?_)
  refine Finset.sum_congr rfl (fun c _ => ?_)
  simp only [hdh, hdw, hmode, mul_one, reduceCtorEq, if_false, ge_iff_le]
  split_ifs
  · exact mul_comm _ _
  · exact mul_zero _

/-- C35. The two forward reference evaluators agree: for exact (commutative semiring, integer
in particular) tensors and scalars, no rounding step, the same conversion operator,
`dilation_h = dilation_w = 1`, mode `kCrossCorrelation` and `initial_accum = 0`,
`compute_convolution` called with bias scale `beta = 0`, residual scale `gamma = g` and residual
tensor `z` produces the same tensor as `Conv2dFprop` called with `beta = g` and
`tensor_y_in = z`, for every problem size, padding, stride, `alpha` and `g`. -/
theorem forward_evaluators_agree {α : Type} [CommSemiring α] [DecidableEq α]
    (round convert_op : α → α) (problem_size : Conv2dProblemSize) (alpha g : α)
    (tensor_src tensor_filter tensor_bias tensor_z tensor_dst : Tensor4 α)
    (hdh : problem_size.dilation_h = 1) (hdw : problem_size.dilation_w = 1)
    (hmode : problem_size.mode = Mode.kCrossCorrelation) :
    compute_convolution false round convert_op problem_size alpha tensor_src tensor_filter 0
        tensor_bias g tensor_z tensor_dst 0
      = Conv2dFprop convert_op problem_size tensor_src tensor_filter tensor_z tensor_dst
          alpha g := by
  have key : ∀ a b c d : Int,
      (compute_convolution false round convert_op problem_size alpha tensor_src tensor_filter 0
        tensor_bias g tensor_z tensor_dst 0).val a b c d
      = (Conv2dFprop convert_op problem_size tensor_src tensor_filter tensor_z tensor_dst
          alpha g).val a b c d := by
    intro a b c d
    have hw := compute_convolution_writes false round convert_op problem_size alpha tensor_src
      tensor_filter 0 tensor_bias g tensor_z 0 tensor_dst a b c d
    by_cases hW : ∃ n p q k : Nat, n < problem_size.N ∧ p < problem_size.P
        ∧ q < problem_size.Q ∧ k < problem_size.K
        ∧ a = (n : Int) ∧ b = (p : Int) ∧ c = (q : Int) ∧ d = (k : Int)
    · rw [hw.1 hW]
      obtain ⟨n, p, q, k, hn, hp, hq, hk, rfl, rfl, rfl, rfl⟩ := hW
      rw [Conv2dFprop_val _ _ _ _ _ _ _ _ n p q k hn hp hq hk]
      simp only [conv_output_closed, Bool.false_eq_true, if_false, zero_mul, add_zero]
      rw [fprop_sum_eq_conv_accum_closed problem_size tensor_src tensor_filter hdh hdw hmode]
      by_cases hg : g = 0
      · simp [hg]
      · simp [hg]
    · rw [hw.2 hW, Conv2dFprop_frame _ _ _ _ _ _ _ _ a b c d hW]
  have ext : ∀ T U : Tensor4 α, (∀ a b c d, T.val a b c d = U.val a b c d) → T = U := by
    intro T U h
    cases T
    cases U
    congr
    funext a b c d
    exact h a b c d
  exact ext _ _ key

/-- C35 at a concrete input: `small_problem` (padding 1, stride 1, dilation 1,
cross-correlation) with `alpha = 2` and `g = 3`. -/
theorem forward_evaluators_agree_witness :
    compute_convolution false id id small_problem 2 small_src small_filter 0 small_bias 3
        small_z small_dst 0
      = Conv2dFprop id small_problem small_src small_filter small_z small_dst 2 3 :=
  forward_evaluators_agree id id small_problem 2 3 small_src small_filter small_bias small_z
    small_dst rfl rfl rfl

/-! ## C33: the packed padding word -/

set_option maxRecDepth 100000 in
/-- The word of the `uint4b_t` specialisation for a zero point that fits a nibble. -/
theorem pack_pad_nibbles : ∀ z, z < 16 →
    (forLoop 8 (fun i ret => (ret ||| ((z % 256) <<< (4 * i))) % 2 ^ 32) 0
        = (z * 0x11111111) % 2 ^ 32
      ∧ ∀ k, k < 8 →
        (forLoop 8 (fun i ret => (ret ||| ((z % 256) <<< (4 * i))) % 2 ^ 32) 0 >>> (4 * k))
          &&& 0xf = z) := by
  decide

/-- C33. Packed padding word: for `Element = uint4b_t` and a source zero point `z ≤ 15`,
`prepare_pack_pad` returns the 32-bit word whose eight 4-bit nibbles all equal `z`
(`z * 0x11111111` modulo `2^32`); for every other element type or extra-parameter type it
returns 0. -/
theorem packed_padding_word (z : Nat) (hz : z ≤ 15) :
    prepare_pack_pad Element.uint4b_t (ExtraParam.ExtraParamZeroPoint z)
      = (z * 0x11111111) % 2 ^ 32
    ∧ (∀ k, k < 8 →
        (prepare_pack_pad Element.uint4b_t (ExtraParam.ExtraParamZeroPoint z) >>> (4 * k))
          &&& 0xf = z)
    ∧ (∀ (element : Element) (params : ExtraParam),
        element ≠ Element.uint4b_t ∨ params = ExtraParam.none_type →
        prepare_pack_pad element params = 0) := by
  refine ⟨(pack_pad_nibbles z (by omega)).1, (pack_pad_nibbles z (by omega)).2, ?_⟩
  intro element params h
  cases element <;> cases params <;> first | rfl | (exfalso; rcases h with h | h <;> simp at h)

/-- C33 at a concrete input: zero point 8 gives `0x88888888`. -/
theorem packed_padding_word_witness :
    prepare_pack_pad Element.uint4b_t (ExtraParam.ExtraParamZeroPoint 8)
      = (8 * 0x11111111) % 2 ^ 32 :=
  (packed_padding_word 8 (by decide)).1

/-! ## C31: `clear_mask` disables every access -/

/-- A property of the state that every admitted operation preserves holds after any sequence
of admitted operations. -/
theorem foldl_run_invariant {σ ω : Type} (run : ω → σ → σ) (inv : σ → Prop) (ok : ω → Prop)
    (hrun : ∀ op st, ok op → inv st → inv (run op st)) (ops : List ω)
    (hops : ∀ op ∈ ops, ok op) (st : σ) (h : inv st) :
    inv (ops.foldl (fun st op => run op st) st) := by
  induction ops generalizing st with
  | nil => exact h
  | cons op rest ih =>
    exact ih (fun o ho => hops o (List.mem_cons_of_mem _ ho)) (run op st)
      (hrun op st (hops op (List.mem_cons_self _ _)) h)

/-- An entry read with default 0 from a list of zeros is 0. -/
theorem getD_of_all_eq {β : Type} (l : List β) (z : β) (h : ∀ w ∈ l, w = z) (i : Nat) :
    l.getD i z = z := by
  rw [List.getD_eq_getElem?_getD]
  cases hget : l[i]? with
  | none => rfl
  | some w => exact h w (List.getElem?_mem hget)

/-- With all mask words cleared the guard of the precomputed iterator is false. -/
theorem access_guard_cleared (t : IteratorTraits) (p : FpropPrecompParams)
    (it : Conv2dTileSrcIteratorFpropPrecomp) (h : ∀ m ∈ it.masks_, m = ((0 : Nat), (0 : Nat)))
    (s c v : Nat) : access_guard t p it s c v = false := by
  simp only [access_guard, getD_of_all_eq it.masks_ (0, 0) h, mask_guard, Nat.zero_and]
  simp

/-- No operation of the precomputed iterator sets a cleared mask again. -/
theorem precomp_run_cleared {α : Type} (default_slot : α) (t : IteratorTraits)
    (p : FpropPrecompParams) (op : PrecompOp α)
    (state : Conv2dTileSrcIteratorFpropPrecomp × (Int → α))
    (h : ∀ m ∈ state.1.masks_, m = ((0 : Nat), (0 : Nat))) :
    ∀ m ∈ (op.run default_slot t p state).1.masks_, m = ((0 : Nat), (0 : Nat)) := by
  cases op with
  | advance => exact h
  | add_pointer_offset _ => exact h
  | clear_mask =>
    intro m hm
    simp only [PrecompOp.run, Conv2dTileSrcIteratorFpropPrecomp.clear_mask,
      List.mem_map] at hm
    obtain ⟨_, _, e⟩ := hm
    exact e.symm
  | load _ => exact h
  | store _ _ => exact h

/-- With all predicate words cleared the guard of the non-precomputed iterator is false. -/
theorem access_guard_false_cleared (t : IteratorTraits)
    (it : Conv2dTileSrcIteratorFpropPrecomp_false) (h : ∀ w ∈ it.predicates_, w = 0)
    (s c v : Nat) : it.access_guard t s c v = false := by
  simp only [Conv2dTileSrcIteratorFpropPrecomp_false.access_guard,
    getD_of_all_eq it.predicates_ 0 h, Nat.zero_and]
  simp

/-- The iterator that `store_with_byte_offset` leaves behind is the result of its pointer
updates alone. -/
theorem store_false_iterator {α : Type} (default_slot : α) (mem : Int → α)
    (t : IteratorTraits) (p : FpropPrecompParams_false)
    (it : Conv2dTileSrcIteratorFpropPrecomp_false) (frag : List α) (byte_offset : Int) :
    (it.store_with_byte_offset default_slot mem t p frag byte_offset).2
      = forLoop t.Iterations_kStrided (fun s it2 => it2.next_strided t p s) it := by
  unfold Conv2dTileSrcIteratorFpropPrecomp_false.store_with_byte_offset
  induction t.Iterations_kStrided with
  | zero => rfl
  | succ k ih =>
    rw [forLoop_succ, forLoop_succ]
    simp only []
    rw [ih]

/-- Clearing words of a list of zeros leaves a list of zeros. -/
theorem forLoop_set_zero (n : Nat) (l : List Nat) (h : ∀ w ∈ l, w = 0) :
    ∀ w ∈ forLoop n (fun i acc => acc.set i 0) l, w = 0 := by
  induction n with
  | zero => exact h
  | succ k ih =>
    intro w hw
    rw [forLoop_succ] at hw
    rcases List.mem_or_eq_of_mem_set hw with h1 | h1
    · exact ih w h1
    · exact h1

/-- No operation of the non-precomputed iterator other than `enable_mask` and `set_mask` sets a
cleared predicate word again. -/
theorem direct_run_cleared {α : Type} (fill : Nat → α) (default_slot : α)
    (t : IteratorTraits) (p : FpropPrecompParams_false) (op : DirectOp α)
    (state : Conv2dTileSrcIteratorFpropPrecomp_false × (Int → α))
    (hop : op ≠ DirectOp.enable_mask ∧ ∀ m, op ≠ DirectOp.set_mask m)
    (h : ∀ w ∈ state.1.predicates_, w = 0) :
    ∀ w ∈ (op.run fill default_slot t p state).1.predicates_, w = 0 := by
  cases op with
  | advance =>
    simp only [DirectOp.run, Conv2dTileSrcIteratorFpropPrecomp_false.advance,
      Conv2dTileSrcIteratorFpropPrecomp_false.add_pointer_offset]
    split <;> exact h
  | add_pointer_offset _ => exact h
  | clear_mask => exact forLoop_set_zero _ _ h
  | enable_mask => exact absurd rfl hop.1
  | set_mask m => exact absurd rfl (hop.2 m)
  | get_mask => exact h
  | load byte_offset =>
    show ∀ w ∈ (state.1.load_with_byte_offset fill state.2 t p byte_offset).2.predicates_, w = 0
    rw [load_false_iterator, forLoop_next_strided t p _ _ (le_refl _)]
    exact h
  | store frag byte_offset =>
    show ∀ w ∈ (state.1.store_with_byte_offset default_slot state.2 t p frag
      byte_offset).2.predicates_, w = 0
    rw [store_false_iterator, forLoop_next_strided t p _ _ (le_refl _)]
    exact h

/-- The position of an access inside its predicate word is below 32 and its word is one of the
`kPredicateWordCount` words. -/
theorem predicate_position (t : IteratorTraits) (access_idx : Nat)
    (h : access_idx < t.kContiguousCount) :
    predicate_bit access_idx < 32
    ∧ access_idx / kPredicatesPerWord < t.kPredicateWordCount := by
  simp only [predicate_bit, kPredicatesPerWord, kPredicatesPerByte,
    IteratorTraits.kPredicateWordCount, IteratorTraits.kPredicateByteCount]
  constructor <;> omega

/-- The index `v + kAccessesPerVector * c` of an access of the load and store loops. -/
theorem access_idx_lt (t : IteratorTraits) (c v : Nat) (hc : c < t.Iterations_kContiguous)
    (hv : v < t.kAccessesPerVector) :
    v + t.kAccessesPerVector * c < t.kContiguousCount := by
  unfold IteratorTraits.kContiguousCount
  calc v + t.kAccessesPerVector * c < t.kAccessesPerVector + t.kAccessesPerVector * c := by
        omega
    _ = t.kAccessesPerVector * (c + 1) := by ring
    _ ≤ t.kAccessesPerVector * t.Iterations_kContiguous := Nat.mul_le_mul_left _ hc
    _ = t.Iterations_kContiguous * t.kAccessesPerVector := Nat.mul_comm _ _

/-- C31. `clear_mask` disables every access.  In both iterator variants, after `clear_mask()`
the guard of every access `(s, c, v)` of a load or store is false, whether the iterator is on
the residue tile or on a steady tile and after any sequence of operations that do not set the
predicates again (for the precomputed iterator no operation does; for the non-precomputed one
all but `enable_mask` and `set_mask`); in the non-precomputed variant, after `enable_mask()`
the guard of every access of a steady tile is true.  The array `predicates_` has
`kPredicateWordCount` words. -/
theorem clear_mask_disables {α : Type} (fill : Nat → α) (default_slot : α)
    (t : IteratorTraits) (p : FpropPrecompParams) (q : FpropPrecompParams_false)
    (it : Conv2dTileSrcIteratorFpropPrecomp) (itf : Conv2dTileSrcIteratorFpropPrecomp_false)
    (mem : Int → α) (ops : List (PrecompOp α)) (opsf : List (DirectOp α)) (s c v : Nat)
    (hitf : itf.predicates_.length = t.kPredicateWordCount)
    (hops : ∀ op ∈ opsf, op ≠ DirectOp.enable_mask ∧ ∀ m, op ≠ DirectOp.set_mask m) :
    access_guard t p
        (ops.foldl (fun st op => op.run default_slot t p st) (it.clear_mask, mem)).1 s c v
      = false
    ∧ (opsf.foldl (fun st op => op.run fill default_slot t q st)
        (itf.clear_mask t, mem)).1.access_guard t s c v = false
    ∧ (itf.is_residue_tile_ = false → c < t.Iterations_kContiguous →
        v < t.kAccessesPerVector → (itf.enable_mask t).access_guard t s c v = true) := by
  refine ⟨?_, ?_, ?_⟩
  · apply access_guard_cleared
    refine foldl_run_invariant (fun op st => PrecompOp.run default_slot t p op st)
      (fun st => ∀ m ∈ st.1.masks_, m = ((0 : Nat), (0 : Nat))) (fun _ => True)
      (fun op st _ h => precomp_run_cleared default_slot t p op st h) ops
      (fun _ _ => trivial) _ ?_
    intro m hm
    simp only [Conv2dTileSrcIteratorFpropPrecomp.clear_mask, List.mem_map] at hm
    obtain ⟨_, _, e⟩ := hm
    exact e.symm
  · apply access_guard_false_cleared
    refine foldl_run_invariant (fun op st => DirectOp.run fill default_slot t q op st)
      (fun st => ∀ w ∈ st.1.predicates_, w = 0)
      (fun op => op ≠ DirectOp.enable_mask ∧ ∀ m, op ≠ DirectOp.set_mask m)
      (fun op st hop h => direct_run_cleared fill default_slot t q op st hop h) opsf hops _ ?_
    intro w hw
    obtain ⟨i, hi, hget⟩ := List.getElem_of_mem hw
    have hall := (forLoop_set_all (fun _ => 0) _ _ _ hitf (le_refl _)).2 i
    have hlen := (forLoop_set_all (fun _ => 0) t.kPredicateWordCount t.kPredicateWordCount
      itf.predicates_ hitf (le_refl _)).1
    have hi2 : i < t.kPredicateWordCount := by
      rw [← hlen]
      exact hi
    rw [if_pos hi2] at hall
    have e := List.getElem?_eq_getElem hi
    rw [hget] at e
    have e2 : some w = some 0 := e.symm.trans hall
    exact Option.some.inj e2
  · intro hres hc hv
    obtain ⟨hbit, hword⟩ := predicate_position t _ (access_idx_lt t c v hc hv)
    have hall := (forLoop_set_all (fun _ => 0xffffffff) t.kPredicateWordCount
      t.kPredicateWordCount itf.predicates_ hitf (le_refl _)).2
      ((v + t.kAccessesPerVector * c) / kPredicatesPerWord)
    rw [if_pos hword] at hall
    have hget : (itf.enable_mask t).predicates_.getD
        ((v + t.kAccessesPerVector * c) / kPredicatesPerWord) 0 = 0xffffffff := by
      rw [List.getD_eq_getElem?_getD]
      show (forLoop t.kPredicateWordCount (fun i acc => acc.set i 0xffffffff)
        itf.predicates_)[(v + t.kAccessesPerVector * c) / kPredicatesPerWord]?.getD 0 = _
      rw [hall]
      rfl
    have hflag : (itf.enable_mask t).is_residue_tile_ = false := hres
    simp only [Conv2dTileSrcIteratorFpropPrecomp_false.access_guard, hget, hflag,
      Bool.false_eq_true, if_false]
    rw [and_one_shiftLeft_ne_zero _ _ hbit]
    have e : (0xffffffff : Nat) = 2 ^ 32 - 1 := by norm_num
    rw [e, Nat.testBit_two_pow_sub_one]
    simpa using hbit

/-- C31 at a concrete input: the sample iterators of both variants, cleared on their residue
tile and then advanced and loaded from; the access `(0, 0, 0)`. -/
theorem clear_mask_disables_witness :
    sample_iterator_false.predicates_.length = sample_traits.kPredicateWordCount
    ∧ (∀ op ∈ [DirectOp.advance, DirectOp.load (0 : Int)],
        op ≠ (DirectOp.enable_mask : DirectOp Int) ∧ ∀ m, op ≠ DirectOp.set_mask m)
    ∧ access_guard sample_traits sample_params_precomp
        (([PrecompOp.advance, PrecompOp.load 0] : List (PrecompOp Int)).foldl
          (fun st op => op.run 0 sample_traits sample_params_precomp st)
          (sample_iterator_precomp.clear_mask, fun _ => 0)).1 0 0 0 = false
    ∧ (([DirectOp.advance, DirectOp.load 0] : List (DirectOp Int)).foldl
        (fun st op => op.run (fun _ => 0) 0 sample_traits sample_params_false st)
        (sample_iterator_false.clear_mask sample_traits, fun _ => 0)).1.access_guard
          sample_traits 0 0 0 = false :=
  ⟨by decide, by simp,
    (clear_mask_disables (fun _ => 0) 0 sample_traits sample_params_precomp sample_params_false
      sample_iterator_precomp sample_iterator_false (fun _ => 0) [PrecompOp.advance, PrecompOp.load 0]
      [DirectOp.advance, DirectOp.load 0] 0 0 0 (by decide) (by simp)).1,
    (clear_mask_disables (fun _ => 0) 0 sample_traits sample_params_precomp sample_params_false
      sample_iterator_precomp sample_iterator_false (fun _ => 0) [PrecompOp.advance, PrecompOp.load 0]
      [DirectOp.advance, DirectOp.load 0] 0 0 0 (by decide) (by simp)).2.1⟩

/-! ## C32: the predicate bits of the non-precomputed iterator -/

/-- Two accesses with the same predicate word and the same bit are the same access. -/
theorem predicate_bit_injective (a b : Nat)
    (hword : a / kPredicatesPerWord = b / kPredicatesPerWord)
    (hbit : predicate_bit a = predicate_bit b) : a = b := by
  simp only [predicate_bit, kPredicatesPerWord, kPredicatesPerByte] at hword hbit
  omega

theorem toNat_testBit (b : Bool) (k : Nat) : b.toNat.testBit k = (decide (k = 0) && b) := by
  cases k with
  | zero => cases b <;> simp
  | succ j => cases b <;> simp [Nat.testBit_succ]

/-- Bit `predicate_bit a` of word `a / kPredicatesPerWord` after the first `n` accesses have
ored their guards into the cleared words. -/
theorem predicate_loop_testBit (g : Nat → Bool) (W n : Nat)
    (hn : ∀ a, a < n → a / kPredicatesPerWord < W) :
    (forLoop n (fun access_idx predicates_ =>
        predicates_.set (access_idx / kPredicatesPerWord)
          ((predicates_.getD (access_idx / kPredicatesPerWord) 0
            ||| ((g access_idx).toNat <<< predicate_bit access_idx)) % 2 ^ 32))
        (List.replicate W 0)).length = W
    ∧ ∀ a, a / kPredicatesPerWord < W →
      ((forLoop n (fun access_idx predicates_ =>
        predicates_.set (access_idx / kPredicatesPerWord)
          ((predicates_.getD (access_idx / kPredicatesPerWord) 0
            ||| ((g access_idx).toNat <<< predicate_bit access_idx)) % 2 ^ 32))
        (List.replicate W 0)).getD (a / kPredicatesPerWord) 0).testBit (predicate_bit a)
        = (decide (a < n) && g a) := by
  induction n with
  | zero =>
    refine ⟨by simp [forLoop], ?_⟩
    intro a _
    have : (List.replicate W 0).getD (a / kPredicatesPerWord) 0 = 0 :=
      getD_of_all_eq _ 0 (fun w hw => List.eq_of_mem_replicate hw) _
    simp [forLoop, this]
  | succ k ih =>
    obtain ⟨hlen, hbits⟩ := ih (fun a ha => hn a (by omega))
    rw [forLoop_succ]
    refine ⟨by rw [List.length_set]; exact hlen, ?_⟩
    intro a ha
    have hk : k / kPredicatesPerWord < W := hn k (by omega)
    by_cases hword : k / kPredicatesPerWord = a / kPredicatesPerWord
    · rw [← hword, List.getD_eq_getElem?_getD, List.getElem?_set_self (by rw [hlen]; exact hk)]
      simp only [Option.getD_some]
      rw [Nat.testBit_mod_two_pow, Nat.testBit_or, Nat.testBit_shiftLeft, toNat_testBit, hword,
        hbits a ha]
      have hlt : predicate_bit a < 32 := by
        simp only [predicate_bit, kPredicatesPerWord, kPredicatesPerByte]
        omega
      by_cases hak : a = k
      · subst hak
        simp [hlt]
      · have hne : predicate_bit a ≠ predicate_bit k := fun e =>
          hak (predicate_bit_injective a k hword.symm e)
        have h2 : decide (a < k + 1) = decide (a < k) := by
          apply decide_eq_decide.mpr
          omega
        rw [h2]
        cases hg : g k
        · simp [hlt]
        · by_cases h3 : predicate_bit a ≥ predicate_bit k
          · have h4 : ¬ predicate_bit a - predicate_bit k = 0 := by omega
            simp [hlt, h3, h4]
          · simp [hlt, h3]
    · rw [List.getD_eq_getElem?_getD, List.getElem?_set_ne hword, ← List.getD_eq_getElem?_getD,
        hbits a ha]
      have hak : a ≠ k := fun e => hword (by rw [e])
      have h2 : decide (a < k + 1) = decide (a < k) := by
        apply decide_eq_decide.mpr
        omega
      rw [h2]

/-- The predicate words of the `false` specialisation after `operator++`, applied any number of
times, are those before, and after the first application the iterator is off its residue
tile. -/
theorem iterate_advance_false_frame (t : IteratorTraits) (p : FpropPrecompParams_false)
    (it : Conv2dTileSrcIteratorFpropPrecomp_false) (n : Nat) :
    ((Conv2dTileSrcIteratorFpropPrecomp_false.advance t p)^[n] it).predicates_ = it.predicates_
    ∧ ((Conv2dTileSrcIteratorFpropPrecomp_false.advance t p)^[n + 1] it).is_residue_tile_
        = false := by
  induction n with
  | zero =>
    refine ⟨rfl, ?_⟩
    simp [Conv2dTileSrcIteratorFpropPrecomp_false.advance]
  | succ k ih =>
    constructor
    · rw [Function.iterate_succ_apply', ← ih.1]
      simp only [Conv2dTileSrcIteratorFpropPrecomp_false.advance,
        Conv2dTileSrcIteratorFpropPrecomp_false.add_pointer_offset]
      split <;> rfl
    · rw [Function.iterate_succ_apply']
      simp [Conv2dTileSrcIteratorFpropPrecomp_false.advance]

/-- The bit tested for access `access_idx` in the words that
`initialize_predicate_and_pointers_` of the `false` specialisation builds is the guard of the
coordinate of that access. -/
theorem initialized_predicate_bit (t : IteratorTraits) (p : FpropPrecompParams_false)
    (it : Conv2dTileSrcIteratorFpropPrecomp_false) (pointer : Int)
    (thread_offset_row thread_offset_column access_idx : Nat)
    (h : access_idx < t.kContiguousCount) :
    ((Conv2dTileSrcIteratorFpropPrecomp_false.initialize_predicate_and_pointers_ t p it pointer
        thread_offset_row thread_offset_column).predicates_.getD
        (access_idx / kPredicatesPerWord) 0).testBit (predicate_bit access_idx)
      = coord_guard_false p
          (access_coord_false t p thread_offset_row thread_offset_column access_idx) := by
  have hpos := fun a (ha : a < t.kContiguousCount) => (predicate_position t a ha).2
  have hloop := (predicate_loop_testBit
    (fun a => coord_guard_false p
      (access_coord_false t p thread_offset_row thread_offset_column a))
    t.kPredicateWordCount t.kContiguousCount hpos).2 access_idx (hpos access_idx h)
  simp only [h, decide_True, Bool.true_and] at hloop
  exact hloop

/-- C32. Predicate bits of the non-precomputed iterator do not collide.  The map
`access_idx -> (word_idx, bit)` with `word_idx = access_idx / 16` and
`bit = ((access_idx mod 16) / 4) * 8 + (access_idx mod 4)` is injective, has `bit < 32` and
`word_idx < kPredicateWordCount` for every `access_idx < kContiguousCount`; hence the guard
tested in load for access `(s, c, v)` of the constructed iterator is, on every steady tile,
exactly the predicate `n < N and 0 <= h < H and 0 <= w < W` of the coordinate of that same
access, whatever the other accesses stored, and on the residue tile that predicate together
with the residue test. -/
theorem predicate_bits_no_collision (t : IteratorTraits) (p : FpropPrecompParams_false)
    (pointer : Int) (extent_row initial_strided initial_contiguous : Nat)
    (threadblock_offset_row threadblock_offset_column : Nat) (n s c v : Nat)
    (hc : c < t.Iterations_kContiguous) (hv : v < t.kAccessesPerVector) :
    (∀ a b : Nat, a / kPredicatesPerWord = b / kPredicatesPerWord →
        predicate_bit a = predicate_bit b → a = b)
    ∧ (∀ a : Nat, a / kPredicatesPerWord = a / 16
        ∧ predicate_bit a = ((a % 16) / 4) * 8 + a % 4)
    ∧ (∀ a : Nat, a < t.kContiguousCount →
        predicate_bit a < 32 ∧ a / kPredicatesPerWord < t.kPredicateWordCount)
    ∧ ((Conv2dTileSrcIteratorFpropPrecomp_false.advance t p)^[n + 1]
        (Conv2dTileSrcIteratorFpropPrecomp_false.construct t p pointer extent_row
          initial_strided initial_contiguous threadblock_offset_row
          threadblock_offset_column)).access_guard t s c v
        = coord_guard_false p (access_coord_false t p
            (threadblock_offset_row / t.kInterleaved + initial_strided)
            (threadblock_offset_column * t.kInterleaved + initial_contiguous)
            (v + t.kAccessesPerVector * c))
    ∧ (Conv2dTileSrcIteratorFpropPrecomp_false.construct t p pointer extent_row
          initial_strided initial_contiguous threadblock_offset_row
          threadblock_offset_column).access_guard t s c v
        = (coord_guard_false p (access_coord_false t p
            (threadblock_offset_row / t.kInterleaved + initial_strided)
            (threadblock_offset_column * t.kInterleaved + initial_contiguous)
            (v + t.kAccessesPerVector * c))
          && decide (((s * t.Delta_kStrided : Nat) : Int)
              < (Conv2dTileSrcIteratorFpropPrecomp_false.construct t p pointer extent_row
                  initial_strided initial_contiguous threadblock_offset_row
                  threadblock_offset_column).residue_extent_)) := by
  have hidx := access_idx_lt t c v hc hv
  have hbit := (predicate_position t _ hidx).1
  have hstored := initialized_predicate_bit t p
    { pointer_ := [], predicates_ := [],
      residue_offset_ :=
        (if Int.tmod (((extent_row / t.kInterleaved : Nat) : Int)
            - ((threadblock_offset_row / t.kInterleaved : Nat) : Int)) (t.kStrided : Int) = 0
          then (t.kStrided : Int)
          else Int.tmod (((extent_row / t.kInterleaved : Nat) : Int)
            - ((threadblock_offset_row / t.kInterleaved : Nat) : Int)) (t.kStrided : Int)),
      residue_extent_ :=
        min (((threadblock_offset_row / t.kInterleaved : Nat) : Int)
          + (if Int.tmod (((extent_row / t.kInterleaved : Nat) : Int)
              - ((threadblock_offset_row / t.kInterleaved : Nat) : Int)) (t.kStrided : Int) = 0
            then (t.kStrided : Int)
            else Int.tmod (((extent_row / t.kInterleaved : Nat) : Int)
              - ((threadblock_offset_row / t.kInterleaved : Nat) : Int)) (t.kStrided : Int)))
          ((extent_row / t.kInterleaved : Nat) : Int),
      is_residue_tile_ := true }
    pointer (threadblock_offset_row / t.kInterleaved + initial_strided)
    (threadblock_offset_column * t.kInterleaved + initial_contiguous) _ hidx
  refine ⟨predicate_bit_injective, ?_, predicate_position t, ?_, ?_⟩
  · intro a
    refine ⟨rfl, ?_⟩
    simp only [predicate_bit, kPredicatesPerWord, kPredicatesPerByte]
    omega
  · have hframe := iterate_advance_false_frame t p
      (Conv2dTileSrcIteratorFpropPrecomp_false.construct t p pointer extent_row
        initial_strided initial_contiguous threadblock_offset_row threadblock_offset_column)
    simp only [Conv2dTileSrcIteratorFpropPrecomp_false.access_guard, (hframe (n + 1)).1,
      (hframe n).2, Bool.false_eq_true, if_false]
    rw [and_one_shiftLeft_ne_zero _ _ hbit]
    exact hstored
  · simp only [Conv2dTileSrcIteratorFpropPrecomp_false.access_guard]
    rw [and_one_shiftLeft_ne_zero _ _ hbit]
    have hflag : (Conv2dTileSrcIteratorFpropPrecomp_false.construct t p pointer extent_row
        initial_strided initial_contiguous threadblock_offset_row
        threadblock_offset_column).is_residue_tile_ = true := rfl
    rw [if_pos hflag]
    congr 1

set_option maxRecDepth 100000 in
/-- C32 at a concrete input: the sample iterator, the access `(0, 0, 0)`, after one
`operator++`. -/
theorem predicate_bits_no_collision_witness :
    (0 < sample_traits.Iterations_kContiguous ∧ 0 < sample_traits.kAccessesPerVector)
    ∧ ((Conv2dTileSrcIteratorFpropPrecomp_false.advance sample_traits sample_params_false)^[1]
        sample_iterator_false).access_guard sample_traits 0 0 0
        = coord_guard_false sample_params_false
            (access_coord_false sample_traits sample_params_false 0 0 0) :=
  ⟨by decide,
    (predicate_bits_no_collision sample_traits sample_params_false 0 108 0 0 0 0 0 0 0 0
      (by decide) (by decide)).2.2.2.1⟩

/-! ## C34: the two iterator variants under a 1x1 filter -/

/-- The packed word that `load_with_byte_offset` decodes after `n` advances is the packed pair
of taps of some step. -/
theorem steady_spatial_word (t : IteratorTraits)
    (TileMap : Nat → Nat → LogicalCoord → TensorCoord) (layout : TensorCoord → Int)
    (problem_size : Conv2dProblemSize) (extra_param : ExtraParam) (pointer : Int)
    (extent_row initial_strided initial_contiguous tb_row tb_column s n : Nat)
    (hj : tb_row / t.kInterleaved + initial_strided + s * t.Delta_kStrided < t.kStrided)
    (hR0 : 0 < problem_size.R) (hS0 : 0 < problem_size.S) :
    ∃ step : Nat,
      (FpropPrecompParams.construct t TileMap layout problem_size extra_param).word
        (2 * (((Conv2dTileSrcIteratorFpropPrecomp.advance t
            (FpropPrecompParams.construct t TileMap layout problem_size extra_param))^[n]
          (Conv2dTileSrcIteratorFpropPrecomp.construct t
            (FpropPrecompParams.construct t TileMap layout problem_size extra_param) pointer
            extent_row initial_strided initial_contiguous tb_row tb_column)).constant_offset_
          + ((s * t.Delta_kStrided : Nat) : Int)) + 1)
      = pack_fhfw (step_fh problem_size.R problem_size.S step)
          (step_fw problem_size.R problem_size.S step) := by
  have hRS : 0 < problem_size.R * problem_size.S := Nat.mul_pos hR0 hS0
  have hj0 : tb_row / t.kInterleaved + initial_strided < t.kStrided :=
    lt_of_le_of_lt (Nat.le_add_right _ _) hj
  have hco := iterate_constant_offset t
    (FpropPrecompParams.construct t TileMap layout problem_size extra_param)
    (Conv2dTileSrcIteratorFpropPrecomp.construct t
      (FpropPrecompParams.construct t TileMap layout problem_size extra_param) pointer
      extent_row initial_strided initial_contiguous tb_row tb_column)
    (problem_size.R * problem_size.S)
    (tb_row / t.kInterleaved + initial_strided) n rfl rfl rfl hj0 hRS
  have hle := ramp_index_le (problem_size.R * problem_size.S) n hRS
  have hidx : tb_row / t.kInterleaved + initial_strided + s * t.Delta_kStrided
      + ramp_index (problem_size.R * problem_size.S) n * t.kStrided
      < (2 + problem_size.R * problem_size.S) * t.kStrided := by
    calc tb_row / t.kInterleaved + initial_strided + s * t.Delta_kStrided
          + ramp_index (problem_size.R * problem_size.S) n * t.kStrided
        < t.kStrided + ramp_index (problem_size.R * problem_size.S) n * t.kStrided := by
          omega
      _ = (1 + ramp_index (problem_size.R * problem_size.S) n) * t.kStrided := by ring
      _ ≤ (2 + problem_size.R * problem_size.S) * t.kStrided :=
          Nat.mul_le_mul_right _ (by omega)
  rw [hco, word_two_mul_add_one]
  have e : tb_row / t.kInterleaved + initial_strided
        + ramp_index (problem_size.R * problem_size.S) n * t.kStrided + s * t.Delta_kStrided
      = tb_row / t.kInterleaved + initial_strided + s * t.Delta_kStrided
        + ramp_index (problem_size.R * problem_size.S) n * t.kStrided := by
    omega
  rw [e]
  exact ⟨_, compute_offset_fprop_packed_word _ _ _ _ _ _ _ _ _ hidx⟩

/-- Bit 0 of both mask words of an access, for a filter with at least one row and column: the
bounds test of the mapped coordinate itself. -/
theorem mask_guard_origin (p : FpropPrecompParams) (coord : TensorCoord)
    (hR : 0 < p.fh_) (hS : 0 < p.fw_) (hR32 : p.fh_ ≤ 32) (hS32 : p.fw_ ≤ 32) :
    mask_guard (init_mask_h p coord, init_mask_w p coord) 0 0
      = decide (coord.n < (p.n_ : Int) ∧ coord.h ≥ 0 ∧ coord.h < (p.hi_ : Int) ∧ coord.w ≥ 0
          ∧ coord.w < (p.wi_ : Int)) := by
  rw [mask_guard_eq_testBit _ 0 0 (by omega) (by omega)]
  simp only [init_mask_h, init_mask_w]
  rw [mask_loop_testBit (fun kh => decide (coord.n < (p.n_ : Int) ∧ coord.h ≥ -(kh : Int)
        ∧ coord.h < (p.hi_ : Int) - (kh : Int))) p.fh_ 0 hR32,
    mask_loop_testBit (fun kw => decide (coord.w ≥ -(kw : Int)
        ∧ coord.w < (p.wi_ : Int) - (kw : Int))) p.fw_ 0 hS32]
  rw [Bool.eq_iff_iff]
  simp only [Bool.and_eq_true, decide_eq_true_eq, hR, hS, true_and, Nat.cast_zero, neg_zero,
    sub_zero]
  tauto

/-- The bit tested for access `access_idx` in the predicate words of the constructed iterator of
the `false` specialisation is the guard of the coordinate of that access. -/
theorem constructed_predicate_bit (t : IteratorTraits) (p : FpropPrecompParams_false)
    (pointer : Int) (extent_row initial_strided initial_contiguous : Nat)
    (threadblock_offset_row threadblock_offset_column access_idx : Nat)
    (h : access_idx < t.kContiguousCount) :
    ((Conv2dTileSrcIteratorFpropPrecomp_false.construct t p pointer extent_row initial_strided
        initial_contiguous threadblock_offset_row threadblock_offset_column).predicates_.getD
        (access_idx / kPredicatesPerWord) 0).testBit (predicate_bit access_idx)
      = coord_guard_false p (access_coord_false t p
          (threadblock_offset_row / t.kInterleaved + initial_strided)
          (threadblock_offset_column * t.kInterleaved + initial_contiguous) access_idx) := by
  exact initialized_predicate_bit t p
    { pointer_ := [], predicates_ := [], residue_offset_ := 0, residue_extent_ := 0,
      is_residue_tile_ := true }
    pointer _ _ _ h

/-- C34. For a 1x1 filter the two iterator variants guard identically.  When `R = S = 1`, for
every access `(s, c, v)` of a thread and every steady tile: the load guard of the precomputed
variant is bit 0 of both mask words of the access and equals `n < N and 0 <= h < H and
0 <= w < W` of the coordinate `(n, h, w)` its initialiser mapped the access to; the load guard
of the non-precomputed variant equals the same test of the coordinate its initialiser mapped
the access to; so the two guards are equal whenever the two initialisers map the access to the
same `(n, h, w)`. -/
theorem unit_filter_guards_agree (t : IteratorTraits)
    (TileMap : Nat → Nat → LogicalCoord → TensorCoord) (layout : TensorCoord → Int)
    (layout_stride : Int) (problem_size : Conv2dProblemSize) (extra_param : ExtraParam)
    (pointer : Int) (extent_row initial_strided initial_contiguous tb_row tb_column : Nat)
    (n m s c v : Nat)
    (hR : problem_size.R = 1) (hS : problem_size.S = 1)
    (hc : c < t.Iterations_kContiguous) (hv : v < t.kAccessesPerVector)
    (hj : tb_row / t.kInterleaved + initial_strided + s * t.Delta_kStrided < t.kStrided)
    (hn : 1 ≤ n) :
    let p := FpropPrecompParams.construct t TileMap layout problem_size extra_param
    let q := FpropPrecompParams_false.construct t TileMap layout layout_stride problem_size
    let it := Conv2dTileSrcIteratorFpropPrecomp.construct t p pointer extent_row
      initial_strided initial_contiguous tb_row tb_column
    let itf := Conv2dTileSrcIteratorFpropPrecomp_false.construct t q pointer extent_row
      initial_strided initial_contiguous tb_row tb_column
    let access_idx := v + t.kAccessesPerVector * c
    let coord := access_coord t p (tb_column * t.kInterleaved + initial_contiguous) access_idx
    let coordf := access_coord_false t q (tb_row / t.kInterleaved + initial_strided)
      (tb_column * t.kInterleaved + initial_contiguous) access_idx
    let guard := access_guard t p ((Conv2dTileSrcIteratorFpropPrecomp.advance t p)^[n] it) s c v
    let guardf :=
      ((Conv2dTileSrcIteratorFpropPrecomp_false.advance t q)^[m + 1] itf).access_guard t s c v
    guard = ((it.masks_.getD access_idx (0, 0)).1.testBit 0
              && (it.masks_.getD access_idx (0, 0)).2.testBit 0)
    ∧ guard = decide (coord.n < (problem_size.N : Int) ∧ coord.h ≥ 0
        ∧ coord.h < (problem_size.H : Int) ∧ coord.w ≥ 0 ∧ coord.w < (problem_size.W : Int))
    ∧ guardf = decide (coordf.n < (problem_size.N : Int) ∧ coordf.h ≥ 0
        ∧ coordf.h < (problem_size.H : Int) ∧ coordf.w ≥ 0 ∧ coordf.w < (problem_size.W : Int))
    ∧ (coord.n = coordf.n → coord.h = coordf.h → coord.w = coordf.w → guard = guardf) := by
  intro p q it itf access_idx coord coordf guard guardf
  have hacc : access_idx < t.kContiguousCount := access_idx_lt t c v hc hv
  have hm : it.masks_.getD access_idx (0, 0) = (init_mask_h p coord, init_mask_w p coord) := by
    simp only [it, Conv2dTileSrcIteratorFpropPrecomp.construct,
      initialize_predicate_and_pointers_]
    rw [getD_map_range _ _ _ _ hacc]
  obtain ⟨step, hword⟩ := steady_spatial_word t TileMap layout problem_size extra_param pointer
    extent_row initial_strided initial_contiguous tb_row tb_column s n hj (by omega) (by omega)
  have htaps : pack_fhfw (step_fh problem_size.R problem_size.S step)
      (step_fw problem_size.R problem_size.S step) = pack_fhfw 0 0 := by
    rw [step_fh_eq, step_fw_eq, hR, hS]
    simp [Nat.mod_one]
  have hdec := pack_fhfw_decode 0 0 (by omega) (by omega)
  have hres : ((Conv2dTileSrcIteratorFpropPrecomp.advance t p)^[n] it).is_residue_tile_ = false
    := iterate_advance_not_residue t p it n hn
  have hmask : ((Conv2dTileSrcIteratorFpropPrecomp.advance t p)^[n] it).masks_ = it.masks_ :=
    (iterate_advance_frame t p it n).1
  have hguard : guard = mask_guard (it.masks_.getD access_idx (0, 0)) 0 0 := by
    simp only [guard, access_guard, hres, hmask, Bool.false_eq_true, if_false]
    rw [hword, htaps, hdec.1, hdec.2]
  have hRp : p.fh_ = 1 := hR
  have hSp : p.fw_ = 1 := hS
  have hformula : guard = decide (coord.n < (problem_size.N : Int) ∧ coord.h ≥ 0
      ∧ coord.h < (problem_size.H : Int) ∧ coord.w ≥ 0 ∧ coord.w < (problem_size.W : Int)) := by
    rw [hguard, hm]
    exact mask_guard_origin p coord (by omega) (by omega) (by omega) (by omega)
  have hfalse : guardf = decide (coordf.n < (problem_size.N : Int) ∧ coordf.h ≥ 0
      ∧ coordf.h < (problem_size.H : Int) ∧ coordf.w ≥ 0
      ∧ coordf.w < (problem_size.W : Int)) := by
    have hbit := (predicate_position t _ hacc).1
    have hframe := iterate_advance_false_frame t q itf
    simp only [guardf, Conv2dTileSrcIteratorFpropPrecomp_false.access_guard,
      (hframe (m + 1)).1, (hframe m).2, Bool.false_eq_true, if_false]
    rw [and_one_shiftLeft_ne_zero _ _ hbit]
    exact constructed_predicate_bit t q pointer _ _ _ _ _ _ hacc
  refine ⟨?_, hformula, hfalse, ?_⟩
  · rw [hguard, mask_guard_eq_testBit _ 0 0 (by omega) (by omega)]
  · intro e1 e2 e3
    rw [hformula, hfalse, e1, e2, e3]

set_option maxRecDepth 100000 in
/-- C34 at a concrete input: the single access of thread 0 of the sample instantiation with a
1x1 filter, after one `operator++` of each variant; both initialisers map it to the same
coordinate. -/
theorem unit_filter_guards_agree_witness :
    (sample_problem_1x1.R = 1 ∧ sample_problem_1x1.S = 1
      ∧ 0 < sample_traits.Iterations_kContiguous ∧ 0 < sample_traits.kAccessesPerVector
      ∧ 0 / sample_traits.kInterleaved + 0 + 0 * sample_traits.Delta_kStrided
          < sample_traits.kStrided)
    ∧ access_guard sample_traits
        (FpropPrecompParams.construct sample_traits sample_tile_map sample_layout
          sample_problem_1x1 ExtraParam.none_type)
        ((Conv2dTileSrcIteratorFpropPrecomp.advance sample_traits
          (FpropPrecompParams.construct sample_traits sample_tile_map sample_layout
            sample_problem_1x1 ExtraParam.none_type))^[1]
          (Conv2dTileSrcIteratorFpropPrecomp.construct sample_traits
            (FpropPrecompParams.construct sample_traits sample_tile_map sample_layout
              sample_problem_1x1 ExtraParam.none_type) 0 108 0 0 0 0)) 0 0 0
      = ((Conv2dTileSrcIteratorFpropPrecomp_false.advance sample_traits
          (FpropPrecompParams_false.construct sample_traits sample_tile_map sample_layout 20
            sample_problem_1x1))^[1]
          (Conv2dTileSrcIteratorFpropPrecomp_false.construct sample_traits
            (FpropPrecompParams_false.construct sample_traits sample_tile_map sample_layout 20
              sample_problem_1x1) 0 108 0 0 0 0)).access_guard sample_traits 0 0 0 :=
  ⟨by decide,
    (unit_filter_guards_agree sample_traits sample_tile_map sample_layout 20 sample_problem_1x1
      ExtraParam.none_type 0 108 0 0 0 0 1 0 0 0 0 rfl rfl (by decide) (by decide) (by decide)
      (by decide)).2.2.2 rfl rfl rfl⟩

/-! ## C39: pipeline selection by stage count -/

/-- C39. Pipeline selection by stage count.  In every `DefaultConvolution2dFprop`
specialisation that defines both pipelines `MmaPipelineSingleStage` and `MmaPipelineTwoStages`
(all but the CHWN4 one), and in the NCHW4 `DefaultConvolution2dDgrad` specialisation, the
selected `Mma` is the single-stage pipeline if and only if `Stages = 1`, and every other stage
count selects the two-stage pipelined variant. -/
theorem pipeline_selected_by_stage_count (spec : DefaultConvolution2dFprop) (Stages : Int)
    (single two : MmaTemplate) (hsingle : spec.MmaPipelineSingleStage = some single)
    (htwo : spec.MmaPipelineTwoStages = some two) :
    (spec.Mma Stages = some single ↔ Stages = 1)
    ∧ (Stages ≠ 1 → spec.Mma Stages = some two)
    ∧ DefaultConvolution2dDgrad.SimtNCHW4.MmaPipelineSingleStage
        = some MmaTemplate.MmaNtPrecompSingleStage
    ∧ DefaultConvolution2dDgrad.SimtNCHW4.MmaPipelineTwoStages
        = some MmaTemplate.MmaNtPrecompPipelined
    ∧ (DefaultConvolution2dDgrad.SimtNCHW4.Mma Stages
        = some MmaTemplate.MmaNtPrecompSingleStage ↔ Stages = 1)
    ∧ (Stages ≠ 1 → DefaultConvolution2dDgrad.SimtNCHW4.Mma Stages
        = some MmaTemplate.MmaNtPrecompPipelined)
    ∧ (∀ s : DefaultConvolution2dFprop,
        (s.MmaPipelineSingleStage.isSome = true ∧ s.MmaPipelineTwoStages.isSome = true)
          ↔ s ≠ DefaultConvolution2dFprop.TensorOpCHWN4) := by
  refine ⟨?_, ?_, rfl, rfl, ?_, ?_, ?_⟩
  · cases spec <;>
      simp [DefaultConvolution2dFprop.MmaPipelineSingleStage,
        DefaultConvolution2dFprop.MmaPipelineTwoStages] at hsingle htwo <;>
      subst hsingle <;> subst htwo <;>
      by_cases h : Stages = 1 <;>
      simp [DefaultConvolution2dFprop.Mma, platform_conditional, h]
  · intro h
    cases spec <;>
      simp [DefaultConvolution2dFprop.MmaPipelineSingleStage,
        DefaultConvolution2dFprop.MmaPipelineTwoStages] at hsingle htwo <;>
      subst hsingle <;> subst htwo <;>
      simp [DefaultConvolution2dFprop.Mma, platform_conditional, h]
  · by_cases h : Stages = 1 <;>
      simp [DefaultConvolution2dDgrad.Mma, platform_conditional, h]
  · intro h
    simp [DefaultConvolution2dDgrad.Mma, platform_conditional, h]
  · intro s
    cases s <;> simp [DefaultConvolution2dFprop.MmaPipelineSingleStage,
      DefaultConvolution2dFprop.MmaPipelineTwoStages]

/-- C39 at a concrete input: the NCHW4 forward specialisation with three stages selects the
pipelined variant. -/
theorem pipeline_selected_by_stage_count_witness :
    (DefaultConvolution2dFprop.SimtNCHW4.MmaPipelineSingleStage
        = some MmaTemplate.MmaNtPrecompSingleStage
      ∧ DefaultConvolution2dFprop.SimtNCHW4.MmaPipelineTwoStages
        = some MmaTemplate.MmaNtPrecompPipelined)
    ∧ DefaultConvolution2dFprop.SimtNCHW4.Mma 3 = some MmaTemplate.MmaNtPrecompPipelined :=
  ⟨⟨rfl, rfl⟩,
    (pipeline_selected_by_stage_count DefaultConvolution2dFprop.SimtNCHW4 3
      MmaTemplate.MmaNtPrecompSingleStage MmaTemplate.MmaNtPrecompPipelined rfl rfl).2.1
      (by decide)⟩

end Cutlass
